import Mathlib

/-!
# Freeminer node definition manager (`src/nodedef.cpp`)

A shallow embedding of the content-definition table of the voxel server: the
`ContentFeatures` record and its wire format, the `NodeBox` geometry record,
and the `CNodeDefManager` registry (`clear`, `get`, `getId`, `allocateId`,
`set`, `allocateDummy`, `removeNode`, `updateAliases`, `serialize`,
`deSerialize`).

Conventions of the embedding.
* `std::string` is a list of bytes (`CppString`); bytes are natural numbers.
* `u8`, `u16`, `u32` are natural numbers, reduced modulo `2^w` where the
  source converts or wraps.
* `f32` is modelled by an exact rational; the only arithmetic the modelled
  functions perform on floats is the `F1000` fixed-point conversion.
* `std::vector` is a `List`; `std::map`, `std::unordered_map` are association
  lists with unique keys in insertion order.
* A C++ exception is the `error` alternative of `Except`.
* Constants and enumerators that live in headers outside the modelled
  sources are collected in the parameter record `Consts`.
-/

namespace Freeminer

/-! ## Basic types -/

/-- A `std::string`: a sequence of bytes. -/
abbrev CppString := List Nat

/-- The literal "unknown". -/
def str_unknown : CppString := [117, 110, 107, 110, 111, 119, 110]
/-- The literal "air". -/
def str_air : CppString := [97, 105, 114]
/-- The literal "ignore". -/
def str_ignore : CppString := [105, 103, 110, 111, 114, 101]
/-- The literal "dig_immediate". -/
def str_dig_immediate : CppString :=
  [100, 105, 103, 95, 105, 109, 109, 101, 100, 105, 97, 116, 101]
/-- The literal "__group". -/
def str___group : CppString := [95, 95, 103, 114, 111, 117, 112]

/-- The ways a modelled call can end other than by returning: the exception
`SerializationError`, and the process abort of `FATAL_ERROR_IF`. -/
inductive Exception where
  | SerializationError
  | FatalError
  deriving DecidableEq, Repr

/-- Irrlicht `v3f`. -/
structure v3f where
  X : ℚ
  Y : ℚ
  Z : ℚ
  deriving DecidableEq

/-- Irrlicht `aabb3f`: an axis-aligned box given by two corners. -/
structure aabb3f where
  MinEdge : v3f
  MaxEdge : v3f
  deriving DecidableEq

/-- The six-float constructor `aabb3f(minx, miny, minz, maxx, maxy, maxz)`. -/
def aabb3f.mk6 (minx miny minz maxx maxy maxz : ℚ) : aabb3f :=
  ⟨⟨minx, miny, minz⟩, ⟨maxx, maxy, maxz⟩⟩

/-- Record `NodeBox` of nodedef.h; `type` holds the integer value of the
`NodeBoxType` enumerator. -/
structure NodeBox where
  type : Nat
  fixed : List aabb3f
  wall_top : aabb3f
  wall_bottom : aabb3f
  wall_side : aabb3f
  connect_top : List aabb3f
  connect_bottom : List aabb3f
  connect_front : List aabb3f
  connect_left : List aabb3f
  connect_back : List aabb3f
  connect_right : List aabb3f
  deriving DecidableEq

/-- Record `TileAnimationParams`. -/
structure TileAnimationParams where
  type : Nat
  aspect_w : Nat
  aspect_h : Nat
  length : ℚ
  deriving DecidableEq

/-- Record `TileDef`. -/
structure TileDef where
  name : CppString
  backface_culling : Bool
  tileable_horizontal : Bool
  tileable_vertical : Bool
  animation : TileAnimationParams
  deriving DecidableEq

/-- Record `SimpleSoundSpec`. -/
structure SimpleSoundSpec where
  name : CppString
  gain : ℚ
  deriving DecidableEq

/-- Irrlicht `video::SColor`, four 8-bit channels. -/
structure SColor where
  a : Nat
  r : Nat
  g : Nat
  b : Nat
  deriving DecidableEq

/-- Constants and enumerators declared in headers that are not part of the
modelled sources (mapnode.h, nodedef.h, constants.h, light.h,
util/serialize.h, sound.h).  Every definition below takes them as a
parameter. -/
structure Consts where
  CONTENT_UNKNOWN : Nat
  CONTENT_AIR : Nat
  CONTENT_IGNORE : Nat
  NODEBOX_REGULAR : Nat
  NODEBOX_FIXED : Nat
  NODEBOX_WALLMOUNTED : Nat
  NODEBOX_LEVELED : Nat
  NODEBOX_CONNECTED : Nat
  NDT_NORMAL : Nat
  NDT_AIRLIKE : Nat
  NDT_LIQUID : Nat
  NDT_PLANTLIKE : Nat
  NDT_FIRELIKE : Nat
  NDT_MESH : Nat
  CPT_NONE : Nat
  CPT_LIGHT : Nat
  CPT2_NONE : Nat
  CPT2_MESHOPTIONS : Nat
  LIQUID_NONE : Nat
  LIQUID_LEVEL_MAX : Nat
  LIGHT_MAX : Nat
  CF_SPECIAL_COUNT : Nat
  BS : ℚ
  LONG_STRING_MAX_LEN : Nat
  /-- The value of a default-constructed `TileDef()`. -/
  TileDef_new : TileDef
  /-- The default `gain` of `SimpleSoundSpec(name)`. -/
  SimpleSoundSpec_gain : ℚ
  NDT_NODEBOX : Nat
  CPT2_FACEDIR : Nat

/-- Side conditions on the header constants: the reserved content ids are
three different 16-bit values, "unknown" and "air" do not sit in slot 0, and
the `NodeBoxType` enumerators are five different 8-bit values (they are the
case labels of one `switch`). -/
structure Consts.WF (K : Consts) : Prop where
  unknown_lt : K.CONTENT_UNKNOWN < 65536
  air_lt : K.CONTENT_AIR < 65536
  ignore_lt : K.CONTENT_IGNORE < 65536
  unknown_ne_air : K.CONTENT_UNKNOWN ≠ K.CONTENT_AIR
  unknown_ne_ignore : K.CONTENT_UNKNOWN ≠ K.CONTENT_IGNORE
  air_ne_ignore : K.CONTENT_AIR ≠ K.CONTENT_IGNORE
  unknown_ne_zero : K.CONTENT_UNKNOWN ≠ 0
  air_ne_zero : K.CONTENT_AIR ≠ 0
  nodebox_types : [K.NODEBOX_REGULAR, K.NODEBOX_FIXED, K.NODEBOX_WALLMOUNTED,
    K.NODEBOX_LEVELED, K.NODEBOX_CONNECTED].Nodup
  nodebox_lt : ∀ t ∈ [K.NODEBOX_REGULAR, K.NODEBOX_FIXED, K.NODEBOX_WALLMOUNTED,
    K.NODEBOX_LEVELED, K.NODEBOX_CONNECTED], t < 256
  special_lt : K.CF_SPECIAL_COUNT < 256
  long_lt : K.LONG_STRING_MAX_LEN < 4294967296

/-- The values the constants have in the headers of the upstream tree
(`CONTENT_UNKNOWN` 125, `CONTENT_AIR` 126, `CONTENT_IGNORE` 127, `BS` 10,
enumerators numbered in declaration order). -/
def K0 : Consts where
  CONTENT_UNKNOWN := 125
  CONTENT_AIR := 126
  CONTENT_IGNORE := 127
  NODEBOX_REGULAR := 0
  NODEBOX_FIXED := 1
  NODEBOX_WALLMOUNTED := 2
  NODEBOX_LEVELED := 3
  NODEBOX_CONNECTED := 4
  NDT_NORMAL := 0
  NDT_AIRLIKE := 1
  NDT_LIQUID := 2
  NDT_PLANTLIKE := 9
  NDT_FIRELIKE := 14
  NDT_MESH := 16
  CPT_NONE := 0
  CPT_LIGHT := 1
  CPT2_NONE := 0
  CPT2_MESHOPTIONS := 7
  LIQUID_NONE := 0
  LIQUID_LEVEL_MAX := 7
  LIGHT_MAX := 14
  CF_SPECIAL_COUNT := 6
  BS := 10
  LONG_STRING_MAX_LEN := 67108864
  TileDef_new := ⟨[], true, true, true, ⟨0, 1, 1, 1⟩⟩
  SimpleSoundSpec_gain := 1
  NDT_NODEBOX := 12
  CPT2_FACEDIR := 3

/-! ## Association lists (`std::map` / `std::unordered_map`) -/

/-- Lookup `m.find(k)`. -/
def amFind {κ ν : Type} [DecidableEq κ] (k : κ) : List (κ × ν) → Option ν
  | [] => none
  | (k1, v) :: rest => if k1 = k then some v else amFind k rest

/-- Assignment `m[k] = v`: overwrite the entry of `k`, or add one. -/
def amSet {κ ν : Type} [DecidableEq κ] (k : κ) (v : ν) : List (κ × ν) → List (κ × ν)
  | [] => [(k, v)]
  | (k1, v1) :: rest => if k1 = k then (k, v) :: rest else (k1, v1) :: amSet k v rest

/-- Insertion `m.insert(make_pair(k, v))`: no effect when `k` is present. -/
def amInsert {κ ν : Type} [DecidableEq κ] (k : κ) (v : ν) (m : List (κ × ν)) : List (κ × ν) :=
  match amFind k m with
  | some _ => m
  | none => m ++ [(k, v)]

/-- Removal `m.erase(k)`. -/
def amErase {κ ν : Type} [DecidableEq κ] (k : κ) : List (κ × ν) → List (κ × ν)
  | [] => []
  | (k1, v) :: rest => if k1 = k then amErase k rest else (k1, v) :: amErase k rest

/-- Insertion into a `std::set<content_t>`, kept in ascending order. -/
def setInsert (x : Nat) : List Nat → List Nat
  | [] => [x]
  | y :: rest => if x < y then x :: y :: rest else if x = y then y :: rest
      else y :: setInsert x rest

/-! ## NodeBox and ContentFeatures defaults -/

/-- Method `NodeBox::reset` (nodedef.cpp 49-65). -/
def NodeBox.reset (K : Consts) (_b : NodeBox) : NodeBox where
  type := K.NODEBOX_REGULAR
  fixed := []
  wall_top := aabb3f.mk6 (-K.BS/2) (K.BS/2 - K.BS/16) (-K.BS/2) (K.BS/2) (K.BS/2) (K.BS/2)
  wall_bottom := aabb3f.mk6 (-K.BS/2) (-K.BS/2) (-K.BS/2) (K.BS/2) (-K.BS/2 + K.BS/16) (K.BS/2)
  wall_side := aabb3f.mk6 (-K.BS/2) (-K.BS/2) (-K.BS/2) (-K.BS/2 + K.BS/16) (K.BS/2) (K.BS/2)
  connect_top := []
  connect_bottom := []
  connect_front := []
  connect_left := []
  connect_back := []
  connect_right := []

/-- The constructor `NodeBox()`, which calls `reset()`. -/
def NodeBox.new (K : Consts) : NodeBox :=
  NodeBox.reset K ⟨0, [], ⟨⟨0, 0, 0⟩, ⟨0, 0, 0⟩⟩, ⟨⟨0, 0, 0⟩, ⟨0, 0, 0⟩⟩, ⟨⟨0, 0, 0⟩, ⟨0, 0, 0⟩⟩,
    [], [], [], [], [], []⟩

/-- Record `ContentFeatures` (server build).  Enumerations are stored by
their integer value.  Client-only rendering caches (`tiles`, `mesh_ptr`,
`minimap_color`) are left out: none of the modelled functions reads or
writes them. -/
structure ContentFeatures where
  solidness : Nat
  visual_solidness : Nat
  backface_culling : Bool
  has_on_construct : Bool
  has_on_destruct : Bool
  has_after_destruct : Bool
  has_on_activate : Bool
  has_on_deactivate : Bool
  name : CppString
  groups : List (CppString × Int)
  drawtype : Nat
  mesh : CppString
  visual_scale : ℚ
  tiledef : List TileDef
  tiledef_special : List TileDef
  alpha : Nat
  post_effect_color : SColor
  param_type : Nat
  param_type_2 : Nat
  is_ground_content : Bool
  light_propagates : Bool
  sunlight_propagates : Bool
  walkable : Bool
  pointable : Bool
  diggable : Bool
  climbable : Bool
  buildable_to : Bool
  floodable : Bool
  rightclickable : Bool
  leveled : Nat
  liquid_type : Nat
  liquid_alternative_flowing : CppString
  liquid_alternative_source : CppString
  liquid_viscosity : Nat
  liquid_renewable : Bool
  liquid_range : Nat
  drowning : Nat
  light_source : Nat
  damage_per_second : Nat
  node_box : NodeBox
  selection_box : NodeBox
  collision_box : NodeBox
  waving : Nat
  legacy_facedir_simple : Bool
  legacy_wallmounted : Bool
  sound_footstep : SimpleSoundSpec
  sound_dig : SimpleSoundSpec
  sound_dug : SimpleSoundSpec
  solidness_far : Nat
  freeze : CppString
  melt : CppString
  is_circuit_element : Bool
  is_wire : Bool
  is_wire_connector : Bool
  wire_connections : List Nat
  circuit_element_func : List Nat
  circuit_element_delay : Nat
  connects_to : List CppString
  connects_to_ids : List Nat
  connect_sides : Nat
  deriving DecidableEq

/-- Method `ContentFeatures::reset` (nodedef.cpp 382-477).  It assigns every
modelled field, so the result does not depend on the previous value. -/
def ContentFeatures.reset (K : Consts) (_f : ContentFeatures) : ContentFeatures where
  solidness := 2
  visual_solidness := 0
  backface_culling := true
  has_on_construct := false
  has_on_destruct := false
  has_after_destruct := false
  has_on_activate := false
  has_on_deactivate := false
  name := []
  groups := amSet str_dig_immediate 2 []
  drawtype := K.NDT_NORMAL
  mesh := []
  visual_scale := 1
  tiledef := List.replicate 6 K.TileDef_new
  tiledef_special := List.replicate K.CF_SPECIAL_COUNT K.TileDef_new
  alpha := 255
  post_effect_color := ⟨0, 0, 0, 0⟩
  param_type := K.CPT_NONE
  param_type_2 := K.CPT2_NONE
  is_ground_content := false
  light_propagates := false
  sunlight_propagates := false
  walkable := true
  pointable := true
  diggable := true
  climbable := false
  buildable_to := false
  floodable := false
  rightclickable := true
  leveled := 0
  liquid_type := K.LIQUID_NONE
  liquid_alternative_flowing := []
  liquid_alternative_source := []
  liquid_viscosity := 0
  liquid_renewable := true
  liquid_range := K.LIQUID_LEVEL_MAX + 1
  drowning := 0
  light_source := 0
  damage_per_second := 0
  node_box := NodeBox.new K
  selection_box := NodeBox.new K
  collision_box := NodeBox.new K
  waving := 0
  legacy_facedir_simple := false
  legacy_wallmounted := false
  sound_footstep := ⟨[], K.SimpleSoundSpec_gain⟩
  sound_dig := ⟨str___group, K.SimpleSoundSpec_gain⟩
  sound_dug := ⟨[], K.SimpleSoundSpec_gain⟩
  solidness_far := 0
  freeze := []
  melt := []
  is_circuit_element := false
  is_wire := false
  is_wire_connector := false
  wire_connections := List.replicate 6 0
  circuit_element_func := List.replicate 64 0
  circuit_element_delay := 0
  connects_to := []
  connects_to_ids := []
  connect_sides := 0

/-- The constructor `ContentFeatures()`, which calls `reset()`. -/
def ContentFeatures.new (K : Consts) : ContentFeatures :=
  ContentFeatures.reset K
    { solidness := 0, visual_solidness := 0, backface_culling := false,
      has_on_construct := false, has_on_destruct := false, has_after_destruct := false,
      has_on_activate := false, has_on_deactivate := false, name := [], groups := [],
      drawtype := 0, mesh := [], visual_scale := 0, tiledef := [], tiledef_special := [],
      alpha := 0, post_effect_color := ⟨0, 0, 0, 0⟩, param_type := 0, param_type_2 := 0,
      is_ground_content := false, light_propagates := false, sunlight_propagates := false,
      walkable := false, pointable := false, diggable := false, climbable := false,
      buildable_to := false, floodable := false, rightclickable := false, leveled := 0,
      liquid_type := 0, liquid_alternative_flowing := [], liquid_alternative_source := [],
      liquid_viscosity := 0, liquid_renewable := false, liquid_range := 0, drowning := 0,
      light_source := 0, damage_per_second := 0, node_box := NodeBox.new K,
      selection_box := NodeBox.new K, collision_box := NodeBox.new K, waving := 0,
      legacy_facedir_simple := false, legacy_wallmounted := false,
      sound_footstep := ⟨[], 0⟩, sound_dig := ⟨[], 0⟩, sound_dug := ⟨[], 0⟩,
      solidness_far := 0, freeze := [], melt := [], is_circuit_element := false,
      is_wire := false, is_wire_connector := false, wire_connections := [],
      circuit_element_func := [], circuit_element_delay := 0, connects_to := [],
      connects_to_ids := [], connect_sides := 0 }

/-! ## The registry `CNodeDefManager` -/

/-- Modelled from the spec: class `NameIdMapping` (nameidmapping.h) is not part
of the modelled sources.  It is the two-way map between content ids and
names used by the registry ("a shared, name-to-small-integer registry"). -/
structure NameIdMapping where
  m_id_to_name : List (Nat × CppString)
  m_name_to_id : List (CppString × Nat)
  deriving DecidableEq

/-- Modelled from the spec: `NameIdMapping::set(id, name)` binds the pair in
both directions. -/
def NameIdMapping.set (i : Nat) (name : CppString) (nm : NameIdMapping) : NameIdMapping :=
  ⟨amSet i name nm.m_id_to_name, amSet name i nm.m_name_to_id⟩

/-- Modelled from the spec: `NameIdMapping::getId(name, result)`; `none` is
the `false` return. -/
def NameIdMapping.getId (name : CppString) (nm : NameIdMapping) : Option Nat :=
  amFind name nm.m_name_to_id

/-- Modelled from the spec: `NameIdMapping::eraseName(name)` removes the name
and the id bound to it. -/
def NameIdMapping.eraseName (name : CppString) (nm : NameIdMapping) : NameIdMapping :=
  match amFind name nm.m_name_to_id with
  | some i => ⟨amErase i nm.m_id_to_name, amErase name nm.m_name_to_id⟩
  | none => nm

/-- A `GroupItems` list: pairs of content id and rating. -/
abbrev GroupItems := List (Nat × Int)

/-- Class `CNodeDefManager` (nodedef.cpp 1085-1113).  A `NodeResolver *` is
represented by a number identifying the resolver. -/
structure CNodeDefManager where
  m_content_features : List ContentFeatures
  m_name_id_mapping : NameIdMapping
  m_name_id_mapping_with_aliases : List (CppString × Nat)
  m_group_to_items : List (CppString × GroupItems)
  m_next_id : Nat
  m_pending_resolve_callbacks : List Nat
  m_node_registration_complete : Bool
  deriving DecidableEq

namespace CNodeDefManager

/-- Method `CNodeDefManager::addNameIdMapping` (nodedef.cpp 1659-1663). -/
def addNameIdMapping (i : Nat) (name : CppString) (m : CNodeDefManager) : CNodeDefManager :=
  { m with
    m_name_id_mapping := m.m_name_id_mapping.set i name
    m_name_id_mapping_with_aliases := amInsert name i m.m_name_id_mapping_with_aliases }

/-- Method `CNodeDefManager::resetNodeResolveState` (nodedef.cpp 1834-1838). -/
def resetNodeResolveState (m : CNodeDefManager) : CNodeDefManager :=
  { m with m_node_registration_complete := false, m_pending_resolve_callbacks := [] }

/-- The "unknown" definition built in `clear` (nodedef.cpp 1153-1160). -/
def unknownFeatures (K : Consts) : ContentFeatures :=
  { ContentFeatures.new K with name := str_unknown }

/-- The "air" definition built in `clear` (nodedef.cpp 1163-1183). -/
def airFeatures (K : Consts) : ContentFeatures :=
  { ContentFeatures.new K with
    name := str_air
    drawtype := K.NDT_AIRLIKE
    param_type := K.CPT_LIGHT
    light_propagates := true
    sunlight_propagates := true
    walkable := false
    pointable := false
    diggable := false
    buildable_to := true
    floodable := true
    is_ground_content := true }

/-- The "ignore" definition built in `clear` (nodedef.cpp 1186-1208). -/
def ignoreFeatures (K : Consts) : ContentFeatures :=
  { ContentFeatures.new K with
    name := str_ignore
    drawtype := K.NDT_AIRLIKE
    param_type := K.CPT_NONE
    light_propagates := false
    sunlight_propagates := false
    walkable := false
    pointable := false
    diggable := false
    buildable_to := true
    is_ground_content := true }

/-- Method `CNodeDefManager::clear` (nodedef.cpp 1136-1209).  Every member is
reassigned, so the result does not depend on the previous state. -/
def clear (K : Consts) (_m : CNodeDefManager) : CNodeDefManager :=
  let m : CNodeDefManager :=
    { m_content_features := []
      m_name_id_mapping := ⟨[], []⟩
      m_name_id_mapping_with_aliases := []
      m_group_to_items := []
      m_next_id := 0
      m_pending_resolve_callbacks := []
      m_node_registration_complete := false }
  let m := resetNodeResolveState m
  let initial_length := max (max (max 0 (K.CONTENT_UNKNOWN + 1)) (K.CONTENT_AIR + 1))
    (K.CONTENT_IGNORE + 1)
  let m := { m with m_content_features := List.replicate initial_length (ContentFeatures.new K) }
  let m := { m with m_content_features :=
    m.m_content_features.set K.CONTENT_UNKNOWN (unknownFeatures K) }
  let m := addNameIdMapping K.CONTENT_UNKNOWN str_unknown m
  let m := { m with m_content_features := m.m_content_features.set K.CONTENT_AIR (airFeatures K) }
  let m := addNameIdMapping K.CONTENT_AIR str_air m
  let m := { m with m_content_features :=
    m.m_content_features.set K.CONTENT_IGNORE (ignoreFeatures K) }
  let m := addNameIdMapping K.CONTENT_IGNORE str_ignore m
  if K.CONTENT_IGNORE ≠ 0 then
    { m with m_content_features := m.m_content_features.set 0 (ignoreFeatures K) }
  else m

/-- The constructor `CNodeDefManager()` (nodedef.cpp 1116-1119): `clear()`. -/
def new (K : Consts) : CNodeDefManager :=
  clear K ⟨[], ⟨[], []⟩, [], [], 0, [], false⟩

/-- Method `CNodeDefManager::get(content_t)` (nodedef.cpp 1220-1224). -/
def get (K : Consts) (m : CNodeDefManager) (c : Nat) : ContentFeatures :=
  if c < m.m_content_features.length then m.m_content_features.getD c (ContentFeatures.new K)
  else m.m_content_features.getD K.CONTENT_UNKNOWN (ContentFeatures.new K)

/-- Method `CNodeDefManager::getId(name, result)` (nodedef.cpp 1233-1241);
`none` is the `false` return. -/
def getId (m : CNodeDefManager) (name : CppString) : Option Nat :=
  amFind name m.m_name_id_mapping_with_aliases

/-- The `for` loop of `CNodeDefManager::allocateId` (nodedef.cpp 1316-1327),
entered at its condition with loop variable `id`.  `fuel` bounds the number
of condition checks; `none` means the bound was reached.  The result is the
returned id, the table and the new `m_next_id`. -/
def allocateIdLoop (K : Consts) (next_id : Nat) :
    Nat → Nat → List ContentFeatures → Option (Nat × List ContentFeatures × Nat)
  | 0, _, _ => none
  | fuel + 1, id, features =>
    if id ≥ next_id then
      let features := features ++
        List.replicate (id + 1 - features.length) (ContentFeatures.new K)
      if (features.getD id (ContentFeatures.new K)).name = [] then
        some (id, features, (id + 1) % 65536)
      else allocateIdLoop K next_id fuel ((id + 1) % 65536) features
    else some (K.CONTENT_IGNORE, features, next_id)

/-- Method `CNodeDefManager::allocateId` (nodedef.cpp 1313-1331). -/
def allocateId (K : Consts) (fuel : Nat) (m : CNodeDefManager) : Option (Nat × CNodeDefManager) :=
  match allocateIdLoop K m.m_next_id fuel m.m_next_id m.m_content_features with
  | none => none
  | some (id, features, next_id) =>
    some (id, { m with m_content_features := features, m_next_id := next_id })

/-- One round of the group loop of `set` (nodedef.cpp 1370-1383). -/
def addToGroup (id : Nat) (g : CppString × Int) (groups : List (CppString × GroupItems)) :
    List (CppString × GroupItems) :=
  match amFind g.1 groups with
  | none => amSet g.1 [(id, g.2)] groups
  | some items => amSet g.1 (items ++ [(id, g.2)]) groups

/-- The tail of `set` (nodedef.cpp 1363-1384): store the definition in slot
`id` and add the id to every group the definition lists. -/
def storeDefinition (id : Nat) (d : ContentFeatures) (m : CNodeDefManager) :
    Nat × CNodeDefManager :=
  (id, { m with
    m_content_features := m.m_content_features.set id d
    m_group_to_items := d.groups.foldl (fun gs g => addToGroup id g gs) m.m_group_to_items })

/-- Method `CNodeDefManager::set` (nodedef.cpp 1335-1385).  `none` means the
call to `allocateId` did not return within `fuel` iterations. -/
def set (K : Consts) (fuel : Nat) (name : CppString) (d : ContentFeatures)
    (m : CNodeDefManager) : Option (Nat × CNodeDefManager) :=
  if name = [] then some (K.CONTENT_IGNORE, m)
  else if name ≠ d.name then some (K.CONTENT_IGNORE, m)
  else if name = str_ignore then some (K.CONTENT_IGNORE, m)
  else
    match m.m_name_id_mapping.getId name with
    | some id => some (storeDefinition id d m)
    | none =>
      match allocateId K fuel m with
      | none => none
      | some (id, m1) =>
        if id = K.CONTENT_IGNORE then some (K.CONTENT_IGNORE, m1)
        else some (storeDefinition id d (addNameIdMapping id name m1))

/-- Method `CNodeDefManager::allocateDummy` (nodedef.cpp 1388-1395). -/
def allocateDummy (K : Consts) (fuel : Nat) (name : CppString) (m : CNodeDefManager) :
    Option (Nat × CNodeDefManager) :=
  if name = [] then some (K.CONTENT_IGNORE, m)
  else set K fuel name { ContentFeatures.new K with name := name } m

/-- Method `CNodeDefManager::removeNode` (nodedef.cpp 1398-1429), for a call
that satisfies the asserted pre-condition `name != ""`. -/
def removeNode (K : Consts) (name : CppString) (m : CNodeDefManager) : CNodeDefManager :=
  let id := (m.m_name_id_mapping.getId name).getD K.CONTENT_IGNORE
  let m1 :=
    if (m.m_name_id_mapping.getId name).isSome then
      { m with
        m_name_id_mapping := m.m_name_id_mapping.eraseName name
        m_name_id_mapping_with_aliases := amErase name m.m_name_id_mapping_with_aliases }
    else m
  { m1 with m_group_to_items := m1.m_group_to_items.filterMap (fun e =>
      let items := e.2.filter (fun it => decide (it.1 ≠ id))
      if items.length = 0 then none else some (e.1, items)) }

/-- Method `CNodeDefManager::updateAliases` (nodedef.cpp 1432-1446).  The item
definition manager is given by the list `all` returned by `idef->getAll()`
and the function `getAlias`. -/
def updateAliases (all : List CppString) (getAlias : CppString → CppString)
    (m : CNodeDefManager) : CNodeDefManager :=
  { m with m_name_id_mapping_with_aliases :=
      all.foldl (fun acc name =>
        match m.m_name_id_mapping.getId (getAlias name) with
        | some id => amInsert name id acc
        | none => acc) [] }

/-- Method `CNodeDefManager::getNodeRegistrationStatus` (nodedef.cpp 1784-1787). -/
def getNodeRegistrationStatus (m : CNodeDefManager) : Bool :=
  m.m_node_registration_complete

/-- Method `CNodeDefManager::setNodeRegistrationStatus` (nodedef.cpp 1790-1793). -/
def setNodeRegistrationStatus (completed : Bool) (m : CNodeDefManager) : CNodeDefManager :=
  { m with m_node_registration_complete := completed }

end CNodeDefManager

/-! ## Byte streams and the fixed-width codecs of util/serialize.h -/

/-- A `std::istream` over an in-memory buffer: the bytes not yet extracted
and the fail bit. -/
structure IStream where
  data : List Nat
  fail : Bool
  deriving DecidableEq

deriving instance DecidableEq for Except

/-- A computation that reads from a `std::istream`: it returns normally or
raises, and in both cases leaves the stream in a new state. -/
def Rd (α : Type) : Type := IStream → Except Exception α × IStream

instance : Monad Rd where
  pure a := fun s => (Except.ok a, s)
  bind p f := fun s =>
    match p s with
    | (Except.ok a, s1) => f a s1
    | (Except.error e, s1) => (Except.error e, s1)

/-- Statement `throw e`. -/
def Rd.throw {α : Type} (e : Exception) : Rd α := fun s => (Except.error e, s)

/-- Modelled from the spec: `std::istream::read(buf, n)` (C++ standard
library).  The result is the list of extracted bytes (its length is
`gcount()`); a stream that cannot deliver `n` bytes delivers what is left and
sets the fail bit, and a failed stream delivers nothing. -/
def IStream.read (n : Nat) (s : IStream) : List Nat × IStream :=
  if s.fail then ([], s)
  else if n ≤ s.data.length then (s.data.take n, ⟨s.data.drop n, false⟩)
  else (s.data, ⟨[], true⟩)

/-- The call `is.read(buf, n)` as a reader: the extracted bytes. -/
def readRaw (n : Nat) : Rd (List Nat) := fun s => (Except.ok (s.read n).1, (s.read n).2)

/-- Big-endian value of a byte buffer. -/
def beNat (buf : List Nat) : Nat := buf.foldl (fun acc b => acc * 256 + b % 256) 0

/-- Modelled from the spec: the stream readers of util/serialize.h
(`readU8`, `readU16`, `readU32`, ...) are not part of the modelled sources.
They read `n` bytes into a zero-initialised buffer and decode it big-endian
("every numeric enum must be written/read with an explicit fixed width");
they do not raise at the end of the stream. -/
def readBuf (n : Nat) : Rd (List Nat) := do
  let buf ← readRaw n
  pure (buf ++ List.replicate (n - buf.length) 0)

/-- Modelled from the spec: `readU8(std::istream &)`. -/
def readU8 : Rd Nat := do
  let buf ← readBuf 1
  pure (beNat buf)

/-- Modelled from the spec: `readU16(std::istream &)`. -/
def readU16 : Rd Nat := do
  let buf ← readBuf 2
  pure (beNat buf)

/-- Modelled from the spec: `readU32(std::istream &)`. -/
def readU32 : Rd Nat := do
  let buf ← readBuf 4
  pure (beNat buf)

/-- Reinterpretation of a `w`-bit unsigned value as two's complement. -/
def toSigned (w : Nat) (u : Nat) : Int :=
  if u < 2 ^ (w - 1) then (u : Int) else (u : Int) - 2 ^ w

/-- Modelled from the spec: `readS16(std::istream &)`. -/
def readS16 : Rd Int := do
  let buf ← readBuf 2
  pure (toSigned 16 (beNat buf))

/-- Modelled from the spec: `readF1000(std::istream &)`, a signed 32-bit
count of thousandths. -/
def readF1000 : Rd ℚ := do
  let buf ← readBuf 4
  pure ((toSigned 32 (beNat buf) : ℚ) / 1000)

/-- Modelled from the spec: `readV3F1000(std::istream &)`, three `F1000`
values read as one 12-byte buffer. -/
def readV3F1000 : Rd v3f := do
  let buf ← readBuf 12
  pure ⟨(toSigned 32 (beNat (buf.take 4)) : ℚ) / 1000,
    (toSigned 32 (beNat ((buf.drop 4).take 4)) : ℚ) / 1000,
    (toSigned 32 (beNat ((buf.drop 8).take 4)) : ℚ) / 1000⟩

/-- Modelled from the spec: `writeU8`. -/
def writeU8 (x : Nat) : List Nat := [x % 256]

/-- Modelled from the spec: `writeU16`, big-endian. -/
def writeU16 (x : Nat) : List Nat := [x / 256 % 256, x % 256]

/-- Modelled from the spec: `writeU32`, big-endian. -/
def writeU32 (x : Nat) : List Nat :=
  [x / 16777216 % 256, x / 65536 % 256, x / 256 % 256, x % 256]

/-- Conversion of a signed value to its `w`-bit two's complement. -/
def ofSigned (w : Nat) (i : Int) : Nat := (i % 2 ^ w).toNat

/-- Modelled from the spec: `writeS16`. -/
def writeS16 (i : Int) : List Nat := writeU16 (ofSigned 16 i)

/-- Conversion `(s32)(f * FIXEDPOINT_FACTOR)`: multiplication by 1000 and
truncation towards zero. -/
def f1000 (q : ℚ) : Int := Int.tdiv (q * 1000).num (q * 1000).den

/-- Modelled from the spec: `writeF1000`. -/
def writeF1000 (q : ℚ) : List Nat := writeU32 (ofSigned 32 (f1000 q))

/-- Modelled from the spec: `writeV3F1000`. -/
def writeV3F1000 (v : v3f) : List Nat := writeF1000 v.X ++ writeF1000 v.Y ++ writeF1000 v.Z

/-- Conversion of a `bool` to the byte written for it. -/
def boolByte (b : Bool) : Nat := if b then 1 else 0

/-- Modelled from the spec: `serializeString`, a 16-bit length followed by
the bytes; a string longer than 65535 bytes raises `SerializationError`. -/
def serializeString (plain : CppString) : Except Exception (List Nat) :=
  if plain.length > 65535 then Except.error Exception.SerializationError
  else Except.ok (writeU16 plain.length ++ plain)

/-- Modelled from the spec: `deSerializeString(std::istream &)`.  It raises
`SerializationError` when the length or the announced number of bytes cannot
be read in full ("wrapping it in a length-prefixed string"). -/
def deSerializeString : Rd CppString := do
  let buf ← readRaw 2
  if buf.length ≠ 2 then Rd.throw Exception.SerializationError
  else
    let s_size := beNat buf
    if s_size = 0 then pure []
    else do
      let buf2 ← readRaw s_size
      if buf2.length ≠ s_size then Rd.throw Exception.SerializationError
      else pure buf2

/-- Modelled from the spec: `serializeLongString`, a 32-bit length followed by
the bytes; a string longer than `LONG_STRING_MAX_LEN` raises
`SerializationError`. -/
def serializeLongString (K : Consts) (plain : CppString) : Except Exception (List Nat) :=
  if plain.length > K.LONG_STRING_MAX_LEN then Except.error Exception.SerializationError
  else Except.ok (writeU32 plain.length ++ plain)

/-- Modelled from the spec: `deSerializeLongString(std::istream &)`. -/
def deSerializeLongString (K : Consts) : Rd CppString := do
  let buf ← readRaw 4
  if buf.length ≠ 4 then Rd.throw Exception.SerializationError
  else
    let s_size := beNat buf
    if s_size = 0 then pure []
    else if s_size > K.LONG_STRING_MAX_LEN then Rd.throw Exception.SerializationError
    else do
      let buf2 ← readRaw s_size
      if buf2.length ≠ s_size then Rd.throw Exception.SerializationError
      else pure buf2

/-! ## NodeBox wire format -/

/-- The loop of the `WRITEBOX` macro (nodedef.cpp 115-122) after the count. -/
def writeBoxes : List aabb3f → List Nat
  | [] => []
  | b :: rest => writeV3F1000 b.MinEdge ++ writeV3F1000 b.MaxEdge ++ writeBoxes rest

/-- The macro `WRITEBOX` (nodedef.cpp 115-122). -/
def WRITEBOX (box : List aabb3f) : List Nat :=
  writeU16 box.length ++ writeBoxes box

/-- Method `NodeBox::serialize` (nodedef.cpp 67-137): the bytes written. -/
def NodeBox.serialize (K : Consts) (b : NodeBox) (protocol_version : Nat) : List Nat :=
  let version := if protocol_version ≥ 27 then 3 else if protocol_version ≥ 21 then 2 else 1
  writeU8 version ++
  (if b.type = K.NODEBOX_LEVELED ∨ b.type = K.NODEBOX_FIXED then
    (if version = 1 then writeU8 K.NODEBOX_FIXED else writeU8 b.type) ++
    writeU16 b.fixed.length ++ writeBoxes b.fixed
  else if b.type = K.NODEBOX_WALLMOUNTED then
    writeU8 b.type ++
    writeV3F1000 b.wall_top.MinEdge ++ writeV3F1000 b.wall_top.MaxEdge ++
    writeV3F1000 b.wall_bottom.MinEdge ++ writeV3F1000 b.wall_bottom.MaxEdge ++
    writeV3F1000 b.wall_side.MinEdge ++ writeV3F1000 b.wall_side.MaxEdge
  else if b.type = K.NODEBOX_CONNECTED then
    (if version ≤ 2 then
      writeU8 K.NODEBOX_FIXED ++ writeU16 1 ++
      writeV3F1000 ⟨-K.BS/2, -K.BS/2, -K.BS/2⟩ ++ writeV3F1000 ⟨K.BS/2, K.BS/2, K.BS/2⟩
    else
      writeU8 b.type ++ WRITEBOX b.fixed ++ WRITEBOX b.connect_top ++
      WRITEBOX b.connect_bottom ++ WRITEBOX b.connect_front ++ WRITEBOX b.connect_left ++
      WRITEBOX b.connect_back ++ WRITEBOX b.connect_right)
  else writeU8 b.type)

/-- The loop `while (count--)` that reads `count` boxes and appends them to
`box` (nodedef.cpp 152-158 and 174-177). -/
def readBoxes : Nat → List aabb3f → Rd (List aabb3f)
  | 0, box => pure box
  | count + 1, box => do
    let min ← readV3F1000
    let max ← readV3F1000
    readBoxes count (box ++ [⟨min, max⟩])

/-- The macro `READBOXES` (nodedef.cpp 171-177). -/
def READBOXES (box : List aabb3f) : Rd (List aabb3f) := do
  let count ← readU16
  readBoxes count box

/-- Method `NodeBox::deSerialize` (nodedef.cpp 139-189).  The only `throw`
precedes every assignment, so a raising call leaves the box as it was. -/
def NodeBox.deSerialize (K : Consts) (b : NodeBox) : Rd NodeBox := do
  let version ← readU8
  if version < 1 ∨ version > 3 then Rd.throw Exception.SerializationError
  else
    let b := NodeBox.reset K b
    let type ← readU8
    let b := { b with type := type }
    if type = K.NODEBOX_FIXED ∨ type = K.NODEBOX_LEVELED then do
      let fixed_count ← readU16
      let fixed ← readBoxes fixed_count b.fixed
      pure { b with fixed := fixed }
    else if type = K.NODEBOX_WALLMOUNTED then do
      let v1 ← readV3F1000
      let v2 ← readV3F1000
      let v3 ← readV3F1000
      let v4 ← readV3F1000
      let v5 ← readV3F1000
      let v6 ← readV3F1000
      pure { b with wall_top := ⟨v1, v2⟩, wall_bottom := ⟨v3, v4⟩, wall_side := ⟨v5, v6⟩ }
    else if type = K.NODEBOX_CONNECTED then do
      let fixed ← READBOXES b.fixed
      let connect_top ← READBOXES b.connect_top
      let connect_bottom ← READBOXES b.connect_bottom
      let connect_front ← READBOXES b.connect_front
      let connect_left ← READBOXES b.connect_left
      let connect_back ← READBOXES b.connect_back
      let connect_right ← READBOXES b.connect_right
      pure { b with
        fixed := fixed, connect_top := connect_top, connect_bottom := connect_bottom,
        connect_front := connect_front, connect_left := connect_left,
        connect_back := connect_back, connect_right := connect_right }
    else pure b

/-! ## TileDef and ContentFeatures wire format -/

/-- Method `TileDef::serialize` (nodedef.cpp 257-276): the bytes written. -/
def TileDef.serialize (t : TileDef) (protocol_version : Nat) : Except Exception (List Nat) := do
  let version :=
    if protocol_version ≥ 26 then writeU8 2
    else if protocol_version ≥ 17 then writeU8 1
    else writeU8 0
  let name ← serializeString t.name
  pure (version ++ name ++ writeU8 t.animation.type ++ writeU16 t.animation.aspect_w ++
    writeU16 t.animation.aspect_h ++ writeF1000 t.animation.length ++
    (if protocol_version ≥ 17 then writeU8 (boolByte t.backface_culling) else []) ++
    (if protocol_version ≥ 26 then
      writeU8 (boolByte t.tileable_horizontal) ++ writeU8 (boolByte t.tileable_vertical)
    else []))

/-- Method `TileDef::deSerialize` (nodedef.cpp 278-299). -/
def TileDef.deSerialize (K : Consts) (t : TileDef) (contenfeatures_version : Nat)
    (drawtype : Nat) : Rd TileDef := do
  let version ← readU8
  let name ← deSerializeString
  let animation_type ← readU8
  let aspect_w ← readU16
  let aspect_h ← readU16
  let length ← readF1000
  let t := { t with name := name, animation := ⟨animation_type, aspect_w, aspect_h, length⟩ }
  let t ← if version ≥ 1 then do
      let b ← readU8
      pure { t with backface_culling := decide (b ≠ 0) }
    else pure t
  let t ← if version ≥ 2 then do
      let h ← readU8
      let v ← readU8
      pure { t with tileable_horizontal := decide (h ≠ 0), tileable_vertical := decide (v ≠ 0) }
    else pure t
  if contenfeatures_version < 8 ∧
      (drawtype = K.NDT_MESH ∨ drawtype = K.NDT_FIRELIKE ∨ drawtype = K.NDT_LIQUID ∨
        drawtype = K.NDT_PLANTLIKE) then
    pure { t with backface_culling := false }
  else pure t

/-- Function `serializeSimpleSoundSpec` (nodedef.cpp 335-340). -/
def serializeSimpleSoundSpec (ss : SimpleSoundSpec) : Except Exception (List Nat) := do
  let name ← serializeString ss.name
  pure (name ++ writeF1000 ss.gain)

/-- Function `deSerializeSimpleSoundSpec` (nodedef.cpp 341-345). -/
def deSerializeSimpleSoundSpec (_ss : SimpleSoundSpec) : Rd SimpleSoundSpec := do
  let name ← deSerializeString
  let gain ← readF1000
  pure ⟨name, gain⟩

/-- The group loop of `ContentFeatures::serialize` (nodedef.cpp 490-494). -/
def serializeGroups : List (CppString × Int) → Except Exception (List Nat)
  | [] => pure []
  | g :: rest => do
    let name ← serializeString g.1
    let tl ← serializeGroups rest
    pure (name ++ writeS16 g.2 ++ tl)

/-- The loops `for (i = 0; i < n; i++) tiledef[i].serialize(os, ...)`
(nodedef.cpp 498-503), entered at index `i` with `n` rounds to go. -/
def serializeTiles (K : Consts) (tiles : List TileDef) (protocol_version : Nat) :
    Nat → Nat → Except Exception (List Nat)
  | _, 0 => pure []
  | i, n + 1 => do
    let hd ← (tiles.getD i K.TileDef_new).serialize protocol_version
    let tl ← serializeTiles K tiles protocol_version (i + 1) n
    pure (hd ++ tl)

/-- The loop that writes `connects_to_ids` (nodedef.cpp 548-550). -/
def writeIds : List Nat → List Nat
  | [] => []
  | i :: rest => writeU16 i ++ writeIds rest

/-- Method `ContentFeatures::serialize` (nodedef.cpp 479-552): the bytes
written.  Below protocol version 24 nothing is written. -/
def ContentFeatures.serialize (K : Consts) (f : ContentFeatures) (protocol_version : Nat) :
    Except Exception (List Nat) :=
  if protocol_version < 24 then pure []
  else do
    let name ← serializeString f.name
    let groups ← serializeGroups f.groups
    let tiledef ← serializeTiles K f.tiledef protocol_version 0 6
    let tiledef_special ← serializeTiles K f.tiledef_special protocol_version 0 K.CF_SPECIAL_COUNT
    let legacy ← serializeString []
    let liquid_alternative_flowing ← serializeString f.liquid_alternative_flowing
    let liquid_alternative_source ← serializeString f.liquid_alternative_source
    let sound_footstep ← serializeSimpleSoundSpec f.sound_footstep
    let sound_dig ← serializeSimpleSoundSpec f.sound_dig
    let sound_dug ← serializeSimpleSoundSpec f.sound_dug
    let mesh ← serializeString f.mesh
    pure (writeU8 (if protocol_version < 27 then 7 else 8) ++
      name ++
      writeU16 f.groups.length ++ groups ++
      writeU8 f.drawtype ++
      writeF1000 f.visual_scale ++
      writeU8 6 ++ tiledef ++
      writeU8 K.CF_SPECIAL_COUNT ++ tiledef_special ++
      writeU8 f.alpha ++
      writeU8 f.post_effect_color.a ++
      writeU8 f.post_effect_color.r ++
      writeU8 f.post_effect_color.g ++
      writeU8 f.post_effect_color.b ++
      writeU8 f.param_type ++
      (if protocol_version < 28 ∧ f.param_type_2 = K.CPT2_MESHOPTIONS then writeU8 K.CPT2_NONE
        else writeU8 f.param_type_2) ++
      writeU8 (boolByte f.is_ground_content) ++
      writeU8 (boolByte f.light_propagates) ++
      writeU8 (boolByte f.sunlight_propagates) ++
      writeU8 (boolByte f.walkable) ++
      writeU8 (boolByte f.pointable) ++
      writeU8 (boolByte f.diggable) ++
      writeU8 (boolByte f.climbable) ++
      writeU8 (boolByte f.buildable_to) ++
      legacy ++
      writeU8 f.liquid_type ++
      liquid_alternative_flowing ++
      liquid_alternative_source ++
      writeU8 f.liquid_viscosity ++
      writeU8 (boolByte f.liquid_renewable) ++
      writeU8 f.light_source ++
      writeU32 f.damage_per_second ++
      NodeBox.serialize K f.node_box protocol_version ++
      NodeBox.serialize K f.selection_box protocol_version ++
      writeU8 (boolByte f.legacy_facedir_simple) ++
      writeU8 (boolByte f.legacy_wallmounted) ++
      sound_footstep ++
      sound_dig ++
      sound_dug ++
      writeU8 (boolByte f.rightclickable) ++
      writeU8 f.drowning ++
      writeU8 f.leveled ++
      writeU8 f.liquid_range ++
      writeU8 f.waving ++
      mesh ++
      NodeBox.serialize K f.collision_box protocol_version ++
      writeU8 (boolByte f.floodable) ++
      writeU16 f.connects_to_ids.length ++ writeIds f.connects_to_ids ++
      writeU8 f.connect_sides)

/-- The group loop of `ContentFeatures::deSerialize` (nodedef.cpp 566-570). -/
def readGroups : Nat → List (CppString × Int) → Rd (List (CppString × Int))
  | 0, groups => pure groups
  | n + 1, groups => do
    let name ← deSerializeString
    let value ← readS16
    readGroups n (amSet name value groups)

/-- The loops `for (i = 0; i < n; i++) tiledef[i].deSerialize(is, ...)`
(nodedef.cpp 576-581), entered at index `i` with `n` rounds to go. -/
def readTiles (K : Consts) (version drawtype : Nat) : Nat → Nat → List TileDef → Rd (List TileDef)
  | _, 0, tiles => pure tiles
  | i, n + 1, tiles => do
    let t ← TileDef.deSerialize K (tiles.getD i K.TileDef_new) version drawtype
    readTiles K version drawtype (i + 1) n (tiles.set i t)

/-- The loop that reads `connects_to_ids` (nodedef.cpp 628-629). -/
def readIds : Nat → List Nat → Rd (List Nat)
  | 0, ids => pure ids
  | n + 1, ids => do
    let i ← readU16
    readIds n (setInsert i ids)

/-- The statements of `ContentFeatures::deSerialize` from `name` to `waving`
(nodedef.cpp 563-617), for a record of version 7 or 8. -/
def ContentFeatures.deSerializeFields (K : Consts) (version : Nat) (f : ContentFeatures) :
    Rd ContentFeatures := do
  let name ← deSerializeString
  let groups_size ← readU16
  let groups ← readGroups groups_size []
  let drawtype ← readU8
  let visual_scale ← readF1000
  let tile_count ← readU8
  if tile_count ≠ 6 then Rd.throw Exception.SerializationError
  else
    let tiledef ← readTiles K version drawtype 0 6 f.tiledef
    let special_count ← readU8
    if special_count ≠ K.CF_SPECIAL_COUNT then Rd.throw Exception.SerializationError
    else
      let tiledef_special ← readTiles K version drawtype 0 K.CF_SPECIAL_COUNT f.tiledef_special
      let alpha ← readU8
      let color_a ← readU8
      let color_r ← readU8
      let color_g ← readU8
      let color_b ← readU8
      let param_type ← readU8
      let param_type_2 ← readU8
      let is_ground_content ← readU8
      let light_propagates ← readU8
      let sunlight_propagates ← readU8
      let walkable ← readU8
      let pointable ← readU8
      let diggable ← readU8
      let climbable ← readU8
      let buildable_to ← readU8
      let _ ← deSerializeString
      let liquid_type ← readU8
      let liquid_alternative_flowing ← deSerializeString
      let liquid_alternative_source ← deSerializeString
      let liquid_viscosity ← readU8
      let liquid_renewable ← readU8
      let light_source ← readU8
      let damage_per_second ← readU32
      let node_box ← NodeBox.deSerialize K f.node_box
      let selection_box ← NodeBox.deSerialize K f.selection_box
      let legacy_facedir_simple ← readU8
      let legacy_wallmounted ← readU8
      let sound_footstep ← deSerializeSimpleSoundSpec f.sound_footstep
      let sound_dig ← deSerializeSimpleSoundSpec f.sound_dig
      let sound_dug ← deSerializeSimpleSoundSpec f.sound_dug
      let rightclickable ← readU8
      let drowning ← readU8
      let leveled ← readU8
      let liquid_range ← readU8
      let waving ← readU8
      pure { f with
        name := name
        groups := groups
        drawtype := drawtype
        visual_scale := visual_scale
        tiledef := tiledef
        tiledef_special := tiledef_special
        alpha := alpha
        post_effect_color := ⟨color_a, color_r, color_g, color_b⟩
        param_type := param_type
        param_type_2 := param_type_2
        is_ground_content := decide (is_ground_content ≠ 0)
        light_propagates := decide (light_propagates ≠ 0)
        sunlight_propagates := decide (sunlight_propagates ≠ 0)
        walkable := decide (walkable ≠ 0)
        pointable := decide (pointable ≠ 0)
        diggable := decide (diggable ≠ 0)
        climbable := decide (climbable ≠ 0)
        buildable_to := decide (buildable_to ≠ 0)
        liquid_type := liquid_type
        liquid_alternative_flowing := liquid_alternative_flowing
        liquid_alternative_source := liquid_alternative_source
        liquid_viscosity := liquid_viscosity
        liquid_renewable := decide (liquid_renewable ≠ 0)
        light_source := min light_source K.LIGHT_MAX
        damage_per_second := damage_per_second
        node_box := node_box
        selection_box := selection_box
        legacy_facedir_simple := decide (legacy_facedir_simple ≠ 0)
        legacy_wallmounted := decide (legacy_wallmounted ≠ 0)
        sound_footstep := sound_footstep
        sound_dig := sound_dig
        sound_dug := sound_dug
        rightclickable := decide (rightclickable ≠ 0)
        drowning := drowning
        leveled := leveled
        liquid_range := liquid_range
        waving := waving }

/-- One statement `p` inside a `try` block whose `catch` handler is empty:
when `p` raises, the block ends normally with the value `keep`; otherwise
the block goes on with `k`. -/
def Rd.tryStep {α β : Type} (p : Rd α) (keep : β) (k : α → Rd β) : Rd β := fun s =>
  match p s with
  | (Except.ok a, s1) => k a s1
  | (Except.error _, s1) => (Except.ok keep, s1)

/-- The `try` block of `ContentFeatures::deSerialize` with its empty `catch`
(nodedef.cpp 620-631).  A `SerializationError` raised by a statement ends the
block and keeps the assignments made before it; `deSerializeString` and
`NodeBox::deSerialize` raise before they assign, and the other statements do
not raise.  The block itself never raises. -/
def ContentFeatures.deSerializeTail (K : Consts) (f : ContentFeatures) : Rd ContentFeatures :=
  Rd.tryStep deSerializeString f (fun mesh =>
    Rd.tryStep (NodeBox.deSerialize K f.collision_box) { f with mesh := mesh }
      (fun collision_box =>
        Rd.tryStep (do
            let floodable ← readU8
            let connects_to_size ← readU16
            let connects_to_ids ← readIds connects_to_size []
            let connect_sides ← readU8
            pure (floodable, connects_to_ids, connect_sides))
          { f with mesh := mesh, collision_box := collision_box }
          (fun r => pure { f with
            mesh := mesh
            collision_box := collision_box
            floodable := decide (r.1 ≠ 0)
            connects_to_ids := r.2.1
            connect_sides := r.2.2 })))

/-- Method `ContentFeatures::deSerialize` (nodedef.cpp 554-632).  A record of
a version below 7 is skipped without reading it (the call to
`deSerializeOld` is commented out). -/
def ContentFeatures.deSerialize (K : Consts) (f : ContentFeatures) : Rd ContentFeatures := do
  let version ← readU8
  if version < 7 then pure f
  else if version > 8 then Rd.throw Exception.SerializationError
  else do
    let f ← ContentFeatures.deSerializeFields K version f
    ContentFeatures.deSerializeTail K f

/-- The part of `ContentFeatures::deSerialize` that precedes the `try` block
(nodedef.cpp 556-617): the version byte and the fields from `name` to
`waving`. -/
def ContentFeatures.deSerializeHead (K : Consts) (f : ContentFeatures) : Rd ContentFeatures := do
  let version ← readU8
  if version < 7 then pure f
  else if version > 8 then Rd.throw Exception.SerializationError
  else ContentFeatures.deSerializeFields K version f

/-- The byte offset in the record `r` at which the field `waving` ends: the
number of bytes `deSerializeHead` consumes. -/
def ContentFeatures.wavingEnd (K : Consts) (f : ContentFeatures) (r : List Nat) : Nat :=
  r.length - (ContentFeatures.deSerializeHead K f ⟨r, false⟩).2.data.length

/-- The definition `g` with the five fields assigned inside the `try` block
(`mesh`, `collision_box`, `floodable`, `connects_to_ids`, `connect_sides`)
replaced by those of `h`. -/
def ContentFeatures.withTailOf (g h : ContentFeatures) : ContentFeatures :=
  { g with
    mesh := h.mesh
    collision_box := h.collision_box
    floodable := h.floodable
    connects_to_ids := h.connects_to_ids
    connect_sides := h.connect_sides }

/-! ## The table on the wire -/

namespace CNodeDefManager

/-- The loop of `CNodeDefManager::serialize` (nodedef.cpp 1533-1551), entered
at index `i` with the slots from `i` on still to visit: the final `count`
and the bytes appended to `os2`. -/
def serializeEntries (K : Consts) (protocol_version : Nat) :
    Nat → List ContentFeatures → Nat → Except Exception (Nat × List Nat)
  | _, [], count => pure (count, [])
  | i, f :: rest, count =>
    if i = K.CONTENT_IGNORE ∨ i = K.CONTENT_AIR ∨ i = K.CONTENT_UNKNOWN then
      serializeEntries K protocol_version (i + 1) rest count
    else if f.name = [] then serializeEntries K protocol_version (i + 1) rest count
    else do
      let wrapper ← f.serialize K protocol_version
      let wrapped ← serializeString wrapper
      if (count + 1) % 65536 < count then Except.error Exception.FatalError
      else do
        let r ← serializeEntries K protocol_version (i + 1) rest ((count + 1) % 65536)
        pure (r.1, writeU16 i ++ wrapped ++ r.2)

/-- Method `CNodeDefManager::serialize` (nodedef.cpp 1528-1554): the bytes
written. -/
def serialize (K : Consts) (m : CNodeDefManager) (protocol_version : Nat) :
    Except Exception (List Nat) := do
  let r ← serializeEntries K protocol_version 0 m.m_content_features 0
  let os2 ← serializeLongString K r.2
  pure (writeU8 1 ++ writeU16 r.1 ++ os2)

/-- The last statements of a round of the `deSerialize` loop (nodedef.cpp
1594-1598): grow the table to hold slot `i`, store `f` there and bind its
name to `i`. -/
def acceptEntry (K : Consts) (i : Nat) (f : ContentFeatures) (m : CNodeDefManager) :
    CNodeDefManager :=
  let features :=
    if i ≥ m.m_content_features.length then
      m.m_content_features ++
        List.replicate (i + 1 - m.m_content_features.length) (ContentFeatures.new K)
    else m.m_content_features
  addNameIdMapping i f.name { m with m_content_features := features.set i f }

/-- The checks and the registration at the end of a round of the
`deSerialize` loop (nodedef.cpp 1574-1599), for the id `i` read from the
stream and the definition `f` read from the wrapper. -/
def registerEntry (K : Consts) (i : Nat) (f : ContentFeatures) (m : CNodeDefManager) :
    CNodeDefManager :=
  if i = K.CONTENT_IGNORE ∨ i = K.CONTENT_AIR ∨ i = K.CONTENT_UNKNOWN then m
  else if f.name = [] then m
  else if (match m.m_name_id_mapping.getId f.name with
      | some existing_id => decide (i ≠ existing_id)
      | none => false) = true then m
  else acceptEntry K i f m

/-- The loop of `CNodeDefManager::deSerialize` (nodedef.cpp 1566-1600) with
`n` rounds to go; `f` is the `ContentFeatures` object declared before the
loop and reused by every round, `is2` the stream over the long string.  The
result is the way the loop ends and the registry it leaves. -/
def deSerializeLoop (K : Consts) :
    Nat → ContentFeatures → IStream → CNodeDefManager → Except Exception Unit × CNodeDefManager
  | 0, _, _, m => (Except.ok (), m)
  | n + 1, f, is2, m =>
    match readU16 is2 with
    | (Except.error e, _) => (Except.error e, m)
    | (Except.ok i, is2) =>
      match deSerializeString is2 with
      | (Except.error e, _) => (Except.error e, m)
      | (Except.ok wrapper, is2) =>
        match ContentFeatures.deSerialize K f ⟨wrapper, false⟩ with
        | (Except.error e, _) => (Except.error e, m)
        | (Except.ok f, _) => deSerializeLoop K n f is2 (registerEntry K i f m)

/-- Method `CNodeDefManager::deSerialize` (nodedef.cpp 1557-1601): the way the
call ends and the registry it leaves. -/
def deSerialize (K : Consts) (s : IStream) (m : CNodeDefManager) :
    Except Exception Unit × CNodeDefManager :=
  let m := clear K m
  match readU8 s with
  | (Except.error e, _) => (Except.error e, m)
  | (Except.ok version, s) =>
    if version ≠ 1 then (Except.error Exception.SerializationError, m)
    else
      match readU16 s with
      | (Except.error e, _) => (Except.error e, m)
      | (Except.ok count, s) =>
        match deSerializeLongString K s with
        | (Except.error e, _) => (Except.error e, m)
        | (Except.ok long_string, _) =>
          deSerializeLoop K count (ContentFeatures.new K) ⟨long_string, false⟩ m

end CNodeDefManager

/-- The bytes of the long string of a node definition table
(nodedef.cpp 1540-1545): per entry the id and the length-prefixed wrapper
string. -/
def tableBody : List (Nat × List Nat) → List Nat
  | [] => []
  | e :: rest => writeU16 e.1 ++ (writeU16 e.2.length ++ e.2) ++ tableBody rest

/-- The bytes of a node definition table with the given entries (id and
wrapper string) as `CNodeDefManager::serialize` lays them out
(nodedef.cpp 1530-1553): version 1, the number of entries, and the long
string holding the entries. -/
def tableStream (entries : List (Nat × List Nat)) : List Nat :=
  writeU8 1 ++ (writeU16 entries.length ++
    (writeU32 (tableBody entries).length ++ tableBody entries))

/-- The bytes of a node definition table as `CNodeDefManager::serialize` lays
them out (nodedef.cpp 1530-1553) for an entry count `count` and a long
string `body`. -/
def tableBytes (count : Nat) (body : List Nat) : List Nat :=
  writeU8 1 ++ (writeU16 count ++ (writeU32 body.length ++ body))

/-! ## Reachable registry states -/

/-- The registration calls a client of the registry can make. -/
inductive Op where
  | set (name : CppString) (d : ContentFeatures)
  | allocateDummy (name : CppString)
  | removeNode (name : CppString)
  | updateAliases (all : List CppString) (getAlias : CppString → CppString)

/-- The state after one call, when the call returns within `fuel` loop
iterations.  `removeNode` asserts `name != ""`, so a call with the empty
name has no successor state. -/
def Op.run (K : Consts) (fuel : Nat) : Op → CNodeDefManager → Option CNodeDefManager
  | Op.set name d, m => (CNodeDefManager.set K fuel name d m).map (fun r => r.2)
  | Op.allocateDummy name, m => (CNodeDefManager.allocateDummy K fuel name m).map (fun r => r.2)
  | Op.removeNode name, m => if name = [] then none else some (CNodeDefManager.removeNode K name m)
  | Op.updateAliases all getAlias, m => some (CNodeDefManager.updateAliases all getAlias m)

/-- States reached from a freshly constructed registry by calls that
satisfy `allow`. -/
inductive Reach (K : Consts) (allow : Op → Prop) : CNodeDefManager → Prop where
  | init : Reach K allow (CNodeDefManager.new K)
  | step (m m2 : CNodeDefManager) (op : Op) (fuel : Nat) :
      Reach K allow m → allow op → op.run K fuel m = some m2 → Reach K allow m2

/-- Every registration call is allowed. -/
def Op.anyCall (_op : Op) : Prop := True

/-- The calls `set`, `allocateDummy` and `removeNode`. -/
def Op.withoutAliases : Op → Prop
  | Op.updateAliases _ _ => False
  | _ => True

/-- A definition whose three node boxes carry one of the five `NodeBoxType`
enumerators. -/
def ContentFeatures.validEnums (K : Consts) (d : ContentFeatures) : Prop :=
  ∀ b ∈ [d.node_box, d.selection_box, d.collision_box],
    b.type ∈ [K.NODEBOX_REGULAR, K.NODEBOX_FIXED, K.NODEBOX_WALLMOUNTED,
      K.NODEBOX_LEVELED, K.NODEBOX_CONNECTED]

/-- The calls `set` (with a definition of valid enumerators), `allocateDummy`
and `removeNode`. -/
def Op.registering (K : Consts) : Op → Prop
  | Op.set _ d => d.validEnums K
  | Op.updateAliases _ _ => False
  | _ => True

/-- The box lists that `NodeBox::serialize` writes for the type of `b` have
fewer than 65536 entries, so that their 16-bit counts are exact. -/
def NodeBox.sizesOk (K : Consts) (b : NodeBox) : Prop :=
  (b.type = K.NODEBOX_FIXED ∨ b.type = K.NODEBOX_LEVELED → b.fixed.length < 65536) ∧
  (b.type = K.NODEBOX_CONNECTED →
    b.fixed.length < 65536 ∧ b.connect_top.length < 65536 ∧ b.connect_bottom.length < 65536 ∧
    b.connect_front.length < 65536 ∧ b.connect_left.length < 65536 ∧
    b.connect_back.length < 65536 ∧ b.connect_right.length < 65536)

/-- The type of `b` is one of the five `NodeBoxType` enumerators. -/
def NodeBox.validType (K : Consts) (b : NodeBox) : Prop :=
  b.type ∈ [K.NODEBOX_REGULAR, K.NODEBOX_FIXED, K.NODEBOX_WALLMOUNTED,
    K.NODEBOX_LEVELED, K.NODEBOX_CONNECTED]

/-! ## Concrete inputs used by the witnesses and counterexamples -/

/-- The node name "foo". -/
def str_foo : CppString := [102, 111, 111]

/-- The node name "bar". -/
def str_bar : CppString := [98, 97, 114]

/-- A default definition named "foo". -/
def fooFeatures : ContentFeatures := { ContentFeatures.new K0 with name := str_foo }

/-- A definition named "air" that differs from the built-in one: it is
walkable. -/
def walkableAir : ContentFeatures := { CNodeDefManager.airFeatures K0 with walkable := true }

/-- A registry in which id 65535 has been handed out: all 65536 slots carry a
name and `m_next_id` has wrapped to 0. -/
def wrappedManager : CNodeDefManager :=
  { CNodeDefManager.new K0 with
    m_content_features := List.replicate 65536 fooFeatures
    m_next_id := 0 }

/-- A fresh registry after `setNodeRegistrationStatus(true)`. -/
def frozenManager : CNodeDefManager :=
  CNodeDefManager.setNodeRegistrationStatus true (CNodeDefManager.new K0)

/-- The state after registering "foo" in a fresh registry (it gets id 1). -/
def fooManager : CNodeDefManager :=
  ((CNodeDefManager.set K0 2 str_foo fooFeatures (CNodeDefManager.new K0)).map
    (fun r => r.2)).getD (CNodeDefManager.new K0)

/-- The state `fooManager` after `updateAliases` with an item definition
manager that knows no items. -/
def fooManagerNoAliases : CNodeDefManager :=
  CNodeDefManager.updateAliases [] (fun n => n) fooManager

/-- The state `fooManagerNoAliases` after a second `set("foo", fooFeatures)`. -/
def fooManagerNoAliasesAgain : CNodeDefManager :=
  ((CNodeDefManager.set K0 0 str_foo fooFeatures fooManagerNoAliases).map
    (fun r => r.2)).getD (CNodeDefManager.new K0)

/-- A connected node box with one `fixed` entry. -/
def connectedBox : NodeBox :=
  { NodeBox.new K0 with type := 4, fixed := [⟨⟨1, 2, 3⟩, ⟨4, 5, 6⟩⟩] }

/-- The version-8 record of the definition `walkableAir`. -/
def walkableAirRecord : List Nat :=
  match ContentFeatures.serialize K0 walkableAir 27 with
  | Except.ok w => w
  | Except.error _ => []

/-- A table with one entry that carries the id `CONTENT_AIR` (126) and a
definition named "air". -/
def airEntryStream : List Nat := tableStream [(126, walkableAirRecord)]

/-- The version-8 record of the definition `fooFeatures` (285 bytes). -/
def fooRecord : List Nat :=
  match ContentFeatures.serialize K0 fooFeatures 27 with
  | Except.ok w => w
  | Except.error _ => []

/-- The record `fooRecord` cut off at offset 277, the end of the field
`waving`: a record as a writer that knows no later field produces it. -/
def fooRecordToWaving : List Nat := fooRecord.take 277

/-- A table with one entry: id 1 and the record `fooRecordToWaving`. -/
def shortEntryStream : List Nat := tableStream [(1, fooRecordToWaving)]

/-- The table `shortEntryStream` with the three bytes 0, 1, 65 (the string
"A" with its length prefix) appended to the wrapper string of its entry. -/
def shortEntryStreamPlus : List Nat := tableStream [(1, fooRecordToWaving ++ [0, 1, 65])]

/-- The state after registering "foo" (id 1), removing it and registering it
again (id 2): slot 1 still holds the removed definition named "foo". -/
def reRegisteredManager : CNodeDefManager :=
  ((CNodeDefManager.set K0 2 str_foo fooFeatures
    (CNodeDefManager.removeNode K0 str_foo fooManager)).map (fun r => r.2)).getD
    (CNodeDefManager.new K0)

/-- The bytes `serialize` writes for `reRegisteredManager` at protocol
version 27. -/
def reRegisteredStream : List Nat :=
  match CNodeDefManager.serialize K0 reRegisteredManager 27 with
  | Except.ok w => w
  | Except.error _ => []

/-- A default definition named "bar". -/
def barFeatures : ContentFeatures := { ContentFeatures.new K0 with name := str_bar }

/-- The state after registering "foo" (id 1), removing it and registering
"bar" (id 2). -/
def barManager : CNodeDefManager :=
  ((CNodeDefManager.set K0 2 str_bar barFeatures
    (CNodeDefManager.removeNode K0 str_foo fooManager)).map (fun r => r.2)).getD
    (CNodeDefManager.new K0)

/-- The bytes `serialize` writes for `barManager` at protocol version 27. -/
def barManagerStream : List Nat :=
  match CNodeDefManager.serialize K0 barManager 27 with
  | Except.ok w => w
  | Except.error _ => []

/-- A table of two entries: id 1 with the record of "foo", and id 2 with a
record whose version byte is 9. -/
def badSecondEntryStream : List Nat := tableStream [(1, fooRecord), (2, [9])]

/-! ## Predicates used by the proofs -/

open CNodeDefManager

/-- Slot `c` of the table exists and holds a definition named `s`. -/
def Named (m : CNodeDefManager) (c : Nat) (s : CppString) : Prop :=
  ∃ f, m.m_content_features[c]? = some f ∧ f.name = s

/-- Invariant of the registry under every registration call: the three
reserved slots keep their names, every name of the name/id mapping is the
name of the definition in its slot, and the empty name is never mapped. -/
structure Inv (K : Consts) (m : CNodeDefManager) : Prop where
  unknown : Named m K.CONTENT_UNKNOWN str_unknown
  air : Named m K.CONTENT_AIR str_air
  ignore : Named m K.CONTENT_IGNORE str_ignore
  named : ∀ n i, m.m_name_id_mapping.getId n = some i → Named m i n
  no_empty : m.m_name_id_mapping.getId [] = none

/-- Agreement of the alias-aware lookup table with the name/id mapping. -/
def Sync (m : CNodeDefManager) : Prop :=
  ∀ n, m.getId n = m.m_name_id_mapping.getId n

/-- A rational that is a whole number of thousandths within the `s32` range:
the values `writeF1000` and `readF1000` transport exactly. -/
def F1000Exact (q : ℚ) : Prop :=
  ∃ n : Int, q = (n : ℚ) / 1000 ∧ -2147483648 ≤ n ∧ n < 2147483648

/-- The three built-in slots and names are as `clear` establishes them. -/
structure Builtins (K : Consts) (m : CNodeDefManager) : Prop where
  unknown : m.m_content_features[K.CONTENT_UNKNOWN]? = some (CNodeDefManager.unknownFeatures K)
  air : m.m_content_features[K.CONTENT_AIR]? = some (CNodeDefManager.airFeatures K)
  ignore : m.m_content_features[K.CONTENT_IGNORE]? = some (CNodeDefManager.ignoreFeatures K)
  id_unknown : m.m_name_id_mapping.getId str_unknown = some K.CONTENT_UNKNOWN
  id_air : m.m_name_id_mapping.getId str_air = some K.CONTENT_AIR
  id_ignore : m.m_name_id_mapping.getId str_ignore = some K.CONTENT_IGNORE
  alias_unknown : m.getId str_unknown = some K.CONTENT_UNKNOWN
  alias_air : m.getId str_air = some K.CONTENT_AIR
  alias_ignore : m.getId str_ignore = some K.CONTENT_IGNORE

/-- A reader is local when a run that ends without the fail bit has
consumed a prefix of the data, and returns the same result on every stream
that starts with this prefix. -/
def Local {α : Type} (p : Rd α) : Prop :=
  ∀ (d : List Nat) (r : Except Exception α) (d2 : List Nat),
    p ⟨d, false⟩ = (r, ⟨d2, false⟩) →
    ∃ pre, d = pre ++ d2 ∧ ∀ t, p ⟨pre ++ t, false⟩ = (r, ⟨t, false⟩)

/-- A reader keeps the fail bit of the stream once it is set. -/
def Sticky {α : Type} (p : Rd α) : Prop :=
  ∀ (d : List Nat) (r : Except Exception α) (s2 : IStream), p ⟨d, true⟩ = (r, s2) → s2.fail = true

/-- Local and sticky readers. -/
structure Good {α : Type} (p : Rd α) : Prop where
  loc : Local p
  sticky : Sticky p

/-- The reader `p` consumes exactly the bytes `w` at the front of a stream
and returns `a`. -/
def Reads {α : Type} (p : Rd α) (w : List Nat) (a : α) : Prop :=
  ∀ rest, p ⟨w ++ rest, false⟩ = (Except.ok a, ⟨rest, false⟩)

/-- The reader `p` consumes exactly the bytes `w` and returns normally. -/
def Consumes {α : Type} (p : Rd α) (w : List Nat) : Prop := ∃ a, Reads p w a

/-- The reader `p` consumes exactly the bytes `w` and returns a value that
satisfies `P`. -/
def ReadsP {α : Type} (p : Rd α) (w : List Nat) (P : α → Prop) : Prop :=
  ∃ a, Reads p w a ∧ P a

/-- The counts that `ContentFeatures::serialize` writes as 16-bit numbers are
exact: fewer than 65536 groups, connected ids and boxes. -/
def ContentFeatures.sizesOk (K : Consts) (f : ContentFeatures) : Prop :=
  f.groups.length < 65536 ∧ f.connects_to_ids.length < 65536 ∧
  f.node_box.sizesOk K ∧ f.selection_box.sizesOk K ∧ f.collision_box.sizesOk K

/-- Invariant of the registry under `set`, `allocateDummy` and `removeNode`:
the stored node boxes carry valid enumerators and the table has at most
65536 slots. -/
structure WireInv (K : Consts) (m : CNodeDefManager) : Prop where
  valid : ∀ (j : Nat) (f : ContentFeatures), m.m_content_features[j]? = some f →
    f.validEnums K
  length_le : m.m_content_features.length ≤ 65536
  next_lt : m.m_next_id < 65536

/-- Slot `j` of `m` is the first slot, other than the built-in ones, that
holds a definition named `n`. -/
def First (K : Consts) (m : CNodeDefManager) (n : CppString) (j : Nat) : Prop :=
  Named m j n ∧ ¬ (j = K.CONTENT_IGNORE ∨ j = K.CONTENT_AIR ∨ j = K.CONTENT_UNKNOWN) ∧
  ∀ (j2 : Nat) (f : ContentFeatures), j2 < j →
    ¬ (j2 = K.CONTENT_IGNORE ∨ j2 = K.CONTENT_AIR ∨ j2 = K.CONTENT_UNKNOWN) →
    m.m_content_features[j2]? = some f → f.name ≠ n

/-- The three bindings of names to ids that `clear` establishes. -/
def ClearBinding (K : Consts) (n : CppString) (id : Nat) : Prop :=
  (n = str_unknown ∧ id = K.CONTENT_UNKNOWN) ∨ (n = str_air ∧ id = K.CONTENT_AIR) ∨
  (n = str_ignore ∧ id = K.CONTENT_IGNORE)

/-- State of the receiving registry `m2` after the entries for the slots
below `i` of the sending registry `m` have been read: the built-in nodes are
untouched, the alias table agrees with the name/id mapping, every binding of
`m2` is one of `clear` or binds a name to the first slot of `m` that carries
it, every bound slot holds a definition of the bound name, and every name
met so far is bound. -/
structure LoopInv (K : Consts) (m : CNodeDefManager) (i : Nat) (m2 : CNodeDefManager) :
    Prop where
  builtins : Builtins K m2
  sync : Sync m2
  bound : ∀ (n : CppString) (id : Nat), m2.m_name_id_mapping.getId n = some id →
    ClearBinding K n id ∨ (id < i ∧ First K m n id)
  named : ∀ (n : CppString) (id : Nat), m2.m_name_id_mapping.getId n = some id → Named m2 id n
  seen : ∀ (j : Nat) (f : ContentFeatures), j < i →
    ¬ (j = K.CONTENT_IGNORE ∨ j = K.CONTENT_AIR ∨ j = K.CONTENT_UNKNOWN) →
    m.m_content_features[j]? = some f → f.name ≠ [] →
    ∃ id, m2.m_name_id_mapping.getId f.name = some id

/-- The three coordinates of a vector are transported exactly by the 1/1000
fixed-point encoding. -/
def v3f.exact (v : v3f) : Prop := F1000Exact v.X ∧ F1000Exact v.Y ∧ F1000Exact v.Z

/-- Both corners of a box are transported exactly. -/
def aabb3f.exact (b : aabb3f) : Prop := b.MinEdge.exact ∧ b.MaxEdge.exact

/-- The coordinates written for the type of `b` are transported exactly. -/
def NodeBox.usedExact (K : Consts) (b : NodeBox) : Prop :=
  (b.type = K.NODEBOX_FIXED ∨ b.type = K.NODEBOX_LEVELED → ∀ x ∈ b.fixed, x.exact) ∧
  (b.type = K.NODEBOX_WALLMOUNTED →
    b.wall_top.exact ∧ b.wall_bottom.exact ∧ b.wall_side.exact) ∧
  (b.type = K.NODEBOX_CONNECTED →
    (∀ x ∈ b.fixed, x.exact) ∧ (∀ x ∈ b.connect_top, x.exact) ∧
    (∀ x ∈ b.connect_bottom, x.exact) ∧ (∀ x ∈ b.connect_front, x.exact) ∧
    (∀ x ∈ b.connect_left, x.exact) ∧ (∀ x ∈ b.connect_back, x.exact) ∧
    (∀ x ∈ b.connect_right, x.exact))

/-- The fields of `b` that `NodeBox::serialize` does not write for the type
of `b` hold the values `reset()` assigns. -/
def NodeBox.unusedDefault (K : Consts) (b : NodeBox) : Prop :=
  (b.type = K.NODEBOX_FIXED ∨ b.type = K.NODEBOX_LEVELED →
    b.wall_top = (NodeBox.reset K b).wall_top ∧ b.wall_bottom = (NodeBox.reset K b).wall_bottom ∧
    b.wall_side = (NodeBox.reset K b).wall_side ∧ b.connect_top = [] ∧ b.connect_bottom = [] ∧
    b.connect_front = [] ∧ b.connect_left = [] ∧ b.connect_back = [] ∧ b.connect_right = []) ∧
  (b.type = K.NODEBOX_WALLMOUNTED →
    b.fixed = [] ∧ b.connect_top = [] ∧ b.connect_bottom = [] ∧
    b.connect_front = [] ∧ b.connect_left = [] ∧ b.connect_back = [] ∧ b.connect_right = []) ∧
  (b.type = K.NODEBOX_CONNECTED →
    b.wall_top = (NodeBox.reset K b).wall_top ∧ b.wall_bottom = (NodeBox.reset K b).wall_bottom ∧
    b.wall_side = (NodeBox.reset K b).wall_side)

/-! ## Node resolvers (nodedef.cpp 1796-1925) -/

/-- Class `NodeResolver`: the members the modelled functions assign.
`m_ndef` records whether the pointer to the registry is set. -/
structure NodeResolver where
  m_ndef : Bool
  m_nodenames_idx : Nat
  m_nnlistsizes_idx : Nat
  m_nodenames : List CppString
  m_nnlistsizes : List Nat
  m_resolve_done : Bool

/-- The constructor `NodeResolver()` (nodedef.cpp 1894-1903). -/
def NodeResolver.new : NodeResolver := ⟨false, 0, 0, [], [], false⟩

/-- The registry together with the resolver objects it points to.  A
`NodeResolver *` is the number `nr`; `resolvers nr` is the object at that
address.  `log` is a ghost variable: the addresses of the resolvers whose
`resolveNodeNames()` has been called, in call order. -/
structure World where
  ndef : CNodeDefManager
  resolvers : Nat → NodeResolver
  log : List Nat

/-- The overrides of the pure virtual `NodeResolver::resolveNodeNames()`:
what the override of the object at address `nr` does to that object, given
the registry.  The overrides are taken not to call back into
`pendNodeResolve`, `cancelNodeResolveCallback` or `runNodeResolveCallbacks`. -/
abbrev Overrides := Nat → CNodeDefManager → NodeResolver → NodeResolver

/-- Method `NodeResolver::nodeResolveInternal` (nodedef.cpp 1915-1925),
called on the object at address `nr`. -/
def nodeResolveInternal (V : Overrides) (nr : Nat) (w : World) : World :=
  let r := w.resolvers nr
  let r := { r with m_nodenames_idx := 0, m_nnlistsizes_idx := 0 }
  let r := V nr w.ndef r
  let r := { r with m_resolve_done := true, m_nodenames := [], m_nnlistsizes := [] }
  { w with resolvers := Function.update w.resolvers nr r, log := w.log ++ [nr] }

/-- Method `CNodeDefManager::pendNodeResolve` (nodedef.cpp 1796-1803). -/
def pendNodeResolve (V : Overrides) (nr : Nat) (w : World) : World :=
  let r := { (w.resolvers nr) with m_ndef := true }
  let w := { w with resolvers := Function.update w.resolvers nr r }
  if w.ndef.m_node_registration_complete then nodeResolveInternal V nr w
  else
    let cb := w.ndef.m_pending_resolve_callbacks ++ [nr]
    { w with ndef := { w.ndef with m_pending_resolve_callbacks := cb } }

/-- The loop of `cancelNodeResolveCallback` (nodedef.cpp 1808-1817) entered
at index `i` with `fuel` iterations left before `i` reaches `len`: `none`
when the loop ends without a match, otherwise the list after the matching
entry has been overwritten with the last one and the list shortened. -/
def cancelLoop (nr : Nat) (cb : List Nat) : Nat → Nat → Option (List Nat)
  | 0, _ => none
  | fuel + 1, i =>
    if nr ≠ cb.getD i 0 then cancelLoop nr cb fuel (i + 1)
    else some ((cb.set i (cb.getD (cb.length - 1) 0)).take (cb.length - 1))

/-- Method `CNodeDefManager::cancelNodeResolveCallback` (nodedef.cpp
1806-1820): the return value and the new state. -/
def cancelNodeResolveCallback (nr : Nat) (w : World) : Bool × World :=
  match cancelLoop nr w.ndef.m_pending_resolve_callbacks
      w.ndef.m_pending_resolve_callbacks.length 0 with
  | some cb => (true, { w with ndef := { w.ndef with m_pending_resolve_callbacks := cb } })
  | none => (false, w)

/-- Method `CNodeDefManager::runNodeResolveCallbacks` (nodedef.cpp 1823-1831). -/
def runNodeResolveCallbacks (V : Overrides) (w : World) : World :=
  let w := w.ndef.m_pending_resolve_callbacks.foldl (fun w nr => nodeResolveInternal V nr w) w
  { w with ndef := { w.ndef with m_pending_resolve_callbacks := [] } }

/-- A call a client makes while registration is incomplete. -/
inductive ResolverOp where
  | pend (nr : Nat)
  | cancel (nr : Nat)

/-- The state after one call. -/
def ResolverOp.run (V : Overrides) : ResolverOp → World → World
  | ResolverOp.pend nr, w => pendNodeResolve V nr w
  | ResolverOp.cancel nr, w => (cancelNodeResolveCallback nr w).2

/-- The state after a sequence of calls. -/
def runOps (V : Overrides) (ops : List ResolverOp) (w : World) : World :=
  ops.foldl (fun w op => op.run V w) w

/-- Whether the resolver `nr` is pended after the calls `ops`: it has been
pended, and not cancelled since. -/
def pendedAfter (nr : Nat) (ops : List ResolverOp) : Bool :=
  ops.foldl (fun b o =>
    match o with
    | ResolverOp.pend n => if n = nr then true else b
    | ResolverOp.cancel n => if n = nr then false else b) false

/-- No call of the sequence pends a resolver that is pended at that time. -/
def noDoublePend (ops : List ResolverOp) : Prop :=
  ∀ (pre post : List ResolverOp) (n : Nat), ops = pre ++ ResolverOp.pend n :: post →
    pendedAfter n pre = false

/-- A state in which registration is incomplete and no resolver is pended,
as `clear()` leaves it. -/
def World.fresh (w : World) : Prop :=
  w.ndef.m_node_registration_complete = false ∧ w.ndef.m_pending_resolve_callbacks = []

/-- A world with the fresh registry and default-constructed resolvers. -/
def world0 : World := ⟨CNodeDefManager.new K0, fun _ => NodeResolver.new, []⟩

/-- Overrides of `resolveNodeNames()` that leave the resolver as it is. -/
def idOverrides : Overrides := fun _ _ r => r

/-- The state `w` reached from `w0` by the calls `ops` made while
registration is incomplete: the flag is still false, no
`resolveNodeNames()` has been called, and the pending list holds, without
repetition, the resolvers that are pended after `ops`. -/
structure PendInv (w0 w : World) (ops : List ResolverOp) : Prop where
  flag : w.ndef.m_node_registration_complete = false
  log : w.log = w0.log
  nodup : w.ndef.m_pending_resolve_callbacks.Nodup
  mem : ∀ nr, nr ∈ w.ndef.m_pending_resolve_callbacks ↔ pendedAfter nr ops = true

/-! ## Node and block coordinates, `MapEditEvent`, `Map::forEachNodeInArea` (map.h) -/

/-- Conversion of an `int` value to `s16`: reduction modulo 2^16 into the
range -32768..32767. -/
def toS16 (x : Int) : Int := (x + 32768) % 65536 - 32768

/-- Type `v3s16` (`core::vector3d<s16>` of irr_v3d.h): three signed 16-bit
components, held as integers. -/
structure v3s16 where
  X : Int
  Y : Int
  Z : Int
  deriving DecidableEq

/-- The three components are `s16` values. -/
def v3s16.valid (p : v3s16) : Prop :=
  (-32768 ≤ p.X ∧ p.X ≤ 32767) ∧ (-32768 ≤ p.Y ∧ p.Y ≤ 32767) ∧ (-32768 ≤ p.Z ∧ p.Z ≤ 32767)

/-- Componentwise `a <= b`. -/
def v3s16.le (a b : v3s16) : Prop := a.X ≤ b.X ∧ a.Y ≤ b.Y ∧ a.Z ≤ b.Z

/-- The operator `vector3d<s16>::operator*(s16)`: the products are computed
as `int` and converted to `s16`. -/
def v3s16.scale (p : v3s16) (v : Int) : v3s16 := ⟨toS16 (p.X * v), toS16 (p.Y * v), toS16 (p.Z * v)⟩

/-- The operator `vector3d<s16>::operator+`. -/
def v3s16.add (a b : v3s16) : v3s16 := ⟨toS16 (a.X + b.X), toS16 (a.Y + b.Y), toS16 (a.Z + b.Z)⟩

/-- The operator `vector3d<s16>::operator-`. -/
def v3s16.sub (a b : v3s16) : v3s16 := ⟨toS16 (a.X - b.X), toS16 (a.Y - b.Y), toS16 (a.Z - b.Z)⟩

/-- Modelled from the spec: the constant `MAP_BLOCKSIZE` of constants.h
("a cube of N³ nodes (N is a compile-time constant, e.g. 16)"). -/
def MAP_BLOCKSIZE : Int := 16

/-- Modelled from the spec: `getContainerPos(p, d)` of util/numeric.h for one
coordinate, "a true mathematical floor division (not truncation)".  For a
positive divisor the integer division of Lean is the floor division. -/
def getContainerPos (p d : Int) : Int := p / d

/-- Modelled from the spec: `getNodeBlockPos(p)` of mapblock.h, "block
coordinate = floor-division of node coordinate by block size". -/
def getNodeBlockPos (p : v3s16) : v3s16 :=
  ⟨getContainerPos p.X MAP_BLOCKSIZE, getContainerPos p.Y MAP_BLOCKSIZE,
    getContainerPos p.Z MAP_BLOCKSIZE⟩

/-- Modelled from the spec: the macro `rangelim(d, min, max)` of
util/numeric.h, which limits `d` to the range `min..max`. -/
def rangelim (d min max : Int) : Int := if d < min then min else if d > max then max else d

/-- Record `MapNode` of mapnode.h. -/
structure MapNode where
  param0 : Nat
  param1 : Nat
  param2 : Nat
  deriving DecidableEq

/-- The constructor `MapNode(content_t content, u8 a_param1 = 0, u8 a_param2 = 0)`
called with the content alone. -/
def MapNode.ofContent (c : Nat) : MapNode := ⟨c, 0, 0⟩

/-- Modelled from the spec: class `VoxelArea` of voxel.h, an inclusive box of
node positions from `MinEdge` to `MaxEdge`. -/
structure VoxelArea where
  MinEdge : v3s16
  MaxEdge : v3s16
  deriving DecidableEq

/-- Modelled from the spec: the constructor `VoxelArea()`, the empty area
(`MinEdge` (1,1,1), `MaxEdge` (0,0,0)). -/
def VoxelArea.new : VoxelArea := ⟨⟨1, 1, 1⟩, ⟨0, 0, 0⟩⟩

/-- Modelled from the spec: the constructor `VoxelArea(p)`, the area of the
single position `p`. -/
def VoxelArea.ofPoint (p : v3s16) : VoxelArea := ⟨p, p⟩

/-- Modelled from the spec: `VoxelArea::hasEmptyExtent`, an area that holds no
position. -/
def VoxelArea.hasEmptyExtent (a : VoxelArea) : Bool :=
  decide (a.MaxEdge.X < a.MinEdge.X ∨ a.MaxEdge.Y < a.MinEdge.Y ∨ a.MaxEdge.Z < a.MinEdge.Z)

/-- Modelled from the spec: `VoxelArea::addPoint(p)`, which makes an empty
area the single position `p` and otherwise extends the area to hold `p`. -/
def VoxelArea.addPoint (a : VoxelArea) (p : v3s16) : VoxelArea :=
  if a.hasEmptyExtent then ⟨p, p⟩
  else ⟨⟨min a.MinEdge.X p.X, min a.MinEdge.Y p.Y, min a.MinEdge.Z p.Z⟩,
    ⟨max a.MaxEdge.X p.X, max a.MaxEdge.Y p.Y, max a.MaxEdge.Z p.Z⟩⟩

/-- Modelled from the spec: `VoxelArea::contains(p)`. -/
def VoxelArea.contains (a : VoxelArea) (p : v3s16) : Prop :=
  a.MinEdge.le p ∧ p.le a.MaxEdge

/-- Enumeration `MapEditEventType` (map.h 47-58). -/
inductive MapEditEventType where
  | MEET_ADDNODE
  | MEET_REMOVENODE
  | MEET_SWAPNODE
  | MEET_BLOCK_NODE_METADATA_CHANGED
  | MEET_OTHER
  deriving DecidableEq

/-- Record `MapEditEvent` (map.h 60-109). -/
structure MapEditEvent where
  type : MapEditEventType
  p : v3s16
  n : MapNode
  modified_blocks : List v3s16
  is_private_change : Bool
  deriving DecidableEq

/-- The constructor `MapEditEvent() = default` (map.h 62-69); the position
`p` is value-initialised. -/
def MapEditEvent.new (K : Consts) : MapEditEvent :=
  ⟨MapEditEventType.MEET_OTHER, ⟨0, 0, 0⟩, MapNode.ofContent K.CONTENT_AIR, [], false⟩

/-- Method `MapEditEvent::setPositionModified` (map.h 71-77); `none` is the
failed assertion `modified_blocks.empty()`. -/
def MapEditEvent.setPositionModified (pos : v3s16) (e : MapEditEvent) : Option MapEditEvent :=
  if e.modified_blocks ≠ [] then none
  else some { e with p := pos, modified_blocks := e.modified_blocks ++ [getNodeBlockPos pos] }

/-- Method `MapEditEvent::getArea` (map.h 87-108). -/
def MapEditEvent.getArea (e : MapEditEvent) : VoxelArea :=
  match e.type with
  | MapEditEventType.MEET_OTHER =>
    e.modified_blocks.foldl (fun a p =>
      let np1 := p.scale MAP_BLOCKSIZE
      let np2 := (np1.add ((v3s16.mk 1 1 1).scale MAP_BLOCKSIZE)).sub ⟨1, 1, 1⟩
      (a.addPoint np1).addPoint np2) VoxelArea.new
  | _ => VoxelArea.ofPoint e.p

/-- A `MapBlock` as far as `forEachNodeInArea` reads it: the result of
`getNodeNoCheck(x, y, z)`. -/
structure MapBlock where
  getNodeNoCheck : Int → Int → Int → MapNode

/-- What `forEachNodeInArea` does to its environment, in order: a call of
`getBlockNoCreateNoEx(bp)`, or a call `func(p, n)` of the callback. -/
inductive Event where
  | lookup (bp : v3s16)
  | call (p : v3s16) (n : MapNode)
  deriving DecidableEq

/-- The values of the loop variable of `for (s16 i = lo; i <= hi; i++)`, for
`hi` below 32767. -/
def s16Range (lo hi : Int) : List Int :=
  (List.range (hi + 1 - lo).toNat).map (fun (k : Nat) => lo + Int.ofNat k)

/-- A `for` loop over the values `is` whose body may `return` from the
enclosing function: the body yields the new state and whether it returned,
and a body that returned ends the loop. -/
def forLoop {ι σ : Type} : List ι → (ι → σ → σ × Bool) → σ → σ × Bool
  | [], _, s => (s, false)
  | i :: rest, body, s =>
    if (body i s).2 then body i s else forLoop rest body (body i s).1

/-- The body of the three inner loops of `forEachNodeInArea` (map.h 354-359)
for the block `bp` found as `block`, at the offset `(x, y, z)`.  The state is
the list of events so far; the callback `func` may depend on it. -/
def nodeBody (K : Consts) (func : List Event → v3s16 → MapNode → Bool)
    (block : Option MapBlock) (basep : v3s16) (z_block y_block x_block : Int)
    (log : List Event) : List Event × Bool :=
  let p := basep.add ⟨x_block, y_block, z_block⟩
  let n := match block with
    | some b => b.getNodeNoCheck x_block y_block z_block
    | none => MapNode.ofContent K.CONTENT_IGNORE
  (log ++ [Event.call p n], !func log p n)

/-- The body of the three outer loops of `forEachNodeInArea` (map.h 341-360)
for the block position `(bx, by, bz)`. -/
def blockBody (K : Consts) (map : v3s16 → Option MapBlock)
    (func : List Event → v3s16 → MapNode → Bool) (minp maxp : v3s16) (bz bx by_ : Int)
    (log : List Event) : List Event × Bool :=
  let bp : v3s16 := ⟨bx, by_, bz⟩
  let block := map bp
  let log := log ++ [Event.lookup bp]
  let basep := bp.scale MAP_BLOCKSIZE
  let minx_block := rangelim (minp.X - basep.X) 0 (MAP_BLOCKSIZE - 1)
  let miny_block := rangelim (minp.Y - basep.Y) 0 (MAP_BLOCKSIZE - 1)
  let minz_block := rangelim (minp.Z - basep.Z) 0 (MAP_BLOCKSIZE - 1)
  let maxx_block := rangelim (maxp.X - basep.X) 0 (MAP_BLOCKSIZE - 1)
  let maxy_block := rangelim (maxp.Y - basep.Y) 0 (MAP_BLOCKSIZE - 1)
  let maxz_block := rangelim (maxp.Z - basep.Z) 0 (MAP_BLOCKSIZE - 1)
  forLoop (s16Range minz_block maxz_block) (fun z_block =>
    forLoop (s16Range miny_block maxy_block) (fun y_block =>
      forLoop (s16Range minx_block maxx_block) (fun x_block =>
        nodeBody K func block basep z_block y_block x_block))) log

/-- Method `Map::forEachNodeInArea` (map.h 333-362): the events it causes, in
order.  `map` is `getBlockNoCreateNoEx`; the callback does not change the
map. -/
def forEachNodeInArea (K : Consts) (map : v3s16 → Option MapBlock)
    (func : List Event → v3s16 → MapNode → Bool) (minp maxp : v3s16) : List Event :=
  let bpmin := getNodeBlockPos minp
  let bpmax := getNodeBlockPos maxp
  (forLoop (s16Range bpmin.Z bpmax.Z) (fun bz =>
    forLoop (s16Range bpmin.X bpmax.X) (fun bx =>
      forLoop (s16Range bpmin.Y bpmax.Y) (fun by_ =>
        blockBody K map func minp maxp bz bx by_))) []).1

/-- The positions passed to the callback, in call order. -/
def callPositions : List Event → List v3s16
  | [] => []
  | Event.lookup _ :: rest => callPositions rest
  | Event.call p _ :: rest => p :: callPositions rest

/-- The block positions looked up, in call order. -/
def lookups : List Event → List v3s16
  | [] => []
  | Event.lookup bp :: rest => bp :: lookups rest
  | Event.call _ _ :: rest => lookups rest

/-- The components of a block position are those of blocks of `s16` node
positions: -2048..2047. -/
def v3s16.isBlockPos (bp : v3s16) : Prop :=
  (-2048 ≤ bp.X ∧ bp.X ≤ 2047) ∧ (-2048 ≤ bp.Y ∧ bp.Y ≤ 2047) ∧ (-2048 ≤ bp.Z ∧ bp.Z ≤ 2047)

/-- Along one axis: `lo` is the least block coordinate of `cs` times
`MAP_BLOCKSIZE`, and `hi` is the greatest block coordinate of `cs` times
`MAP_BLOCKSIZE` plus `MAP_BLOCKSIZE - 1`. -/
def spansAxis (lo hi : Int) (cs : List Int) : Prop :=
  (∀ c ∈ cs, lo ≤ c * MAP_BLOCKSIZE ∧ c * MAP_BLOCKSIZE + (MAP_BLOCKSIZE - 1) ≤ hi) ∧
  (∃ c ∈ cs, lo = c * MAP_BLOCKSIZE) ∧
  (∃ c ∈ cs, hi = c * MAP_BLOCKSIZE + (MAP_BLOCKSIZE - 1))

/-- The area `a` reaches, in every component, from the least block coordinate
of `blocks` times `MAP_BLOCKSIZE` to the greatest block coordinate times
`MAP_BLOCKSIZE` plus `MAP_BLOCKSIZE - 1`. -/
def VoxelArea.spansBlocks (a : VoxelArea) (blocks : List v3s16) : Prop :=
  spansAxis a.MinEdge.X a.MaxEdge.X (blocks.map (fun bp => bp.X)) ∧
  spansAxis a.MinEdge.Y a.MaxEdge.Y (blocks.map (fun bp => bp.Y)) ∧
  spansAxis a.MinEdge.Z a.MaxEdge.Z (blocks.map (fun bp => bp.Z))

/-- An edit event of type `MEET_OTHER` that lists the block (2048, 0, 0),
which lies beyond the `s16` node coordinates. -/
def farBlockEvent : MapEditEvent :=
  { MapEditEvent.new K0 with modified_blocks := [⟨2048, 0, 0⟩] }

/-- An edit event of type `MEET_OTHER` that lists three blocks. -/
def threeBlockEvent : MapEditEvent :=
  { MapEditEvent.new K0 with modified_blocks := [⟨1, -1, 0⟩, ⟨-2, 3, 0⟩, ⟨0, 0, 5⟩] }

/-! ## The events of `forEachNodeInArea` as one list -/

/-- Whether the event `e`, coming after the events `log`, makes
`forEachNodeInArea` return: a callback that returns false. -/
def Event.stops (func : List Event → v3s16 → MapNode → Bool) (log : List Event) : Event → Bool
  | Event.lookup _ => false
  | Event.call p n => !func log p n

/-- The events `es` happen in order after `log`, up to and including the
first one that makes the function return; the second component tells whether
one did. -/
def runEvents (func : List Event → v3s16 → MapNode → Bool) :
    List Event → List Event → List Event × Bool
  | [], log => (log, false)
  | e :: rest, log =>
    if e.stops func log then (log ++ [e], true) else runEvents func rest (log ++ [e])

/-- The block an event concerns: the block looked up, or the block of the
position passed to the callback. -/
def Event.block : Event → v3s16
  | Event.lookup bp => bp
  | Event.call p _ => getNodeBlockPos p

/-- The event is a call of the callback. -/
def Event.isCall : Event → Bool
  | Event.lookup _ => false
  | Event.call _ _ => true

/-- The events of one pass of the body of the block loops of
`forEachNodeInArea` (map.h 338-360) when no callback returns false: the
lookup of the block `bp`, then the callbacks in the order of the loops over
`z_block`, `y_block`, `x_block`. -/
def blockEvents (K : Consts) (map : v3s16 → Option MapBlock) (minp maxp bp : v3s16) :
    List Event :=
  let basep := bp.scale MAP_BLOCKSIZE
  Event.lookup bp ::
    (s16Range (rangelim (minp.Z - basep.Z) 0 (MAP_BLOCKSIZE - 1))
      (rangelim (maxp.Z - basep.Z) 0 (MAP_BLOCKSIZE - 1))).flatMap (fun z_block =>
    (s16Range (rangelim (minp.Y - basep.Y) 0 (MAP_BLOCKSIZE - 1))
      (rangelim (maxp.Y - basep.Y) 0 (MAP_BLOCKSIZE - 1))).flatMap (fun y_block =>
    (s16Range (rangelim (minp.X - basep.X) 0 (MAP_BLOCKSIZE - 1))
      (rangelim (maxp.X - basep.X) 0 (MAP_BLOCKSIZE - 1))).map (fun x_block =>
      Event.call (basep.add ⟨x_block, y_block, z_block⟩)
        (match map bp with
          | some b => b.getNodeNoCheck x_block y_block z_block
          | none => MapNode.ofContent K.CONTENT_IGNORE))))

/-- The block positions of the three block loops of `forEachNodeInArea`
(map.h 336-338), in the order of the loops: `bz` outermost, then `bx`, and
`by` innermost. -/
def blockOrder (minp maxp : v3s16) : List v3s16 :=
  (s16Range (getNodeBlockPos minp).Z (getNodeBlockPos maxp).Z).flatMap (fun bz =>
    (s16Range (getNodeBlockPos minp).X (getNodeBlockPos maxp).X).flatMap (fun bx =>
      (s16Range (getNodeBlockPos minp).Y (getNodeBlockPos maxp).Y).map (fun by_ =>
        (⟨bx, by_, bz⟩ : v3s16))))

/-- All the events of `forEachNodeInArea` when no callback returns false. -/
def allEvents (K : Consts) (map : v3s16 → Option MapBlock) (minp maxp : v3s16) : List Event :=
  (blockOrder minp maxp).flatMap (blockEvents K map minp maxp)

/-- Block `a` comes before block `b` in the order in which the Y index
varies fastest, then X, then Z. -/
def v3s16.blockBefore (a b : v3s16) : Prop :=
  a.Z < b.Z ∨ (a.Z = b.Z ∧ (a.X < b.X ∨ (a.X = b.X ∧ a.Y < b.Y)))

/-- A callback that returns false at once. -/
def refuseAll : List Event → v3s16 → MapNode → Bool := fun _ _ _ => false

/-- A callback that accepts two positions and returns false at the third. -/
def acceptTwo : List Event → v3s16 → MapNode → Bool :=
  fun log _ _ => decide ((callPositions log).length < 2)

/-- A map in which only the block (0, 0, 0) is loaded; its node at the offset
`(x, y, z)` has the parameters `x`, `y`, `z`. -/
def oneBlockMap : v3s16 → Option MapBlock := fun bp =>
  if bp = ⟨0, 0, 0⟩ then some ⟨fun x y z => ⟨x.toNat, y.toNat, z.toNat⟩⟩ else none

/-! ## `Server::SendBlocks` (server.cpp 3441-3569)

The function stands in server.cpp with both sides of a merge (`HEAD` and
`5.5.0`) in place; the two sides are modelled as two functions.  Both collect
the queue, sort it with `std::sort`, and walk through the sorted queue once. -/

/-- Modelled from the spec: record `PrioritySortedBlockTransfer` of
clientiface.h, one entry of the send queue: a priority number, the block
position and the peer.  The priority is a finite `float`, held as a
rational. -/
structure PrioritySortedBlockTransfer where
  priority : ℚ
  pos : v3s16
  peer_id : Nat
  deriving DecidableEq

/-- Modelled from the spec: `PrioritySortedBlockTransfer::operator<` of
clientiface.h, the order `std::sort` uses: the order of the priority numbers
("Lowest priority number comes first", server.cpp 3497). -/
def PrioritySortedBlockTransfer.lt (a b : PrioritySortedBlockTransfer) : Bool :=
  decide (a.priority < b.priority)

/-- What the send loop finds in its pass number `i`: whether the map has the
block at the position (`getBlockNoCreate` does not throw, `getBlockNoCreateNoEx`
is not null), whether the peer is an active client (`lockedGetClientNoEx` is
not null), and whether the block can be locked (`try_lock_shared_rec`).  The
answers may change from pass to pass. -/
structure SendEnv where
  getBlockNoCreate : Nat → v3s16 → Bool
  lockedGetClientNoEx : Nat → Nat → Bool
  try_lock_shared_rec : Nat → v3s16 → Bool

/-- The loop of the `HEAD` side (server.cpp 3502-3534) from pass `i` on, over
the rest of the queue; the state is the list of the transfers sent with
`SendBlockNoLock`, in order. -/
def sendLoop_HEAD (env : SendEnv) :
    Nat → List PrioritySortedBlockTransfer → List PrioritySortedBlockTransfer →
      List PrioritySortedBlockTransfer
  | _, [], sent => sent
  | i, q :: rest, sent =>
    if !env.getBlockNoCreate i q.pos then sendLoop_HEAD env (i + 1) rest sent
    else if !env.lockedGetClientNoEx i q.peer_id then sendLoop_HEAD env (i + 1) rest sent
    else if !env.try_lock_shared_rec i q.pos then sendLoop_HEAD env (i + 1) rest sent
    else sendLoop_HEAD env (i + 1) rest (sent ++ [q])

/-- The `HEAD` side of `Server::SendBlocks` after the queue `collected` has
been filled by `GetNextBlocks`: the transfers sent, in order.  `sort` is
`std::sort`; the count the function returns is not modelled. -/
def Server.SendBlocks_HEAD
    (sort : List PrioritySortedBlockTransfer → List PrioritySortedBlockTransfer)
    (env : SendEnv) (collected : List PrioritySortedBlockTransfer) :
    List PrioritySortedBlockTransfer :=
  sendLoop_HEAD env 0 (sort collected) []

/-- The loop of the `5.5.0` side (server.cpp 3548-3566) from pass `i` on; the
state is the counter `total_sending` and the list of the transfers sent.  The
loop ends when the counter has reached `max_blocks_to_send`. -/
def sendLoop_5_5_0 (env : SendEnv) (max_blocks_to_send : Nat) :
    Nat → List PrioritySortedBlockTransfer → Nat × List PrioritySortedBlockTransfer →
      Nat × List PrioritySortedBlockTransfer
  | _, [], s => s
  | i, q :: rest, (total_sending, sent) =>
    if total_sending ≥ max_blocks_to_send then (total_sending, sent)
    else if !env.getBlockNoCreate i q.pos then
      sendLoop_5_5_0 env max_blocks_to_send (i + 1) rest (total_sending, sent)
    else if !env.lockedGetClientNoEx i q.peer_id then
      sendLoop_5_5_0 env max_blocks_to_send (i + 1) rest (total_sending, sent)
    else sendLoop_5_5_0 env max_blocks_to_send (i + 1) rest (total_sending + 1, sent ++ [q])

/-- The `5.5.0` side of `Server::SendBlocks` after the queue `collected` has
been filled: the final counter and the transfers sent, in order.
`total_sending` is the sum of `getSendingCount()` over the clients;
`max_blocks_to_send` is computed in `u32` from the player count and the
settings `max_users` and `max_simultaneous_block_sends_per_client`. -/
def Server.SendBlocks_5_5_0
    (sort : List PrioritySortedBlockTransfer → List PrioritySortedBlockTransfer)
    (env : SendEnv) (collected : List PrioritySortedBlockTransfer)
    (total_sending playerCount max_users sends_per_client : Nat) :
    Nat × List PrioritySortedBlockTransfer :=
  let queue := sort collected
  let max_blocks_to_send :=
    (((playerCount + max_users) % 4294967296 * sends_per_client) % 4294967296 / 4 + 1) %
      4294967296
  sendLoop_5_5_0 env max_blocks_to_send 0 queue (total_sending, [])

/-- A sorting function: insertion in the order of the priority numbers. -/
def sortByPriority (q : List PrioritySortedBlockTransfer) : List PrioritySortedBlockTransfer :=
  List.insertionSort (fun a b => a.priority ≤ b.priority) q

/-- A queue of four transfers for two peers. -/
def fourTransfers : List PrioritySortedBlockTransfer :=
  [⟨3, ⟨0, 0, 0⟩, 1⟩, ⟨1 / 2, ⟨1, 0, 0⟩, 2⟩, ⟨2, ⟨0, 1, 0⟩, 1⟩, ⟨1 / 2, ⟨0, 0, 1⟩, 1⟩]

/-- An environment in which the block (0, 1, 0) is missing and every client is
active and every block can be locked. -/
def missingBlockEnv : SendEnv :=
  ⟨fun _ p => decide (p ≠ ⟨0, 1, 0⟩), fun _ _ => true, fun _ _ => true⟩

/-! ## `CNodeDefManager::nodeboxConnects` (nodedef.cpp 1853-1890) -/

/-- The table `rot` of `nodeboxConnects` (nodedef.cpp 1873-1883), declared
with `33 * 4` entries: the row of the face bit `f` starts at index `4 * f`. -/
def rot : List Nat :=
  [0, 0, 0, 0, 0, 0, 0, 0, 0, 0, 0, 0, 0, 0, 0, 0,
   4, 32, 16, 8, 0, 0, 0, 0, 0, 0, 0, 0, 0, 0, 0, 0,
   8, 4, 32, 16, 0, 0, 0, 0, 0, 0, 0, 0, 0, 0, 0, 0,
   0, 0, 0, 0, 0, 0, 0, 0, 0, 0, 0, 0, 0, 0, 0, 0,
   16, 8, 4, 32, 0, 0, 0, 0, 0, 0, 0, 0, 0, 0, 0, 0,
   0, 0, 0, 0, 0, 0, 0, 0, 0, 0, 0, 0, 0, 0, 0, 0,
   0, 0, 0, 0, 0, 0, 0, 0, 0, 0, 0, 0, 0, 0, 0, 0,
   0, 0, 0, 0, 0, 0, 0, 0, 0, 0, 0, 0, 0, 0, 0, 0,
   32, 16, 8, 4]

/-- The map of the face bits that the table `rot` gives for the rotation
`param2`: `face` goes to `rot[face * 4 + param2]`. -/
def rotFace (param2 face : Nat) : Nat := rot.getD (face * 4 + param2) 0

namespace CNodeDefManager

/-- Method `CNodeDefManager::nodeboxConnects` (nodedef.cpp 1853-1890).
`get(MapNode)` is `get(n.getContent())`, the definition of `param0`;
`connect_face` and `param2` are `u8` values.  The result `none` is a read of
`rot` at an index that the table does not have. -/
def nodeboxConnects (K : Consts) (m : CNodeDefManager) (from_ to_ : MapNode)
    (connect_face : Nat) : Option Bool :=
  let f1 := get K m from_.param0
  if f1.drawtype ≠ K.NDT_NODEBOX ∨ f1.node_box.type ≠ K.NODEBOX_CONNECTED then some false
  else if to_.param0 ∉ f1.connects_to_ids then some false
  else
    let f2 := get K m to_.param0
    if f2.drawtype = K.NDT_NODEBOX ∧ f2.node_box.type = K.NODEBOX_CONNECTED then
      some (decide (from_.param0 ∈ f2.connects_to_ids))
    else if f2.connect_sides > 0 then
      if f2.param_type_2 = K.CPT2_FACEDIR ∧ connect_face ≥ 4 then
        (rot[connect_face * 4 + to_.param2]?).map (fun r => decide (f2.connect_sides &&& r ≠ 0))
      else some (decide (f2.connect_sides &&& connect_face ≠ 0))
    else some true

end CNodeDefManager

/-- A definition named "foo" of a connected node box that connects to the
content id 2. -/
def fenceFeatures : ContentFeatures :=
  { ContentFeatures.new K0 with
    name := str_foo, drawtype := K0.NDT_NODEBOX,
    node_box := { NodeBox.new K0 with type := K0.NODEBOX_CONNECTED },
    connects_to_ids := [2] }

/-- A definition named "bar" of a node with `param_type_2 = CPT2_FACEDIR` that
declares all six sides as connecting. -/
def chestFeatures : ContentFeatures :=
  { ContentFeatures.new K0 with
    name := str_bar, param_type_2 := K0.CPT2_FACEDIR, connect_sides := 63 }

/-- A registry with "foo" (`fenceFeatures`, id 1) and "bar" (`chestFeatures`,
id 2). -/
def fenceManager : CNodeDefManager :=
  (((CNodeDefManager.set K0 2 str_foo fenceFeatures (CNodeDefManager.new K0)).bind
    (fun r => CNodeDefManager.set K0 2 str_bar chestFeatures r.2)).map (fun r => r.2)).getD
    (CNodeDefManager.new K0)

/-! ## `CNodeDefManager::getIds` (nodedef.cpp 1252-1278) -/

/-- The literal "group:". -/
def str_group_colon : CppString := [103, 114, 111, 117, 112, 58]

namespace CNodeDefManager

/-- Method `CNodeDefManager::getIds(name, std::unordered_set<content_t> &)`
(nodedef.cpp 1252-1278): the value returned and the new content of `result`.
The set is held as a list without repetition. -/
def getIds (m : CNodeDefManager) (name : CppString) (result : List Nat) : Bool × List Nat :=
  if name.take 6 ≠ str_group_colon then
    match m.getId name with
    | some id => (true, setInsert id result)
    | none => (false, result)
  else
    let group := name.drop 6
    match amFind group m.m_group_to_items with
    | none => (true, result)
    | some items =>
      (true, items.foldl (fun r j => if j.2 ≠ 0 then setInsert j.1 r else r) result)

end CNodeDefManager

/-- The group name "a". -/
def str_a : CppString := [97]

/-- A definition named "foo" that lists the group "a" with the rating 1. -/
def fooInGroupA : ContentFeatures := { fooFeatures with groups := [(str_a, 1)] }

/-- The registry after `set("foo", fooInGroupA)` on a fresh registry: "foo" has
the id 1 and is the one member of the group "a". -/
def groupedManager : CNodeDefManager :=
  ((CNodeDefManager.set K0 2 str_foo fooInGroupA (CNodeDefManager.new K0)).map
    (fun r => r.2)).getD (CNodeDefManager.new K0)

/-- The registry after `set("foo", fooInGroupA)` on a fresh registry and then
`set("foo", fooFeatures)`, a definition that does not list the group "a". -/
def regroupedManager : CNodeDefManager :=
  (((CNodeDefManager.set K0 2 str_foo fooInGroupA (CNodeDefManager.new K0)).bind
    (fun r => CNodeDefManager.set K0 2 str_foo fooFeatures r.2)).map (fun r => r.2)).getD
    (CNodeDefManager.new K0)

/-- The calls `set`. -/
def Op.isSet : Op → Prop
  | Op.set _ _ => True
  | _ => False

/-! ## `Buffer<T>` and `SharedBuffer<T>` (util/pointer.h)

Memory is modelled by its bytes: an array of `n` elements of a type `T` with
`sizeof(T) = w` is a list of `n * w` bytes, and its element `i` is the `w`
bytes from the offset `i * w` on. -/

/-- Element `i` of an array of elements of `sizeofT` bytes each, given by the
bytes of the array. -/
def elemAt (sizeofT : Nat) (bytes : List Nat) (i : Nat) : List Nat :=
  (bytes.drop (i * sizeofT)).take sizeofT

/-- The library function `memcpy(dst, src, n)`: the first `n` bytes of `dst`
become the first `n` bytes of `src`. -/
def memcpy (dst src : List Nat) (n : Nat) : List Nat := src.take n ++ dst.drop n

/-- Class `Buffer<T>` (pointer.h 43-146): the bytes of the array `data` (none
for `nullptr`) and `m_size`. -/
structure Buffer where
  data : List Nat
  m_size : Nat
  deriving DecidableEq

/-- The constructor `Buffer(const T *t, unsigned int size)` (pointer.h 78-89).
`fresh` is the content of the array `new T[size]` before the copy and `t` the
bytes of the source array. -/
def Buffer.copyOf (fresh t : List Nat) (size : Nat) : Buffer :=
  if size ≠ 0 then ⟨memcpy fresh t size, size⟩ else ⟨[], size⟩

/-- Method `Buffer::getSize` (pointer.h 133-136). -/
def Buffer.getSize (b : Buffer) : Nat := b.m_size

/-- The operator `Buffer::operator[]` (pointer.h 124-127): the bytes of
`data[i]`. -/
def Buffer.get (sizeofT : Nat) (b : Buffer) (i : Nat) : List Nat := elemAt sizeofT b.data i

/-- Class `SharedBuffer<T>` (pointer.h 156-265): the bytes of the array `data`,
`m_size`, and the value of the counter `*refcount`. -/
structure SharedBuffer where
  data : List Nat
  m_size : Nat
  refcount : Nat
  deriving DecidableEq

/-- The constructor `SharedBuffer(const T *t, unsigned int size)` (pointer.h
197-212). -/
def SharedBuffer.copyOf (fresh t : List Nat) (size : Nat) : SharedBuffer :=
  if size ≠ 0 then ⟨memcpy fresh t size, size, 1⟩ else ⟨[], size, 1⟩

/-- Method `SharedBuffer::getSize` (pointer.h 240-243). -/
def SharedBuffer.getSize (b : SharedBuffer) : Nat := b.m_size

/-- The operator `SharedBuffer::operator[]` (pointer.h 231-235) for
`i < m_size`: the bytes of `data[i]`. -/
def SharedBuffer.get (sizeofT : Nat) (b : SharedBuffer) (i : Nat) : List Nat :=
  elemAt sizeofT b.data i

/-! ## `Server::sendAddNode` (server.cpp 3231-3277 and 3329-3367)

The function stands in server.cpp twice, on the two sides of a merge: the
`HEAD` side (3231-3277) and the `5.5.0` side (3329-3367).  The two sides are
modelled as two functions. -/

/-- The packet `TOCLIENT_ADDNODE` built by `sendAddNode` (server.cpp
3336-3338): the position, the three parameters of the node, and the byte
`remove_metadata ? 0 : 1`. -/
structure AddNodePacket where
  p : v3s16
  param0 : Nat
  param1 : Nat
  param2 : Nat
  keep_metadata : Nat
  deriving DecidableEq

/-- What `sendAddNode` does for a client: `m_clients.send(client_id, 0, &pkt,
true)` with the packet filled in, `far_players->emplace(client_id)` (`5.5.0`
side), `client->SetBlockNotSent(block_pos)`, `far_players->push_back(id)`
(`HEAD` side), or `m_clients.send(id, 0, &pkt, true)` with a packet into which
no field was written (`HEAD` side). -/
inductive SendAction where
  | send (client_id : Nat) (pkt : AddNodePacket)
  | emplace (client_id : Nat)
  | SetBlockNotSent (client_id : Nat) (block_pos : v3s16)
  | push_back (client_id : Nat)
  | sendUnwritten (client_id : Nat)
  deriving DecidableEq

/-- The client an action concerns. -/
def SendAction.client : SendAction → Nat
  | SendAction.send c _ => c
  | SendAction.emplace c => c
  | SendAction.SetBlockNotSent c _ => c
  | SendAction.push_back c => c
  | SendAction.sendUnwritten c => c

/-- What the `5.5.0` side of `sendAddNode` finds for a client id: whether
`lockedGetClientNoEx(client_id)` gives a client, and the distance
`sao->getBasePosition().getDistanceFrom(p_f)` of the player of the client from
the node at `p`, `none` when the client has no player or the player no
`PlayerSAO`. -/
structure ClientsEnv where
  lockedGetClientNoEx : Nat → Bool
  saoDistance : Nat → v3s16 → Option ℚ

/-- The state `sendAddNode` works on: per client the blocks marked as sent
(`RemoteClient::isBlockSent`), the set behind the pointer `far_players`
(`none` for a null pointer), and the actions taken so far. -/
structure AddNodeState where
  blocks_sent : Nat → v3s16 → Bool
  far_players : Option (List Nat)
  log : List SendAction

/-- Modelled from the spec: `RemoteClient::SetBlockNotSent(p)` of
clientiface.cpp, which marks the block as not sent to the client ("invalidated
when a block is modified after having been sent (forcing a resend)"). -/
def SetBlockNotSent (client_id : Nat) (block_pos : v3s16)
    (blocks_sent : Nat → v3s16 → Bool) : Nat → v3s16 → Bool :=
  fun c bp => if c = client_id ∧ bp = block_pos then false else blocks_sent c bp

/-- The body of the loop of the `5.5.0` side of `sendAddNode` (server.cpp
3343-3364) for one client id. -/
def sendAddNodeStep_5_5_0 (env : ClientsEnv) (p block_pos : v3s16) (pkt : AddNodePacket) (maxd : ℚ)
    (st : AddNodeState) (client_id : Nat) : AddNodeState :=
  if !env.lockedGetClientNoEx client_id then st
  else
    let far := match env.saoDistance client_id p with
      | some d => decide (d > maxd)
      | none => false
    if (!st.blocks_sent client_id block_pos || far) = true then
      match st.far_players with
      | some players =>
        { st with far_players := some (setInsert client_id players)
                  log := st.log ++ [SendAction.emplace client_id] }
      | none =>
        { st with blocks_sent := SetBlockNotSent client_id block_pos st.blocks_sent
                  log := st.log ++ [SendAction.SetBlockNotSent client_id block_pos] }
    else { st with log := st.log ++ [SendAction.send client_id pkt] }

/-- The `5.5.0` side of `Server::sendAddNode` (server.cpp 3329-3367).
`clients` is the result of `m_clients.getClientIDs()`; the pointer
`far_players` is part of the state. -/
def Server.sendAddNode_5_5_0 (K : Consts) (env : ClientsEnv) (clients : List Nat) (p : v3s16)
    (n : MapNode) (far_d_nodes : ℚ) (remove_metadata : Bool) (st : AddNodeState) :
    AddNodeState :=
  let maxd := far_d_nodes * K.BS
  let block_pos := getNodeBlockPos p
  let pkt : AddNodePacket :=
    ⟨p, n.param0, n.param1, n.param2, if remove_metadata then 0 else 1⟩
  clients.foldl (sendAddNodeStep_5_5_0 env p block_pos pkt maxd) st

/-- What the `HEAD` side of `sendAddNode` finds for a client id: whether
`m_env->getPlayer(id)` gives a player; for a client with a player the
distance `sao->getBasePosition().getDistanceFrom(p_f)` from the node at `p`,
`none` when the player has no `PlayerSAO`; whether
`lockedGetClientNoEx(id)` gives a client; the `net_proto_version` of the
client; and `pkt.getSize()` of the packet as constructed (`false`) and after
the fields were written (`true`); class `NetworkPacket` is not part of the
modelled sources. -/
structure ClientsEnv_HEAD where
  getPlayer : Nat → Bool
  saoDistance : Nat → v3s16 → Option ℚ
  lockedGetClientNoEx : Nat → Bool
  net_proto_version : Nat → Nat
  getSize : Bool → Nat

/-- The second half of the body of the loop of the `HEAD` side of
`sendAddNode` (server.cpp 3258-3275) for the client id `i`: the packet is
filled in when there is a client, the block is marked as not sent for a
client of protocol version 21 or less when the metadata is kept, and the
packet is sent when its size is not 0. -/
def sendAddNodeSend_HEAD (env : ClientsEnv_HEAD) (p : v3s16) (pkt : AddNodePacket)
    (remove_metadata : Bool) (st : AddNodeState) (i : Nat) : AddNodeState :=
  let client := env.lockedGetClientNoEx i
  let st1 : AddNodeState :=
    if client = true ∧ remove_metadata = false ∧ env.net_proto_version i ≤ 21 then
      { st with blocks_sent := SetBlockNotSent i (getNodeBlockPos p) st.blocks_sent
                log := st.log ++ [SendAction.SetBlockNotSent i (getNodeBlockPos p)] }
    else st
  if env.getSize client > 0 then
    { st1 with log := st1.log ++
        [if client = true then SendAction.send i pkt else SendAction.sendUnwritten i] }
  else st1

/-- The body of the loop of the `HEAD` side of `sendAddNode` (server.cpp
3239-3276) for the client id `i`.  The vector `far_players` is a list. -/
def sendAddNodeStep_HEAD (env : ClientsEnv_HEAD) (p : v3s16) (pkt : AddNodePacket) (maxd : ℚ)
    (remove_metadata : Bool) (st : AddNodeState) (i : Nat) : AddNodeState :=
  match st.far_players with
  | some players =>
    if env.getPlayer i = true then
      match env.saoDistance i p with
      | none => st
      | some d =>
        if d > maxd then
          { st with far_players := some (players ++ [i])
                    log := st.log ++ [SendAction.push_back i] }
        else sendAddNodeSend_HEAD env p pkt remove_metadata st i
    else sendAddNodeSend_HEAD env p pkt remove_metadata st i
  | none => sendAddNodeSend_HEAD env p pkt remove_metadata st i

/-- The `HEAD` side of `Server::sendAddNode` (server.cpp 3231-3277).  The
argument `ignore_id` is not used by the body. -/
def Server.sendAddNode_HEAD (K : Consts) (env : ClientsEnv_HEAD) (clients : List Nat)
    (p : v3s16) (n : MapNode) (_ignore_id : Nat) (far_d_nodes : ℚ) (remove_metadata : Bool)
    (st : AddNodeState) : AddNodeState :=
  let maxd := far_d_nodes * K.BS
  let pkt : AddNodePacket :=
    ⟨p, n.param0, n.param1, n.param2, if remove_metadata then 0 else 1⟩
  clients.foldl (sendAddNodeStep_HEAD env p pkt maxd remove_metadata) st

/-- Three clients as the `HEAD` side finds them: the client 1 has a player
without `PlayerSAO`, the player of the client 2 is 80 away, the player of the
client 3 is 30 away; all are clients of protocol version 39, and the packet
has 11 bytes. -/
def threeClientsEnv_HEAD : ClientsEnv_HEAD :=
  ⟨fun _ => true, fun c _ => if c = 1 then none else if c = 2 then some 80 else some 30,
    fun _ => true, fun _ => 39, fun _ => 11⟩

/-- Three clients: for the client 1 the block (0, 0, 0) is marked as sent and
its player is 30 away, for the client 2 the block is marked as sent and its
player is 80 away, for the client 3 the block is not marked as sent. -/
def threeClientsEnv : ClientsEnv :=
  ⟨fun _ => true, fun c _ => if c = 1 then some 30 else if c = 2 then some 80 else none⟩

/-- The blocks marked as sent for the clients of `threeClientsEnv`. -/
def threeClientsSent : Nat → v3s16 → Bool :=
  fun c bp => decide ((c = 1 ∨ c = 2) ∧ bp = ⟨0, 0, 0⟩)

/-! ## Filling the id space of the registry -/

/-- The two-byte node name number `k`. -/
def dummyName (k : Nat) : CppString := [k / 256, k % 256]

/-- The id that registration number `n` (counted from 0) gets on a registry
built from `clear()` with the header constants `K0`: the slot 0 and the slots
125, 126 and 127 are taken from the start. -/
def slotOf (n : Nat) : Nat := if n < 124 then n + 1 else n + 4

/-- The registry after `allocateDummy(dummyName 0)`, ...,
`allocateDummy(dummyName (n - 1))` on a fresh registry. -/
def filledManager : Nat → CNodeDefManager
  | 0 => CNodeDefManager.new K0
  | n + 1 =>
    ((CNodeDefManager.allocateDummy K0 4 (dummyName n) (filledManager n)).map
      (fun r => r.2)).getD (filledManager n)

/-- The calls `set` and `allocateDummy`. -/
def Op.isSetOrDummy : Op → Prop
  | Op.set _ _ => True
  | Op.allocateDummy _ => True
  | _ => False

/-- The state of the registry after `n` registrations of new names on a fresh
registry: the next id, the size of the table, which slots carry a name, and
that the names still to come are not registered. -/
structure FillInv (n : Nat) (m : CNodeDefManager) : Prop where
  next : m.m_next_id = if n = 0 then 0 else (slotOf (n - 1) + 1) % 65536
  length_le : m.m_content_features.length ≤ 65536
  length_ge : 128 ≤ m.m_content_features.length
  names : ∀ i : Nat, (m.m_content_features.getD i (ContentFeatures.new K0)).name = [] ↔
    (slotOf n ≤ i ∧ i ≠ 125 ∧ i ≠ 126 ∧ i ≠ 127)
  fresh : ∀ k : Nat, n ≤ k → m.m_name_id_mapping.getId (dummyName k) = none

/-! ## Lemmas on association lists -/

theorem amFind_amSet {κ ν : Type} [DecidableEq κ] (k k2 : κ) (v : ν) (m : List (κ × ν)) :
    amFind k2 (amSet k v m) = if k2 = k then some v else amFind k2 m := by
  induction m with
  | nil =>
    by_cases h : k2 = k
    · simp [amSet, amFind, h]
    · have h2 : ¬ k = k2 := fun e => h e.symm
      simp [amSet, amFind, h, h2]
  | cons e rest ih =>
    obtain ⟨k1, v1⟩ := e
    by_cases h1 : k1 = k
    · by_cases h : k2 = k
      · simp [amSet, amFind, h1, h]
      · have h2 : ¬ k = k2 := fun e => h e.symm
        simp [amSet, amFind, h1, h, h2]
    · by_cases h : k1 = k2
      · have h3 : ¬ k2 = k := fun e => h1 (h.trans e)
        simp [amSet, amFind, h1, h, h3]
      · simp [amSet, amFind, h1, h, ih]

theorem amFind_append {κ ν : Type} [DecidableEq κ] (k : κ) (m1 m2 : List (κ × ν)) :
    amFind k (m1 ++ m2) = match amFind k m1 with
      | some v => some v
      | none => amFind k m2 := by
  induction m1 with
  | nil => simp [amFind]
  | cons e rest ih =>
    obtain ⟨k1, v1⟩ := e
    by_cases h : k1 = k
    · simp [amFind, h]
    · simp [amFind, h, ih]

theorem amFind_amInsert {κ ν : Type} [DecidableEq κ] (k k2 : κ) (v : ν) (m : List (κ × ν)) :
    amFind k2 (amInsert k v m) = match amFind k2 m with
      | some w => some w
      | none => if k2 = k then some v else none := by
  unfold amInsert
  cases hk : amFind k m with
  | some w =>
    cases h2 : amFind k2 m with
    | some w2 => simp
    | none =>
      have h : ¬ k2 = k := by
        intro e
        rw [e, hk] at h2
        exact Option.noConfusion h2
      simp [h]
  | none =>
    rw [amFind_append]
    cases h2 : amFind k2 m with
    | some w => simp
    | none =>
      by_cases h : k2 = k
      · simp [amFind, h]
      · have h3 : ¬ k = k2 := fun e => h e.symm
        simp [amFind, h, h3]

theorem amFind_amErase {κ ν : Type} [DecidableEq κ] (k k2 : κ) (m : List (κ × ν)) :
    amFind k2 (amErase k m) = if k2 = k then none else amFind k2 m := by
  induction m with
  | nil => simp [amErase, amFind]
  | cons e rest ih =>
    obtain ⟨k1, v1⟩ := e
    by_cases h1 : k1 = k
    · by_cases h : k2 = k
      · subst h
        simpa [amErase, h1] using ih
      · have h3 : ¬ k = k2 := fun e => h e.symm
        simp [amErase, h1, h, ih, amFind, h3]
    · by_cases h : k1 = k2
      · have h3 : ¬ k2 = k := fun e => h1 (h.trans e)
        simp [amErase, h1, h, amFind, h3]
      · simp [amErase, h1, h, amFind, ih]


theorem new_name_to_id (K : Consts) (n : CppString) :
    (CNodeDefManager.new K).m_name_id_mapping.getId n =
      if n = str_unknown then some K.CONTENT_UNKNOWN
      else if n = str_air then some K.CONTENT_AIR
      else if n = str_ignore then some K.CONTENT_IGNORE else none := by
  have h : (CNodeDefManager.new K).m_name_id_mapping.m_name_to_id =
      amSet str_ignore K.CONTENT_IGNORE (amSet str_air K.CONTENT_AIR
        (amSet str_unknown K.CONTENT_UNKNOWN [])) := by
    unfold CNodeDefManager.new clear
    by_cases h0 : K.CONTENT_IGNORE = 0 <;>
      simp [h0, addNameIdMapping, NameIdMapping.set, resetNodeResolveState]
  unfold NameIdMapping.getId
  rw [h]
  simp [amFind_amSet, amFind, eq_comm]

theorem new_features (K : Consts) :
    (CNodeDefManager.new K).m_content_features =
      if K.CONTENT_IGNORE ≠ 0 then
        ((((List.replicate (max (max (max 0 (K.CONTENT_UNKNOWN + 1)) (K.CONTENT_AIR + 1))
          (K.CONTENT_IGNORE + 1)) (ContentFeatures.new K)).set K.CONTENT_UNKNOWN
          (unknownFeatures K)).set K.CONTENT_AIR (airFeatures K)).set K.CONTENT_IGNORE
          (ignoreFeatures K)).set 0 (ignoreFeatures K)
      else
        (((List.replicate (max (max (max 0 (K.CONTENT_UNKNOWN + 1)) (K.CONTENT_AIR + 1))
          (K.CONTENT_IGNORE + 1)) (ContentFeatures.new K)).set K.CONTENT_UNKNOWN
          (unknownFeatures K)).set K.CONTENT_AIR (airFeatures K)).set K.CONTENT_IGNORE
          (ignoreFeatures K) := by
  unfold CNodeDefManager.new clear
  by_cases h0 : K.CONTENT_IGNORE = 0 <;>
    simp [h0, addNameIdMapping, NameIdMapping.set, resetNodeResolveState]

theorem unknownFeatures_name (K : Consts) : (unknownFeatures K).name = str_unknown := rfl
theorem airFeatures_name (K : Consts) : (airFeatures K).name = str_air := rfl
theorem ignoreFeatures_name (K : Consts) : (ignoreFeatures K).name = str_ignore := rfl
theorem ContentFeatures_new_name (K : Consts) : (ContentFeatures.new K).name = [] := rfl

theorem new_get_ignore (K : Consts) :
    (CNodeDefManager.new K).m_content_features[K.CONTENT_IGNORE]? = some (ignoreFeatures K) := by
  rw [new_features]
  by_cases h0 : K.CONTENT_IGNORE = 0
  · rw [if_neg (by simpa using h0)]
    rw [List.getElem?_set]
    simp
  · rw [if_pos h0]
    rw [List.getElem?_set, if_neg (Ne.symm h0), List.getElem?_set]
    simp

theorem new_get_air (K : Consts) (hK : K.WF) :
    (CNodeDefManager.new K).m_content_features[K.CONTENT_AIR]? = some (airFeatures K) := by
  have hai := hK.air_ne_ignore
  have ha0 := hK.air_ne_zero
  rw [new_features]
  by_cases h0 : K.CONTENT_IGNORE = 0
  · rw [if_neg (by simpa using h0)]
    rw [List.getElem?_set, if_neg (Ne.symm hai), List.getElem?_set]
    simp
  · rw [if_pos h0]
    rw [List.getElem?_set, if_neg (Ne.symm ha0), List.getElem?_set, if_neg (Ne.symm hai),
      List.getElem?_set]
    simp

theorem new_get_unknown (K : Consts) (hK : K.WF) :
    (CNodeDefManager.new K).m_content_features[K.CONTENT_UNKNOWN]? =
      some (unknownFeatures K) := by
  have hua := hK.unknown_ne_air
  have hui := hK.unknown_ne_ignore
  have hu0 := hK.unknown_ne_zero
  rw [new_features]
  by_cases h0 : K.CONTENT_IGNORE = 0
  · rw [if_neg (by simpa using h0)]
    rw [List.getElem?_set, if_neg (Ne.symm hui), List.getElem?_set, if_neg (Ne.symm hua),
      List.getElem?_set]
    simp
  · rw [if_pos h0]
    rw [List.getElem?_set, if_neg (Ne.symm hu0), List.getElem?_set, if_neg (Ne.symm hui),
      List.getElem?_set, if_neg (Ne.symm hua), List.getElem?_set]
    simp

theorem Inv_new (K : Consts) (hK : K.WF) : Inv K (CNodeDefManager.new K) := by
  refine ⟨⟨_, new_get_unknown K hK, rfl⟩, ⟨_, new_get_air K hK, rfl⟩,
    ⟨_, new_get_ignore K, rfl⟩, ?_, ?_⟩
  · intro n i h
    rw [new_name_to_id] at h
    split_ifs at h with h1 h2 h3
    · cases h; exact ⟨_, new_get_unknown K hK, h1 ▸ rfl⟩
    · cases h; exact ⟨_, new_get_air K hK, h2 ▸ rfl⟩
    · cases h; exact ⟨_, new_get_ignore K, h3 ▸ rfl⟩
  · rw [new_name_to_id]; simp [str_ignore, str_air, str_unknown]
theorem allocateIdLoop_spec (K : Consts) (next_id : Nat) :
    ∀ (fuel id : Nat) (features : List ContentFeatures) (r : Nat × List ContentFeatures × Nat),
      allocateIdLoop K next_id fuel id features = some r →
      (∃ k, r.2.1 = features ++ List.replicate k (ContentFeatures.new K)) ∧
      (r.1 = K.CONTENT_IGNORE ∨ ∃ f, r.2.1[r.1]? = some f ∧ f.name = []) := by
  intro fuel
  induction fuel with
  | zero => intro id features r h; simp [allocateIdLoop] at h
  | succ fuel ih =>
    intro id features r h
    unfold allocateIdLoop at h
    by_cases hge : id ≥ next_id
    · rw [if_pos hge] at h
      simp only at h
      split_ifs at h with hname
      · cases h
        refine ⟨⟨_, rfl⟩, Or.inr ⟨_, ?_, hname⟩⟩
        simp only [List.getD_eq_getElem?_getD]
        have hlt : id < (features ++ List.replicate (id + 1 - features.length)
            (ContentFeatures.new K)).length := by
          simp only [List.length_append, List.length_replicate]; omega
        rw [List.getElem?_eq_getElem hlt]
        simp
      · obtain ⟨⟨k, hk⟩, h2⟩ := ih _ _ _ h
        refine ⟨⟨(id + 1 - features.length) + k, ?_⟩, h2⟩
        rw [hk, List.append_assoc, List.replicate_add]
    · rw [if_neg hge] at h
      cases h
      exact ⟨⟨0, by simp⟩, Or.inl rfl⟩

/-- The three ways a call of `set` can return. -/
theorem set_cases (K : Consts) (fuel : Nat) (name : CppString) (d : ContentFeatures)
    (m m2 : CNodeDefManager) (id : Nat) (h : CNodeDefManager.set K fuel name d m = some (id, m2)) :
    (id = K.CONTENT_IGNORE ∧ ∃ k nid, m2 = { m with
        m_content_features := m.m_content_features ++ List.replicate k (ContentFeatures.new K),
        m_next_id := nid }) ∨
    (name ≠ [] ∧ d.name = name ∧ name ≠ str_ignore ∧
      m.m_name_id_mapping.getId name = some id ∧ m2 = (storeDefinition id d m).2) ∨
    (name ≠ [] ∧ d.name = name ∧ name ≠ str_ignore ∧
      m.m_name_id_mapping.getId name = none ∧ id ≠ K.CONTENT_IGNORE ∧
      ∃ k nid f0, (m.m_content_features ++ List.replicate k (ContentFeatures.new K))[id]? = some f0 ∧
        f0.name = [] ∧
        m2 = (storeDefinition id d (addNameIdMapping id name { m with
          m_content_features := m.m_content_features ++ List.replicate k (ContentFeatures.new K),
          m_next_id := nid })).2) := by
  unfold CNodeDefManager.set at h
  have hsame : m = { m with
      m_content_features := m.m_content_features ++ List.replicate 0 (ContentFeatures.new K),
      m_next_id := m.m_next_id } := by simp
  split_ifs at h with h1 h2 h3
  · cases h; exact Or.inl ⟨rfl, 0, m.m_next_id, hsame⟩
  · cases h; exact Or.inl ⟨rfl, 0, m.m_next_id, hsame⟩
  · cases h; exact Or.inl ⟨rfl, 0, m.m_next_id, hsame⟩
  · have hd : d.name = name := by
      by_contra hc; exact h2 (fun e => hc e.symm)
    cases hg : m.m_name_id_mapping.getId name with
    | some i =>
      rw [hg] at h
      simp only [storeDefinition, Option.some.injEq, Prod.mk.injEq] at h
      obtain ⟨hi, hm⟩ := h
      subst hi
      exact Or.inr (Or.inl ⟨h1, hd, h3, rfl, hm.symm⟩)
    | none =>
      rw [hg] at h
      simp only at h
      unfold allocateId at h
      cases hl : allocateIdLoop K m.m_next_id fuel m.m_next_id m.m_content_features with
      | none => rw [hl] at h; simp at h
      | some r =>
        obtain ⟨i, feats, nid⟩ := r
        rw [hl] at h
        simp only at h
        obtain ⟨⟨k, hk⟩, hr⟩ := allocateIdLoop_spec K _ _ _ _ _ hl
        simp only at hk hr
        subst hk
        split_ifs at h with hi
        · cases h; exact Or.inl ⟨rfl, k, nid, rfl⟩
        · simp only [storeDefinition, Option.some.injEq, Prod.mk.injEq] at h
          obtain ⟨hi2, hm⟩ := h
          subst hi2
          rcases hr with hr | ⟨f0, hf0, hn⟩
          · exact absurd hr hi
          · exact Or.inr (Or.inr ⟨h1, hd, h3, rfl, hi, k, nid, f0, hf0, hn, hm.symm⟩)
theorem getElem?_pad {α : Type} (l r : List α) (i : Nat) (a : α) (h : l[i]? = some a) :
    (l ++ r)[i]? = some a := by
  have hlt : i < l.length := by
    by_contra hc
    rw [List.getElem?_eq_none (by omega)] at h
    exact Option.noConfusion h
  rw [List.getElem?_append_left hlt]
  exact h

theorem getElem?_lt {α : Type} (l : List α) (i : Nat) (a : α) (h : l[i]? = some a) :
    i < l.length := by
  by_contra hc
  rw [List.getElem?_eq_none (by omega)] at h
  exact Option.noConfusion h

theorem getId_set (nm : NameIdMapping) (i : Nat) (name n : CppString) :
    (nm.set i name).getId n = if n = name then some i else nm.getId n := by
  simp [NameIdMapping.set, NameIdMapping.getId, amFind_amSet]

theorem getId_eraseName (nm : NameIdMapping) (name n : CppString) :
    (nm.eraseName name).getId n = if n = name then none else nm.getId n := by
  unfold NameIdMapping.eraseName NameIdMapping.getId
  cases h : amFind name nm.m_name_to_id with
  | some i => simp [amFind_amErase]
  | none =>
    by_cases hn : n = name
    · simp [hn, h]
    · simp [hn]

theorem str_air_ne_nil : str_air ≠ [] := by decide
theorem str_ignore_ne_nil : str_ignore ≠ [] := by decide

theorem str_unknown_ne_nil : str_unknown ≠ [] := by decide

theorem Named_pad (K : Consts) (m : CNodeDefManager) (k nid c : Nat) (s : CppString)
    (h : Named m c s) :
    Named { m with
      m_content_features := m.m_content_features ++ List.replicate k (ContentFeatures.new K),
      m_next_id := nid } c s := by
  obtain ⟨f, hf, hn⟩ := h
  exact ⟨f, getElem?_pad _ _ _ _ hf, hn⟩

theorem Inv_pad (K : Consts) (m : CNodeDefManager) (k nid : Nat) (h : Inv K m) :
    Inv K { m with
      m_content_features := m.m_content_features ++ List.replicate k (ContentFeatures.new K),
      m_next_id := nid } := by
  obtain ⟨hu, ha, hi, hnamed, hne⟩ := h
  exact ⟨Named_pad K m k nid _ _ hu, Named_pad K m k nid _ _ ha, Named_pad K m k nid _ _ hi,
    fun n i hg => Named_pad K m k nid _ _ (hnamed n i hg), hne⟩

/-- Storing `d` in a slot that already carries the name of `d` keeps every
named slot named. -/
theorem Named_store_same (m : CNodeDefManager) (id c : Nat) (d : ContentFeatures)
    (s : CppString) (hid : Named m id d.name) (h : Named m c s) :
    Named (storeDefinition id d m).2 c s := by
  obtain ⟨f, hf, hn⟩ := h
  obtain ⟨f1, hf1, hn1⟩ := hid
  have hlt := getElem?_lt _ _ _ hf1
  by_cases hc : id = c
  · refine ⟨d, ?_, ?_⟩
    · simp only [storeDefinition]
      rw [List.getElem?_set, if_pos hc, if_pos hlt]
    · rw [hc, hf] at hf1
      cases hf1
      rw [← hn1, hn]
  · refine ⟨f, ?_, hn⟩
    simp only [storeDefinition]
    rw [List.getElem?_set, if_neg hc]
    exact hf

/-- Storing `d` in a slot whose definition has the empty name keeps every
slot with a non-empty name. -/
theorem Named_store_fresh (m : CNodeDefManager) (id c : Nat) (d : ContentFeatures)
    (s : CppString) (hid : Named m id []) (hs : s ≠ []) (h : Named m c s) :
    Named (storeDefinition id d m).2 c s := by
  obtain ⟨f, hf, hn⟩ := h
  obtain ⟨f1, hf1, hn1⟩ := hid
  have hc : id ≠ c := by
    intro hc
    rw [hc, hf] at hf1
    cases hf1
    exact hs (hn.symm.trans hn1)
  refine ⟨f, ?_, hn⟩
  simp only [storeDefinition]
  rw [List.getElem?_set, if_neg hc]
  exact hf

theorem Named_store_self (m : CNodeDefManager) (id : Nat) (d : ContentFeatures) (s : CppString)
    (hid : Named m id s) : Named (storeDefinition id d m).2 id d.name := by
  obtain ⟨f1, hf1, _⟩ := hid
  have hlt := getElem?_lt _ _ _ hf1
  refine ⟨d, ?_, rfl⟩
  simp only [storeDefinition]
  rw [List.getElem?_set, if_pos rfl, if_pos hlt]

theorem Inv_set (K : Consts) (fuel : Nat) (name : CppString) (d : ContentFeatures)
    (m m2 : CNodeDefManager) (id : Nat) (hinv : Inv K m)
    (h : CNodeDefManager.set K fuel name d m = some (id, m2)) : Inv K m2 := by
  rcases set_cases K fuel name d m m2 id h with
    ⟨_, k, nid, hm⟩ | ⟨h1, hd, h3, hg, hm⟩ | ⟨h1, hd, h3, hg, hi, k, nid, f0, hf0, hn0, hm⟩
  · subst hm; exact Inv_pad K m k nid hinv
  · subst hm
    obtain ⟨hu, ha, hig, hnamed, hne⟩ := hinv
    have hid : Named m id d.name := hd ▸ hnamed name id hg
    exact ⟨Named_store_same m id _ d _ hid hu, Named_store_same m id _ d _ hid ha,
      Named_store_same m id _ d _ hid hig,
      fun n i hgn => Named_store_same m id _ d _ hid (hnamed n i hgn), hne⟩
  · subst hm
    obtain ⟨hu, ha, hig, hnamed, hne⟩ := Inv_pad K m k nid hinv
    have hid : Named (addNameIdMapping id name { m with
        m_content_features := m.m_content_features ++ List.replicate k (ContentFeatures.new K),
        m_next_id := nid }) id [] := ⟨f0, hf0, hn0⟩
    refine ⟨Named_store_fresh _ id _ d _ hid str_unknown_ne_nil hu,
      Named_store_fresh _ id _ d _ hid str_air_ne_nil ha,
      Named_store_fresh _ id _ d _ hid str_ignore_ne_nil hig, ?_, ?_⟩
    · intro n i hgn
      simp only [storeDefinition, addNameIdMapping] at hgn
      rw [getId_set] at hgn
      by_cases hnn : n = name
      · rw [if_pos hnn] at hgn
        cases hgn
        rw [hnn, ← hd]
        exact Named_store_self _ id d _ hid
      · rw [if_neg hnn] at hgn
        have hn : n ≠ [] := by
          intro hc
          rw [hc, hne] at hgn
          exact Option.noConfusion hgn
        exact Named_store_fresh _ id _ d _ hid hn (hnamed n i hgn)
    · simp only [storeDefinition, addNameIdMapping]
      rw [getId_set, if_neg (Ne.symm h1)]
      exact hne

theorem Inv_removeNode (K : Consts) (name : CppString) (m : CNodeDefManager) (hinv : Inv K m) :
    Inv K (removeNode K name m) := by
  obtain ⟨hu, ha, hi, hnamed, hne⟩ := hinv
  unfold removeNode
  by_cases hg : (m.m_name_id_mapping.getId name).isSome
  · simp only [if_pos hg]
    refine ⟨hu, ha, hi, ?_, ?_⟩
    · intro n i hgn
      simp only at hgn
      rw [getId_eraseName] at hgn
      split_ifs at hgn with hc
      exact hnamed n i hgn
    · simp only
      rw [getId_eraseName]
      split_ifs
      · rfl
      · exact hne
  · simp only [if_neg hg]
    exact ⟨hu, ha, hi, hnamed, hne⟩

theorem Inv_allocateDummy (K : Consts) (fuel : Nat) (name : CppString)
    (m m2 : CNodeDefManager) (id : Nat) (hinv : Inv K m)
    (h : allocateDummy K fuel name m = some (id, m2)) : Inv K m2 := by
  unfold allocateDummy at h
  split_ifs at h with h1
  · cases h; exact hinv
  · exact Inv_set K fuel name _ m m2 id hinv h

theorem Inv_run (K : Consts) (fuel : Nat) (op : Op) (m m2 : CNodeDefManager) (hinv : Inv K m)
    (h : op.run K fuel m = some m2) : Inv K m2 := by
  cases op with
  | set name d =>
    simp only [Op.run, Option.map_eq_some'] at h
    obtain ⟨⟨id, m3⟩, h, rfl⟩ := h
    exact Inv_set K fuel name d m m3 id hinv h
  | allocateDummy name =>
    simp only [Op.run, Option.map_eq_some'] at h
    obtain ⟨⟨id, m3⟩, h, rfl⟩ := h
    exact Inv_allocateDummy K fuel name m m3 id hinv h
  | removeNode name =>
    simp only [Op.run] at h
    split_ifs at h
    cases h
    exact Inv_removeNode K name m hinv
  | updateAliases all getAlias =>
    simp only [Op.run, Option.some.injEq] at h
    subst h
    obtain ⟨hu, ha, hi, hnamed, hne⟩ := hinv
    exact ⟨hu, ha, hi, hnamed, hne⟩

theorem Reach_Inv (K : Consts) (hK : K.WF) (allow : Op → Prop) (m : CNodeDefManager)
    (h : Reach K allow m) : Inv K m := by
  induction h with
  | init => exact Inv_new K hK
  | step m m2 op fuel _ _ hrun ih => exact Inv_run K fuel op m m2 ih hrun

theorem Sync_new (K : Consts) : Sync (CNodeDefManager.new K) := by
  intro n
  have h : (CNodeDefManager.new K).m_name_id_mapping_with_aliases =
      amInsert str_ignore K.CONTENT_IGNORE (amInsert str_air K.CONTENT_AIR
        (amInsert str_unknown K.CONTENT_UNKNOWN [])) := by
    unfold CNodeDefManager.new clear
    by_cases h0 : K.CONTENT_IGNORE = 0 <;>
      simp [h0, addNameIdMapping, NameIdMapping.set, resetNodeResolveState]
  rw [new_name_to_id]
  unfold getId
  rw [h]
  simp only [amFind_amInsert, amFind]
  by_cases h1 : n = str_unknown
  · simp [h1]
  · by_cases h2 : n = str_air
    · simp [h2, str_air, str_unknown]
    · by_cases h3 : n = str_ignore
      · simp [h3, str_air, str_unknown, str_ignore]
      · simp [h1, h2, h3, Ne.symm h1, Ne.symm h2, Ne.symm h3]

theorem Sync_pad (K : Consts) (m : CNodeDefManager) (k nid : Nat) (h : Sync m) :
    Sync { m with
      m_content_features := m.m_content_features ++ List.replicate k (ContentFeatures.new K),
      m_next_id := nid } := h

theorem Sync_set (K : Consts) (fuel : Nat) (name : CppString) (d : ContentFeatures)
    (m m2 : CNodeDefManager) (id : Nat) (hs : Sync m)
    (h : CNodeDefManager.set K fuel name d m = some (id, m2)) : Sync m2 := by
  rcases set_cases K fuel name d m m2 id h with
    ⟨_, k, nid, hm⟩ | ⟨h1, hd, h3, hg, hm⟩ | ⟨h1, hd, h3, hg, hi, k, nid, f0, hf0, hn0, hm⟩
  · subst hm; exact hs
  · subst hm; exact hs
  · subst hm
    intro n
    have hsn := hs n
    have hsname := hs name
    unfold getId at hsn hsname ⊢
    simp only [storeDefinition, addNameIdMapping]
    rw [getId_set, amFind_amInsert, hsn]
    by_cases hnn : n = name
    · subst hnn
      rw [hg]
    · rw [if_neg hnn]
      cases m.m_name_id_mapping.getId n <;> simp [hnn]

theorem Sync_removeNode (K : Consts) (name : CppString) (m : CNodeDefManager) (hs : Sync m) :
    Sync (removeNode K name m) := by
  unfold removeNode
  by_cases hg : (m.m_name_id_mapping.getId name).isSome
  · simp only [if_pos hg]
    intro n
    have hsn := hs n
    unfold getId at hsn ⊢
    simp only
    rw [getId_eraseName, amFind_amErase, hsn]
  · simp only [if_neg hg]
    exact hs

theorem Sync_run (K : Consts) (fuel : Nat) (op : Op) (m m2 : CNodeDefManager) (hs : Sync m)
    (hop : op.withoutAliases) (h : op.run K fuel m = some m2) : Sync m2 := by
  cases op with
  | set name d =>
    simp only [Op.run, Option.map_eq_some'] at h
    obtain ⟨⟨id, m3⟩, h, rfl⟩ := h
    exact Sync_set K fuel name d m m3 id hs h
  | allocateDummy name =>
    simp only [Op.run, Option.map_eq_some'] at h
    obtain ⟨⟨id, m3⟩, h, rfl⟩ := h
    unfold allocateDummy at h
    split_ifs at h with h1
    · cases h; exact hs
    · exact Sync_set K fuel name _ m m3 id hs h
  | removeNode name =>
    simp only [Op.run] at h
    split_ifs at h
    cases h
    exact Sync_removeNode K name m hs
  | updateAliases all getAlias => exact absurd hop (by simp [Op.withoutAliases])

theorem Reach_Sync (K : Consts) (m : CNodeDefManager) (h : Reach K Op.withoutAliases m) :
    Sync m := by
  induction h with
  | init => exact Sync_new K
  | step m m2 op fuel _ hop hrun ih => exact Sync_run K fuel op m m2 ih hop hrun

theorem get_of_getElem? (K : Consts) (m : CNodeDefManager) (c : Nat) (f : ContentFeatures)
    (h : m.m_content_features[c]? = some f) : CNodeDefManager.get K m c = f := by
  have hlt := getElem?_lt _ _ _ h
  unfold CNodeDefManager.get
  rw [if_pos hlt, List.getD_eq_getElem?_getD, h]
  rfl

theorem allocateIdLoop_diverges (K : Consts) (features : List ContentFeatures)
    (hlen : features.length = 65536) (hfull : ∀ f ∈ features, f.name ≠ []) :
    ∀ (fuel id : Nat), id < 65536 → allocateIdLoop K 0 fuel id features = none := by
  intro fuel
  induction fuel with
  | zero => intro id _; rfl
  | succ fuel ih =>
    intro id hid
    unfold allocateIdLoop
    rw [if_pos (Nat.zero_le id)]
    have hpad : features ++ List.replicate (id + 1 - features.length) (ContentFeatures.new K)
        = features := by
      rw [hlen, Nat.sub_eq_zero_of_le (by omega)]
      simp
    simp only [hpad]
    have hmem : features.getD id (ContentFeatures.new K) ∈ features := by
      rw [List.getD_eq_getElem _ _ (by omega)]
      exact List.getElem_mem _
    rw [if_neg (hfull _ hmem)]
    exact ih _ (Nat.mod_lt _ (by norm_num))
theorem allocateIdLoop_exhausted (K : Consts) (next_id : Nat) (features : List ContentFeatures)
    (hnext : 0 < next_id) (hlen : features.length = 65536)
    (hfull : ∀ i, next_id ≤ i → i < 65536 → (features.getD i (ContentFeatures.new K)).name ≠ []) :
    ∀ (n id : Nat), id < 65536 → next_id ≤ id → 65536 - id ≤ n →
      allocateIdLoop K next_id (n + 1) id features = some (K.CONTENT_IGNORE, features, next_id) := by
  intro n
  induction n with
  | zero => intro id h1 _ h3; omega
  | succ n ih =>
    intro id h1 h2 h3
    unfold allocateIdLoop
    rw [if_pos h2]
    have hpad : features ++ List.replicate (id + 1 - features.length) (ContentFeatures.new K)
        = features := by
      rw [hlen, Nat.sub_eq_zero_of_le (by omega)]
      simp
    simp only [hpad]
    rw [if_neg (hfull id h2 h1)]
    by_cases hlast : id = 65535
    · subst hlast
      unfold allocateIdLoop
      rw [if_neg (by omega)]
    · have hmod : (id + 1) % 65536 = id + 1 := Nat.mod_eq_of_lt (by omega)
      rw [hmod]
      exact ih (id + 1) (by omega) (by omega) (by omega)

/-- When `m_next_id` is positive and every slot from `m_next_id` to 65535
carries a name, `allocateId` returns `CONTENT_IGNORE` and leaves the registry
as it was. -/
theorem allocateId_exhausted (K : Consts) (m : CNodeDefManager)
    (hnext : 0 < m.m_next_id) (hlt : m.m_next_id < 65536)
    (hlen : m.m_content_features.length = 65536)
    (hfull : ∀ i, m.m_next_id ≤ i → i < 65536 →
      (m.m_content_features.getD i (ContentFeatures.new K)).name ≠ []) :
    CNodeDefManager.allocateId K 65537 m = some (K.CONTENT_IGNORE, m) := by
  unfold CNodeDefManager.allocateId
  rw [allocateIdLoop_exhausted K _ _ hnext hlen hfull 65536 m.m_next_id hlt (Nat.le_refl _)
    (by omega)]

/-! ## Lemmas on the stream codecs -/

theorem Rd.bind_apply {α β : Type} (p : Rd α) (f : α → Rd β) (s : IStream) :
    (p >>= f) s = match p s with
      | (Except.ok a, s1) => f a s1
      | (Except.error e, s1) => (Except.error e, s1) := rfl

theorem Rd.pure_apply {α : Type} (a : α) (s : IStream) :
    (pure a : Rd α) s = (Except.ok a, s) := rfl

theorem Rd.bind_ok {α β : Type} (p : Rd α) (f : α → Rd β) (s s1 : IStream) (a : α)
    (h : p s = (Except.ok a, s1)) : (p >>= f) s = f a s1 := by
  rw [Rd.bind_apply, h]

theorem Rd.bind_error {α β : Type} (p : Rd α) (f : α → Rd β) (s s1 : IStream) (e : Exception)
    (h : p s = (Except.error e, s1)) : (p >>= f) s = (Except.error e, s1) := by
  rw [Rd.bind_apply, h]

theorem read_append (w rest : List Nat) :
    IStream.read w.length ⟨w ++ rest, false⟩ = (w, ⟨rest, false⟩) := by
  simp [IStream.read]

theorem readRaw_append (w rest : List Nat) :
    readRaw w.length ⟨w ++ rest, false⟩ = (Except.ok w, ⟨rest, false⟩) := by
  simp [readRaw, read_append]

theorem readBuf_append (n : Nat) (w rest : List Nat) (h : w.length = n) :
    readBuf n ⟨w ++ rest, false⟩ = (Except.ok w, ⟨rest, false⟩) := by
  subst h
  unfold readBuf
  rw [Rd.bind_ok _ _ _ _ _ (readRaw_append w rest), Rd.pure_apply]
  simp

theorem beNat_writeU8 (x : Nat) : beNat (writeU8 x) = x % 256 := by
  simp [beNat, writeU8]

theorem beNat_writeU16 (x : Nat) : beNat (writeU16 x) = x % 65536 := by
  simp [beNat, writeU16]
  omega

theorem beNat_writeU32 (x : Nat) : beNat (writeU32 x) = x % 4294967296 := by
  simp [beNat, writeU32]
  omega

theorem readU8_write (x : Nat) (rest : List Nat) :
    readU8 ⟨writeU8 x ++ rest, false⟩ = (Except.ok (x % 256), ⟨rest, false⟩) := by
  unfold readU8
  rw [Rd.bind_ok _ _ _ _ _ (readBuf_append 1 (writeU8 x) rest rfl), Rd.pure_apply, beNat_writeU8]

theorem readU16_write (x : Nat) (rest : List Nat) :
    readU16 ⟨writeU16 x ++ rest, false⟩ = (Except.ok (x % 65536), ⟨rest, false⟩) := by
  unfold readU16
  rw [Rd.bind_ok _ _ _ _ _ (readBuf_append 2 (writeU16 x) rest rfl), Rd.pure_apply, beNat_writeU16]

theorem readU32_write (x : Nat) (rest : List Nat) :
    readU32 ⟨writeU32 x ++ rest, false⟩ = (Except.ok (x % 4294967296), ⟨rest, false⟩) := by
  unfold readU32
  rw [Rd.bind_ok _ _ _ _ _ (readBuf_append 4 (writeU32 x) rest rfl), Rd.pure_apply, beNat_writeU32]

theorem deSerializeString_write (plain w rest : List Nat)
    (h : serializeString plain = Except.ok w) :
    deSerializeString ⟨w ++ rest, false⟩ = (Except.ok plain, ⟨rest, false⟩) := by
  unfold serializeString at h
  split_ifs at h with hlen
  cases h
  have hmod : plain.length % 65536 = plain.length := Nat.mod_eq_of_lt (by omega)
  have h2 : readRaw 2 ⟨writeU16 plain.length ++ plain ++ rest, false⟩ =
      (Except.ok (writeU16 plain.length), ⟨plain ++ rest, false⟩) := by
    rw [List.append_assoc]
    exact readRaw_append (writeU16 plain.length) (plain ++ rest)
  unfold deSerializeString
  rw [Rd.bind_ok _ _ _ _ _ h2, if_neg (by simp [writeU16])]
  simp only [beNat_writeU16, hmod]
  by_cases h0 : plain.length = 0
  · have : plain = [] := List.length_eq_zero.mp h0
    subst this
    rfl
  · rw [if_neg h0, Rd.bind_ok _ _ _ _ _ (readRaw_append plain rest), if_neg (by simp)]
    rfl

theorem writeU32_length (x : Nat) : (writeU32 x).length = 4 := rfl
theorem writeU16_length (x : Nat) : (writeU16 x).length = 2 := rfl
theorem writeU8_length (x : Nat) : (writeU8 x).length = 1 := rfl
theorem writeF1000_length (q : ℚ) : (writeF1000 q).length = 4 := rfl
theorem writeV3F1000_length (v : v3f) : (writeV3F1000 v).length = 12 := rfl

theorem f1000_exact (n : Int) : f1000 ((n : ℚ) / 1000) = n := by
  unfold f1000
  have h : (n : ℚ) / 1000 * 1000 = (n : ℚ) := by norm_num
  rw [h]
  simp

theorem toSigned_ofSigned_32 (n : Int) (h1 : -2147483648 ≤ n) (h2 : n < 2147483648) :
    toSigned 32 (ofSigned 32 n % 4294967296) = n := by
  unfold toSigned ofSigned
  norm_num
  have hpos : (0 : Int) ≤ n % 4294967296 := Int.emod_nonneg _ (by norm_num)
  have hlt : n % 4294967296 < 4294967296 := Int.emod_lt_of_pos _ (by norm_num)
  have hmod : (n % 4294967296).toNat % 4294967296 = (n % 4294967296).toNat := by
    apply Nat.mod_eq_of_lt
    omega
  rw [hmod]
  have hcast : (((n % 4294967296).toNat : Nat) : Int) = n % 4294967296 := Int.toNat_of_nonneg hpos
  split_ifs with hc
  · omega
  · omega

theorem readF1000_decode (q : ℚ) (hq : F1000Exact q) :
    (toSigned 32 (beNat (writeF1000 q)) : ℚ) / 1000 = q := by
  obtain ⟨n, hn, h1, h2⟩ := hq
  unfold writeF1000
  rw [beNat_writeU32, hn, f1000_exact, toSigned_ofSigned_32 n h1 h2]

theorem readV3F1000_write (v : v3f) (rest : List Nat) (hx : F1000Exact v.X)
    (hy : F1000Exact v.Y) (hz : F1000Exact v.Z) :
    readV3F1000 ⟨writeV3F1000 v ++ rest, false⟩ = (Except.ok v, ⟨rest, false⟩) := by
  unfold readV3F1000
  rw [Rd.bind_ok _ _ _ _ _ (readBuf_append 12 (writeV3F1000 v) rest rfl), Rd.pure_apply]
  have e1 : (writeV3F1000 v).take 4 = writeF1000 v.X := rfl
  have e2 : ((writeV3F1000 v).drop 4).take 4 = writeF1000 v.Y := rfl
  have e3 : ((writeV3F1000 v).drop 8).take 4 = writeF1000 v.Z := rfl
  rw [e1, e2, e3, readF1000_decode _ hx, readF1000_decode _ hy, readF1000_decode _ hz]
/-! ## The built-in nodes under `deSerialize` -/

theorem clear_eq_new (K : Consts) (m : CNodeDefManager) :
    CNodeDefManager.clear K m = CNodeDefManager.new K := rfl

theorem Builtins_new (K : Consts) (hK : K.WF) : Builtins K (CNodeDefManager.new K) := by
  refine ⟨new_get_unknown K hK, new_get_air K hK, new_get_ignore K, ?_, ?_, ?_, ?_, ?_, ?_⟩
  · rw [new_name_to_id]; simp
  · rw [new_name_to_id]; simp [str_air, str_unknown]
  · rw [new_name_to_id]; simp [str_air, str_unknown, str_ignore]
  · rw [Sync_new, new_name_to_id]; simp
  · rw [Sync_new, new_name_to_id]; simp [str_air, str_unknown]
  · rw [Sync_new, new_name_to_id]; simp [str_air, str_unknown, str_ignore]

theorem acceptEntry_getElem?_ne (K : Consts) (i c : Nat) (f g : ContentFeatures)
    (m : CNodeDefManager) (hc : i ≠ c) (h : m.m_content_features[c]? = some g) :
    (CNodeDefManager.acceptEntry K i f m).m_content_features[c]? = some g := by
  unfold CNodeDefManager.acceptEntry CNodeDefManager.addNameIdMapping
  simp only
  rw [List.getElem?_set, if_neg hc]
  split_ifs
  · exact getElem?_pad _ _ _ _ h
  · exact h

theorem Builtins_acceptEntry (K : Consts) (i : Nat) (f : ContentFeatures) (m : CNodeDefManager)
    (hb : Builtins K m)
    (hi : ¬ (i = K.CONTENT_IGNORE ∨ i = K.CONTENT_AIR ∨ i = K.CONTENT_UNKNOWN))
    (hex : ¬ ((match m.m_name_id_mapping.getId f.name with
              | some existing_id => decide (i ≠ existing_id)
              | none => false) = true)) :
    Builtins K (CNodeDefManager.acceptEntry K i f m) := by
  simp only [not_or] at hi
  obtain ⟨hi1, hi2, hi3⟩ := hi
  have hname : ∀ (n : CppString) (c : Nat), m.m_name_id_mapping.getId n = some c → i ≠ c →
      n ≠ f.name := by
    intro n c hn hic he
    rw [← he, hn] at hex
    simp [hic] at hex
  have hmap : ∀ (n : CppString) (c : Nat), m.m_name_id_mapping.getId n = some c → i ≠ c →
      (CNodeDefManager.acceptEntry K i f m).m_name_id_mapping.getId n = some c := by
    intro n c hn hic
    unfold CNodeDefManager.acceptEntry CNodeDefManager.addNameIdMapping
    simp only
    rw [getId_set, if_neg (hname n c hn hic)]
    exact hn
  have halias : ∀ (n : CppString) (c : Nat), m.getId n = some c →
      (CNodeDefManager.acceptEntry K i f m).getId n = some c := by
    intro n c hn
    unfold CNodeDefManager.getId at hn ⊢
    unfold CNodeDefManager.acceptEntry CNodeDefManager.addNameIdMapping
    simp only
    rw [amFind_amInsert, hn]
  exact ⟨acceptEntry_getElem?_ne K i _ f _ m hi3 hb.unknown,
    acceptEntry_getElem?_ne K i _ f _ m hi2 hb.air,
    acceptEntry_getElem?_ne K i _ f _ m hi1 hb.ignore,
    hmap _ _ hb.id_unknown hi3, hmap _ _ hb.id_air hi2, hmap _ _ hb.id_ignore hi1,
    halias _ _ hb.alias_unknown, halias _ _ hb.alias_air, halias _ _ hb.alias_ignore⟩

theorem Builtins_registerEntry (K : Consts) (i : Nat) (f : ContentFeatures)
    (m : CNodeDefManager) (hb : Builtins K m) :
    Builtins K (CNodeDefManager.registerEntry K i f m) := by
  unfold CNodeDefManager.registerEntry
  split_ifs with h1 h2 h3
  · exact hb
  · exact hb
  · exact hb
  · exact Builtins_acceptEntry K _ _ m hb h1 h3

theorem Builtins_deSerializeLoop (K : Consts) :
    ∀ (n : Nat) (f : ContentFeatures) (is2 : IStream) (m : CNodeDefManager),
      Builtins K m → Builtins K (CNodeDefManager.deSerializeLoop K n f is2 m).2 := by
  intro n
  induction n with
  | zero => intro f is2 m hb; exact hb
  | succ n ih =>
    intro f is2 m hb
    rw [CNodeDefManager.deSerializeLoop]
    split
    · exact hb
    · split
      · exact hb
      · split
        · exact hb
        · exact ih _ _ _ (Builtins_registerEntry K _ _ m hb)

theorem Builtins_deSerialize (K : Consts) (hK : K.WF) (s : IStream) (m : CNodeDefManager) :
    Builtins K (CNodeDefManager.deSerialize K s m).2 := by
  have hb : Builtins K (CNodeDefManager.clear K m) := by
    rw [clear_eq_new]; exact Builtins_new K hK
  unfold CNodeDefManager.deSerialize
  simp only
  split
  · exact hb
  · split_ifs
    · exact hb
    · split
      · exact hb
      · split
        · exact hb
        · exact Builtins_deSerializeLoop K _ _ _ _ hb
/-! ## Readers depend only on the bytes they consume -/

theorem Good_pure {α : Type} (a : α) : Good (pure a : Rd α) := by
  constructor
  · intro d r d2 h
    rw [Rd.pure_apply] at h
    simp only [Prod.mk.injEq, IStream.mk.injEq, and_true] at h
    obtain ⟨hr, hd⟩ := h
    subst hr hd
    exact ⟨[], rfl, fun t => rfl⟩
  · intro d r s2 h
    rw [Rd.pure_apply] at h
    simp only [Prod.mk.injEq] at h
    rw [← h.2]

theorem Good_throw {α : Type} (e : Exception) : Good (Rd.throw e : Rd α) := by
  constructor
  · intro d r d2 h
    simp only [Rd.throw, Prod.mk.injEq, IStream.mk.injEq, and_true] at h
    obtain ⟨hr, hd⟩ := h
    subst hr hd
    exact ⟨[], rfl, fun t => rfl⟩
  · intro d r s2 h
    simp only [Rd.throw, Prod.mk.injEq] at h
    rw [← h.2]

theorem Good_bind {α β : Type} (p : Rd α) (f : α → Rd β) (hp : Good p) (hf : ∀ a, Good (f a)) :
    Good (p >>= f) := by
  constructor
  · intro d r d2 h
    rw [Rd.bind_apply] at h
    rcases hps : p ⟨d, false⟩ with ⟨r1, ⟨d1, b1⟩⟩
    rw [hps] at h
    cases r1 with
    | error e =>
      simp only [Prod.mk.injEq, IStream.mk.injEq] at h
      obtain ⟨hr, hd, hb⟩ := h
      subst hr hd hb
      obtain ⟨pre, hpre, hall⟩ := hp.loc d _ _ hps
      refine ⟨pre, hpre, fun t => ?_⟩
      rw [Rd.bind_apply, hall t]
    | ok a =>
      simp only at h
      cases b1 with
      | true =>
        have := (hf a).sticky d1 r _ h
        simp at this
      | false =>
        obtain ⟨pre1, hpre1, hall1⟩ := hp.loc d _ _ hps
        obtain ⟨pre2, hpre2, hall2⟩ := (hf a).loc d1 _ _ h
        refine ⟨pre1 ++ pre2, by rw [hpre1, hpre2, List.append_assoc], fun t => ?_⟩
        rw [Rd.bind_apply, List.append_assoc, hall1 (pre2 ++ t)]
        exact hall2 t
  · intro d r s2 h
    rw [Rd.bind_apply] at h
    rcases hps : p ⟨d, true⟩ with ⟨r1, s1⟩
    have hs1 := hp.sticky d _ _ hps
    rw [hps] at h
    cases r1 with
    | error e =>
      simp only [Prod.mk.injEq] at h
      rw [← h.2]; exact hs1
    | ok a =>
      simp only at h
      obtain ⟨d1, b1⟩ := s1
      simp only at hs1
      subst hs1
      exact (hf a).sticky d1 r s2 h

theorem Good_ite {α : Type} (c : Prop) [Decidable c] (p q : Rd α) (hp : Good p) (hq : Good q) :
    Good (if c then p else q) := by
  split_ifs
  · exact hp
  · exact hq

theorem read_local (n : Nat) (d b d2 : List Nat)
    (h : IStream.read n ⟨d, false⟩ = (b, ⟨d2, false⟩)) :
    b.length = n ∧ d = b ++ d2 ∧ ∀ t, IStream.read n ⟨b ++ t, false⟩ = (b, ⟨t, false⟩) := by
  unfold IStream.read at h
  simp only [Bool.false_eq_true, ↓reduceIte] at h
  split_ifs at h with hn
  swap
  · simp at h
  simp only [Prod.mk.injEq, IStream.mk.injEq, and_true] at h
  obtain ⟨hb, hd⟩ := h
  subst hb hd
  have hlen : (List.take n d).length = n := by simp [hn]
  refine ⟨hlen, (List.take_append_drop n d).symm, fun t => ?_⟩
  have := read_append (List.take n d) t
  rw [hlen] at this
  exact this

theorem read_sticky (n : Nat) (d : List Nat) :
    IStream.read n ⟨d, true⟩ = ([], ⟨d, true⟩) := by
  simp [IStream.read]

theorem Good_readRaw (n : Nat) : Good (readRaw n) := by
  constructor
  · intro d r d2 h
    unfold readRaw at h
    simp only [Prod.mk.injEq] at h
    obtain ⟨hr, hs⟩ := h
    have hread : IStream.read n ⟨d, false⟩ = ((IStream.read n ⟨d, false⟩).1, ⟨d2, false⟩) := by
      rw [← hs]
    obtain ⟨hlen, hd, hall⟩ := read_local n d _ d2 hread
    refine ⟨_, hd, fun t => ?_⟩
    unfold readRaw
    simp only [hall t]
    rw [← hr]
  · intro d r s2 h
    unfold readRaw at h
    simp only [read_sticky, Prod.mk.injEq] at h
    rw [← h.2]

theorem Good_readBuf (n : Nat) : Good (readBuf n) :=
  Good_bind _ _ (Good_readRaw n) (fun _ => Good_pure _)

theorem Good_readU8 : Good readU8 := Good_bind _ _ (Good_readBuf 1) (fun _ => Good_pure _)
theorem Good_readU16 : Good readU16 := Good_bind _ _ (Good_readBuf 2) (fun _ => Good_pure _)
theorem Good_readU32 : Good readU32 := Good_bind _ _ (Good_readBuf 4) (fun _ => Good_pure _)
theorem Good_readS16 : Good readS16 := Good_bind _ _ (Good_readBuf 2) (fun _ => Good_pure _)
theorem Good_readF1000 : Good readF1000 := Good_bind _ _ (Good_readBuf 4) (fun _ => Good_pure _)
theorem Good_readV3F1000 : Good readV3F1000 :=
  Good_bind _ _ (Good_readBuf 12) (fun _ => Good_pure _)

theorem Good_deSerializeString : Good deSerializeString := by
  unfold deSerializeString
  refine Good_bind _ _ (Good_readRaw 2) (fun buf => ?_)
  refine Good_ite _ _ _ (Good_throw _) ?_
  refine Good_ite _ _ _ (Good_pure _) ?_
  refine Good_bind _ _ (Good_readRaw _) (fun buf2 => ?_)
  exact Good_ite _ _ _ (Good_throw _) (Good_pure _)

theorem Good_deSerializeLongString (K : Consts) : Good (deSerializeLongString K) := by
  unfold deSerializeLongString
  refine Good_bind _ _ (Good_readRaw 4) (fun buf => ?_)
  refine Good_ite _ _ _ (Good_throw _) ?_
  refine Good_ite _ _ _ (Good_pure _) ?_
  refine Good_ite _ _ _ (Good_throw _) ?_
  refine Good_bind _ _ (Good_readRaw _) (fun buf2 => ?_)
  exact Good_ite _ _ _ (Good_throw _) (Good_pure _)

theorem Good_readBoxes : ∀ (n : Nat) (box : List aabb3f), Good (readBoxes n box) := by
  intro n
  induction n with
  | zero => intro box; exact Good_pure _
  | succ n ih =>
    intro box
    unfold readBoxes
    exact Good_bind _ _ Good_readV3F1000 (fun _ =>
      Good_bind _ _ Good_readV3F1000 (fun _ => ih _))

theorem Good_READBOXES (box : List aabb3f) : Good (READBOXES box) :=
  Good_bind _ _ Good_readU16 (fun _ => Good_readBoxes _ _)

theorem Good_NodeBox_deSerialize (K : Consts) (b : NodeBox) : Good (NodeBox.deSerialize K b) := by
  unfold NodeBox.deSerialize
  repeat' first
    | exact Good_pure _
    | exact Good_throw _
    | exact Good_readU8
    | exact Good_readU16
    | exact Good_readV3F1000
    | exact Good_readBoxes _ _
    | exact Good_READBOXES _
    | apply Good_ite
    | apply Good_bind
    | intro _
theorem Good_TileDef_deSerialize (K : Consts) (t : TileDef) (v dt : Nat) :
    Good (TileDef.deSerialize K t v dt) := by
  unfold TileDef.deSerialize
  repeat' first
    | exact Good_pure _
    | exact Good_throw _
    | exact Good_readU8
    | exact Good_readU16
    | exact Good_readF1000
    | exact Good_deSerializeString
    | apply Good_ite
    | apply Good_bind
    | intro _

theorem Good_deSerializeSimpleSoundSpec (ss : SimpleSoundSpec) :
    Good (deSerializeSimpleSoundSpec ss) :=
  Good_bind _ _ Good_deSerializeString (fun _ => Good_bind _ _ Good_readF1000 (fun _ =>
    Good_pure _))

theorem Good_readGroups : ∀ (n : Nat) (g : List (CppString × Int)), Good (readGroups n g) := by
  intro n
  induction n with
  | zero => intro g; exact Good_pure _
  | succ n ih =>
    intro g
    unfold readGroups
    exact Good_bind _ _ Good_deSerializeString (fun _ =>
      Good_bind _ _ Good_readS16 (fun _ => ih _))

theorem Good_readTiles (K : Consts) (v dt : Nat) :
    ∀ (n i : Nat) (tiles : List TileDef), Good (readTiles K v dt i n tiles) := by
  intro n
  induction n with
  | zero => intro i tiles; exact Good_pure _
  | succ n ih =>
    intro i tiles
    unfold readTiles
    exact Good_bind _ _ (Good_TileDef_deSerialize K _ v dt) (fun _ => ih _ _)

theorem Good_readIds : ∀ (n : Nat) (ids : List Nat), Good (readIds n ids) := by
  intro n
  induction n with
  | zero => intro ids; exact Good_pure _
  | succ n ih =>
    intro ids
    unfold readIds
    exact Good_bind _ _ Good_readU16 (fun _ => ih _)

theorem Good_deSerializeFields (K : Consts) (version : Nat) (f : ContentFeatures) :
    Good (ContentFeatures.deSerializeFields K version f) := by
  unfold ContentFeatures.deSerializeFields
  repeat' with_reducible first
    | apply Good_bind
    | apply Good_ite
    | exact Good_pure _
    | exact Good_throw _
    | exact Good_readU8
    | exact Good_readU16
    | exact Good_readU32
    | exact Good_readF1000
    | exact Good_deSerializeString
    | exact Good_readGroups _ _
    | exact Good_readTiles K _ _ _ _ _
    | exact Good_NodeBox_deSerialize K _
    | exact Good_deSerializeSimpleSoundSpec _
    | intro _

theorem Good_tryStep {α β : Type} (p : Rd α) (keep : β) (k : α → Rd β) (hp : Good p)
    (hk : ∀ a, Good (k a)) : Good (Rd.tryStep p keep k) := by
  constructor
  · intro d r d2 h
    unfold Rd.tryStep at h
    rcases hps : p ⟨d, false⟩ with ⟨r1, ⟨d1, b1⟩⟩
    rw [hps] at h
    cases r1 with
    | error e =>
      simp only [Prod.mk.injEq, IStream.mk.injEq] at h
      obtain ⟨hr, hd, hb⟩ := h
      subst hr hd hb
      obtain ⟨pre, hpre, hall⟩ := hp.loc d _ _ hps
      refine ⟨pre, hpre, fun t => ?_⟩
      unfold Rd.tryStep
      rw [hall t]
    | ok a =>
      simp only at h
      cases b1 with
      | true =>
        have := (hk a).sticky d1 r _ h
        simp at this
      | false =>
        obtain ⟨pre1, hpre1, hall1⟩ := hp.loc d _ _ hps
        obtain ⟨pre2, hpre2, hall2⟩ := (hk a).loc d1 _ _ h
        refine ⟨pre1 ++ pre2, by rw [hpre1, hpre2, List.append_assoc], fun t => ?_⟩
        unfold Rd.tryStep
        rw [List.append_assoc, hall1 (pre2 ++ t)]
        exact hall2 t
  · intro d r s2 h
    unfold Rd.tryStep at h
    rcases hps : p ⟨d, true⟩ with ⟨r1, s1⟩
    have hs1 := hp.sticky d _ _ hps
    rw [hps] at h
    cases r1 with
    | error e =>
      simp only [Prod.mk.injEq] at h
      rw [← h.2]; exact hs1
    | ok a =>
      simp only at h
      obtain ⟨d1, b1⟩ := s1
      simp only at hs1
      subst hs1
      exact (hk a).sticky d1 r s2 h

theorem Good_deSerializeTail (K : Consts) (f : ContentFeatures) :
    Good (ContentFeatures.deSerializeTail K f) := by
  unfold ContentFeatures.deSerializeTail
  repeat' with_reducible first
    | apply Good_tryStep
    | apply Good_bind
    | exact Good_pure _
    | exact Good_readU8
    | exact Good_readU16
    | exact Good_deSerializeString
    | exact Good_readIds _ _
    | exact Good_NodeBox_deSerialize K _
    | intro _

theorem Good_ContentFeatures_deSerialize (K : Consts) (f : ContentFeatures) :
    Good (ContentFeatures.deSerialize K f) := by
  unfold ContentFeatures.deSerialize
  repeat' with_reducible first
    | apply Good_bind
    | apply Good_ite
    | exact Good_pure _
    | exact Good_throw _
    | exact Good_readU8
    | exact Good_deSerializeFields K _ _
    | exact Good_deSerializeTail K _
    | intro _

theorem tryStep_ok {α β : Type} (p : Rd α) (keep : β) (k : α → Rd β)
    (hk : ∀ a s, ∃ g s2, k a s = (Except.ok g, s2)) (s : IStream) :
    ∃ g s2, Rd.tryStep p keep k s = (Except.ok g, s2) := by
  unfold Rd.tryStep
  rcases hps : p s with ⟨r1, s1⟩
  cases r1 with
  | error e => exact ⟨_, _, rfl⟩
  | ok a => exact hk a s1

/-- The `try` block of `ContentFeatures::deSerialize` never raises. -/
theorem deSerializeTail_ok (K : Consts) (f : ContentFeatures) (s : IStream) :
    ∃ g s2, ContentFeatures.deSerializeTail K f s = (Except.ok g, s2) := by
  unfold ContentFeatures.deSerializeTail
  apply tryStep_ok
  intro mesh s
  apply tryStep_ok
  intro cb s
  apply tryStep_ok
  intro r s
  exact ⟨_, _, rfl⟩

theorem Good_deSerializeHead (K : Consts) (f : ContentFeatures) :
    Good (ContentFeatures.deSerializeHead K f) := by
  unfold ContentFeatures.deSerializeHead
  repeat' with_reducible first
    | apply Good_bind
    | apply Good_ite
    | exact Good_pure _
    | exact Good_throw _
    | exact Good_readU8
    | exact Good_deSerializeFields K _ _
    | intro _

/-- For a record of version 7 or 8, `deSerialize` is `deSerializeHead`
followed by the `try` block. -/
theorem deSerialize_eq_head_tail (K : Consts) (f : ContentFeatures) (s : IStream) (v : Nat)
    (hv : (readU8 s).1 = Except.ok v) (h7 : 7 ≤ v) (h8 : v ≤ 8) :
    ContentFeatures.deSerialize K f s =
      (ContentFeatures.deSerializeHead K f >>= ContentFeatures.deSerializeTail K) s := by
  rcases hs : readU8 s with ⟨r1, s1⟩
  rw [hs] at hv
  change r1 = Except.ok v at hv
  subst hv
  unfold ContentFeatures.deSerialize ContentFeatures.deSerializeHead
  rw [Rd.bind_ok _ _ _ _ _ hs, Rd.bind_apply, Rd.bind_ok _ _ _ _ _ hs]
  rw [if_neg (by omega), if_neg (by omega), if_neg (by omega), if_neg (by omega)]
  rw [Rd.bind_apply]

theorem tryStep_inv {α β : Type} (P : β → Prop) (p : Rd α) (keep : β) (k : α → Rd β)
    (hkeep : P keep) (hk : ∀ a s g s2, k a s = (Except.ok g, s2) → P g)
    (s : IStream) (g : β) (s2 : IStream) (h : Rd.tryStep p keep k s = (Except.ok g, s2)) :
    P g := by
  unfold Rd.tryStep at h
  rcases hps : p s with ⟨r1, s1⟩
  rw [hps] at h
  cases r1 with
  | error e =>
    simp only [Prod.mk.injEq, Except.ok.injEq] at h
    rw [← h.1]; exact hkeep
  | ok a => exact hk a s1 g s2 h

/-- The `try` block assigns only the five fields `mesh`, `collision_box`,
`floodable`, `connects_to_ids` and `connect_sides`. -/
theorem deSerializeTail_fields (K : Consts) (f g : ContentFeatures) (s s2 : IStream)
    (h : ContentFeatures.deSerializeTail K f s = (Except.ok g, s2)) :
    f.withTailOf g = g := by
  unfold ContentFeatures.deSerializeTail at h
  refine tryStep_inv (fun g => f.withTailOf g = g) _ _ _ rfl ?_ s g s2 h
  intro mesh s g s2 h
  refine tryStep_inv (fun g => f.withTailOf g = g) _ _ _ rfl ?_ s g s2 h
  intro cb s g s2 h
  refine tryStep_inv (fun g => f.withTailOf g = g) _ _ _ rfl ?_ s g s2 h
  intro r s g s2 h
  rw [Rd.pure_apply] at h
  simp only [Prod.mk.injEq, Except.ok.injEq] at h
  rw [← h.1]
  rfl

theorem readU8_head (b : Nat) (rest : List Nat) :
    readU8 ⟨b :: rest, false⟩ = (Except.ok (b % 256), ⟨rest, false⟩) := by
  have h := readBuf_append 1 [b] rest rfl
  show readU8 ⟨[b] ++ rest, false⟩ = _
  unfold readU8
  rw [Rd.bind_ok _ _ _ _ _ h, Rd.pure_apply]
  simp [beNat]

theorem deSerializeHead_nil (K : Consts) (f : ContentFeatures) :
    ContentFeatures.deSerializeHead K f ⟨[], false⟩ = (Except.ok f, ⟨[], true⟩) := by
  have h : readU8 ⟨[], false⟩ = (Except.ok 0, ⟨[], true⟩) := by decide
  unfold ContentFeatures.deSerializeHead
  rw [Rd.bind_ok _ _ _ _ _ h, if_pos (by norm_num)]
  rfl

/-! ## C10: truncation of a record after the field `waving` -/

/-- C10: let `r` be a record whose first byte (the version) is 7 or 8 and
that `ContentFeatures::deSerialize` reads completely (it returns normally
without reaching the end of the stream).  For every truncation of `r` at a
byte offset `k` at or after the end of the field `waving`, `deSerialize`
raises no error, and the resulting definition agrees with the one read from
`r` in every field except the five assigned inside the `try` block; in
particular every field from `name` through `waving` has the same value. -/
theorem truncated_tail_is_tolerated (K : Consts) (f0 g : ContentFeatures) (r d2 : List Nat)
    (hv : r.head? = some 7 ∨ r.head? = some 8)
    (hr : ContentFeatures.deSerialize K f0 ⟨r, false⟩ = (Except.ok g, ⟨d2, false⟩))
    (k : Nat) (hk : ContentFeatures.wavingEnd K f0 r ≤ k) :
    ∃ g2 s2, ContentFeatures.deSerialize K f0 ⟨r.take k, false⟩ = (Except.ok g2, s2) ∧
      g2.withTailOf g = g := by
  obtain ⟨v, rest, hrv, h7, h8⟩ : ∃ v rest, r = v :: rest ∧ 7 ≤ v ∧ v ≤ 8 := by
    cases r with
    | nil => simp at hv
    | cons v rest =>
      simp only [List.head?_cons, Option.some.injEq] at hv
      exact ⟨v, rest, rfl, by omega, by omega⟩
  have hmod : v % 256 = v := Nat.mod_eq_of_lt (by omega)
  have hver : (readU8 ⟨r, false⟩).1 = Except.ok v := by
    rw [hrv, readU8_head, hmod]
  rw [deSerialize_eq_head_tail K f0 _ v hver h7 h8, Rd.bind_apply] at hr
  rcases hh : ContentFeatures.deSerializeHead K f0 ⟨r, false⟩ with ⟨r1, ⟨dh, bh⟩⟩
  rw [hh] at hr
  cases r1 with
  | error e => simp at hr
  | ok fh =>
    simp only at hr
    cases bh with
    | true =>
      have := (Good_deSerializeTail K fh).sticky dh _ _ hr
      simp at this
    | false =>
      obtain ⟨pre, hpre, hall⟩ := (Good_deSerializeHead K f0).loc r _ _ hh
      have hwe : ContentFeatures.wavingEnd K f0 r = pre.length := by
        unfold ContentFeatures.wavingEnd
        rw [hh]
        simp only
        rw [hpre, List.length_append]
        omega
      rw [hwe] at hk
      have htake : r.take k = pre ++ dh.take (k - pre.length) := by
        rw [hpre, List.take_append_eq_append_take, List.take_of_length_le hk]
      have hver2 : (readU8 ⟨r.take k, false⟩).1 = Except.ok v := by
        cases pre with
        | nil =>
          have h0 := hall []
          rw [List.nil_append, deSerializeHead_nil] at h0
          simp at h0
        | cons p0 pre1 =>
          rw [htake]
          rw [hrv] at hpre
          simp only [List.cons_append, List.cons.injEq] at hpre
          rw [← hpre.1, List.cons_append, readU8_head, hmod]
      obtain ⟨g2, s2, hg2⟩ := deSerializeTail_ok K fh ⟨dh.take (k - pre.length), false⟩
      refine ⟨g2, s2, ?_, ?_⟩
      · rw [deSerialize_eq_head_tail K f0 _ v hver2 h7 h8, Rd.bind_apply, htake,
          hall (dh.take (k - pre.length))]
        exact hg2
      · have e1 := deSerializeTail_fields K fh g _ _ hr
        have e2 := deSerializeTail_fields K fh g2 _ _ hg2
        rw [← e1, ← e2]
        rfl

/-! ## Readers against the bytes of the writers -/

theorem Reads_pure {α : Type} (a : α) : Reads (pure a : Rd α) [] a := fun _ => rfl

theorem Reads_bind {α β : Type} (p : Rd α) (k : α → Rd β) (w1 w2 : List Nat) (a : α) (b : β)
    (hp : Reads p w1 a) (hk : Reads (k a) w2 b) : Reads (p >>= k) (w1 ++ w2) b := by
  intro rest
  rw [List.append_assoc, Rd.bind_ok _ _ _ _ _ (hp (w2 ++ rest))]
  exact hk rest

theorem Reads_ite_pos {α : Type} (c : Prop) [Decidable c] (p q : Rd α) (w : List Nat) (a : α)
    (hc : c) (hp : Reads p w a) : Reads (if c then p else q) w a := by
  rw [if_pos hc]; exact hp

theorem Reads_ite_neg {α : Type} (c : Prop) [Decidable c] (p q : Rd α) (w : List Nat) (a : α)
    (hc : ¬ c) (hq : Reads q w a) : Reads (if c then p else q) w a := by
  rw [if_neg hc]; exact hq

theorem Reads_ite {α : Type} (c : Prop) [Decidable c] (p q : Rd α) (w : List Nat) (a b : α)
    (hp : Reads p w a) (hq : Reads q w b) :
    Reads (if c then p else q) w (if c then a else b) := by
  split_ifs
  · exact hp
  · exact hq

theorem Reads_readU8 (x : Nat) : Reads readU8 (writeU8 x) (x % 256) :=
  fun rest => readU8_write x rest

theorem Reads_readU16 (x : Nat) : Reads readU16 (writeU16 x) (x % 65536) :=
  fun rest => readU16_write x rest

theorem Reads_readU32 (x : Nat) : Reads readU32 (writeU32 x) (x % 4294967296) :=
  fun rest => readU32_write x rest

theorem Reads_readS16 (i : Int) :
    Reads readS16 (writeS16 i) (toSigned 16 (beNat (writeS16 i))) := by
  intro rest
  unfold readS16
  rw [Rd.bind_ok _ _ _ _ _ (readBuf_append 2 (writeS16 i) rest rfl)]
  rfl

theorem Reads_readF1000 (q : ℚ) :
    Reads readF1000 (writeF1000 q) ((toSigned 32 (beNat (writeF1000 q)) : ℚ) / 1000) := by
  intro rest
  unfold readF1000
  rw [Rd.bind_ok _ _ _ _ _ (readBuf_append 4 (writeF1000 q) rest rfl)]
  rfl

theorem Reads_readV3F1000 (v : v3f) :
    Reads readV3F1000 (writeV3F1000 v)
      ⟨(toSigned 32 (beNat (writeF1000 v.X)) : ℚ) / 1000,
        (toSigned 32 (beNat (writeF1000 v.Y)) : ℚ) / 1000,
        (toSigned 32 (beNat (writeF1000 v.Z)) : ℚ) / 1000⟩ := by
  intro rest
  unfold readV3F1000
  rw [Rd.bind_ok _ _ _ _ _ (readBuf_append 12 (writeV3F1000 v) rest rfl)]
  rfl

theorem Reads_deSerializeString (plain w : List Nat) (h : serializeString plain = Except.ok w) :
    Reads deSerializeString w plain :=
  fun rest => deSerializeString_write plain w rest h

theorem Except_bind_ok {ε α β : Type} (x : Except ε α) (f : α → Except ε β) (b : β)
    (h : (x >>= f) = Except.ok b) : ∃ a, x = Except.ok a ∧ f a = Except.ok b := by
  cases x with
  | error e => exact Except.noConfusion h
  | ok a => exact ⟨a, rfl, h⟩

/-- The value `readBoxes` returns on the bytes of `writeBoxes`. -/
theorem Reads_readBoxes : ∀ (boxes acc : List aabb3f),
    ∃ r, Reads (readBoxes boxes.length acc) (writeBoxes boxes) r := by
  intro boxes
  induction boxes with
  | nil => intro acc; exact ⟨acc, Reads_pure acc⟩
  | cons b rest ih =>
    intro acc
    obtain ⟨r, hr⟩ := ih (acc ++ [⟨⟨(toSigned 32 (beNat (writeF1000 b.MinEdge.X)) : ℚ) / 1000,
        (toSigned 32 (beNat (writeF1000 b.MinEdge.Y)) : ℚ) / 1000,
        (toSigned 32 (beNat (writeF1000 b.MinEdge.Z)) : ℚ) / 1000⟩,
      ⟨(toSigned 32 (beNat (writeF1000 b.MaxEdge.X)) : ℚ) / 1000,
        (toSigned 32 (beNat (writeF1000 b.MaxEdge.Y)) : ℚ) / 1000,
        (toSigned 32 (beNat (writeF1000 b.MaxEdge.Z)) : ℚ) / 1000⟩⟩])
    refine ⟨r, ?_⟩
    show Reads (readBoxes (rest.length + 1) acc)
      (writeV3F1000 b.MinEdge ++ writeV3F1000 b.MaxEdge ++ writeBoxes rest) r
    rw [List.append_assoc]
    unfold readBoxes
    exact Reads_bind _ _ _ _ _ _ (Reads_readV3F1000 _)
      (Reads_bind _ _ _ _ _ _ (Reads_readV3F1000 _) hr)

theorem Reads_READBOXES (boxes acc : List aabb3f) (h : boxes.length < 65536) :
    ∃ r, Reads (READBOXES acc) (WRITEBOX boxes) r := by
  obtain ⟨r, hr⟩ := Reads_readBoxes boxes acc
  refine ⟨r, ?_⟩
  unfold READBOXES WRITEBOX
  refine Reads_bind _ _ _ _ _ _ (Reads_readU16 _) ?_
  rw [Nat.mod_eq_of_lt h]
  exact hr
theorem nodebox_types_ne (K : Consts) (hK : K.WF) :
    K.NODEBOX_REGULAR ≠ K.NODEBOX_FIXED ∧ K.NODEBOX_REGULAR ≠ K.NODEBOX_WALLMOUNTED ∧
    K.NODEBOX_REGULAR ≠ K.NODEBOX_LEVELED ∧ K.NODEBOX_REGULAR ≠ K.NODEBOX_CONNECTED ∧
    K.NODEBOX_FIXED ≠ K.NODEBOX_WALLMOUNTED ∧ K.NODEBOX_FIXED ≠ K.NODEBOX_LEVELED ∧
    K.NODEBOX_FIXED ≠ K.NODEBOX_CONNECTED ∧ K.NODEBOX_WALLMOUNTED ≠ K.NODEBOX_LEVELED ∧
    K.NODEBOX_WALLMOUNTED ≠ K.NODEBOX_CONNECTED ∧ K.NODEBOX_LEVELED ≠ K.NODEBOX_CONNECTED := by
  have hnd := hK.nodebox_types
  simp only [List.nodup_cons, List.mem_cons, List.mem_singleton, not_or, List.not_mem_nil,
    not_false_eq_true, List.nodup_nil, and_true] at hnd
  obtain ⟨⟨h1, h2, h3, h4⟩, ⟨h5, h6, h7⟩, ⟨h8, h9⟩, h10⟩ := hnd
  exact ⟨h1, h2, h3, h4, h5, h6, h7, h8, h9, h10⟩

theorem nodebox_types_lt (K : Consts) (hK : K.WF) :
    K.NODEBOX_REGULAR < 256 ∧ K.NODEBOX_FIXED < 256 ∧ K.NODEBOX_WALLMOUNTED < 256 ∧
    K.NODEBOX_LEVELED < 256 ∧ K.NODEBOX_CONNECTED < 256 :=
  ⟨hK.nodebox_lt _ (by simp), hK.nodebox_lt _ (by simp), hK.nodebox_lt _ (by simp),
    hK.nodebox_lt _ (by simp), hK.nodebox_lt _ (by simp)⟩

theorem Reads_NodeBox_regular (K : Consts) (hK : K.WF) (b b0 : NodeBox) (pv : Nat)
    (hpv : 27 ≤ pv) (ht : b.type = K.NODEBOX_REGULAR) :
    ∃ r, Reads (NodeBox.deSerialize K b0) (NodeBox.serialize K b pv) r := by
  obtain ⟨n1, n2, n3, n4, n5, n6, n7, n8, n9, n10⟩ := nodebox_types_ne K hK
  obtain ⟨l1, l2, l3, l4, l5⟩ := nodebox_types_lt K hK
  have hv : (if pv ≥ 27 then 3 else if pv ≥ 21 then 2 else 1) = 3 := by rw [if_pos hpv]
  have hmodt : K.NODEBOX_REGULAR % 256 = K.NODEBOX_REGULAR := Nat.mod_eq_of_lt l1
  have hser : NodeBox.serialize K b pv = writeU8 3 ++ (writeU8 b.type ++ []) := by
    unfold NodeBox.serialize
    simp [hv, ht, n1, n2, n3, n4, n5, n6, n7, n8, n9, n10, Ne.symm n1, Ne.symm n2, Ne.symm n3,
      Ne.symm n4, Ne.symm n5, Ne.symm n6, Ne.symm n7, Ne.symm n8, Ne.symm n9, Ne.symm n10]
  rw [hser]
  unfold NodeBox.deSerialize
  refine Exists.intro ?_ ?_
  rotate_left
  apply Reads_bind
  · exact Reads_readU8 _
  refine Reads_ite_neg _ _ _ _ _ (by decide) ?_
  apply Reads_bind
  · exact Reads_readU8 _
  refine Reads_ite_neg _ _ _ _ _ (by simp [hmodt, ht, n1, n2, n3, n4, n5, n6, n7, n8, n9, n10, Ne.symm n1, Ne.symm n2,
      Ne.symm n3, Ne.symm n4, Ne.symm n5, Ne.symm n6, Ne.symm n7, Ne.symm n8, Ne.symm n9, Ne.symm n10]) ?_
  refine Reads_ite_neg _ _ _ _ _ (by simp [hmodt, ht, n1, n2, n3, n4, n5, n6, n7, n8, n9, n10, Ne.symm n1, Ne.symm n2,
      Ne.symm n3, Ne.symm n4, Ne.symm n5, Ne.symm n6, Ne.symm n7, Ne.symm n8, Ne.symm n9, Ne.symm n10]) ?_
  refine Reads_ite_neg _ _ _ _ _ (by simp [hmodt, ht, n1, n2, n3, n4, n5, n6, n7, n8, n9, n10, Ne.symm n1, Ne.symm n2,
      Ne.symm n3, Ne.symm n4, Ne.symm n5, Ne.symm n6, Ne.symm n7, Ne.symm n8, Ne.symm n9, Ne.symm n10]) ?_
  exact Reads_pure _

theorem Reads_NodeBox_fixed (K : Consts) (hK : K.WF) (b b0 : NodeBox) (pv : Nat)
    (hpv : 27 ≤ pv) (ht : b.type = K.NODEBOX_FIXED) (hlen : b.fixed.length < 65536) :
    ∃ r, Reads (NodeBox.deSerialize K b0) (NodeBox.serialize K b pv) r := by
  obtain ⟨n1, n2, n3, n4, n5, n6, n7, n8, n9, n10⟩ := nodebox_types_ne K hK
  obtain ⟨l1, l2, l3, l4, l5⟩ := nodebox_types_lt K hK
  have hv : (if pv ≥ 27 then 3 else if pv ≥ 21 then 2 else 1) = 3 := by rw [if_pos hpv]
  have hmodt : K.NODEBOX_FIXED % 256 = K.NODEBOX_FIXED := Nat.mod_eq_of_lt l2
  obtain ⟨r1, hr1⟩ := Reads_readBoxes b.fixed (NodeBox.reset K b0).fixed
  have hmod : b.fixed.length % 65536 = b.fixed.length := Nat.mod_eq_of_lt hlen
  have hr2 : Reads (readBoxes (b.fixed.length % 65536) (NodeBox.reset K b0).fixed)
      (writeBoxes b.fixed) r1 := by rw [hmod]; exact hr1
  have hser : NodeBox.serialize K b pv =
      writeU8 3 ++ (writeU8 b.type ++ (writeU16 b.fixed.length ++ (writeBoxes b.fixed ++ []))) := by
    unfold NodeBox.serialize
    simp [hv, ht, n1, n2, n3, n4, n5, n6, n7, n8, n9, n10, Ne.symm n1, Ne.symm n2, Ne.symm n3,
      Ne.symm n4, Ne.symm n5, Ne.symm n6, Ne.symm n7, Ne.symm n8, Ne.symm n9, Ne.symm n10]
  rw [hser]
  unfold NodeBox.deSerialize
  refine Exists.intro ?_ ?_
  rotate_left
  apply Reads_bind
  · exact Reads_readU8 _
  refine Reads_ite_neg _ _ _ _ _ (by decide) ?_
  apply Reads_bind
  · exact Reads_readU8 _
  refine Reads_ite_pos _ _ _ _ _ (by simp [hmodt, ht, n1, n2, n3, n4, n5, n6, n7, n8, n9, n10, Ne.symm n1, Ne.symm n2,
      Ne.symm n3, Ne.symm n4, Ne.symm n5, Ne.symm n6, Ne.symm n7, Ne.symm n8, Ne.symm n9, Ne.symm n10]) ?_
  apply Reads_bind
  · exact Reads_readU16 _
  apply Reads_bind
  · exact hr2
  exact Reads_pure _

theorem Reads_NodeBox_leveled (K : Consts) (hK : K.WF) (b b0 : NodeBox) (pv : Nat)
    (hpv : 27 ≤ pv) (ht : b.type = K.NODEBOX_LEVELED) (hlen : b.fixed.length < 65536) :
    ∃ r, Reads (NodeBox.deSerialize K b0) (NodeBox.serialize K b pv) r := by
  obtain ⟨n1, n2, n3, n4, n5, n6, n7, n8, n9, n10⟩ := nodebox_types_ne K hK
  obtain ⟨l1, l2, l3, l4, l5⟩ := nodebox_types_lt K hK
  have hv : (if pv ≥ 27 then 3 else if pv ≥ 21 then 2 else 1) = 3 := by rw [if_pos hpv]
  have hmodt : K.NODEBOX_LEVELED % 256 = K.NODEBOX_LEVELED := Nat.mod_eq_of_lt l4
  obtain ⟨r1, hr1⟩ := Reads_readBoxes b.fixed (NodeBox.reset K b0).fixed
  have hmod : b.fixed.length % 65536 = b.fixed.length := Nat.mod_eq_of_lt hlen
  have hr2 : Reads (readBoxes (b.fixed.length % 65536) (NodeBox.reset K b0).fixed)
      (writeBoxes b.fixed) r1 := by rw [hmod]; exact hr1
  have hser : NodeBox.serialize K b pv =
      writeU8 3 ++ (writeU8 b.type ++ (writeU16 b.fixed.length ++ (writeBoxes b.fixed ++ []))) := by
    unfold NodeBox.serialize
    simp [hv, ht, n1, n2, n3, n4, n5, n6, n7, n8, n9, n10, Ne.symm n1, Ne.symm n2, Ne.symm n3,
      Ne.symm n4, Ne.symm n5, Ne.symm n6, Ne.symm n7, Ne.symm n8, Ne.symm n9, Ne.symm n10]
  rw [hser]
  unfold NodeBox.deSerialize
  refine Exists.intro ?_ ?_
  rotate_left
  apply Reads_bind
  · exact Reads_readU8 _
  refine Reads_ite_neg _ _ _ _ _ (by decide) ?_
  apply Reads_bind
  · exact Reads_readU8 _
  refine Reads_ite_pos _ _ _ _ _ (by simp [hmodt, ht, n1, n2, n3, n4, n5, n6, n7, n8, n9, n10, Ne.symm n1, Ne.symm n2,
      Ne.symm n3, Ne.symm n4, Ne.symm n5, Ne.symm n6, Ne.symm n7, Ne.symm n8, Ne.symm n9, Ne.symm n10]) ?_
  apply Reads_bind
  · exact Reads_readU16 _
  apply Reads_bind
  · exact hr2
  exact Reads_pure _

theorem Reads_NodeBox_wallmounted (K : Consts) (hK : K.WF) (b b0 : NodeBox) (pv : Nat)
    (hpv : 27 ≤ pv) (ht : b.type = K.NODEBOX_WALLMOUNTED) :
    ∃ r, Reads (NodeBox.deSerialize K b0) (NodeBox.serialize K b pv) r := by
  obtain ⟨n1, n2, n3, n4, n5, n6, n7, n8, n9, n10⟩ := nodebox_types_ne K hK
  obtain ⟨l1, l2, l3, l4, l5⟩ := nodebox_types_lt K hK
  have hv : (if pv ≥ 27 then 3 else if pv ≥ 21 then 2 else 1) = 3 := by rw [if_pos hpv]
  have hmodt : K.NODEBOX_WALLMOUNTED % 256 = K.NODEBOX_WALLMOUNTED := Nat.mod_eq_of_lt l3
  have hser : NodeBox.serialize K b pv =
      writeU8 3 ++ (writeU8 b.type ++ (writeV3F1000 b.wall_top.MinEdge ++
        (writeV3F1000 b.wall_top.MaxEdge ++ (writeV3F1000 b.wall_bottom.MinEdge ++
        (writeV3F1000 b.wall_bottom.MaxEdge ++ (writeV3F1000 b.wall_side.MinEdge ++
        (writeV3F1000 b.wall_side.MaxEdge ++ []))))))) := by
    unfold NodeBox.serialize
    simp [hv, ht, n1, n2, n3, n4, n5, n6, n7, n8, n9, n10, Ne.symm n1, Ne.symm n2, Ne.symm n3,
      Ne.symm n4, Ne.symm n5, Ne.symm n6, Ne.symm n7, Ne.symm n8, Ne.symm n9, Ne.symm n10]
  rw [hser]
  unfold NodeBox.deSerialize
  refine Exists.intro ?_ ?_
  rotate_left
  apply Reads_bind
  · exact Reads_readU8 _
  refine Reads_ite_neg _ _ _ _ _ (by decide) ?_
  apply Reads_bind
  · exact Reads_readU8 _
  refine Reads_ite_neg _ _ _ _ _ (by simp [hmodt, ht, n1, n2, n3, n4, n5, n6, n7, n8, n9, n10, Ne.symm n1, Ne.symm n2,
      Ne.symm n3, Ne.symm n4, Ne.symm n5, Ne.symm n6, Ne.symm n7, Ne.symm n8, Ne.symm n9, Ne.symm n10]) ?_
  refine Reads_ite_pos _ _ _ _ _ (by simp [hmodt, ht, n1, n2, n3, n4, n5, n6, n7, n8, n9, n10, Ne.symm n1, Ne.symm n2,
      Ne.symm n3, Ne.symm n4, Ne.symm n5, Ne.symm n6, Ne.symm n7, Ne.symm n8, Ne.symm n9, Ne.symm n10]) ?_
  apply Reads_bind
  · exact Reads_readV3F1000 _
  apply Reads_bind
  · exact Reads_readV3F1000 _
  apply Reads_bind
  · exact Reads_readV3F1000 _
  apply Reads_bind
  · exact Reads_readV3F1000 _
  apply Reads_bind
  · exact Reads_readV3F1000 _
  apply Reads_bind
  · exact Reads_readV3F1000 _
  exact Reads_pure _

theorem Reads_NodeBox_connected (K : Consts) (hK : K.WF) (b b0 : NodeBox) (pv : Nat)
    (hpv : 27 ≤ pv) (ht : b.type = K.NODEBOX_CONNECTED)
    (hs : b.fixed.length < 65536 ∧ b.connect_top.length < 65536 ∧
      b.connect_bottom.length < 65536 ∧ b.connect_front.length < 65536 ∧
      b.connect_left.length < 65536 ∧ b.connect_back.length < 65536 ∧
      b.connect_right.length < 65536) :
    ∃ r, Reads (NodeBox.deSerialize K b0) (NodeBox.serialize K b pv) r := by
  obtain ⟨n1, n2, n3, n4, n5, n6, n7, n8, n9, n10⟩ := nodebox_types_ne K hK
  obtain ⟨l1, l2, l3, l4, l5⟩ := nodebox_types_lt K hK
  have hv : (if pv ≥ 27 then 3 else if pv ≥ 21 then 2 else 1) = 3 := by rw [if_pos hpv]
  have hmodt : K.NODEBOX_CONNECTED % 256 = K.NODEBOX_CONNECTED := Nat.mod_eq_of_lt l5
  obtain ⟨h1, h2, h3, h4, h5, h6, h7⟩ := hs
  obtain ⟨r1, hr1⟩ := Reads_READBOXES b.fixed (NodeBox.reset K b0).fixed h1
  obtain ⟨r2, hr2⟩ := Reads_READBOXES b.connect_top (NodeBox.reset K b0).connect_top h2
  obtain ⟨r3, hr3⟩ := Reads_READBOXES b.connect_bottom (NodeBox.reset K b0).connect_bottom h3
  obtain ⟨r4, hr4⟩ := Reads_READBOXES b.connect_front (NodeBox.reset K b0).connect_front h4
  obtain ⟨r5, hr5⟩ := Reads_READBOXES b.connect_left (NodeBox.reset K b0).connect_left h5
  obtain ⟨r6, hr6⟩ := Reads_READBOXES b.connect_back (NodeBox.reset K b0).connect_back h6
  obtain ⟨r7, hr7⟩ := Reads_READBOXES b.connect_right (NodeBox.reset K b0).connect_right h7
  have hser : NodeBox.serialize K b pv =
      writeU8 3 ++ (writeU8 b.type ++ (WRITEBOX b.fixed ++ (WRITEBOX b.connect_top ++
        (WRITEBOX b.connect_bottom ++ (WRITEBOX b.connect_front ++
        (WRITEBOX b.connect_left ++ (WRITEBOX b.connect_back ++
        (WRITEBOX b.connect_right ++ [])))))))) := by
    unfold NodeBox.serialize
    simp [hv, ht, n1, n2, n3, n4, n5, n6, n7, n8, n9, n10, Ne.symm n1, Ne.symm n2, Ne.symm n3,
      Ne.symm n4, Ne.symm n5, Ne.symm n6, Ne.symm n7, Ne.symm n8, Ne.symm n9, Ne.symm n10]
  rw [hser]
  unfold NodeBox.deSerialize
  refine Exists.intro ?_ ?_
  rotate_left
  apply Reads_bind
  · exact Reads_readU8 _
  refine Reads_ite_neg _ _ _ _ _ (by decide) ?_
  apply Reads_bind
  · exact Reads_readU8 _
  refine Reads_ite_neg _ _ _ _ _ (by simp [hmodt, ht, n1, n2, n3, n4, n5, n6, n7, n8, n9, n10, Ne.symm n1, Ne.symm n2,
      Ne.symm n3, Ne.symm n4, Ne.symm n5, Ne.symm n6, Ne.symm n7, Ne.symm n8, Ne.symm n9, Ne.symm n10]) ?_
  refine Reads_ite_neg _ _ _ _ _ (by simp [hmodt, ht, n1, n2, n3, n4, n5, n6, n7, n8, n9, n10, Ne.symm n1, Ne.symm n2,
      Ne.symm n3, Ne.symm n4, Ne.symm n5, Ne.symm n6, Ne.symm n7, Ne.symm n8, Ne.symm n9, Ne.symm n10]) ?_
  refine Reads_ite_pos _ _ _ _ _ (by simp [hmodt, ht, n1, n2, n3, n4, n5, n6, n7, n8, n9, n10, Ne.symm n1, Ne.symm n2,
      Ne.symm n3, Ne.symm n4, Ne.symm n5, Ne.symm n6, Ne.symm n7, Ne.symm n8, Ne.symm n9, Ne.symm n10]) ?_
  apply Reads_bind
  · exact hr1
  apply Reads_bind
  · exact hr2
  apply Reads_bind
  · exact hr3
  apply Reads_bind
  · exact hr4
  apply Reads_bind
  · exact hr5
  apply Reads_bind
  · exact hr6
  apply Reads_bind
  · exact hr7
  exact Reads_pure _

/-- On the current protocol `NodeBox::deSerialize` consumes exactly the bytes
written by `NodeBox::serialize` and returns normally. -/
theorem Reads_NodeBox (K : Consts) (hK : K.WF) (b b0 : NodeBox) (pv : Nat) (hpv : 27 ≤ pv)
    (ht : b.validType K) (hs : b.sizesOk K) :
    ∃ r, Reads (NodeBox.deSerialize K b0) (NodeBox.serialize K b pv) r := by
  unfold NodeBox.validType at ht
  simp only [List.mem_cons, List.mem_singleton, List.not_mem_nil, or_false] at ht
  rcases ht with ht | ht | ht | ht | ht
  · exact Reads_NodeBox_regular K hK b b0 pv hpv ht
  · exact Reads_NodeBox_fixed K hK b b0 pv hpv ht (hs.1 (Or.inl ht))
  · exact Reads_NodeBox_wallmounted K hK b b0 pv hpv ht
  · exact Reads_NodeBox_leveled K hK b b0 pv hpv ht (hs.1 (Or.inr ht))
  · exact Reads_NodeBox_connected K hK b b0 pv hpv ht (hs.2 ht)
theorem Reads_pure_bind {α β : Type} (a : α) (k : α → Rd β) (w : List Nat) (b : β)
    (hk : Reads (k a) w b) : Reads ((pure a : Rd α) >>= k) w b := by
  intro rest
  rw [Rd.bind_ok _ _ _ _ _ (Rd.pure_apply a _)]
  exact hk rest

theorem Consumes_pure {α : Type} (a : α) : Consumes (pure a : Rd α) [] := ⟨a, Reads_pure a⟩

theorem Consumes_bind {α β : Type} (p : Rd α) (k : α → Rd β) (w1 w2 : List Nat) (a : α)
    (hp : Reads p w1 a) (hk : Consumes (k a) w2) : Consumes (p >>= k) (w1 ++ w2) := by
  obtain ⟨b, hb⟩ := hk
  exact ⟨b, Reads_bind _ _ _ _ _ _ hp hb⟩

theorem Consumes_pure_bind {α β : Type} (a : α) (k : α → Rd β) (w : List Nat)
    (hk : Consumes (k a) w) : Consumes ((pure a : Rd α) >>= k) w := by
  obtain ⟨b, hb⟩ := hk
  exact ⟨b, Reads_pure_bind _ _ _ _ hb⟩

theorem Consumes_ite_pos {α : Type} (c : Prop) [Decidable c] (p q : Rd α) (w : List Nat)
    (hc : c) (hp : Consumes p w) : Consumes (if c then p else q) w := by
  rw [if_pos hc]; exact hp

theorem Consumes_ite_neg {α : Type} (c : Prop) [Decidable c] (p q : Rd α) (w : List Nat)
    (hc : ¬ c) (hq : Consumes q w) : Consumes (if c then p else q) w := by
  rw [if_neg hc]; exact hq

theorem Consumes_ite {α : Type} (c : Prop) [Decidable c] (p q : Rd α) (w : List Nat)
    (hp : Consumes p w) (hq : Consumes q w) : Consumes (if c then p else q) w := by
  split_ifs
  · exact hp
  · exact hq

theorem Consumes_TileDef (K : Consts) (t t0 : TileDef) (cfv dt pv : Nat) (hpv : 27 ≤ pv)
    (w : List Nat) (hw : t.serialize pv = Except.ok w) :
    Consumes (TileDef.deSerialize K t0 cfv dt) w := by
  unfold TileDef.serialize at hw
  obtain ⟨name, hname, hw⟩ := Except_bind_ok _ _ _ hw
  have hw2 : w = writeU8 2 ++ (name ++ (writeU8 t.animation.type ++
      (writeU16 t.animation.aspect_w ++ (writeU16 t.animation.aspect_h ++
      (writeF1000 t.animation.length ++ (writeU8 (boolByte t.backface_culling) ++
      (writeU8 (boolByte t.tileable_horizontal) ++
      (writeU8 (boolByte t.tileable_vertical) ++ [])))))))) := by
    have h26 : pv ≥ 26 := by omega
    have h17 : pv ≥ 17 := by omega
    simp only [h26, h17, if_true, pure, Except.pure, Except.ok.injEq] at hw
    rw [← hw]
    simp
  rw [hw2]
  have hs := Reads_deSerializeString _ _ hname
  unfold TileDef.deSerialize
  refine Consumes_bind _ _ _ _ _ (Reads_readU8 _) ?_
  refine Consumes_bind _ _ _ _ _ hs ?_
  refine Consumes_bind _ _ _ _ _ (Reads_readU8 _) ?_
  refine Consumes_bind _ _ _ _ _ (Reads_readU16 _) ?_
  refine Consumes_bind _ _ _ _ _ (Reads_readU16 _) ?_
  refine Consumes_bind _ _ _ _ _ (Reads_readF1000 _) ?_
  refine Consumes_ite_pos _ _ _ _ (by decide) ?_
  refine Consumes_bind _ _ _ _ _ (Reads_readU8 _) ?_
  refine Consumes_pure_bind _ _ _ ?_
  refine Consumes_ite_pos _ _ _ _ (by decide) ?_
  refine Consumes_bind _ _ _ _ _ (Reads_readU8 _) ?_
  refine Consumes_bind _ _ _ _ _ (Reads_readU8 _) ?_
  refine Consumes_pure_bind _ _ _ ?_
  exact Consumes_ite _ _ _ _ (Consumes_pure _) (Consumes_pure _)

theorem Consumes_readTiles (K : Consts) (tiles : List TileDef) (cfv dt pv : Nat) (hpv : 27 ≤ pv) :
    ∀ (n i : Nat) (tiles0 : List TileDef) (w : List Nat),
      serializeTiles K tiles pv i n = Except.ok w →
      Consumes (readTiles K cfv dt i n tiles0) w := by
  intro n
  induction n with
  | zero =>
    intro i tiles0 w hw
    simp only [serializeTiles, pure, Except.pure, Except.ok.injEq] at hw
    subst hw
    exact ⟨tiles0, Reads_pure _⟩
  | succ n ih =>
    intro i tiles0 w hw
    unfold serializeTiles at hw
    obtain ⟨hd, hhd, hw⟩ := Except_bind_ok _ _ _ hw
    obtain ⟨tl, htl, hw⟩ := Except_bind_ok _ _ _ hw
    simp only [pure, Except.pure, Except.ok.injEq] at hw
    subst hw
    obtain ⟨t1, ht1⟩ := Consumes_TileDef K _ (tiles0.getD i K.TileDef_new) cfv dt pv hpv hd hhd
    obtain ⟨r, hr⟩ := ih (i + 1) (tiles0.set i t1) tl htl
    refine ⟨r, ?_⟩
    unfold readTiles
    exact Reads_bind _ _ _ _ _ _ ht1 hr

theorem Consumes_readGroups : ∀ (gs acc : List (CppString × Int)) (w : List Nat),
    serializeGroups gs = Except.ok w → Consumes (readGroups gs.length acc) w := by
  intro gs
  induction gs with
  | nil =>
    intro acc w hw
    simp only [serializeGroups, pure, Except.pure, Except.ok.injEq] at hw
    subst hw
    exact ⟨acc, Reads_pure _⟩
  | cons g rest ih =>
    intro acc w hw
    unfold serializeGroups at hw
    obtain ⟨name, hname, hw⟩ := Except_bind_ok _ _ _ hw
    obtain ⟨tl, htl, hw⟩ := Except_bind_ok _ _ _ hw
    simp only [pure, Except.pure, Except.ok.injEq] at hw
    subst hw
    obtain ⟨r, hr⟩ := ih (amSet g.1 (toSigned 16 (beNat (writeS16 g.2))) acc) tl htl
    refine ⟨r, ?_⟩
    show Reads (readGroups (rest.length + 1) acc) _ r
    unfold readGroups
    rw [List.append_assoc]
    exact Reads_bind _ _ _ _ _ _ (Reads_deSerializeString _ _ hname)
      (Reads_bind _ _ _ _ _ _ (Reads_readS16 _) hr)

theorem Consumes_readIds : ∀ (ids acc : List Nat),
    Consumes (readIds ids.length acc) (writeIds ids) := by
  intro ids
  induction ids with
  | nil => intro acc; exact ⟨acc, Reads_pure _⟩
  | cons i rest ih =>
    intro acc
    obtain ⟨r, hr⟩ := ih (setInsert (i % 65536) acc)
    refine ⟨r, ?_⟩
    show Reads (readIds (rest.length + 1) acc) (writeU16 i ++ writeIds rest) r
    unfold readIds
    exact Reads_bind _ _ _ _ _ _ (Reads_readU16 _) hr

theorem Consumes_sound (ss ss0 : SimpleSoundSpec) (w : List Nat)
    (hw : serializeSimpleSoundSpec ss = Except.ok w) :
    Consumes (deSerializeSimpleSoundSpec ss0) w := by
  unfold serializeSimpleSoundSpec at hw
  obtain ⟨name, hname, hw⟩ := Except_bind_ok _ _ _ hw
  simp only [pure, Except.pure, Except.ok.injEq] at hw
  subst hw
  refine Exists.intro ?_ ?_
  rotate_left
  unfold deSerializeSimpleSoundSpec
  apply Reads_bind
  · exact Reads_deSerializeString _ _ hname
  have h : writeF1000 ss.gain = writeF1000 ss.gain ++ [] := by simp
  rw [h]
  apply Reads_bind
  · exact Reads_readF1000 _
  exact Reads_pure _

/-! ## Reading back what `serialize` wrote: whole records and tables -/

theorem ReadsP_pure {α : Type} (a : α) (P : α → Prop) (h : P a) :
    ReadsP (pure a : Rd α) [] P := ⟨a, Reads_pure a, h⟩

theorem ReadsP_bind {α β : Type} (p : Rd α) (k : α → Rd β) (w1 w2 : List Nat) (a : α)
    (P : β → Prop) (hp : Reads p w1 a) (hk : ReadsP (k a) w2 P) :
    ReadsP (p >>= k) (w1 ++ w2) P := by
  obtain ⟨b, hb, hP⟩ := hk
  exact ⟨b, Reads_bind _ _ _ _ _ _ hp hb, hP⟩

theorem ReadsP_bindP {α β : Type} (p : Rd α) (k : α → Rd β) (w1 w2 : List Nat)
    (Q : α → Prop) (P : β → Prop) (hp : ReadsP p w1 Q) (hk : ∀ a, Q a → ReadsP (k a) w2 P) :
    ReadsP (p >>= k) (w1 ++ w2) P := by
  obtain ⟨a, ha, hQ⟩ := hp
  exact ReadsP_bind _ _ _ _ _ _ ha (hk a hQ)

theorem ReadsP_bindC {α β : Type} (p : Rd α) (k : α → Rd β) (w1 w2 : List Nat)
    (P : β → Prop) (hp : Consumes p w1) (hk : ∀ a, ReadsP (k a) w2 P) :
    ReadsP (p >>= k) (w1 ++ w2) P := by
  obtain ⟨a, ha⟩ := hp
  exact ReadsP_bind _ _ _ _ _ _ ha (hk a)

theorem ReadsP_ite_neg {α : Type} (c : Prop) [Decidable c] (p q : Rd α) (w : List Nat)
    (P : α → Prop) (hc : ¬ c) (hq : ReadsP q w P) : ReadsP (if c then p else q) w P := by
  rw [if_neg hc]; exact hq

theorem ReadsP_tryStep {α β : Type} (p : Rd α) (keep : β) (k : α → Rd β) (w1 w2 : List Nat)
    (a : α) (P : β → Prop) (hp : Reads p w1 a) (hk : ReadsP (k a) w2 P) :
    ReadsP (Rd.tryStep p keep k) (w1 ++ w2) P := by
  obtain ⟨b, hb, hP⟩ := hk
  refine ⟨b, ?_, hP⟩
  intro rest
  unfold Rd.tryStep
  rw [List.append_assoc, hp (w2 ++ rest)]
  exact hb rest

theorem ReadsP_tryStepC {α β : Type} (p : Rd α) (keep : β) (k : α → Rd β) (w1 w2 : List Nat)
    (P : β → Prop) (hp : Consumes p w1) (hk : ∀ a, ReadsP (k a) w2 P) :
    ReadsP (Rd.tryStep p keep k) (w1 ++ w2) P := by
  obtain ⟨a, ha⟩ := hp
  exact ReadsP_tryStep _ _ _ _ _ _ _ ha (hk a)

theorem Consumes_of_ReadsP {α : Type} (p : Rd α) (w : List Nat) (P : α → Prop)
    (h : ReadsP p w P) : Consumes p w := by
  obtain ⟨a, ha, _⟩ := h
  exact ⟨a, ha⟩

/-- The fields from `name` to `waving` as `ContentFeatures::serialize` writes
them are read back by `deSerializeFields`, which recovers the name. -/
theorem ReadsP_deSerializeFields (K : Consts) (hK : K.WF) (f f0 : ContentFeatures)
    (pv cfv pt2 : Nat) (hpv : 27 ≤ pv)
    (hnb : f.node_box.validType K) (hsb : f.selection_box.validType K)
    (hnbs : f.node_box.sizesOk K) (hsbs : f.selection_box.sizesOk K)
    (hg : f.groups.length < 65536)
    (name groups tiledef tiledef_special legacy laf las sf sd sdug : List Nat)
    (h1 : serializeString f.name = Except.ok name)
    (h2 : serializeGroups f.groups = Except.ok groups)
    (h3 : serializeTiles K f.tiledef pv 0 6 = Except.ok tiledef)
    (h4 : serializeTiles K f.tiledef_special pv 0 K.CF_SPECIAL_COUNT = Except.ok tiledef_special)
    (h5 : serializeString [] = Except.ok legacy)
    (h6 : serializeString f.liquid_alternative_flowing = Except.ok laf)
    (h7 : serializeString f.liquid_alternative_source = Except.ok las)
    (h8 : serializeSimpleSoundSpec f.sound_footstep = Except.ok sf)
    (h9 : serializeSimpleSoundSpec f.sound_dig = Except.ok sd)
    (h10 : serializeSimpleSoundSpec f.sound_dug = Except.ok sdug) :
    ReadsP (ContentFeatures.deSerializeFields K cfv f0)
      (name ++
      (writeU16 f.groups.length ++
      (groups ++
      (writeU8 f.drawtype ++
      (writeF1000 f.visual_scale ++
      (writeU8 6 ++
      (tiledef ++
      (writeU8 K.CF_SPECIAL_COUNT ++
      (tiledef_special ++
      (writeU8 f.alpha ++
      (writeU8 f.post_effect_color.a ++
      (writeU8 f.post_effect_color.r ++
      (writeU8 f.post_effect_color.g ++
      (writeU8 f.post_effect_color.b ++
      (writeU8 f.param_type ++
      (writeU8 pt2 ++
      (writeU8 (boolByte f.is_ground_content) ++
      (writeU8 (boolByte f.light_propagates) ++
      (writeU8 (boolByte f.sunlight_propagates) ++
      (writeU8 (boolByte f.walkable) ++
      (writeU8 (boolByte f.pointable) ++
      (writeU8 (boolByte f.diggable) ++
      (writeU8 (boolByte f.climbable) ++
      (writeU8 (boolByte f.buildable_to) ++
      (legacy ++
      (writeU8 f.liquid_type ++
      (laf ++
      (las ++
      (writeU8 f.liquid_viscosity ++
      (writeU8 (boolByte f.liquid_renewable) ++
      (writeU8 f.light_source ++
      (writeU32 f.damage_per_second ++
      (NodeBox.serialize K f.node_box pv ++
      (NodeBox.serialize K f.selection_box pv ++
      (writeU8 (boolByte f.legacy_facedir_simple) ++
      (writeU8 (boolByte f.legacy_wallmounted) ++
      (sf ++
      (sd ++
      (sdug ++
      (writeU8 (boolByte f.rightclickable) ++
      (writeU8 f.drowning ++
      (writeU8 f.leveled ++
      (writeU8 f.liquid_range ++
      (writeU8 f.waving ++
      ([])))))))))))))))))))))))))))))))))))))))))))))
      (fun g => g.name = f.name) := by
  unfold ContentFeatures.deSerializeFields
  refine ReadsP_bind _ _ _ _ _ _ (Reads_deSerializeString _ _ h1) ?_
  refine ReadsP_bind _ _ _ _ _ _ (Reads_readU16 _) ?_
  rw [Nat.mod_eq_of_lt hg]
  refine ReadsP_bindC _ _ _ _ _ (Consumes_readGroups _ _ _ h2) ?_
  intro _
  refine ReadsP_bind _ _ _ _ _ _ (Reads_readU8 _) ?_
  refine ReadsP_bind _ _ _ _ _ _ (Reads_readF1000 _) ?_
  refine ReadsP_bind _ _ _ _ _ _ (Reads_readU8 _) ?_
  refine ReadsP_ite_neg _ _ _ _ _ (by decide) ?_
  refine ReadsP_bindC _ _ _ _ _ (Consumes_readTiles K _ _ _ pv hpv _ _ _ _ h3) ?_
  intro _
  refine ReadsP_bind _ _ _ _ _ _ (Reads_readU8 _) ?_
  refine ReadsP_ite_neg _ _ _ _ _ (by simp [Nat.mod_eq_of_lt hK.special_lt]) ?_
  refine ReadsP_bindC _ _ _ _ _ (Consumes_readTiles K _ _ _ pv hpv _ _ _ _ h4) ?_
  intro _
  refine ReadsP_bind _ _ _ _ _ _ (Reads_readU8 _) ?_
  refine ReadsP_bind _ _ _ _ _ _ (Reads_readU8 _) ?_
  refine ReadsP_bind _ _ _ _ _ _ (Reads_readU8 _) ?_
  refine ReadsP_bind _ _ _ _ _ _ (Reads_readU8 _) ?_
  refine ReadsP_bind _ _ _ _ _ _ (Reads_readU8 _) ?_
  refine ReadsP_bind _ _ _ _ _ _ (Reads_readU8 _) ?_
  refine ReadsP_bind _ _ _ _ _ _ (Reads_readU8 _) ?_
  refine ReadsP_bind _ _ _ _ _ _ (Reads_readU8 _) ?_
  refine ReadsP_bind _ _ _ _ _ _ (Reads_readU8 _) ?_
  refine ReadsP_bind _ _ _ _ _ _ (Reads_readU8 _) ?_
  refine ReadsP_bind _ _ _ _ _ _ (Reads_readU8 _) ?_
  refine ReadsP_bind _ _ _ _ _ _ (Reads_readU8 _) ?_
  refine ReadsP_bind _ _ _ _ _ _ (Reads_readU8 _) ?_
  refine ReadsP_bind _ _ _ _ _ _ (Reads_readU8 _) ?_
  refine ReadsP_bind _ _ _ _ _ _ (Reads_readU8 _) ?_
  refine ReadsP_bind _ _ _ _ _ _ (Reads_deSerializeString _ _ h5) ?_
  refine ReadsP_bind _ _ _ _ _ _ (Reads_readU8 _) ?_
  refine ReadsP_bind _ _ _ _ _ _ (Reads_deSerializeString _ _ h6) ?_
  refine ReadsP_bind _ _ _ _ _ _ (Reads_deSerializeString _ _ h7) ?_
  refine ReadsP_bind _ _ _ _ _ _ (Reads_readU8 _) ?_
  refine ReadsP_bind _ _ _ _ _ _ (Reads_readU8 _) ?_
  refine ReadsP_bind _ _ _ _ _ _ (Reads_readU8 _) ?_
  refine ReadsP_bind _ _ _ _ _ _ (Reads_readU32 _) ?_
  refine ReadsP_bindC _ _ _ _ _ (Reads_NodeBox K hK _ _ pv hpv hnb hnbs) ?_
  intro _
  refine ReadsP_bindC _ _ _ _ _ (Reads_NodeBox K hK _ _ pv hpv hsb hsbs) ?_
  intro _
  refine ReadsP_bind _ _ _ _ _ _ (Reads_readU8 _) ?_
  refine ReadsP_bind _ _ _ _ _ _ (Reads_readU8 _) ?_
  refine ReadsP_bindC _ _ _ _ _ (Consumes_sound _ _ _ h8) ?_
  intro _
  refine ReadsP_bindC _ _ _ _ _ (Consumes_sound _ _ _ h9) ?_
  intro _
  refine ReadsP_bindC _ _ _ _ _ (Consumes_sound _ _ _ h10) ?_
  intro _
  refine ReadsP_bind _ _ _ _ _ _ (Reads_readU8 _) ?_
  refine ReadsP_bind _ _ _ _ _ _ (Reads_readU8 _) ?_
  refine ReadsP_bind _ _ _ _ _ _ (Reads_readU8 _) ?_
  refine ReadsP_bind _ _ _ _ _ _ (Reads_readU8 _) ?_
  refine ReadsP_bind _ _ _ _ _ _ (Reads_readU8 _) ?_
  exact ReadsP_pure _ _ rfl
/-- The fields of the `try` block as `ContentFeatures::serialize` writes them
are read back by `deSerializeTail`, which keeps the name. -/
theorem ReadsP_deSerializeTail (K : Consts) (hK : K.WF) (f g : ContentFeatures) (pv : Nat)
    (hpv : 27 ≤ pv) (hcb : f.collision_box.validType K) (hcbs : f.collision_box.sizesOk K)
    (hids : f.connects_to_ids.length < 65536) (mesh : List Nat)
    (h11 : serializeString f.mesh = Except.ok mesh) :
    ReadsP (ContentFeatures.deSerializeTail K g)
      (mesh ++ (NodeBox.serialize K f.collision_box pv ++
        ((writeU8 (boolByte f.floodable) ++ (writeU16 f.connects_to_ids.length ++
          (writeIds f.connects_to_ids ++ (writeU8 f.connect_sides ++ [])))) ++ [])))
      (fun h => h.name = g.name) := by
  unfold ContentFeatures.deSerializeTail
  refine ReadsP_tryStep _ _ _ _ _ _ _ (Reads_deSerializeString _ _ h11) ?_
  refine ReadsP_tryStepC _ _ _ _ _ _ (Reads_NodeBox K hK _ _ pv hpv hcb hcbs) ?_
  intro cb
  refine ReadsP_tryStepC _ _ _ _ _ _ ?_ ?_
  · refine Consumes_of_ReadsP _ _ (fun _ => True) ?_
    refine ReadsP_bind _ _ _ _ _ _ (Reads_readU8 _) ?_
    refine ReadsP_bind _ _ _ _ _ _ (Reads_readU16 _) ?_
    rw [Nat.mod_eq_of_lt hids]
    refine ReadsP_bindC _ _ _ _ _ (Consumes_readIds _ _) ?_
    intro _
    refine ReadsP_bind _ _ _ _ _ _ (Reads_readU8 _) ?_
    exact ReadsP_pure _ _ trivial
  · intro r
    exact ReadsP_pure _ _ rfl

/-- A record written by `ContentFeatures::serialize` for a protocol version
of at least 27 is read back whole by `ContentFeatures::deSerialize`, whatever
the object read into held before, and the name is recovered. -/
theorem ReadsP_ContentFeatures (K : Consts) (hK : K.WF) (f f0 : ContentFeatures) (pv : Nat)
    (hpv : 27 ≤ pv) (hv : f.validEnums K) (hs : f.sizesOk K) (w : List Nat)
    (hw : f.serialize K pv = Except.ok w) :
    ReadsP (ContentFeatures.deSerialize K f0) w (fun g => g.name = f.name) := by
  unfold ContentFeatures.serialize at hw
  rw [if_neg (by omega)] at hw
  obtain ⟨name, h1, hw⟩ := Except_bind_ok _ _ _ hw
  obtain ⟨groups, h2, hw⟩ := Except_bind_ok _ _ _ hw
  obtain ⟨tiledef, h3, hw⟩ := Except_bind_ok _ _ _ hw
  obtain ⟨tiledef_special, h4, hw⟩ := Except_bind_ok _ _ _ hw
  obtain ⟨legacy, h5, hw⟩ := Except_bind_ok _ _ _ hw
  obtain ⟨laf, h6, hw⟩ := Except_bind_ok _ _ _ hw
  obtain ⟨las, h7, hw⟩ := Except_bind_ok _ _ _ hw
  obtain ⟨sf, h8, hw⟩ := Except_bind_ok _ _ _ hw
  obtain ⟨sd, h9, hw⟩ := Except_bind_ok _ _ _ hw
  obtain ⟨sdug, h10, hw⟩ := Except_bind_ok _ _ _ hw
  obtain ⟨mesh, h11, hw⟩ := Except_bind_ok _ _ _ hw
  have hnb : f.node_box.validType K := hv _ (by simp)
  have hsb : f.selection_box.validType K := hv _ (by simp)
  have hcb : f.collision_box.validType K := hv _ (by simp)
  obtain ⟨hg, hids, hnbs, hsbs, hcbs⟩ := hs
  have hF := ReadsP_deSerializeFields K hK f f0 pv 8
    (if pv < 28 ∧ f.param_type_2 = K.CPT2_MESHOPTIONS then K.CPT2_NONE else f.param_type_2)
    hpv hnb hsb hnbs hsbs hg name groups tiledef tiledef_special legacy laf las sf sd sdug
    h1 h2 h3 h4 h5 h6 h7 h8 h9 h10
  have hT := fun g => ReadsP_deSerializeTail K hK f g pv hpv hcb hcbs hids mesh h11
  have hpt : (if pv < 28 ∧ f.param_type_2 = K.CPT2_MESHOPTIONS then writeU8 K.CPT2_NONE
      else writeU8 f.param_type_2) =
      writeU8 (if pv < 28 ∧ f.param_type_2 = K.CPT2_MESHOPTIONS then K.CPT2_NONE
        else f.param_type_2) := by
    split_ifs <;> rfl
  have h8v : (if pv < 27 then 7 else 8) = 8 := if_neg (by omega)
  simp only [pure, Except.pure, Except.ok.injEq] at hw
  rw [hpt, h8v] at hw
  have hall : ∀ wF wT : List Nat,
      ReadsP (ContentFeatures.deSerializeFields K 8 f0) wF (fun g => g.name = f.name) →
      (∀ g, ReadsP (ContentFeatures.deSerializeTail K g) wT (fun h => h.name = g.name)) →
      ReadsP (ContentFeatures.deSerialize K f0) (writeU8 8 ++ (wF ++ wT))
        (fun g => g.name = f.name) := by
    intro wF wT hF hT
    unfold ContentFeatures.deSerialize
    refine ReadsP_bind _ _ _ _ _ _ (Reads_readU8 8) ?_
    refine ReadsP_ite_neg _ _ _ _ _ (by decide) ?_
    refine ReadsP_ite_neg _ _ _ _ _ (by decide) ?_
    refine ReadsP_bindP _ _ _ _ _ _ hF ?_
    intro g hgn
    rw [← hgn]
    exact hT g
  have h := hall _ _ hF hT
  simp only [List.append_assoc, List.append_nil] at h
  rw [← hw]
  simp only [List.append_assoc]
  exact h
theorem deSerializeLongString_write (K : Consts) (hK : K.WF) (body rest : List Nat)
    (hmax : body.length ≤ K.LONG_STRING_MAX_LEN) :
    deSerializeLongString K ⟨writeU32 body.length ++ (body ++ rest), false⟩ =
      (Except.ok body, ⟨rest, false⟩) := by
  have hlt := hK.long_lt
  have hmod : body.length % 4294967296 = body.length := Nat.mod_eq_of_lt (by omega)
  have h4 : readRaw 4 ⟨writeU32 body.length ++ (body ++ rest), false⟩ =
      (Except.ok (writeU32 body.length), ⟨body ++ rest, false⟩) :=
    readRaw_append (writeU32 body.length) (body ++ rest)
  unfold deSerializeLongString
  rw [Rd.bind_ok _ _ _ _ _ h4, if_neg (by simp [writeU32])]
  simp only [beNat_writeU32, hmod]
  by_cases h0 : body.length = 0
  · have : body = [] := List.length_eq_zero.mp h0
    subst this
    rfl
  · rw [if_neg h0, if_neg (by omega), Rd.bind_ok _ _ _ _ _ (readRaw_append body rest),
      if_neg (by simp)]
    rfl

/-- A table whose long string is `body` is handed to the loop as `body`. -/
theorem deSerialize_tableBytes (K : Consts) (hK : K.WF) (count : Nat) (body trailing : List Nat)
    (m0 : CNodeDefManager) (hmax : body.length ≤ K.LONG_STRING_MAX_LEN) :
    CNodeDefManager.deSerialize K ⟨tableBytes count body ++ trailing, false⟩ m0 =
      CNodeDefManager.deSerializeLoop K (count % 65536) (ContentFeatures.new K) ⟨body, false⟩
        (CNodeDefManager.new K) := by
  unfold CNodeDefManager.deSerialize tableBytes
  simp only [List.append_assoc]
  rw [readU8_write]
  simp only []
  rw [if_neg (by decide), readU16_write]
  simp only []
  rw [deSerializeLongString_write K hK body trailing hmax]
  rfl
/-- One round of the `deSerialize` loop on an entry whose wrapper string is
`w`. -/
theorem deSerializeLoop_entry (K : Consts) (n i : Nat) (w rest : List Nat)
    (f : ContentFeatures) (m : CNodeDefManager) (hw : w.length ≤ 65535) :
    CNodeDefManager.deSerializeLoop K (n + 1) f
        ⟨writeU16 i ++ (writeU16 w.length ++ (w ++ rest)), false⟩ m =
      match (ContentFeatures.deSerialize K f ⟨w, false⟩).1 with
      | Except.error e => (Except.error e, m)
      | Except.ok g =>
        CNodeDefManager.deSerializeLoop K n g ⟨rest, false⟩
          (CNodeDefManager.registerEntry K (i % 65536) g m) := by
  have hs : serializeString w = Except.ok (writeU16 w.length ++ w) := by
    unfold serializeString
    rw [if_neg (by omega)]
  have hd := deSerializeString_write w _ rest hs
  rw [List.append_assoc] at hd
  rw [CNodeDefManager.deSerializeLoop, readU16_write]
  simp only []
  rw [hd]
  simp only []
  rcases ContentFeatures.deSerialize K f ⟨w, false⟩ with ⟨r, s2⟩
  cases r <;> rfl

/-- A record whose parse does not run past its end is parsed to the same
result when bytes are appended to it. -/
theorem deSerialize_record_append (K : Consts) (f : ContentFeatures) (w extra : List Nat)
    (h : (ContentFeatures.deSerialize K f ⟨w, false⟩).2.fail = false) :
    (ContentFeatures.deSerialize K f ⟨w ++ extra, false⟩).1 =
      (ContentFeatures.deSerialize K f ⟨w, false⟩).1 := by
  rcases hp : ContentFeatures.deSerialize K f ⟨w, false⟩ with ⟨r, ⟨d2, b⟩⟩
  rw [hp] at h
  simp only at h
  subst h
  obtain ⟨pre, hpre, hall⟩ := (Good_ContentFeatures_deSerialize K f).loc w r d2 hp
  rw [hpre, List.append_assoc, hall]

theorem deSerializeLoop_append (K : Consts) (i : Nat) (w extra rest : List Nat)
    (hlen : (w ++ extra).length ≤ 65535)
    (hcomplete : ∀ f, (ContentFeatures.deSerialize K f ⟨w, false⟩).2.fail = false) :
    ∀ (before : List (Nat × List Nat)), (∀ e ∈ before, e.2.length ≤ 65535) →
      ∀ (n : Nat) (f : ContentFeatures) (m : CNodeDefManager),
      CNodeDefManager.deSerializeLoop K n f
          ⟨tableBody (before ++ [(i, w ++ extra)]) ++ rest, false⟩ m =
        CNodeDefManager.deSerializeLoop K n f
          ⟨tableBody (before ++ [(i, w)]) ++ rest, false⟩ m := by
  have hlen2 : w.length ≤ 65535 := by
    rw [List.length_append] at hlen
    omega
  intro before
  induction before with
  | nil =>
    intro _ n f m
    cases n with
    | zero => rfl
    | succ n =>
      simp only [List.nil_append, tableBody, List.append_assoc]
      have h1 := deSerializeLoop_entry K n i (w ++ extra) rest f m hlen
      simp only [List.append_assoc] at h1
      rw [h1, deSerializeLoop_entry K n i w _ f m hlen2,
        deSerialize_record_append K f w extra (hcomplete f)]
  | cons e before ih =>
    intro hb n f m
    cases n with
    | zero => rfl
    | succ n =>
      have he : e.2.length ≤ 65535 := hb e (List.mem_cons_self _ _)
      simp only [List.cons_append, tableBody, List.append_assoc]
      rw [deSerializeLoop_entry K n e.1 e.2 _ f m he, deSerializeLoop_entry K n e.1 e.2 _ f m he]
      rcases (ContentFeatures.deSerialize K f ⟨e.2, false⟩).1 with err | g
      · rfl
      · have := ih (fun x hx => hb x (List.mem_cons_of_mem _ hx)) n g
          (CNodeDefManager.registerEntry K (e.1 % 65536) g m)
        simp only [List.append_assoc] at this
        exact this

theorem tableBody_append (a b : List (Nat × List Nat)) :
    tableBody (a ++ b) = tableBody a ++ tableBody b := by
  induction a with
  | nil => rfl
  | cons e a ih =>
    rw [List.cons_append, tableBody, tableBody, ih]
    simp only [List.append_assoc]


/-! ## The table on the wire: what `serialize` writes, `deSerialize` reads back -/

theorem writeBoxes_length (bs : List aabb3f) : (writeBoxes bs).length = 24 * bs.length := by
  induction bs with
  | nil => rfl
  | cons b rest ih =>
    simp only [writeBoxes, List.length_append, writeV3F1000_length, ih, List.length_cons]
    omega

theorem WRITEBOX_length (bs : List aabb3f) : (WRITEBOX bs).length = 2 + 24 * bs.length := by
  simp only [WRITEBOX, List.length_append, writeU16_length, writeBoxes_length]

theorem writeIds_length (ids : List Nat) : (writeIds ids).length = 2 * ids.length := by
  induction ids with
  | nil => rfl
  | cons i rest ih =>
    simp only [writeIds, List.length_append, writeU16_length, ih, List.length_cons]
    omega

theorem serializeGroups_length : ∀ (gs : List (CppString × Int)) (w : List Nat),
    serializeGroups gs = Except.ok w → 4 * gs.length ≤ w.length := by
  intro gs
  induction gs with
  | nil => intro w _; simp
  | cons g rest ih =>
    intro w hw
    unfold serializeGroups at hw
    obtain ⟨name, hname, hw⟩ := Except_bind_ok _ _ _ hw
    obtain ⟨tl, htl, hw⟩ := Except_bind_ok _ _ _ hw
    simp only [pure, Except.pure, Except.ok.injEq] at hw
    subst hw
    have h1 := ih tl htl
    have h2 : 2 ≤ name.length := by
      unfold serializeString at hname
      split_ifs at hname
      cases hname
      simp only [List.length_append, writeU16_length]
      omega
    simp only [List.length_append, List.length_cons]
    have h3 : (writeS16 g.2).length = 2 := rfl
    omega

/-- A node box whose bytes fit a wrapper string has fewer than 65536 boxes in
every list that is written. -/
theorem NodeBox_sizesOk_of_length (K : Consts) (hK : K.WF) (b : NodeBox) (pv : Nat)
    (hpv : 27 ≤ pv) (hlen : (NodeBox.serialize K b pv).length ≤ 65535) : b.sizesOk K := by
  have hnd := hK.nodebox_types
  simp only [List.nodup_cons, List.mem_cons, List.mem_singleton, not_or, List.not_mem_nil,
    not_false_eq_true, List.nodup_nil, and_true] at hnd
  obtain ⟨_, ⟨h_fw, h_fl, h_fc⟩, ⟨h_wl, h_wc⟩, h_lc⟩ := hnd
  have h27 : pv ≥ 27 := hpv
  unfold NodeBox.serialize at hlen
  simp only [h27, if_true] at hlen
  constructor
  · intro ht
    rw [if_pos (by tauto)] at hlen
    simp only [show ¬ (3 = 1) by decide, if_false, List.length_append, writeU8_length,
      writeU16_length, writeBoxes_length] at hlen
    omega
  · intro ht
    rw [if_neg (by rw [ht]; simp [Ne.symm h_lc, Ne.symm h_fc]),
      if_neg (by rw [ht]; exact Ne.symm h_wc), if_pos ht] at hlen
    simp only [show ¬ (3 ≤ 2) by decide, if_false, List.length_append, writeU8_length,
      WRITEBOX_length] at hlen
    omega
/-- A record that fits a wrapper string (at most 65535 bytes) has exact
16-bit counts. -/
theorem sizesOk_of_serialize (K : Consts) (hK : K.WF) (f : ContentFeatures) (pv : Nat)
    (hpv : 27 ≤ pv) (w : List Nat) (hw : f.serialize K pv = Except.ok w)
    (hlen : w.length ≤ 65535) : f.sizesOk K := by
  unfold ContentFeatures.serialize at hw
  rw [if_neg (by omega)] at hw
  obtain ⟨name, h1, hw⟩ := Except_bind_ok _ _ _ hw
  obtain ⟨groups, h2, hw⟩ := Except_bind_ok _ _ _ hw
  obtain ⟨tiledef, h3, hw⟩ := Except_bind_ok _ _ _ hw
  obtain ⟨tiledef_special, h4, hw⟩ := Except_bind_ok _ _ _ hw
  obtain ⟨legacy, h5, hw⟩ := Except_bind_ok _ _ _ hw
  obtain ⟨laf, h6, hw⟩ := Except_bind_ok _ _ _ hw
  obtain ⟨las, h7, hw⟩ := Except_bind_ok _ _ _ hw
  obtain ⟨sf, h8, hw⟩ := Except_bind_ok _ _ _ hw
  obtain ⟨sd, h9, hw⟩ := Except_bind_ok _ _ _ hw
  obtain ⟨sdug, h10, hw⟩ := Except_bind_ok _ _ _ hw
  obtain ⟨mesh, h11, hw⟩ := Except_bind_ok _ _ _ hw
  simp only [pure, Except.pure, Except.ok.injEq] at hw
  subst hw
  simp only [List.length_append, writeIds_length] at hlen
  have hg := serializeGroups_length _ _ h2
  refine ⟨by omega, by omega,
    NodeBox_sizesOk_of_length K hK _ pv hpv (by omega),
    NodeBox_sizesOk_of_length K hK _ pv hpv (by omega),
    NodeBox_sizesOk_of_length K hK _ pv hpv (by omega)⟩

theorem getElem?_set_some {α : Type} (l : List α) (a j : Nat) (x f : α)
    (h : (l.set a x)[j]? = some f) : (j = a ∧ f = x) ∨ (j ≠ a ∧ l[j]? = some f) := by
  rw [List.getElem?_set] at h
  by_cases ha : a = j
  · rw [if_pos ha] at h
    split_ifs at h
    · cases h; exact Or.inl ⟨ha.symm, rfl⟩
  · rw [if_neg ha] at h
    exact Or.inr ⟨fun e => ha e.symm, h⟩

theorem getElem?_replicate_some {α : Type} (n j : Nat) (x f : α)
    (h : (List.replicate n x)[j]? = some f) : f = x := by
  have hlt := getElem?_lt _ _ _ h
  rw [List.getElem?_eq_getElem hlt] at h
  simp only [List.getElem_replicate, Option.some.injEq] at h
  exact h.symm

theorem validEnums_new (K : Consts) : (ContentFeatures.new K).validEnums K := by
  intro b hb
  simp only [List.mem_cons, List.mem_singleton, List.not_mem_nil, or_false] at hb
  rcases hb with hb | hb | hb <;> subst hb <;> exact List.mem_cons_self _ _

theorem validEnums_unknown (K : Consts) : (unknownFeatures K).validEnums K := validEnums_new K
theorem validEnums_air (K : Consts) : (airFeatures K).validEnums K := validEnums_new K
theorem validEnums_ignore (K : Consts) : (ignoreFeatures K).validEnums K := validEnums_new K

/-- The definitions `clear` puts into the table. -/
theorem new_slots (K : Consts) (j : Nat) (f : ContentFeatures)
    (h : (CNodeDefManager.new K).m_content_features[j]? = some f) :
    f = ContentFeatures.new K ∨ (j = K.CONTENT_UNKNOWN ∧ f = unknownFeatures K) ∨
    (j = K.CONTENT_AIR ∧ f = airFeatures K) ∨ (j = K.CONTENT_IGNORE ∧ f = ignoreFeatures K) ∨
    (j = 0 ∧ f = ignoreFeatures K) := by
  rw [new_features] at h
  have key : ∀ l : List ContentFeatures,
      (((l.set K.CONTENT_UNKNOWN (unknownFeatures K)).set K.CONTENT_AIR
        (airFeatures K)).set K.CONTENT_IGNORE (ignoreFeatures K))[j]? = some f →
      l[j]? = some f ∨ (j = K.CONTENT_UNKNOWN ∧ f = unknownFeatures K) ∨
      (j = K.CONTENT_AIR ∧ f = airFeatures K) ∨ (j = K.CONTENT_IGNORE ∧ f = ignoreFeatures K) := by
    intro l h
    rcases getElem?_set_some _ _ _ _ _ h with h | ⟨_, h⟩
    · exact Or.inr (Or.inr (Or.inr h))
    rcases getElem?_set_some _ _ _ _ _ h with h | ⟨_, h⟩
    · exact Or.inr (Or.inr (Or.inl h))
    rcases getElem?_set_some _ _ _ _ _ h with h | ⟨_, h⟩
    · exact Or.inr (Or.inl h)
    exact Or.inl h
  split_ifs at h with h0
  · rcases getElem?_set_some _ _ _ _ _ h with h | ⟨_, h⟩
    · exact Or.inr (Or.inr (Or.inr (Or.inr h)))
    rcases key _ h with h | h | h | h
    · exact Or.inl (getElem?_replicate_some _ _ _ _ h)
    · exact Or.inr (Or.inl h)
    · exact Or.inr (Or.inr (Or.inl h))
    · exact Or.inr (Or.inr (Or.inr (Or.inl h)))
  · rcases key _ h with h | h | h | h
    · exact Or.inl (getElem?_replicate_some _ _ _ _ h)
    · exact Or.inr (Or.inl h)
    · exact Or.inr (Or.inr (Or.inl h))
    · exact Or.inr (Or.inr (Or.inr (Or.inl h)))

theorem new_next_id (K : Consts) : (CNodeDefManager.new K).m_next_id = 0 := by
  unfold CNodeDefManager.new clear
  by_cases h0 : K.CONTENT_IGNORE = 0 <;>
    simp [h0, addNameIdMapping, resetNodeResolveState]

theorem new_length (K : Consts) :
    (CNodeDefManager.new K).m_content_features.length =
      max (max (max 0 (K.CONTENT_UNKNOWN + 1)) (K.CONTENT_AIR + 1)) (K.CONTENT_IGNORE + 1) := by
  rw [new_features]
  split_ifs <;> simp only [List.length_set, List.length_replicate]

theorem WireInv_new (K : Consts) (hK : K.WF) : WireInv K (CNodeDefManager.new K) := by
  refine ⟨?_, ?_, ?_⟩
  · intro j f hf
    rcases new_slots K j f hf with h | ⟨_, h⟩ | ⟨_, h⟩ | ⟨_, h⟩ | ⟨_, h⟩ <;> subst h
    · exact validEnums_new K
    · exact validEnums_unknown K
    · exact validEnums_air K
    · exact validEnums_ignore K
    · exact validEnums_ignore K
  · rw [new_length]
    have := hK.unknown_lt
    have := hK.air_lt
    have := hK.ignore_lt
    omega
  · rw [new_next_id]; decide

theorem allocateIdLoop_bound (K : Consts) (next_id : Nat) (hn : next_id < 65536) :
    ∀ (fuel id : Nat) (features : List ContentFeatures) (r : Nat × List ContentFeatures × Nat),
      id < 65536 → features.length ≤ 65536 →
      allocateIdLoop K next_id fuel id features = some r →
      r.2.1.length ≤ 65536 ∧ r.2.2 < 65536 := by
  intro fuel
  induction fuel with
  | zero => intro id features r _ _ h; simp [allocateIdLoop] at h
  | succ fuel ih =>
    intro id features r hid hlen h
    unfold allocateIdLoop at h
    by_cases hge : id ≥ next_id
    · rw [if_pos hge] at h
      simp only at h
      have hpad : (features ++ List.replicate (id + 1 - features.length)
          (ContentFeatures.new K)).length ≤ 65536 := by
        simp only [List.length_append, List.length_replicate]; omega
      split_ifs at h with hname
      · cases h
        exact ⟨hpad, Nat.mod_lt _ (by decide)⟩
      · exact ih _ _ _ (Nat.mod_lt _ (by decide)) hpad h
    · rw [if_neg hge] at h
      cases h
      exact ⟨hlen, hn⟩

theorem set_bounds (K : Consts) (fuel : Nat) (name : CppString) (d : ContentFeatures)
    (m m2 : CNodeDefManager) (id : Nat) (h : CNodeDefManager.set K fuel name d m = some (id, m2))
    (hl : m.m_content_features.length ≤ 65536) (hn : m.m_next_id < 65536) :
    m2.m_content_features.length ≤ 65536 ∧ m2.m_next_id < 65536 := by
  unfold CNodeDefManager.set at h
  split_ifs at h with h1 h2 h3
  · cases h; exact ⟨hl, hn⟩
  · cases h; exact ⟨hl, hn⟩
  · cases h; exact ⟨hl, hn⟩
  · cases hg : m.m_name_id_mapping.getId name with
    | some i =>
      rw [hg] at h
      simp only [storeDefinition, Option.some.injEq, Prod.mk.injEq] at h
      rw [← h.2]
      simp only [List.length_set]
      exact ⟨hl, hn⟩
    | none =>
      rw [hg] at h
      simp only at h
      unfold allocateId at h
      cases hloop : allocateIdLoop K m.m_next_id fuel m.m_next_id m.m_content_features with
      | none => rw [hloop] at h; simp at h
      | some r =>
        obtain ⟨i, feats, nid⟩ := r
        rw [hloop] at h
        simp only at h
        have hb := allocateIdLoop_bound K _ hn _ _ _ _ hn hl hloop
        simp only at hb
        split_ifs at h with hi
        · cases h; exact hb
        · simp only [storeDefinition, addNameIdMapping, Option.some.injEq, Prod.mk.injEq] at h
          rw [← h.2]
          simp only [List.length_set]
          exact hb

theorem WireInv_set (K : Consts) (fuel : Nat) (name : CppString) (d : ContentFeatures)
    (m m2 : CNodeDefManager) (id : Nat) (hd : d.validEnums K) (hinv : WireInv K m)
    (h : CNodeDefManager.set K fuel name d m = some (id, m2)) : WireInv K m2 := by
  obtain ⟨hlen2, hnext2⟩ := set_bounds K fuel name d m m2 id h hinv.length_le hinv.next_lt
  obtain ⟨hvalid, _, _⟩ := hinv
  have hpad : ∀ (k j : Nat) (f : ContentFeatures),
      (m.m_content_features ++ List.replicate k (ContentFeatures.new K))[j]? = some f →
      f.validEnums K := by
    intro k j f hf
    by_cases hj : j < m.m_content_features.length
    · rw [List.getElem?_append_left hj] at hf
      exact hvalid j f hf
    · rw [List.getElem?_append_right (by omega)] at hf
      rw [getElem?_replicate_some _ _ _ _ hf]
      exact validEnums_new K
  rcases set_cases K fuel name d m m2 id h with
    ⟨_, k, nid, hm⟩ | ⟨h1, hdn, h3, hg, hm⟩ | ⟨h1, hdn, h3, hg, hi, k, nid, f0, hf0, hn0, hm⟩
  · subst hm
    exact ⟨fun j f hf => hpad k j f hf, hlen2, hnext2⟩
  · subst hm
    refine ⟨?_, hlen2, hnext2⟩
    intro j f hf
    simp only [storeDefinition] at hf
    rcases getElem?_set_some _ _ _ _ _ hf with ⟨_, hfd⟩ | ⟨_, hf⟩
    · subst hfd; exact hd
    · exact hvalid j f hf
  · subst hm
    refine ⟨?_, hlen2, hnext2⟩
    intro j f hf
    simp only [storeDefinition, addNameIdMapping] at hf
    rcases getElem?_set_some _ _ _ _ _ hf with ⟨_, hfd⟩ | ⟨_, hf⟩
    · subst hfd; exact hd
    · exact hpad k j f hf

theorem removeNode_features (K : Consts) (name : CppString) (m : CNodeDefManager) :
    (CNodeDefManager.removeNode K name m).m_content_features = m.m_content_features ∧
    (CNodeDefManager.removeNode K name m).m_next_id = m.m_next_id := by
  unfold CNodeDefManager.removeNode
  by_cases h : (m.m_name_id_mapping.getId name).isSome <;> simp [h]

theorem Reach_WireInv (K : Consts) (hK : K.WF) (m : CNodeDefManager)
    (h : Reach K (Op.registering K) m) : WireInv K m := by
  induction h with
  | init => exact WireInv_new K hK
  | step m m2 op fuel _ hallow hrun ih =>
    cases op with
    | set name d =>
      simp only [Op.run, Option.map_eq_some'] at hrun
      obtain ⟨⟨id, m3⟩, hset, rfl⟩ := hrun
      exact WireInv_set K fuel name d m _ id hallow ih hset
    | allocateDummy name =>
      simp only [Op.run, Option.map_eq_some'] at hrun
      obtain ⟨⟨id, m3⟩, hset, rfl⟩ := hrun
      unfold CNodeDefManager.allocateDummy at hset
      split_ifs at hset
      · cases hset; exact ih
      · have hv : ContentFeatures.validEnums K { ContentFeatures.new K with name := name } :=
          validEnums_new K
        exact WireInv_set K fuel name _ m m3 id hv ih hset
    | removeNode name =>
      simp only [Op.run] at hrun
      split_ifs at hrun
      cases hrun
      obtain ⟨hf, hn⟩ := removeNode_features K name m
      exact ⟨fun j f hj => ih.valid j f (hf ▸ hj), hf ▸ ih.length_le, hn ▸ ih.next_lt⟩
    | updateAliases all getAlias => exact absurd hallow (by simp [Op.registering])

theorem acceptEntry_getElem?_self (K : Consts) (i : Nat) (f : ContentFeatures)
    (m : CNodeDefManager) :
    (CNodeDefManager.acceptEntry K i f m).m_content_features[i]? = some f := by
  unfold CNodeDefManager.acceptEntry CNodeDefManager.addNameIdMapping
  simp only
  rw [List.getElem?_set, if_pos rfl]
  split_ifs with h1 h2 h2
  · rfl
  · exfalso
    simp only [List.length_append, List.length_replicate] at h2
    omega
  · rfl
  · exfalso
    omega

theorem acceptEntry_getId (K : Consts) (i : Nat) (f : ContentFeatures) (m : CNodeDefManager)
    (n : CppString) :
    (CNodeDefManager.acceptEntry K i f m).m_name_id_mapping.getId n =
      if n = f.name then some i else m.m_name_id_mapping.getId n := by
  unfold CNodeDefManager.acceptEntry CNodeDefManager.addNameIdMapping
  simp only
  rw [getId_set]

theorem Sync_acceptEntry (K : Consts) (i : Nat) (f : ContentFeatures) (m : CNodeDefManager)
    (hs : Sync m)
    (hex : m.m_name_id_mapping.getId f.name = none ∨ m.m_name_id_mapping.getId f.name = some i) :
    Sync (CNodeDefManager.acceptEntry K i f m) := by
  intro n
  rw [acceptEntry_getId]
  have hsn := hs n
  unfold CNodeDefManager.getId at hsn ⊢
  unfold CNodeDefManager.acceptEntry CNodeDefManager.addNameIdMapping
  simp only
  rw [amFind_amInsert, hsn]
  by_cases hn : n = f.name
  · rw [hn]
    rcases hex with h | h
    · rw [h]
    · rw [h]; simp
  · cases m.m_name_id_mapping.getId n <;> simp [hn]
theorem Reach_mono (K : Consts) (allow allow2 : Op → Prop) (m : CNodeDefManager)
    (h : Reach K allow m) (hsub : ∀ op, allow op → allow2 op) : Reach K allow2 m := by
  induction h with
  | init => exact Reach.init
  | step m m2 op fuel _ hop hrun ih => exact Reach.step m m2 op fuel ih (hsub op hop) hrun

theorem registering_withoutAliases (K : Consts) (op : Op) (h : Op.registering K op) :
    Op.withoutAliases op := by
  cases op <;> simp [Op.registering, Op.withoutAliases] at h ⊢

theorem ClearBinding_builtin (K : Consts) (n : CppString) (id : Nat)
    (h : ClearBinding K n id) :
    id = K.CONTENT_IGNORE ∨ id = K.CONTENT_AIR ∨ id = K.CONTENT_UNKNOWN := by
  rcases h with ⟨_, h⟩ | ⟨_, h⟩ | ⟨_, h⟩
  · exact Or.inr (Or.inr h)
  · exact Or.inr (Or.inl h)
  · exact Or.inl h

theorem LoopInv_skip (K : Consts) (m m2 : CNodeDefManager) (i : Nat)
    (h : LoopInv K m i m2)
    (hskip : ∀ f, m.m_content_features[i]? = some f →
      (i = K.CONTENT_IGNORE ∨ i = K.CONTENT_AIR ∨ i = K.CONTENT_UNKNOWN) ∨ f.name = []) :
    LoopInv K m (i + 1) m2 := by
  refine ⟨h.builtins, h.sync, ?_, h.named, ?_⟩
  · intro n id hn
    rcases h.bound n id hn with hc | ⟨hlt, hfirst⟩
    · exact Or.inl hc
    · exact Or.inr ⟨by omega, hfirst⟩
  · intro j f hj hb hf hfn
    by_cases hji : j = i
    · subst hji
      rcases hskip f hf with h1 | h1
      · exact absurd h1 hb
      · exact absurd h1 hfn
    · exact h.seen j f (by omega) hb hf hfn

/-- One round of the receiving loop on the entry written for slot `i`. -/
theorem LoopInv_register (K : Consts) (m m2 : CNodeDefManager) (i : Nat)
    (f g : ContentFeatures) (h : LoopInv K m i m2)
    (hf : m.m_content_features[i]? = some f) (hfn : f.name ≠ [])
    (hb : ¬ (i = K.CONTENT_IGNORE ∨ i = K.CONTENT_AIR ∨ i = K.CONTENT_UNKNOWN))
    (hg : g.name = f.name) :
    LoopInv K m (i + 1) (CNodeDefManager.registerEntry K i g m2) := by
  have hne : ∀ n id, m2.m_name_id_mapping.getId n = some id → i ≠ id := by
    intro n id hn e
    rcases h.bound n id hn with hc | ⟨hlt, _⟩
    · exact hb (e ▸ ClearBinding_builtin K n id hc)
    · omega
  have hweak : ∀ (n : CppString) (id : Nat), m2.m_name_id_mapping.getId n = some id →
      ClearBinding K n id ∨ (id < i + 1 ∧ First K m n id) := by
    intro n id hn
    rcases h.bound n id hn with hc | ⟨hlt, hfirst⟩
    · exact Or.inl hc
    · exact Or.inr ⟨by omega, hfirst⟩
  unfold CNodeDefManager.registerEntry
  rw [if_neg hb, if_neg (by rw [hg]; exact hfn)]
  cases hex : m2.m_name_id_mapping.getId g.name with
  | some e =>
    simp only [decide_eq_true_eq]
    rw [if_pos (hne _ _ hex)]
    refine ⟨h.builtins, h.sync, hweak, h.named, ?_⟩
    intro j f2 hj hbj hf2 hfn2
    by_cases hji : j = i
    · subst hji
      rw [hf] at hf2
      cases hf2
      exact ⟨e, by rw [← hg]; exact hex⟩
    · exact h.seen j f2 (by omega) hbj hf2 hfn2
  | none =>
    simp only
    rw [if_neg (by simp)]
    refine ⟨Builtins_acceptEntry K i g m2 h.builtins hb (by rw [hex]; simp),
      Sync_acceptEntry K i g m2 h.sync (Or.inl hex), ?_, ?_, ?_⟩
    · intro n id hn
      rw [acceptEntry_getId] at hn
      split_ifs at hn with hng
      · cases hn
        refine Or.inr ⟨by omega, ⟨f, hf, by rw [hng, hg]⟩, hb, ?_⟩
        intro j2 f2 hj2 hbj2 hf2 hname
        have hfn2 : f2.name ≠ [] := by rw [hname, hng, hg]; exact hfn
        obtain ⟨id2, hid2⟩ := h.seen j2 f2 hj2 hbj2 hf2 hfn2
        rw [hname, hng, hex] at hid2
        exact Option.noConfusion hid2
      · exact hweak n id hn
    · intro n id hn
      rw [acceptEntry_getId] at hn
      split_ifs at hn with hng
      · cases hn
        exact ⟨g, acceptEntry_getElem?_self K _ g m2, hng.symm⟩
      · obtain ⟨f2, hf2, hn2⟩ := h.named n id hn
        exact ⟨f2, acceptEntry_getElem?_ne K i id g f2 m2 (hne n id hn) hf2, hn2⟩
    · intro j f2 hj hbj hf2 hfn2
      rw [acceptEntry_getId]
      by_cases hng : f2.name = g.name
      · rw [if_pos hng]; exact ⟨i, rfl⟩
      · rw [if_neg hng]
        by_cases hji : j = i
        · subst hji
          rw [hf] at hf2
          cases hf2
          exact absurd hg.symm hng
        · exact h.seen j f2 (by omega) hbj hf2 hfn2
/-- The receiving loop run on the bytes the sending loop wrote for the slots
from `i` on: it reads exactly these bytes in as many rounds as entries were
counted, and ends in a state that satisfies the loop invariant for all
slots. -/
theorem roundtrip_loop (K : Consts) (hK : K.WF) (m : CNodeDefManager) (pv : Nat)
    (hpv : 27 ≤ pv) (hw : WireInv K m) :
    ∀ (feats : List ContentFeatures) (i count : Nat) (r : Nat × List Nat),
      (∀ (k : Nat) (f : ContentFeatures), feats[k]? = some f →
        m.m_content_features[i + k]? = some f) →
      i + feats.length ≤ 65536 → count < 65536 →
      CNodeDefManager.serializeEntries K pv i feats count = Except.ok r →
      count ≤ r.1 ∧ r.1 < 65536 ∧
      ∀ (f0 : ContentFeatures) (m2 : CNodeDefManager) (n2 : Nat) (tail : List Nat),
        LoopInv K m i m2 →
        ∃ f1 m3, CNodeDefManager.deSerializeLoop K (r.1 - count + n2) f0
            ⟨r.2 ++ tail, false⟩ m2 =
          CNodeDefManager.deSerializeLoop K n2 f1 ⟨tail, false⟩ m3 ∧
          LoopInv K m (i + feats.length) m3 := by
  intro feats
  induction feats with
  | nil =>
    intro i count r _ _ hc h
    simp only [CNodeDefManager.serializeEntries, pure, Except.pure, Except.ok.injEq] at h
    subst h
    refine ⟨le_refl _, hc, ?_⟩
    intro f0 m2 n2 tail hl
    refine ⟨f0, m2, ?_, hl⟩
    simp
  | cons f rest ih =>
    intro i count r hidx hlen hc h
    have hf : m.m_content_features[i]? = some f := hidx 0 f (by simp)
    have hidx2 : ∀ (k : Nat) (f2 : ContentFeatures), rest[k]? = some f2 →
        m.m_content_features[i + 1 + k]? = some f2 := by
      intro k f2 hk
      have := hidx (k + 1) f2 (by simpa using hk)
      rw [show i + 1 + k = i + (k + 1) by omega]
      exact this
    have hlen2 : i + 1 + rest.length ≤ 65536 := by
      simp only [List.length_cons] at hlen
      omega
    have hlast : i + (f :: rest).length = i + 1 + rest.length := by
      simp only [List.length_cons]
      omega
    rw [hlast]
    unfold CNodeDefManager.serializeEntries at h
    by_cases hb : i = K.CONTENT_IGNORE ∨ i = K.CONTENT_AIR ∨ i = K.CONTENT_UNKNOWN
    · rw [if_pos hb] at h
      obtain ⟨h1, h2, h3⟩ := ih (i + 1) count r hidx2 hlen2 hc h
      refine ⟨h1, h2, ?_⟩
      intro f0 m2 n2 tail hl
      exact h3 f0 m2 n2 tail (LoopInv_skip K m m2 i hl (fun _ _ => Or.inl hb))
    · rw [if_neg hb] at h
      by_cases hfn : f.name = []
      · rw [if_pos hfn] at h
        obtain ⟨h1, h2, h3⟩ := ih (i + 1) count r hidx2 hlen2 hc h
        refine ⟨h1, h2, ?_⟩
        intro f0 m2 n2 tail hl
        refine h3 f0 m2 n2 tail (LoopInv_skip K m m2 i hl ?_)
        intro f2 hf2
        rw [hf] at hf2
        cases hf2
        exact Or.inr hfn
      · rw [if_neg hfn] at h
        obtain ⟨wrapper, hwr, h⟩ := Except_bind_ok _ _ _ h
        obtain ⟨wrapped, hwd, h⟩ := Except_bind_ok _ _ _ h
        have hwl : wrapper.length ≤ 65535 ∧ wrapped = writeU16 wrapper.length ++ wrapper := by
          unfold serializeString at hwd
          split_ifs at hwd with hl
          cases hwd
          exact ⟨by omega, rfl⟩
        obtain ⟨hwl, hwrapped⟩ := hwl
        subst hwrapped
        have hcount : (count + 1) % 65536 = count + 1 ∧ count + 1 < 65536 := by
          by_cases hc2 : count + 1 < 65536
          · exact ⟨Nat.mod_eq_of_lt hc2, hc2⟩
          · exfalso
            have hc3 : count = 65535 := by omega
            subst hc3
            simp at h
        obtain ⟨hcm, hc2⟩ := hcount
        rw [hcm, if_neg (by omega)] at h
        obtain ⟨r2, hr2, h⟩ := Except_bind_ok _ _ _ h
        simp only [pure, Except.pure, Except.ok.injEq] at h
        subst h
        obtain ⟨h1, h2, h3⟩ := ih (i + 1) (count + 1) r2 hidx2 hlen2 hc2 hr2
        refine ⟨by simp only; omega, h2, ?_⟩
        intro f0 m2 n2 tail hl
        obtain ⟨g, hg, hgn⟩ := ReadsP_ContentFeatures K hK f f0 pv hpv (hw.valid i f hf)
          (sizesOk_of_serialize K hK f pv hpv wrapper hwr hwl) wrapper hwr
        have hg0 := hg []
        rw [List.append_nil] at hg0
        have hrounds : r2.1 - count + n2 = (r2.1 - (count + 1) + n2) + 1 := by omega
        have himod : i % 65536 = i := Nat.mod_eq_of_lt (by omega)
        simp only [List.append_assoc]
        rw [hrounds, deSerializeLoop_entry K _ i wrapper _ f0 m2 hwl, hg0, himod]
        simp only
        exact h3 g _ n2 tail (LoopInv_register K m m2 i f g hl hf hfn hb hgn)
/-- The table written by `serialize` is read back by `deSerialize` into a
state that satisfies the loop invariant for all slots of the sender. -/
theorem roundtrip_table (K : Consts) (hK : K.WF) (m : CNodeDefManager) (pv : Nat)
    (hpv : 27 ≤ pv) (hw : WireInv K m) (bytes : List Nat)
    (hs : CNodeDefManager.serialize K m pv = Except.ok bytes) (m0 : CNodeDefManager) :
    ∃ m3, CNodeDefManager.deSerialize K ⟨bytes, false⟩ m0 = (Except.ok (), m3) ∧
      LoopInv K m m.m_content_features.length m3 := by
  unfold CNodeDefManager.serialize at hs
  obtain ⟨r, hr, hs⟩ := Except_bind_ok _ _ _ hs
  obtain ⟨os2, hos2, hs⟩ := Except_bind_ok _ _ _ hs
  simp only [pure, Except.pure, Except.ok.injEq] at hs
  have hlong : r.2.length ≤ K.LONG_STRING_MAX_LEN ∧ os2 = writeU32 r.2.length ++ r.2 := by
    unfold serializeLongString at hos2
    split_ifs at hos2 with hl
    cases hos2
    exact ⟨by omega, rfl⟩
  obtain ⟨hlong, hos⟩ := hlong
  subst hos
  have hbytes : bytes = tableBytes r.1 r.2 ++ [] := by
    rw [← hs]
    unfold tableBytes
    simp only [List.append_assoc, List.append_nil]
  obtain ⟨_, hr1, hloop⟩ := roundtrip_loop K hK m pv hpv hw m.m_content_features 0 0 r
    (fun k f hk => by rw [Nat.zero_add]; exact hk) (by have := hw.length_le; omega)
    (by decide) hr
  have h0 : LoopInv K m 0 (CNodeDefManager.new K) := by
    refine ⟨Builtins_new K hK, Sync_new K, ?_, (Inv_new K hK).named, ?_⟩
    · intro n id hn
      rw [new_name_to_id] at hn
      split_ifs at hn with h1 h2 h3
      · cases hn; exact Or.inl (Or.inl ⟨h1, rfl⟩)
      · cases hn; exact Or.inl (Or.inr (Or.inl ⟨h2, rfl⟩))
      · cases hn; exact Or.inl (Or.inr (Or.inr ⟨h3, rfl⟩))
    · intro j f hj
      exact absurd hj (Nat.not_lt_zero j)
  obtain ⟨f1, m3, hrun, hl⟩ := hloop (ContentFeatures.new K) (CNodeDefManager.new K) 0 [] h0
  refine ⟨m3, ?_, by rw [Nat.zero_add] at hl; exact hl⟩
  rw [hbytes, deSerialize_tableBytes K hK r.1 r.2 [] m0 hlong, Nat.mod_eq_of_lt hr1]
  simp only [Nat.sub_zero, Nat.add_zero, List.append_nil] at hrun
  rw [hrun]
  rfl

/-! ## NodeBox: exact round trip -/

theorem ReadsX_v3f (v : v3f) (h : v.exact) : Reads readV3F1000 (writeV3F1000 v) v :=
  fun rest => readV3F1000_write v rest h.1 h.2.1 h.2.2

theorem ReadsX_readBoxes : ∀ (boxes acc : List aabb3f), (∀ x ∈ boxes, x.exact) →
    Reads (readBoxes boxes.length acc) (writeBoxes boxes) (acc ++ boxes) := by
  intro boxes
  induction boxes with
  | nil =>
    intro acc _
    rw [List.append_nil]
    exact Reads_pure acc
  | cons b rest ih =>
    intro acc hex
    have hb := hex b (List.mem_cons_self _ _)
    have hr := ih (acc ++ [b]) (fun x hx => hex x (List.mem_cons_of_mem _ hx))
    rw [List.append_assoc] at hr
    show Reads (readBoxes (rest.length + 1) acc)
      (writeV3F1000 b.MinEdge ++ writeV3F1000 b.MaxEdge ++ writeBoxes rest) (acc ++ b :: rest)
    rw [List.append_assoc]
    unfold readBoxes
    exact Reads_bind _ _ _ _ _ _ (ReadsX_v3f _ hb.1)
      (Reads_bind _ _ _ _ _ _ (ReadsX_v3f _ hb.2) hr)

theorem ReadsX_READBOXES (boxes acc : List aabb3f) (h : boxes.length < 65536)
    (hex : ∀ x ∈ boxes, x.exact) :
    Reads (READBOXES acc) (WRITEBOX boxes) (acc ++ boxes) := by
  unfold READBOXES WRITEBOX
  refine Reads_bind _ _ _ _ _ _ (Reads_readU16 _) ?_
  rw [Nat.mod_eq_of_lt h]
  exact ReadsX_readBoxes boxes acc hex
theorem ReadsX_NodeBox_fixed (K : Consts) (hK : K.WF) (b b0 : NodeBox) (pv : Nat)
    (hpv : 27 ≤ pv) (ht : b.type = K.NODEBOX_FIXED) (hlen : b.fixed.length < 65536)
    (hex : ∀ x ∈ b.fixed, x.exact)
    (hd : b.wall_top = (NodeBox.reset K b).wall_top ∧
      b.wall_bottom = (NodeBox.reset K b).wall_bottom ∧
      b.wall_side = (NodeBox.reset K b).wall_side ∧ b.connect_top = [] ∧ b.connect_bottom = [] ∧
      b.connect_front = [] ∧ b.connect_left = [] ∧ b.connect_back = [] ∧ b.connect_right = []) :
    Reads (NodeBox.deSerialize K b0) (NodeBox.serialize K b pv) b := by
  obtain ⟨n1, n2, n3, n4, n5, n6, n7, n8, n9, n10⟩ := nodebox_types_ne K hK
  obtain ⟨l1, l2, l3, l4, l5⟩ := nodebox_types_lt K hK
  have hv : (if pv ≥ 27 then 3 else if pv ≥ 21 then 2 else 1) = 3 := by rw [if_pos hpv]
  have hmodt : K.NODEBOX_FIXED % 256 = K.NODEBOX_FIXED := Nat.mod_eq_of_lt l2
  have hr1 := ReadsX_readBoxes b.fixed (NodeBox.reset K b0).fixed hex
  have hmod : b.fixed.length % 65536 = b.fixed.length := Nat.mod_eq_of_lt hlen
  have hr2 : Reads (readBoxes (b.fixed.length % 65536) (NodeBox.reset K b0).fixed)
      (writeBoxes b.fixed) ((NodeBox.reset K b0).fixed ++ b.fixed) := by rw [hmod]; exact hr1
  have hser : NodeBox.serialize K b pv =
      writeU8 3 ++ (writeU8 b.type ++ (writeU16 b.fixed.length ++ (writeBoxes b.fixed ++ []))) := by
    unfold NodeBox.serialize
    simp [hv, ht, n1, n2, n3, n4, n5, n6, n7, n8, n9, n10, Ne.symm n1, Ne.symm n2,
      Ne.symm n3, Ne.symm n4, Ne.symm n5, Ne.symm n6, Ne.symm n7, Ne.symm n8, Ne.symm n9, Ne.symm n10]
  have hres : Reads (NodeBox.deSerialize K b0) (NodeBox.serialize K b pv)
      { { NodeBox.reset K b0 with type := b.type % 256 } with
        fixed := (NodeBox.reset K b0).fixed ++ b.fixed } := by
    rw [hser]
    unfold NodeBox.deSerialize
    refine Reads_bind _ _ _ _ _ _ (Reads_readU8 _) ?_
    refine Reads_ite_neg _ _ _ _ _ (by decide) ?_
    refine Reads_bind _ _ _ _ _ _ (Reads_readU8 _) ?_
    refine Reads_ite_pos _ _ _ _ _ (by simp [hmodt, ht, n1, n2, n3, n4, n5, n6, n7, n8, n9, n10, Ne.symm n1, Ne.symm n2,
      Ne.symm n3, Ne.symm n4, Ne.symm n5, Ne.symm n6, Ne.symm n7, Ne.symm n8, Ne.symm n9, Ne.symm n10]) ?_
    refine Reads_bind _ _ _ _ _ _ (Reads_readU16 _) ?_
    refine Reads_bind _ _ _ _ _ _ hr2 ?_
    exact Reads_pure _
  have heq : ({ { NodeBox.reset K b0 with type := b.type % 256 } with
      fixed := (NodeBox.reset K b0).fixed ++ b.fixed } : NodeBox) = b := by
    obtain ⟨h1, h2, h3, h4, h5, h6, h7, h8, h9⟩ := hd
    obtain ⟨type, fixed, wt, wb, ws, ct, cb, cf, cl, cbk, cr⟩ := b
    simp only [NodeBox.reset] at ht h1 h2 h3 h4 h5 h6 h7 h8 h9
    subst ht h1 h2 h3 h4 h5 h6 h7 h8 h9
    simp [NodeBox.reset, hmodt]
  rw [heq] at hres
  exact hres

theorem ReadsX_NodeBox_leveled (K : Consts) (hK : K.WF) (b b0 : NodeBox) (pv : Nat)
    (hpv : 27 ≤ pv) (ht : b.type = K.NODEBOX_LEVELED) (hlen : b.fixed.length < 65536)
    (hex : ∀ x ∈ b.fixed, x.exact)
    (hd : b.wall_top = (NodeBox.reset K b).wall_top ∧
      b.wall_bottom = (NodeBox.reset K b).wall_bottom ∧
      b.wall_side = (NodeBox.reset K b).wall_side ∧ b.connect_top = [] ∧ b.connect_bottom = [] ∧
      b.connect_front = [] ∧ b.connect_left = [] ∧ b.connect_back = [] ∧ b.connect_right = []) :
    Reads (NodeBox.deSerialize K b0) (NodeBox.serialize K b pv) b := by
  obtain ⟨n1, n2, n3, n4, n5, n6, n7, n8, n9, n10⟩ := nodebox_types_ne K hK
  obtain ⟨l1, l2, l3, l4, l5⟩ := nodebox_types_lt K hK
  have hv : (if pv ≥ 27 then 3 else if pv ≥ 21 then 2 else 1) = 3 := by rw [if_pos hpv]
  have hmodt : K.NODEBOX_LEVELED % 256 = K.NODEBOX_LEVELED := Nat.mod_eq_of_lt l4
  have hr1 := ReadsX_readBoxes b.fixed (NodeBox.reset K b0).fixed hex
  have hmod : b.fixed.length % 65536 = b.fixed.length := Nat.mod_eq_of_lt hlen
  have hr2 : Reads (readBoxes (b.fixed.length % 65536) (NodeBox.reset K b0).fixed)
      (writeBoxes b.fixed) ((NodeBox.reset K b0).fixed ++ b.fixed) := by rw [hmod]; exact hr1
  have hser : NodeBox.serialize K b pv =
      writeU8 3 ++ (writeU8 b.type ++ (writeU16 b.fixed.length ++ (writeBoxes b.fixed ++ []))) := by
    unfold NodeBox.serialize
    simp [hv, ht, n1, n2, n3, n4, n5, n6, n7, n8, n9, n10, Ne.symm n1, Ne.symm n2,
      Ne.symm n3, Ne.symm n4, Ne.symm n5, Ne.symm n6, Ne.symm n7, Ne.symm n8, Ne.symm n9, Ne.symm n10]
  have hres : Reads (NodeBox.deSerialize K b0) (NodeBox.serialize K b pv)
      { { NodeBox.reset K b0 with type := b.type % 256 } with
        fixed := (NodeBox.reset K b0).fixed ++ b.fixed } := by
    rw [hser]
    unfold NodeBox.deSerialize
    refine Reads_bind _ _ _ _ _ _ (Reads_readU8 _) ?_
    refine Reads_ite_neg _ _ _ _ _ (by decide) ?_
    refine Reads_bind _ _ _ _ _ _ (Reads_readU8 _) ?_
    refine Reads_ite_pos _ _ _ _ _ (by simp [hmodt, ht, n1, n2, n3, n4, n5, n6, n7, n8, n9, n10, Ne.symm n1, Ne.symm n2,
      Ne.symm n3, Ne.symm n4, Ne.symm n5, Ne.symm n6, Ne.symm n7, Ne.symm n8, Ne.symm n9, Ne.symm n10]) ?_
    refine Reads_bind _ _ _ _ _ _ (Reads_readU16 _) ?_
    refine Reads_bind _ _ _ _ _ _ hr2 ?_
    exact Reads_pure _
  have heq : ({ { NodeBox.reset K b0 with type := b.type % 256 } with
      fixed := (NodeBox.reset K b0).fixed ++ b.fixed } : NodeBox) = b := by
    obtain ⟨h1, h2, h3, h4, h5, h6, h7, h8, h9⟩ := hd
    obtain ⟨type, fixed, wt, wb, ws, ct, cb, cf, cl, cbk, cr⟩ := b
    simp only [NodeBox.reset] at ht h1 h2 h3 h4 h5 h6 h7 h8 h9
    subst ht h1 h2 h3 h4 h5 h6 h7 h8 h9
    simp [NodeBox.reset, hmodt]
  rw [heq] at hres
  exact hres

theorem ReadsX_NodeBox_wallmounted (K : Consts) (hK : K.WF) (b b0 : NodeBox) (pv : Nat)
    (hpv : 27 ≤ pv) (ht : b.type = K.NODEBOX_WALLMOUNTED)
    (hex : b.wall_top.exact ∧ b.wall_bottom.exact ∧ b.wall_side.exact)
    (hd : b.fixed = [] ∧ b.connect_top = [] ∧ b.connect_bottom = [] ∧
      b.connect_front = [] ∧ b.connect_left = [] ∧ b.connect_back = [] ∧ b.connect_right = []) :
    Reads (NodeBox.deSerialize K b0) (NodeBox.serialize K b pv) b := by
  obtain ⟨n1, n2, n3, n4, n5, n6, n7, n8, n9, n10⟩ := nodebox_types_ne K hK
  obtain ⟨l1, l2, l3, l4, l5⟩ := nodebox_types_lt K hK
  have hv : (if pv ≥ 27 then 3 else if pv ≥ 21 then 2 else 1) = 3 := by rw [if_pos hpv]
  have hmodt : K.NODEBOX_WALLMOUNTED % 256 = K.NODEBOX_WALLMOUNTED := Nat.mod_eq_of_lt l3
  obtain ⟨⟨e1, e2⟩, ⟨e3, e4⟩, ⟨e5, e6⟩⟩ := hex
  have hser : NodeBox.serialize K b pv =
      writeU8 3 ++ (writeU8 b.type ++ (writeV3F1000 b.wall_top.MinEdge ++
        (writeV3F1000 b.wall_top.MaxEdge ++ (writeV3F1000 b.wall_bottom.MinEdge ++
        (writeV3F1000 b.wall_bottom.MaxEdge ++ (writeV3F1000 b.wall_side.MinEdge ++
        (writeV3F1000 b.wall_side.MaxEdge ++ []))))))) := by
    unfold NodeBox.serialize
    simp [hv, ht, n1, n2, n3, n4, n5, n6, n7, n8, n9, n10, Ne.symm n1, Ne.symm n2,
      Ne.symm n3, Ne.symm n4, Ne.symm n5, Ne.symm n6, Ne.symm n7, Ne.symm n8, Ne.symm n9, Ne.symm n10]
  have hres : Reads (NodeBox.deSerialize K b0) (NodeBox.serialize K b pv)
      { { NodeBox.reset K b0 with type := b.type % 256 } with
        wall_top := ⟨b.wall_top.MinEdge, b.wall_top.MaxEdge⟩,
        wall_bottom := ⟨b.wall_bottom.MinEdge, b.wall_bottom.MaxEdge⟩,
        wall_side := ⟨b.wall_side.MinEdge, b.wall_side.MaxEdge⟩ } := by
    rw [hser]
    unfold NodeBox.deSerialize
    refine Reads_bind _ _ _ _ _ _ (Reads_readU8 _) ?_
    refine Reads_ite_neg _ _ _ _ _ (by decide) ?_
    refine Reads_bind _ _ _ _ _ _ (Reads_readU8 _) ?_
    refine Reads_ite_neg _ _ _ _ _ (by simp [hmodt, ht, n1, n2, n3, n4, n5, n6, n7, n8, n9, n10, Ne.symm n1, Ne.symm n2,
      Ne.symm n3, Ne.symm n4, Ne.symm n5, Ne.symm n6, Ne.symm n7, Ne.symm n8, Ne.symm n9, Ne.symm n10]) ?_
    refine Reads_ite_pos _ _ _ _ _ (by simp [hmodt, ht, n1, n2, n3, n4, n5, n6, n7, n8, n9, n10, Ne.symm n1, Ne.symm n2,
      Ne.symm n3, Ne.symm n4, Ne.symm n5, Ne.symm n6, Ne.symm n7, Ne.symm n8, Ne.symm n9, Ne.symm n10]) ?_
    refine Reads_bind _ _ _ _ _ _ (ReadsX_v3f _ e1) ?_
    refine Reads_bind _ _ _ _ _ _ (ReadsX_v3f _ e2) ?_
    refine Reads_bind _ _ _ _ _ _ (ReadsX_v3f _ e3) ?_
    refine Reads_bind _ _ _ _ _ _ (ReadsX_v3f _ e4) ?_
    refine Reads_bind _ _ _ _ _ _ (ReadsX_v3f _ e5) ?_
    refine Reads_bind _ _ _ _ _ _ (ReadsX_v3f _ e6) ?_
    exact Reads_pure _
  have heq : ({ { NodeBox.reset K b0 with type := b.type % 256 } with
      wall_top := ⟨b.wall_top.MinEdge, b.wall_top.MaxEdge⟩,
      wall_bottom := ⟨b.wall_bottom.MinEdge, b.wall_bottom.MaxEdge⟩,
      wall_side := ⟨b.wall_side.MinEdge, b.wall_side.MaxEdge⟩ } : NodeBox) = b := by
    obtain ⟨h1, h2, h3, h4, h5, h6, h7⟩ := hd
    obtain ⟨type, fixed, wt, wb, ws, ct, cb, cf, cl, cbk, cr⟩ := b
    simp only [NodeBox.reset] at ht h1 h2 h3 h4 h5 h6 h7
    subst ht h1 h2 h3 h4 h5 h6 h7
    simp [NodeBox.reset, hmodt]
  rw [heq] at hres
  exact hres

theorem ReadsX_NodeBox_connected (K : Consts) (hK : K.WF) (b b0 : NodeBox) (pv : Nat)
    (hpv : 27 ≤ pv) (ht : b.type = K.NODEBOX_CONNECTED)
    (hs : b.fixed.length < 65536 ∧ b.connect_top.length < 65536 ∧
      b.connect_bottom.length < 65536 ∧ b.connect_front.length < 65536 ∧
      b.connect_left.length < 65536 ∧ b.connect_back.length < 65536 ∧
      b.connect_right.length < 65536)
    (hex : (∀ x ∈ b.fixed, x.exact) ∧ (∀ x ∈ b.connect_top, x.exact) ∧
      (∀ x ∈ b.connect_bottom, x.exact) ∧ (∀ x ∈ b.connect_front, x.exact) ∧
      (∀ x ∈ b.connect_left, x.exact) ∧ (∀ x ∈ b.connect_back, x.exact) ∧
      (∀ x ∈ b.connect_right, x.exact))
    (hd : b.wall_top = (NodeBox.reset K b).wall_top ∧
      b.wall_bottom = (NodeBox.reset K b).wall_bottom ∧
      b.wall_side = (NodeBox.reset K b).wall_side) :
    Reads (NodeBox.deSerialize K b0) (NodeBox.serialize K b pv) b := by
  obtain ⟨n1, n2, n3, n4, n5, n6, n7, n8, n9, n10⟩ := nodebox_types_ne K hK
  obtain ⟨l1, l2, l3, l4, l5⟩ := nodebox_types_lt K hK
  have hv : (if pv ≥ 27 then 3 else if pv ≥ 21 then 2 else 1) = 3 := by rw [if_pos hpv]
  have hmodt : K.NODEBOX_CONNECTED % 256 = K.NODEBOX_CONNECTED := Nat.mod_eq_of_lt l5
  obtain ⟨s1, s2, s3, s4, s5, s6, s7⟩ := hs
  obtain ⟨e1, e2, e3, e4, e5, e6, e7⟩ := hex
  have hser : NodeBox.serialize K b pv =
      writeU8 3 ++ (writeU8 b.type ++ (WRITEBOX b.fixed ++ (WRITEBOX b.connect_top ++
        (WRITEBOX b.connect_bottom ++ (WRITEBOX b.connect_front ++
        (WRITEBOX b.connect_left ++ (WRITEBOX b.connect_back ++
        (WRITEBOX b.connect_right ++ [])))))))) := by
    unfold NodeBox.serialize
    simp [hv, ht, n1, n2, n3, n4, n5, n6, n7, n8, n9, n10, Ne.symm n1, Ne.symm n2,
      Ne.symm n3, Ne.symm n4, Ne.symm n5, Ne.symm n6, Ne.symm n7, Ne.symm n8, Ne.symm n9, Ne.symm n10]
  have hres : Reads (NodeBox.deSerialize K b0) (NodeBox.serialize K b pv)
      { { NodeBox.reset K b0 with type := b.type % 256 } with
        fixed := (NodeBox.reset K b0).fixed ++ b.fixed,
        connect_top := (NodeBox.reset K b0).connect_top ++ b.connect_top,
        connect_bottom := (NodeBox.reset K b0).connect_bottom ++ b.connect_bottom,
        connect_front := (NodeBox.reset K b0).connect_front ++ b.connect_front,
        connect_left := (NodeBox.reset K b0).connect_left ++ b.connect_left,
        connect_back := (NodeBox.reset K b0).connect_back ++ b.connect_back,
        connect_right := (NodeBox.reset K b0).connect_right ++ b.connect_right } := by
    rw [hser]
    unfold NodeBox.deSerialize
    refine Reads_bind _ _ _ _ _ _ (Reads_readU8 _) ?_
    refine Reads_ite_neg _ _ _ _ _ (by decide) ?_
    refine Reads_bind _ _ _ _ _ _ (Reads_readU8 _) ?_
    refine Reads_ite_neg _ _ _ _ _ (by simp [hmodt, ht, n1, n2, n3, n4, n5, n6, n7, n8, n9, n10, Ne.symm n1, Ne.symm n2,
      Ne.symm n3, Ne.symm n4, Ne.symm n5, Ne.symm n6, Ne.symm n7, Ne.symm n8, Ne.symm n9, Ne.symm n10]) ?_
    refine Reads_ite_neg _ _ _ _ _ (by simp [hmodt, ht, n1, n2, n3, n4, n5, n6, n7, n8, n9, n10, Ne.symm n1, Ne.symm n2,
      Ne.symm n3, Ne.symm n4, Ne.symm n5, Ne.symm n6, Ne.symm n7, Ne.symm n8, Ne.symm n9, Ne.symm n10]) ?_
    refine Reads_ite_pos _ _ _ _ _ (by simp [hmodt, ht, n1, n2, n3, n4, n5, n6, n7, n8, n9, n10, Ne.symm n1, Ne.symm n2,
      Ne.symm n3, Ne.symm n4, Ne.symm n5, Ne.symm n6, Ne.symm n7, Ne.symm n8, Ne.symm n9, Ne.symm n10]) ?_
    refine Reads_bind _ _ _ _ _ _ (ReadsX_READBOXES _ _ s1 e1) ?_
    refine Reads_bind _ _ _ _ _ _ (ReadsX_READBOXES _ _ s2 e2) ?_
    refine Reads_bind _ _ _ _ _ _ (ReadsX_READBOXES _ _ s3 e3) ?_
    refine Reads_bind _ _ _ _ _ _ (ReadsX_READBOXES _ _ s4 e4) ?_
    refine Reads_bind _ _ _ _ _ _ (ReadsX_READBOXES _ _ s5 e5) ?_
    refine Reads_bind _ _ _ _ _ _ (ReadsX_READBOXES _ _ s6 e6) ?_
    refine Reads_bind _ _ _ _ _ _ (ReadsX_READBOXES _ _ s7 e7) ?_
    exact Reads_pure _
  have heq : ({ { NodeBox.reset K b0 with type := b.type % 256 } with
      fixed := (NodeBox.reset K b0).fixed ++ b.fixed,
      connect_top := (NodeBox.reset K b0).connect_top ++ b.connect_top,
      connect_bottom := (NodeBox.reset K b0).connect_bottom ++ b.connect_bottom,
      connect_front := (NodeBox.reset K b0).connect_front ++ b.connect_front,
      connect_left := (NodeBox.reset K b0).connect_left ++ b.connect_left,
      connect_back := (NodeBox.reset K b0).connect_back ++ b.connect_back,
      connect_right := (NodeBox.reset K b0).connect_right ++ b.connect_right } : NodeBox) = b := by
    obtain ⟨h1, h2, h3⟩ := hd
    obtain ⟨type, fixed, wt, wb, ws, ct, cb, cf, cl, cbk, cr⟩ := b
    simp only [NodeBox.reset] at ht h1 h2 h3
    subst ht h1 h2 h3
    simp [NodeBox.reset, hmodt]
  rw [heq] at hres
  exact hres

/-! ## Pending resolver callbacks -/

theorem nodup_index_unique (cb : List Nat) (hnd : cb.Nodup) (i j : Nat) (a : Nat)
    (hi : cb[i]? = some a) (hj : cb[j]? = some a) : i = j := by
  rw [List.nodup_iff_getElem?_ne_getElem?] at hnd
  rcases Nat.lt_trichotomy i j with h | h | h
  · exact absurd (hi.trans hj.symm) (hnd i j h (getElem?_lt _ _ _ hj))
  · exact h
  · exact absurd (hj.trans hi.symm) (hnd j i h (getElem?_lt _ _ _ hi))

/-- The entries of the pending list after entry `k` has been overwritten
with the last entry and the list shortened by one. -/
theorem swapRemove_getElem? (cb : List Nat) (k j : Nat) (hk : k < cb.length) :
    ((cb.set k (cb.getD (cb.length - 1) 0)).take (cb.length - 1))[j]? =
      if j < cb.length - 1 then (if j = k then cb[cb.length - 1]? else cb[j]?) else none := by
  have hlast : cb[cb.length - 1]? = some (cb.getD (cb.length - 1) 0) := by
    rw [List.getD_eq_getElem?_getD, List.getElem?_eq_getElem (by omega)]
    rfl
  rw [List.getElem?_take, List.getElem?_set]
  by_cases hj : j < cb.length - 1
  · rw [if_pos hj, if_pos hj]
    by_cases hjk : j = k
    · rw [if_pos hjk.symm, if_pos hk, if_pos hjk, hlast]
    · rw [if_neg (fun e => hjk e.symm), if_neg hjk]
  · rw [if_neg hj, if_neg hj]

theorem swapRemove_spec (cb : List Nat) (hnd : cb.Nodup) (k nr : Nat)
    (hnr : cb[k]? = some nr) :
    ((cb.set k (cb.getD (cb.length - 1) 0)).take (cb.length - 1)).Nodup ∧
    ∀ x, x ∈ (cb.set k (cb.getD (cb.length - 1) 0)).take (cb.length - 1) ↔ (x ∈ cb ∧ x ≠ nr) := by
  have hk : k < cb.length := getElem?_lt _ _ _ hnr
  have hget := swapRemove_getElem? cb k
  constructor
  · rw [List.nodup_iff_getElem?_ne_getElem?]
    intro i j hij hj
    have hlen : ((cb.set k (cb.getD (cb.length - 1) 0)).take (cb.length - 1)).length
        = cb.length - 1 := by
      simp only [List.length_take, List.length_set]
      omega
    rw [hlen] at hj
    rw [hget i hk, hget j hk, if_pos (by omega), if_pos hj]
    intro heq
    have hsome : ∀ t, t < cb.length → ∃ a, cb[t]? = some a := fun t ht =>
      ⟨cb[t], List.getElem?_eq_getElem ht⟩
    by_cases hik : i = k
    · rw [if_pos hik, if_neg (by omega)] at heq
      obtain ⟨a, ha⟩ := hsome j (by omega)
      have := nodup_index_unique cb hnd _ _ a (heq.trans ha) ha
      omega
    · rw [if_neg hik] at heq
      by_cases hjk : j = k
      · rw [if_pos hjk] at heq
        obtain ⟨a, ha⟩ := hsome i (by omega)
        have := nodup_index_unique cb hnd _ _ a ha (heq.symm.trans ha)
        omega
      · rw [if_neg hjk] at heq
        obtain ⟨a, ha⟩ := hsome i (by omega)
        have := nodup_index_unique cb hnd _ _ a ha (heq.symm.trans ha)
        omega
  · intro x
    rw [List.mem_iff_getElem?, List.mem_iff_getElem?]
    constructor
    · rintro ⟨j, hj⟩
      rw [hget j hk] at hj
      split_ifs at hj with h1 h2
      · refine ⟨⟨_, hj⟩, ?_⟩
        intro e
        subst e
        have := nodup_index_unique cb hnd _ _ x hj hnr
        omega
      · refine ⟨⟨_, hj⟩, ?_⟩
        intro e
        subst e
        exact h2 (nodup_index_unique cb hnd _ _ x hj hnr)
    · rintro ⟨⟨j, hj⟩, hx⟩
      have hjl := getElem?_lt _ _ _ hj
      have hjk : j ≠ k := by
        intro e
        subst e
        rw [hj] at hnr
        cases hnr
        exact hx rfl
      by_cases hjlast : j < cb.length - 1
      · refine ⟨j, ?_⟩
        rw [hget j hk, if_pos hjlast, if_neg hjk]
        exact hj
      · refine ⟨k, ?_⟩
        have : j = cb.length - 1 := by omega
        rw [hget k hk, if_pos (by omega), if_pos rfl, ← this]
        exact hj

/-- The loop of `cancelNodeResolveCallback` finds the first entry equal to
`nr` at or after index `i`. -/
theorem cancelLoop_spec (nr : Nat) (cb : List Nat) :
    ∀ (fuel i : Nat), fuel + i = cb.length →
      (cancelLoop nr cb fuel i = none ∧ ∀ j, i ≤ j → cb[j]? ≠ some nr) ∨
      (∃ k, cb[k]? = some nr ∧
        cancelLoop nr cb fuel i =
          some ((cb.set k (cb.getD (cb.length - 1) 0)).take (cb.length - 1))) := by
  intro fuel
  induction fuel with
  | zero =>
    intro i hi
    left
    refine ⟨rfl, ?_⟩
    intro j hj
    rw [List.getElem?_eq_none (by omega)]
    exact fun h => Option.noConfusion h
  | succ fuel ih =>
    intro i hi
    unfold cancelLoop
    have hil : i < cb.length := by omega
    by_cases hne : nr ≠ cb.getD i 0
    · rw [if_pos hne]
      rcases ih (i + 1) (by omega) with ⟨h1, h2⟩ | h
      · left
        refine ⟨h1, ?_⟩
        intro j hj
        by_cases hji : j = i
        · subst hji
          rw [List.getElem?_eq_getElem hil]
          intro e
          apply hne
          rw [List.getD_eq_getElem _ _ hil]
          exact (Option.some.inj e).symm
        · exact h2 j (by omega)
      · exact Or.inr h
    · rw [if_neg hne]
      right
      refine ⟨i, ?_, rfl⟩
      rw [List.getElem?_eq_getElem hil]
      have : nr = cb.getD i 0 := by
        by_contra hc
        exact hne hc
      rw [this, List.getD_eq_getElem _ _ hil]
theorem pendedAfter_append (nr : Nat) (ops : List ResolverOp) (op : ResolverOp) :
    pendedAfter nr (ops ++ [op]) =
      match op with
      | ResolverOp.pend n => if n = nr then true else pendedAfter nr ops
      | ResolverOp.cancel n => if n = nr then false else pendedAfter nr ops := by
  unfold pendedAfter
  rw [List.foldl_append]
  cases op <;> rfl

theorem runOps_append (V : Overrides) (ops : List ResolverOp) (op : ResolverOp) (w : World) :
    runOps V (ops ++ [op]) w = op.run V (runOps V ops w) := by
  unfold runOps
  rw [List.foldl_append]
  rfl

theorem noDoublePend_initial (ops : List ResolverOp) (op : ResolverOp)
    (h : noDoublePend (ops ++ [op])) : noDoublePend ops := by
  intro pre post n e
  exact h pre (post ++ [op]) n (by rw [e]; simp)

theorem PendInv_step (V : Overrides) (w0 w : World) (ops : List ResolverOp) (op : ResolverOp)
    (h : PendInv w0 w ops) (hop : noDoublePend (ops ++ [op])) :
    PendInv w0 (op.run V w) (ops ++ [op]) := by
  obtain ⟨hflag, hlog, hnd, hmem⟩ := h
  cases op with
  | pend n =>
    have hfresh : pendedAfter n ops = false := hop ops [] n rfl
    have hnotin : n ∉ w.ndef.m_pending_resolve_callbacks := by
      intro hin
      rw [(hmem n).mp hin] at hfresh
      exact Bool.noConfusion hfresh
    have hrun : (ResolverOp.run V (ResolverOp.pend n) w).ndef.m_pending_resolve_callbacks =
        w.ndef.m_pending_resolve_callbacks ++ [n] ∧
        (ResolverOp.run V (ResolverOp.pend n) w).log = w.log ∧
        (ResolverOp.run V (ResolverOp.pend n) w).ndef.m_node_registration_complete = false := by
      unfold ResolverOp.run pendNodeResolve
      simp [hflag]
    obtain ⟨h1, h2, h3⟩ := hrun
    refine ⟨h3, h2.trans hlog, ?_, ?_⟩
    · rw [h1]
      exact List.Nodup.append hnd (List.nodup_singleton n) (by simpa using hnotin)
    · intro nr
      rw [h1, pendedAfter_append, List.mem_append, List.mem_singleton, hmem nr]
      by_cases hn : n = nr
      · simp [hn]
      · simp [hn, Ne.symm hn]
  | cancel n =>
    have hpa : ∀ nr, pendedAfter nr (ops ++ [ResolverOp.cancel n]) =
        if n = nr then false else pendedAfter nr ops := fun nr => pendedAfter_append nr ops _
    show PendInv w0 (cancelNodeResolveCallback n w).2 _
    unfold cancelNodeResolveCallback
    rcases cancelLoop_spec n w.ndef.m_pending_resolve_callbacks
        w.ndef.m_pending_resolve_callbacks.length 0 (by omega) with ⟨h1, h2⟩ | ⟨k, hk, h1⟩
    · rw [h1]
      refine ⟨hflag, hlog, hnd, ?_⟩
      intro nr
      rw [hpa nr, hmem nr]
      by_cases hn : n = nr
      · subst hn
        rw [if_pos rfl]
        constructor
        · intro hp
          exfalso
          obtain ⟨j, hj⟩ := List.mem_iff_getElem?.mp ((hmem n).mpr hp)
          exact h2 j (Nat.zero_le j) hj
        · intro hf
          exact Bool.noConfusion hf
      · rw [if_neg hn]
    · rw [h1]
      obtain ⟨s1, s2⟩ := swapRemove_spec _ hnd k n hk
      refine ⟨hflag, hlog, s1, ?_⟩
      intro nr
      simp only
      rw [s2 nr, hpa nr, hmem nr]
      by_cases hn : n = nr
      · subst hn
        simp
      · rw [if_neg hn]
        constructor
        · exact fun h => h.1
        · exact fun h => ⟨h, fun e => hn e.symm⟩

theorem PendInv_runOps (V : Overrides) (w0 : World) (hw : w0.fresh) (ops : List ResolverOp)
    (hops : noDoublePend ops) : PendInv w0 (runOps V ops w0) ops := by
  induction ops using List.reverseRecOn with
  | nil =>
    refine ⟨hw.1, rfl, ?_, ?_⟩
    · show w0.ndef.m_pending_resolve_callbacks.Nodup
      rw [hw.2]
      exact List.nodup_nil
    · intro nr
      show nr ∈ w0.ndef.m_pending_resolve_callbacks ↔ _
      rw [hw.2]
      simp [pendedAfter]
  | append_singleton ops op ih =>
    rw [runOps_append]
    exact PendInv_step V w0 _ ops op (ih (noDoublePend_initial ops op hops)) hops

theorem resolveAll_log (V : Overrides) : ∀ (cb : List Nat) (w : World),
    (cb.foldl (fun w nr => nodeResolveInternal V nr w) w).log = w.log ++ cb ∧
    (cb.foldl (fun w nr => nodeResolveInternal V nr w) w).ndef = w.ndef := by
  intro cb
  induction cb with
  | nil => intro w; simp
  | cons nr rest ih =>
    intro w
    rw [List.foldl_cons]
    obtain ⟨h1, h2⟩ := ih (nodeResolveInternal V nr w)
    rw [h1, h2]
    simp [nodeResolveInternal]

theorem runNodeResolveCallbacks_spec (V : Overrides) (w : World) :
    (runNodeResolveCallbacks V w).log = w.log ++ w.ndef.m_pending_resolve_callbacks ∧
    (runNodeResolveCallbacks V w).ndef.m_pending_resolve_callbacks = [] := by
  unfold runNodeResolveCallbacks
  exact ⟨(resolveAll_log V _ w).1, rfl⟩

/-! ## Coordinates and edit events -/

theorem toS16_of_valid (x : Int) (h1 : -32768 ≤ x) (h2 : x ≤ 32767) : toS16 x = x := by
  unfold toS16
  omega

/-- The block position of an `s16` node position: floor division bounds. -/
theorem getContainerPos_bounds (p : Int) :
    getContainerPos p MAP_BLOCKSIZE * 16 ≤ p ∧ p ≤ getContainerPos p MAP_BLOCKSIZE * 16 + 15 := by
  unfold getContainerPos MAP_BLOCKSIZE
  omega

theorem getContainerPos_range (p : Int) (h1 : -32768 ≤ p) (h2 : p ≤ 32767) :
    -2048 ≤ getContainerPos p MAP_BLOCKSIZE ∧ getContainerPos p MAP_BLOCKSIZE ≤ 2047 := by
  unfold getContainerPos MAP_BLOCKSIZE
  omega

/-- The area `getArea` builds for the one block `bp` of the map. -/
theorem getArea_single (bp : v3s16)
    (hb : (-2048 ≤ bp.X ∧ bp.X ≤ 2047) ∧ (-2048 ≤ bp.Y ∧ bp.Y ≤ 2047) ∧
      (-2048 ≤ bp.Z ∧ bp.Z ≤ 2047)) :
    ((VoxelArea.new.addPoint (bp.scale MAP_BLOCKSIZE)).addPoint
      (((bp.scale MAP_BLOCKSIZE).add ((v3s16.mk 1 1 1).scale MAP_BLOCKSIZE)).sub ⟨1, 1, 1⟩)) =
      ⟨⟨bp.X * 16, bp.Y * 16, bp.Z * 16⟩, ⟨bp.X * 16 + 15, bp.Y * 16 + 15, bp.Z * 16 + 15⟩⟩ := by
  obtain ⟨⟨x1, x2⟩, ⟨y1, y2⟩, ⟨z1, z2⟩⟩ := hb
  have e1 : bp.scale MAP_BLOCKSIZE = ⟨bp.X * 16, bp.Y * 16, bp.Z * 16⟩ := by
    unfold v3s16.scale MAP_BLOCKSIZE
    rw [toS16_of_valid _ (by omega) (by omega), toS16_of_valid _ (by omega) (by omega),
      toS16_of_valid _ (by omega) (by omega)]
  have e2 : (v3s16.mk 1 1 1).scale MAP_BLOCKSIZE = ⟨16, 16, 16⟩ := by
    unfold v3s16.scale MAP_BLOCKSIZE
    rfl
  rw [e1, e2]
  unfold VoxelArea.addPoint VoxelArea.hasEmptyExtent VoxelArea.new v3s16.add v3s16.sub
  simp only [toS16]
  simp
  refine ⟨⟨?_, ?_, ?_⟩, ⟨?_, ?_, ?_⟩⟩ <;> omega
theorem spansAxis_single (c : Int) : spansAxis (c * 16) (c * 16 + 15) [c] := by
  unfold spansAxis MAP_BLOCKSIZE
  simp

theorem spansAxis_step (lo hi : Int) (cs : List Int) (c : Int) (h : spansAxis lo hi cs) :
    spansAxis (min lo (c * 16)) (max hi (c * 16 + 15)) (cs ++ [c]) := by
  obtain ⟨h1, ⟨c1, hc1, e1⟩, ⟨c2, hc2, e2⟩⟩ := h
  unfold MAP_BLOCKSIZE at h1 e1 e2
  unfold spansAxis MAP_BLOCKSIZE
  refine ⟨?_, ?_, ?_⟩
  · intro x hx
    rw [List.mem_append, List.mem_singleton] at hx
    rcases hx with hx | hx
    · have := h1 x hx
      omega
    · subst hx
      omega
  · by_cases hle : lo ≤ c * 16
    · exact ⟨c1, List.mem_append_left _ hc1, by omega⟩
    · exact ⟨c, List.mem_append_right _ (List.mem_singleton_self c), by omega⟩
  · by_cases hle : c * 16 + 15 ≤ hi
    · exact ⟨c2, List.mem_append_left _ hc2, by omega⟩
    · exact ⟨c, List.mem_append_right _ (List.mem_singleton_self c), by omega⟩

/-- One round of the loop of `getArea` on an area that holds a position. -/
theorem getArea_step (a : VoxelArea) (bp : v3s16) (hb : bp.isBlockPos)
    (ha : a.MinEdge.le a.MaxEdge) :
    ((a.addPoint (bp.scale MAP_BLOCKSIZE)).addPoint
      (((bp.scale MAP_BLOCKSIZE).add ((v3s16.mk 1 1 1).scale MAP_BLOCKSIZE)).sub ⟨1, 1, 1⟩)) =
      ⟨⟨min a.MinEdge.X (bp.X * 16), min a.MinEdge.Y (bp.Y * 16), min a.MinEdge.Z (bp.Z * 16)⟩,
        ⟨max a.MaxEdge.X (bp.X * 16 + 15), max a.MaxEdge.Y (bp.Y * 16 + 15),
          max a.MaxEdge.Z (bp.Z * 16 + 15)⟩⟩ := by
  obtain ⟨⟨x1, x2⟩, ⟨y1, y2⟩, ⟨z1, z2⟩⟩ := hb
  obtain ⟨a1, a2, a3⟩ := ha
  have e1 : bp.scale MAP_BLOCKSIZE = ⟨bp.X * 16, bp.Y * 16, bp.Z * 16⟩ := by
    unfold v3s16.scale MAP_BLOCKSIZE
    rw [toS16_of_valid _ (by omega) (by omega), toS16_of_valid _ (by omega) (by omega),
      toS16_of_valid _ (by omega) (by omega)]
  have e2 : (v3s16.mk 1 1 1).scale MAP_BLOCKSIZE = ⟨16, 16, 16⟩ := by
    unfold v3s16.scale MAP_BLOCKSIZE
    rfl
  have e3 : (v3s16.add ⟨bp.X * 16, bp.Y * 16, bp.Z * 16⟩ ⟨16, 16, 16⟩).sub ⟨1, 1, 1⟩ =
      ⟨bp.X * 16 + 15, bp.Y * 16 + 15, bp.Z * 16 + 15⟩ := by
    unfold v3s16.add v3s16.sub toS16
    simp only [v3s16.mk.injEq]
    refine ⟨?_, ?_, ?_⟩ <;> omega
  have hne : a.hasEmptyExtent = false := by
    unfold VoxelArea.hasEmptyExtent
    simp only [decide_eq_false_iff_not, not_or, not_lt]
    exact ⟨a1, a2, a3⟩
  rw [e1, e2, e3]
  unfold VoxelArea.addPoint
  rw [hne]
  simp only [Bool.false_eq_true, if_false]
  have hne2 : VoxelArea.hasEmptyExtent
      ⟨⟨min a.MinEdge.X (bp.X * 16), min a.MinEdge.Y (bp.Y * 16), min a.MinEdge.Z (bp.Z * 16)⟩,
        ⟨max a.MaxEdge.X (bp.X * 16), max a.MaxEdge.Y (bp.Y * 16), max a.MaxEdge.Z (bp.Z * 16)⟩⟩
      = false := by
    unfold VoxelArea.hasEmptyExtent
    simp only [decide_eq_false_iff_not, not_or, not_lt]
    refine ⟨?_, ?_, ?_⟩ <;> omega
  rw [hne2]
  simp only [Bool.false_eq_true, if_false, VoxelArea.mk.injEq, v3s16.mk.injEq]
  refine ⟨⟨?_, ?_, ?_⟩, ⟨?_, ?_, ?_⟩⟩ <;> omega

/-- The loop of `getArea` continued from an area that spans the blocks seen
so far. -/
theorem getArea_fold : ∀ (rest seen : List v3s16) (a : VoxelArea),
    (∀ bp ∈ rest, bp.isBlockPos) → a.MinEdge.le a.MaxEdge → a.spansBlocks seen →
    (rest.foldl (fun a p =>
      (a.addPoint (p.scale MAP_BLOCKSIZE)).addPoint
        (((p.scale MAP_BLOCKSIZE).add ((v3s16.mk 1 1 1).scale MAP_BLOCKSIZE)).sub ⟨1, 1, 1⟩))
      a).spansBlocks (seen ++ rest) := by
  intro rest
  induction rest with
  | nil =>
    intro seen a _ _ hs
    rw [List.append_nil]
    exact hs
  | cons bp rest ih =>
    intro seen a hb ha hs
    rw [List.foldl_cons, getArea_step a bp (hb bp (List.mem_cons_self _ _)) ha]
    have ha2 : v3s16.le
        ⟨min a.MinEdge.X (bp.X * 16), min a.MinEdge.Y (bp.Y * 16), min a.MinEdge.Z (bp.Z * 16)⟩
        ⟨max a.MaxEdge.X (bp.X * 16 + 15), max a.MaxEdge.Y (bp.Y * 16 + 15),
          max a.MaxEdge.Z (bp.Z * 16 + 15)⟩ := by
      obtain ⟨a1, a2, a3⟩ := ha
      unfold v3s16.le
      simp only
      refine ⟨?_, ?_, ?_⟩ <;> omega
    have hs2 : VoxelArea.spansBlocks
        ⟨⟨min a.MinEdge.X (bp.X * 16), min a.MinEdge.Y (bp.Y * 16), min a.MinEdge.Z (bp.Z * 16)⟩,
          ⟨max a.MaxEdge.X (bp.X * 16 + 15), max a.MaxEdge.Y (bp.Y * 16 + 15),
            max a.MaxEdge.Z (bp.Z * 16 + 15)⟩⟩ (seen ++ [bp]) := by
      obtain ⟨s1, s2, s3⟩ := hs
      unfold VoxelArea.spansBlocks
      simp only [List.map_append, List.map_cons, List.map_nil]
      exact ⟨spansAxis_step _ _ _ _ s1, spansAxis_step _ _ _ _ s2, spansAxis_step _ _ _ _ s3⟩
    have := ih (seen ++ [bp]) _ (fun x hx => hb x (List.mem_cons_of_mem _ hx)) ha2 hs2
    rw [List.append_assoc] at this
    exact this

theorem getNodeBlockPos_corner (bp : v3s16) (d : Int) (h0 : 0 ≤ d) (h15 : d ≤ 15) :
    getNodeBlockPos ⟨bp.X * 16 + d, bp.Y * 16 + d, bp.Z * 16 + d⟩ = bp := by
  obtain ⟨x, y, z⟩ := bp
  unfold getNodeBlockPos getContainerPos MAP_BLOCKSIZE
  simp only [v3s16.mk.injEq]
  refine ⟨?_, ?_, ?_⟩ <;> omega

theorem block_corner_valid (bp : v3s16) (hb : bp.isBlockPos) (d : Int) (h0 : 0 ≤ d)
    (h15 : d ≤ 15) : (v3s16.mk (bp.X * 16 + d) (bp.Y * 16 + d) (bp.Z * 16 + d)).valid := by
  obtain ⟨⟨x1, x2⟩, ⟨y1, y2⟩, ⟨z1, z2⟩⟩ := hb
  unfold v3s16.valid
  simp only
  omega


theorem K0_WF : K0.WF := by
  constructor <;> decide

/-! ## C1: the reserved ids under `set` -/

/-- C1 (as stated) fails: `set("air", def)` on a fresh registry stores the new
definition in slot `CONTENT_AIR`, which held the built-in "air" definition
before the call. -/
theorem C1_counterexample_air_redefined :
    (CNodeDefManager.set K0 0 str_air walkableAir (CNodeDefManager.new K0)).map
        (fun r => (r.1, r.2.m_content_features[K0.CONTENT_AIR]?))
      = some (K0.CONTENT_AIR, some walkableAir) ∧
    (CNodeDefManager.new K0).m_content_features[K0.CONTENT_AIR]?
      = some (CNodeDefManager.airFeatures K0) ∧
    walkableAir ≠ CNodeDefManager.airFeatures K0 := by
  decide!

/-- C1 (amended): in every state reached from a fresh registry by `set`,
`allocateDummy`, `removeNode` and `updateAliases`, a call `set(name, def)`
that returns leaves the definition stored at `CONTENT_IGNORE` unchanged, and
leaves the definition stored at `CONTENT_AIR` unchanged unless `name` is
"air". -/
theorem set_keeps_reserved_definitions (K : Consts) (hK : K.WF) (m : CNodeDefManager)
    (hm : Reach K Op.anyCall m) (fuel : Nat) (name : CppString) (d : ContentFeatures)
    (id : Nat) (m2 : CNodeDefManager)
    (h : CNodeDefManager.set K fuel name d m = some (id, m2)) :
    m2.m_content_features[K.CONTENT_IGNORE]? = m.m_content_features[K.CONTENT_IGNORE]? ∧
    (name ≠ str_air →
      m2.m_content_features[K.CONTENT_AIR]? = m.m_content_features[K.CONTENT_AIR]?) := by
  obtain ⟨hu, ⟨fa, hfa, hna⟩, ⟨fi, hfi, hni⟩, hnamed, hne⟩ := Reach_Inv K hK _ m hm
  rcases set_cases K fuel name d m m2 id h with
    ⟨_, k, nid, hm2⟩ | ⟨h1, hd, h3, hg, hm2⟩ | ⟨h1, hd, h3, hg, hi, k, nid, f0, hf0, hn0, hm2⟩
  · subst hm2
    exact ⟨by simp only [getElem?_pad _ _ _ _ hfi, hfi],
      fun _ => by simp only [getElem?_pad _ _ _ _ hfa, hfa]⟩
  · subst hm2
    obtain ⟨f, hf, hfn⟩ := hnamed name id hg
    constructor
    · have hc : id ≠ K.CONTENT_IGNORE := by
        intro hc
        rw [hc, hfi] at hf
        cases hf
        exact h3 (hfn.symm.trans hni)
      simp only [storeDefinition]
      rw [List.getElem?_set, if_neg hc]
    · intro hair
      have hc : id ≠ K.CONTENT_AIR := by
        intro hc
        rw [hc, hfa] at hf
        cases hf
        exact hair (hfn.symm.trans hna)
      simp only [storeDefinition]
      rw [List.getElem?_set, if_neg hc]
  · subst hm2
    constructor
    · simp only [storeDefinition, addNameIdMapping]
      rw [List.getElem?_set, if_neg hi, getElem?_pad _ _ _ _ hfi, hfi]
    · intro _
      have hc : id ≠ K.CONTENT_AIR := by
        intro hc
        rw [hc, getElem?_pad _ _ _ _ hfa] at hf0
        cases hf0
        exact str_air_ne_nil (hna.symm.trans hn0)
      simp only [storeDefinition, addNameIdMapping]
      rw [List.getElem?_set, if_neg hc, getElem?_pad _ _ _ _ hfa, hfa]

/-- Witness for `set_keeps_reserved_definitions`: registering "foo" in a fresh
registry. -/
theorem set_keeps_reserved_definitions_witness :
    CNodeDefManager.set K0 2 str_foo fooFeatures (CNodeDefManager.new K0) = some (1, fooManager) ∧
    fooManager.m_content_features[K0.CONTENT_IGNORE]? =
      (CNodeDefManager.new K0).m_content_features[K0.CONTENT_IGNORE]? ∧
    (str_foo ≠ str_air → fooManager.m_content_features[K0.CONTENT_AIR]? =
      (CNodeDefManager.new K0).m_content_features[K0.CONTENT_AIR]?) :=
  ⟨by decide!, set_keeps_reserved_definitions K0 K0_WF (CNodeDefManager.new K0) Reach.init 2
    str_foo fooFeatures 1 fooManager (by decide!)⟩
/-! ## C2: resolving a content id -/

/-- C2 (as stated) fails: in a fresh registry id 5 has no registered
definition (no name is bound to it) and lies inside the table; `get(5)`
returns the default-constructed definition of that slot, which is not the
definition stored at `CONTENT_UNKNOWN`. -/
theorem C2_counterexample_unallocated_slot :
    amFind 5 (CNodeDefManager.new K0).m_name_id_mapping.m_id_to_name = none ∧
    5 < (CNodeDefManager.new K0).m_content_features.length ∧
    CNodeDefManager.get K0 (CNodeDefManager.new K0) 5 = ContentFeatures.new K0 ∧
    (CNodeDefManager.new K0).m_content_features[K0.CONTENT_UNKNOWN]?
      = some (CNodeDefManager.unknownFeatures K0) ∧
    ContentFeatures.new K0 ≠ CNodeDefManager.unknownFeatures K0 := by
  decide!

/-- C2 (amended): in every state reached from a fresh registry by
registration calls, `get(c)` for an id at or beyond the end of the table
returns the definition stored at `CONTENT_UNKNOWN`; for an id inside the table
it returns the definition stored in slot `c`; and for an id bound to a name
in the name/id mapping it returns a definition carrying that name. -/
theorem get_resolves_or_falls_back (K : Consts) (hK : K.WF) (m : CNodeDefManager)
    (hm : Reach K Op.anyCall m) (c : Nat) :
    (m.m_content_features.length ≤ c →
      m.m_content_features[K.CONTENT_UNKNOWN]? = some (CNodeDefManager.get K m c)) ∧
    (c < m.m_content_features.length →
      m.m_content_features[c]? = some (CNodeDefManager.get K m c)) ∧
    (∀ n, m.m_name_id_mapping.getId n = some c →
      m.m_content_features[c]? = some (CNodeDefManager.get K m c) ∧
      (CNodeDefManager.get K m c).name = n) := by
  obtain ⟨⟨fu, hfu, _⟩, _, _, hnamed, _⟩ := Reach_Inv K hK _ m hm
  refine ⟨?_, ?_, ?_⟩
  · intro hge
    unfold CNodeDefManager.get
    rw [if_neg (by omega), List.getD_eq_getElem?_getD, hfu]
    rfl
  · intro hlt
    unfold CNodeDefManager.get
    rw [if_pos hlt, List.getD_eq_getElem?_getD, List.getElem?_eq_getElem hlt]
    rfl
  · intro n hn
    obtain ⟨f, hf, hfn⟩ := hnamed n c hn
    rw [get_of_getElem? K m c f hf]
    exact ⟨hf, hfn⟩

/-- Witness for `get_resolves_or_falls_back`: the fresh registry and id 200,
which lies beyond its 128 slots. -/
theorem get_resolves_or_falls_back_witness :
    (CNodeDefManager.new K0).m_content_features.length ≤ 200 ∧
    (CNodeDefManager.new K0).m_content_features[K0.CONTENT_UNKNOWN]?
      = some (CNodeDefManager.get K0 (CNodeDefManager.new K0) 200) :=
  ⟨by decide!, (get_resolves_or_falls_back K0 K0_WF (CNodeDefManager.new K0) Reach.init 200).1
    (by decide!)⟩

/-! ## C3: exhaustion of the id space -/

/-- C3 (code defect): once `m_next_id` has wrapped to 0 and all 65536 slots
carry a name, the loop condition `id >= m_next_id` of `allocateId` is always
true: for every bound on the number of iterations `allocateId` has not
returned, and neither has `set` of a valid name that is not yet registered.
The sentinel `CONTENT_IGNORE` is never delivered. -/
theorem allocateId_and_set_hang_after_wrap (K : Consts) (m : CNodeDefManager)
    (h0 : m.m_next_id = 0) (hlen : m.m_content_features.length = 65536)
    (hfull : ∀ f ∈ m.m_content_features, f.name ≠ [])
    (name : CppString) (d : ContentFeatures) (h1 : name ≠ []) (hd : d.name = name)
    (h3 : name ≠ str_ignore) (hg : m.m_name_id_mapping.getId name = none) (fuel : Nat) :
    CNodeDefManager.allocateId K fuel m = none ∧
    CNodeDefManager.set K fuel name d m = none := by
  have ha : CNodeDefManager.allocateId K fuel m = none := by
    unfold CNodeDefManager.allocateId
    rw [h0, allocateIdLoop_diverges K _ hlen hfull fuel 0 (by norm_num)]
  refine ⟨ha, ?_⟩
  unfold CNodeDefManager.set
  rw [if_neg h1, if_neg (by simp [hd]), if_neg h3, hg]
  simp only [ha]

/-- Witness for `allocateId_and_set_hang_after_wrap`: the registry
`wrappedManager` and the unregistered name "bar". -/
theorem allocateId_and_set_hang_after_wrap_witness :
    wrappedManager.m_next_id = 0 ∧ wrappedManager.m_content_features.length = 65536 ∧
    (∀ fuel, CNodeDefManager.allocateId K0 fuel wrappedManager = none ∧
      CNodeDefManager.set K0 fuel str_bar { ContentFeatures.new K0 with name := str_bar }
        wrappedManager = none) :=
  ⟨rfl, List.length_replicate _ _, fun fuel =>
    allocateId_and_set_hang_after_wrap K0 wrappedManager rfl (List.length_replicate _ _)
      (by
        intro f hf
        have hf2 : f = fooFeatures := List.eq_of_mem_replicate hf
        rw [hf2]
        decide)
      str_bar { ContentFeatures.new K0 with name := str_bar } (by decide) rfl (by decide)
      (by decide!) fuel⟩

/-! ## C4: the registration-complete flag -/

/-- C4 (as stated) fails: after `setNodeRegistrationStatus(true)` on a fresh
registry, `set("foo", def)` still returns a new id, stores the definition
and extends the name/id mapping. -/
theorem C4_counterexample_set_after_freeze :
    frozenManager.m_node_registration_complete = true ∧
    (CNodeDefManager.set K0 2 str_foo fooFeatures frozenManager).map
        (fun r => (r.1, r.2.m_content_features[1]?, r.2.m_name_id_mapping.getId str_foo))
      = some (1, some fooFeatures, some 1) ∧
    frozenManager.m_content_features[1]? = some (ContentFeatures.new K0) ∧
    frozenManager.m_name_id_mapping.getId str_foo = none ∧
    fooFeatures ≠ ContentFeatures.new K0 := by
  decide!

/-- C4 (amended): the registration flag gates nothing in the table.
`setNodeRegistrationStatus` changes only the flag, and `set`,
`allocateDummy` and `removeNode` return the same id and produce the same
definitions, name/id mapping, alias table and group index whatever the value
of the flag, which they leave as it was. -/
theorem registration_flag_does_not_freeze (K : Consts) (m : CNodeDefManager) (b : Bool)
    (fuel : Nat) (name : CppString) (d : ContentFeatures) :
    CNodeDefManager.setNodeRegistrationStatus b m =
      { m with m_node_registration_complete := b } ∧
    CNodeDefManager.set K fuel name d (CNodeDefManager.setNodeRegistrationStatus b m) =
      (CNodeDefManager.set K fuel name d m).map
        (fun r => (r.1, CNodeDefManager.setNodeRegistrationStatus b r.2)) ∧
    CNodeDefManager.allocateDummy K fuel name (CNodeDefManager.setNodeRegistrationStatus b m) =
      (CNodeDefManager.allocateDummy K fuel name m).map
        (fun r => (r.1, CNodeDefManager.setNodeRegistrationStatus b r.2)) ∧
    CNodeDefManager.removeNode K name (CNodeDefManager.setNodeRegistrationStatus b m) =
      CNodeDefManager.setNodeRegistrationStatus b (CNodeDefManager.removeNode K name m) := by
  have hset : ∀ (name : CppString) (d : ContentFeatures),
      CNodeDefManager.set K fuel name d (CNodeDefManager.setNodeRegistrationStatus b m) =
      (CNodeDefManager.set K fuel name d m).map
        (fun r => (r.1, CNodeDefManager.setNodeRegistrationStatus b r.2)) := by
    intro name d
    unfold CNodeDefManager.set
    split_ifs with h1 h2 h3
    · rfl
    · rfl
    · rfl
    · simp only [setNodeRegistrationStatus]
      cases hg : m.m_name_id_mapping.getId name with
      | some id => rfl
      | none =>
        simp only [allocateId]
        cases hl : allocateIdLoop K m.m_next_id fuel m.m_next_id m.m_content_features with
        | none => rfl
        | some r =>
          simp only
          split_ifs <;> rfl
  refine ⟨rfl, hset name d, ?_, ?_⟩
  · unfold CNodeDefManager.allocateDummy
    split_ifs with h1
    · rfl
    · exact hset name _
  · unfold CNodeDefManager.removeNode
    simp only [setNodeRegistrationStatus]
    split_ifs <;> rfl

/-! ## C5: postcondition of a successful registration -/

/-- C5 (as stated) fails: register "foo" (id 1), call `updateAliases` with an
item definition manager that knows no items, then register "foo" again.  The
second `set` returns id 1, which is not `CONTENT_IGNORE`, but `getId("foo")`
fails afterwards.  The state is reached from a fresh registry through `set`
and `updateAliases`. -/
theorem C5_counterexample_after_updateAliases :
    Reach K0 Op.anyCall fooManagerNoAliases ∧
    (CNodeDefManager.set K0 0 str_foo fooFeatures fooManagerNoAliases).map
        (fun r => (r.1, CNodeDefManager.getId r.2 str_foo)) = some (1, none) ∧
    1 ≠ K0.CONTENT_IGNORE := by
  refine ⟨?_, by decide!, by decide⟩
  have h1 : Reach K0 Op.anyCall fooManager :=
    Reach.step (CNodeDefManager.new K0) fooManager (Op.set str_foo fooFeatures) 2 Reach.init
      trivial (by decide!)
  exact Reach.step fooManager fooManagerNoAliases (Op.updateAliases [] (fun n => n)) 0 h1
    trivial rfl

theorem fooManagerNoAliases_reach : Reach K0 Op.anyCall fooManagerNoAliases := by
  have h1 : Reach K0 Op.anyCall fooManager :=
    Reach.step (CNodeDefManager.new K0) fooManager (Op.set str_foo fooFeatures) 2 Reach.init
      trivial (by decide!)
  exact Reach.step fooManager fooManagerNoAliases (Op.updateAliases [] (fun n => n)) 0 h1
    trivial rfl

/-- C5 (amended): in every state reached from a fresh registry through `set`,
`allocateDummy`, `removeNode` and `updateAliases`, if `set(name, def)` returns
an id other than `CONTENT_IGNORE`, then immediately afterwards `get(id)` equals
`def` and the name/id mapping binds `name` to that id.  `getId(name)`, which
reads the alias table, succeeds with that id when before the call the alias
table agreed with the name/id mapping on `name`, as it does in every state
reached without `updateAliases`.  In general `getId(name)` is left as it was
by the registration of a registered name, and after the registration of a new
name it yields the id unless the alias table held the name already. -/
theorem set_postcondition (K : Consts) (hK : K.WF) (m : CNodeDefManager)
    (hm : Reach K Op.anyCall m) (fuel : Nat) (name : CppString) (d : ContentFeatures)
    (id : Nat) (m2 : CNodeDefManager)
    (h : CNodeDefManager.set K fuel name d m = some (id, m2)) (hid : id ≠ K.CONTENT_IGNORE) :
    CNodeDefManager.get K m2 id = d ∧
    m2.m_name_id_mapping.getId name = some id ∧
    (CNodeDefManager.getId m name = m.m_name_id_mapping.getId name →
      CNodeDefManager.getId m2 name = some id) ∧
    (Reach K Op.withoutAliases m → CNodeDefManager.getId m2 name = some id) ∧
    (m.m_name_id_mapping.getId name = some id →
      CNodeDefManager.getId m2 name = CNodeDefManager.getId m name) ∧
    (m.m_name_id_mapping.getId name = none →
      CNodeDefManager.getId m2 name = some ((CNodeDefManager.getId m name).getD id)) := by
  have hinv := Reach_Inv K hK _ m hm
  rcases set_cases K fuel name d m m2 id h with
    ⟨hc, _⟩ | ⟨h1, hd, h3, hg, hm2⟩ | ⟨h1, hd, h3, hg, hi, k, nid, f0, hf0, hn0, hm2⟩
  · exact absurd hc hid
  · have hgn : m2.m_name_id_mapping.getId name = some id := by
      subst hm2; exact hg
    have halias : CNodeDefManager.getId m2 name = CNodeDefManager.getId m name := by
      subst hm2; rfl
    have h3 : CNodeDefManager.getId m name = m.m_name_id_mapping.getId name →
        CNodeDefManager.getId m2 name = some id := fun hs => by rw [halias, hs, hg]
    refine ⟨?_, hgn, h3, fun hr => h3 (Reach_Sync K m hr name), fun _ => halias, ?_⟩
    · obtain ⟨f, hf, _⟩ := hinv.named name id hg
      apply get_of_getElem?
      subst hm2
      simp only [storeDefinition]
      rw [List.getElem?_set, if_pos rfl, if_pos (getElem?_lt _ _ _ hf)]
    · intro hnone
      rw [hg] at hnone
      exact absurd hnone (by simp)
  · have hgn : m2.m_name_id_mapping.getId name = some id := by
      subst hm2
      simp only [storeDefinition, addNameIdMapping]
      rw [getId_set, if_pos rfl]
    have halias : CNodeDefManager.getId m2 name =
        some ((CNodeDefManager.getId m name).getD id) := by
      subst hm2
      unfold CNodeDefManager.getId
      simp only [storeDefinition, addNameIdMapping]
      rw [amFind_amInsert]
      cases amFind name m.m_name_id_mapping_with_aliases <;> simp
    have h3 : CNodeDefManager.getId m name = m.m_name_id_mapping.getId name →
        CNodeDefManager.getId m2 name = some id := fun hs => by
      rw [halias, hs, hg]
      rfl
    refine ⟨?_, hgn, h3, fun hr => h3 (Reach_Sync K m hr name), ?_, fun _ => halias⟩
    · apply get_of_getElem?
      subst hm2
      simp only [storeDefinition, addNameIdMapping]
      rw [List.getElem?_set, if_pos rfl, if_pos (getElem?_lt _ _ _ hf0)]
    · intro hsome
      rw [hg] at hsome
      exact absurd hsome (by simp)

set_option maxRecDepth 100000 in
/-- Witness for `set_postcondition`: registering "foo" in a fresh registry,
after which `getId("foo")` yields the id 1; and registering "foo" again after
`updateAliases` with no items, after which `get(1)` is the definition and the
name/id mapping binds "foo" to 1. -/
theorem set_postcondition_witness :
    CNodeDefManager.set K0 2 str_foo fooFeatures (CNodeDefManager.new K0) = some (1, fooManager) ∧
    1 ≠ K0.CONTENT_IGNORE ∧
    CNodeDefManager.getId fooManager str_foo = some 1 ∧
    CNodeDefManager.set K0 0 str_foo fooFeatures fooManagerNoAliases =
      some (1, fooManagerNoAliasesAgain) ∧
    (CNodeDefManager.get K0 fooManagerNoAliasesAgain 1 = fooFeatures ∧
      fooManagerNoAliasesAgain.m_name_id_mapping.getId str_foo = some 1) :=
  ⟨by decide!, by decide,
    (set_postcondition K0 K0_WF (CNodeDefManager.new K0) Reach.init 2
      str_foo fooFeatures 1 fooManager (by decide!) (by decide)).2.2.2.1 Reach.init,
    by decide!,
    ⟨(set_postcondition K0 K0_WF fooManagerNoAliases fooManagerNoAliases_reach 0
      str_foo fooFeatures 1 fooManagerNoAliasesAgain (by decide!) (by decide)).1,
    (set_postcondition K0 K0_WF fooManagerNoAliases fooManagerNoAliases_reach 0
      str_foo fooFeatures 1 fooManagerNoAliasesAgain (by decide!) (by decide)).2.1⟩⟩

/-! ## C8: connected node boxes sent to old clients -/

/-- C8: for a `NodeBox` of type `NODEBOX_CONNECTED` and a protocol version
below 27, `deSerialize` applied to the bytes written by `serialize` (whatever
follows them in the stream, and whatever the receiving object held) returns
normally and yields the reset box with type `NODEBOX_FIXED` and a `fixed`
list of exactly one box, from (-BS/2,-BS/2,-BS/2) to (BS/2,BS/2,BS/2); the
original `fixed` and `connect_*` lists play no part.  The header constant
`BS` is a parameter: `BS/2` is taken to be a whole number of thousandths
within the `s32` range, as for the upstream `BS` = 10, so that `writeF1000`
transports it exactly. -/
theorem connected_nodebox_degrades_to_full_box (K : Consts) (hK : K.WF)
    (hBS : ∃ n : Int, K.BS / 2 = (n : ℚ) / 1000 ∧ -2147483648 < n ∧ n < 2147483648)
    (b b0 : NodeBox) (protocol_version : Nat) (ht : b.type = K.NODEBOX_CONNECTED)
    (hpv : protocol_version < 27) (rest : List Nat) :
    NodeBox.deSerialize K b0 ⟨NodeBox.serialize K b protocol_version ++ rest, false⟩ =
      (Except.ok { NodeBox.reset K b0 with
          type := K.NODEBOX_FIXED,
          fixed := [⟨⟨-K.BS/2, -K.BS/2, -K.BS/2⟩, ⟨K.BS/2, K.BS/2, K.BS/2⟩⟩] },
        ⟨rest, false⟩) := by
  obtain ⟨n, hn, hn1, hn2⟩ := hBS
  have hpos : F1000Exact (K.BS / 2) := ⟨n, hn, by omega, hn2⟩
  have hneg : F1000Exact (-K.BS / 2) := ⟨-n, by rw [neg_div, hn]; push_cast; ring, by omega, by omega⟩
  have hnd := hK.nodebox_types
  simp only [List.nodup_cons, List.mem_cons, List.mem_singleton, not_or, List.not_mem_nil,
    not_false_eq_true, List.nodup_nil, and_true] at hnd
  obtain ⟨_, ⟨h_fw, h_fl, h_fc⟩, ⟨h_wl, h_wc⟩, h_lc⟩ := hnd
  have hflt : K.NODEBOX_FIXED < 256 := hK.nodebox_lt _ (by simp)
  have hfmod : K.NODEBOX_FIXED % 256 = K.NODEBOX_FIXED := Nat.mod_eq_of_lt hflt
  have hser : ∃ version, (version = 1 ∨ version = 2) ∧
      NodeBox.serialize K b protocol_version = writeU8 version ++ (writeU8 K.NODEBOX_FIXED ++
        (writeU16 1 ++ (writeV3F1000 ⟨-K.BS/2, -K.BS/2, -K.BS/2⟩ ++
          writeV3F1000 ⟨K.BS/2, K.BS/2, K.BS/2⟩))) := by
    unfold NodeBox.serialize
    rw [ht]
    by_cases h21 : protocol_version ≥ 21
    · refine ⟨2, Or.inr rfl, ?_⟩
      simp [Ne.symm h_lc, Ne.symm h_fc, Ne.symm h_wc, h21, show ¬ protocol_version ≥ 27 by omega]
    · refine ⟨1, Or.inl rfl, ?_⟩
      simp [Ne.symm h_lc, Ne.symm h_fc, Ne.symm h_wc, h21, show ¬ protocol_version ≥ 27 by omega]
  obtain ⟨version, hv, hser⟩ := hser
  have hvmod : version % 256 = version := by rcases hv with h | h <;> subst h <;> rfl
  have hvok : ¬ (version < 1 ∨ version > 3) := by rcases hv with h | h <;> subst h <;> decide
  rw [hser]
  simp only [List.append_assoc]
  unfold NodeBox.deSerialize
  rw [Rd.bind_ok _ _ _ _ _ (readU8_write version _), hvmod, if_neg hvok]
  simp only []
  rw [Rd.bind_ok _ _ _ _ _ (readU8_write K.NODEBOX_FIXED _), hfmod, if_pos (Or.inl rfl)]
  rw [Rd.bind_ok _ _ _ _ _ (readU16_write 1 _)]
  have hboxes : readBoxes (1 % 65536) (NodeBox.reset K b0).fixed
      ⟨writeV3F1000 ⟨-K.BS/2, -K.BS/2, -K.BS/2⟩ ++ (writeV3F1000 ⟨K.BS/2, K.BS/2, K.BS/2⟩ ++ rest),
        false⟩ =
      (Except.ok [⟨⟨-K.BS/2, -K.BS/2, -K.BS/2⟩, ⟨K.BS/2, K.BS/2, K.BS/2⟩⟩], ⟨rest, false⟩) := by
    show readBoxes 1 [] _ = _
    unfold readBoxes
    rw [Rd.bind_ok _ _ _ _ _ (readV3F1000_write _ _ hneg hneg hneg)]
    rw [Rd.bind_ok _ _ _ _ _ (readV3F1000_write _ _ hpos hpos hpos)]
    rfl
  rw [Rd.bind_ok _ _ _ _ _ hboxes]
  rfl

/-- Witness for `connected_nodebox_degrades_to_full_box`: the upstream
constants (`BS` = 10), a connected box with one `fixed` entry, protocol
version 26. -/
theorem connected_nodebox_degrades_to_full_box_witness :
    connectedBox.type = K0.NODEBOX_CONNECTED ∧ 26 < 27 ∧
    NodeBox.deSerialize K0 (NodeBox.new K0) ⟨NodeBox.serialize K0 connectedBox 26 ++ [], false⟩ =
      (Except.ok { NodeBox.reset K0 (NodeBox.new K0) with
          type := K0.NODEBOX_FIXED,
          fixed := [⟨⟨-K0.BS/2, -K0.BS/2, -K0.BS/2⟩, ⟨K0.BS/2, K0.BS/2, K0.BS/2⟩⟩] },
        ⟨[], false⟩) :=
  ⟨rfl, by decide, connected_nodebox_degrades_to_full_box K0 K0_WF
    ⟨5000, by norm_num [K0], by decide, by decide⟩ connectedBox (NodeBox.new K0) 26 rfl
    (by decide) []⟩

/-! ## C7: `deSerialize` and the built-in nodes -/

/-- C7: for every input stream and every prior state, after
`CNodeDefManager::deSerialize` (whether it returns normally or raises, and
whatever ids and names the entries carry) the definitions stored at
`CONTENT_IGNORE`, `CONTENT_AIR` and `CONTENT_UNKNOWN` and the ids bound to
"ignore", "air" and "unknown" (in the name/id mapping and in the alias-aware
lookup of `getId`) are exactly those established by `clear()`. -/
theorem deSerialize_keeps_builtin_nodes (K : Consts) (hK : K.WF) (s : IStream)
    (m0 : CNodeDefManager) :
    (∀ c ∈ [K.CONTENT_IGNORE, K.CONTENT_AIR, K.CONTENT_UNKNOWN],
      (CNodeDefManager.deSerialize K s m0).2.m_content_features[c]? =
        (CNodeDefManager.clear K m0).m_content_features[c]?) ∧
    (∀ n ∈ [str_ignore, str_air, str_unknown],
      (CNodeDefManager.deSerialize K s m0).2.m_name_id_mapping.getId n =
        (CNodeDefManager.clear K m0).m_name_id_mapping.getId n ∧
      (CNodeDefManager.deSerialize K s m0).2.getId n = (CNodeDefManager.clear K m0).getId n) := by
  have h1 := Builtins_deSerialize K hK s m0
  have h0 : Builtins K (CNodeDefManager.clear K m0) := by
    rw [clear_eq_new]; exact Builtins_new K hK
  constructor
  · intro c hc
    simp only [List.mem_cons, List.mem_singleton, List.not_mem_nil, or_false] at hc
    rcases hc with hc | hc | hc <;> subst hc
    · rw [h1.ignore, h0.ignore]
    · rw [h1.air, h0.air]
    · rw [h1.unknown, h0.unknown]
  · intro n hn
    simp only [List.mem_cons, List.mem_singleton, List.not_mem_nil, or_false] at hn
    rcases hn with hn | hn | hn <;> subst hn
    · rw [h1.id_ignore, h0.id_ignore, h1.alias_ignore, h0.alias_ignore]; exact ⟨rfl, rfl⟩
    · rw [h1.id_air, h0.id_air, h1.alias_air, h0.alias_air]; exact ⟨rfl, rfl⟩
    · rw [h1.id_unknown, h0.id_unknown, h1.alias_unknown, h0.alias_unknown]; exact ⟨rfl, rfl⟩

set_option maxRecDepth 100000 in
/-- Witness for `deSerialize_keeps_builtin_nodes`: a stream with one entry
that carries the id `CONTENT_AIR` and a definition named "air" that differs
from the built-in one.  The call returns normally and slot `CONTENT_AIR`
still holds the built-in definition. -/
theorem deSerialize_keeps_builtin_nodes_witness :
    (CNodeDefManager.deSerialize K0 ⟨airEntryStream, false⟩ (CNodeDefManager.new K0)).1
      = Except.ok () ∧
    (CNodeDefManager.deSerialize K0 ⟨airEntryStream, false⟩
      (CNodeDefManager.new K0)).2.m_content_features[K0.CONTENT_AIR]?
      = (CNodeDefManager.clear K0 (CNodeDefManager.new K0)).m_content_features[K0.CONTENT_AIR]? :=
  ⟨by decide!, (deSerialize_keeps_builtin_nodes K0 K0_WF ⟨airEntryStream, false⟩
    (CNodeDefManager.new K0)).1 K0.CONTENT_AIR (by decide)⟩

set_option maxRecDepth 100000 in
/-- Witness for `truncated_tail_is_tolerated`: the 285-byte version-8 record
of `fooFeatures`, whose field `waving` ends at offset 277, truncated at
offset 280. -/
theorem truncated_tail_is_tolerated_witness :
    fooRecord.head? = some 8 ∧
    ContentFeatures.deSerialize K0 (ContentFeatures.new K0) ⟨fooRecord, false⟩
      = (Except.ok fooFeatures, ⟨[], false⟩) ∧
    ContentFeatures.wavingEnd K0 (ContentFeatures.new K0) fooRecord ≤ 280 ∧
    ∃ g2 s2, ContentFeatures.deSerialize K0 (ContentFeatures.new K0) ⟨fooRecord.take 280, false⟩
      = (Except.ok g2, s2) ∧ g2.withTailOf fooFeatures = fooFeatures :=
  ⟨by decide!, by decide!, by decide!,
    truncated_tail_is_tolerated K0 (ContentFeatures.new K0) fooFeatures fooRecord []
      (Or.inr (by decide!)) (by decide!) 280 (by decide!)⟩

/-! ## C9: bytes appended to a definition record -/

set_option maxRecDepth 100000 in
/-- C9 (as stated) fails: the table `shortEntryStream` is accepted, and the
three bytes appended to the wrapper string of its entry (total wrapper
length 280) are parsed as the field `mesh`, so the two streams leave
different registries. -/
theorem C9_counterexample_appended_bytes_are_parsed :
    (CNodeDefManager.deSerialize K0 ⟨shortEntryStream, false⟩ (CNodeDefManager.new K0)).1
      = Except.ok () ∧
    (CNodeDefManager.deSerialize K0 ⟨shortEntryStreamPlus, false⟩ (CNodeDefManager.new K0)).1
      = Except.ok () ∧
    (fooRecordToWaving ++ [0, 1, 65]).length ≤ 65535 ∧
    (CNodeDefManager.get K0 (CNodeDefManager.deSerialize K0 ⟨shortEntryStream, false⟩
      (CNodeDefManager.new K0)).2 1).mesh = [] ∧
    (CNodeDefManager.get K0 (CNodeDefManager.deSerialize K0 ⟨shortEntryStreamPlus, false⟩
      (CNodeDefManager.new K0)).2 1).mesh = [65] ∧
    (CNodeDefManager.deSerialize K0 ⟨shortEntryStreamPlus, false⟩ (CNodeDefManager.new K0)).2 ≠
      (CNodeDefManager.deSerialize K0 ⟨shortEntryStream, false⟩ (CNodeDefManager.new K0)).2 := by
  decide!

/-- C9 (amended): in a table whose long string holds the entries `before`,
then an entry with id `i` and wrapper string `w`, then any bytes `rest`,
appending the bytes `extra` to `w` (with the length prefixes adjusted) does
not change what `CNodeDefManager::deSerialize` does (the way it ends and the
registry it leaves), provided the record `w` is complete (its parse does not
run past the end of `w`, whatever object it is read into), the wrapper
strings up to and including the extended one are at most 65535 bytes long,
and the extended long string is at most `LONG_STRING_MAX_LEN` bytes long. -/
theorem complete_record_ignores_trailing_bytes (K : Consts) (hK : K.WF) (count i : Nat)
    (before : List (Nat × List Nat)) (w extra rest trailing : List Nat) (m0 : CNodeDefManager)
    (hbefore : ∀ e ∈ before, e.2.length ≤ 65535)
    (hlen : (w ++ extra).length ≤ 65535)
    (hlong : (tableBody (before ++ [(i, w ++ extra)]) ++ rest).length ≤ K.LONG_STRING_MAX_LEN)
    (hcomplete : ∀ f, (ContentFeatures.deSerialize K f ⟨w, false⟩).2.fail = false) :
    CNodeDefManager.deSerialize K
        ⟨tableBytes count (tableBody (before ++ [(i, w ++ extra)]) ++ rest) ++ trailing, false⟩ m0 =
      CNodeDefManager.deSerialize K
        ⟨tableBytes count (tableBody (before ++ [(i, w)]) ++ rest) ++ trailing, false⟩ m0 := by
  have hshort : (tableBody (before ++ [(i, w)]) ++ rest).length ≤ K.LONG_STRING_MAX_LEN := by
    refine le_trans ?_ hlong
    simp only [tableBody_append, tableBody, List.length_append, writeU16_length,
      List.length_nil]
    omega
  rw [deSerialize_tableBytes K hK count _ trailing m0 hlong,
    deSerialize_tableBytes K hK count _ trailing m0 hshort]
  exact deSerializeLoop_append K i w extra rest hlen hcomplete before hbefore _ _ _

set_option maxRecDepth 100000 in
/-- Witness for `complete_record_ignores_trailing_bytes`: a table with one
entry that holds the complete record `fooRecord`, to which three bytes are
appended. -/
theorem complete_record_ignores_trailing_bytes_witness :
    (fooRecord ++ [1, 2, 3]).length ≤ 65535 ∧
    (∀ f, (ContentFeatures.deSerialize K0 f ⟨fooRecord, false⟩).2.fail = false) ∧
    CNodeDefManager.deSerialize K0
        ⟨tableBytes 1 (tableBody ([] ++ [(1, fooRecord ++ [1, 2, 3])]) ++ []) ++ [], false⟩
        (CNodeDefManager.new K0) =
      CNodeDefManager.deSerialize K0
        ⟨tableBytes 1 (tableBody ([] ++ [(1, fooRecord)]) ++ []) ++ [], false⟩
        (CNodeDefManager.new K0) :=
  have hc : ∀ f, (ContentFeatures.deSerialize K0 f ⟨fooRecord, false⟩).2.fail = false := by
    intro f
    obtain ⟨g, hg, _⟩ := ReadsP_ContentFeatures K0 K0_WF fooFeatures f 27 (by decide)
      (by unfold ContentFeatures.validEnums; decide!)
      (by unfold ContentFeatures.sizesOk NodeBox.sizesOk; decide!) fooRecord
      (by decide!)
    have := hg []
    rw [List.append_nil] at this
    rw [this]
  ⟨by decide!, hc, complete_record_ignores_trailing_bytes K0 K0_WF 1 1 [] fooRecord [1, 2, 3]
    [] [] (CNodeDefManager.new K0) (by simp) (by decide!) (by decide!) hc⟩

/-! ## C6: the node definition table on the wire -/

set_option maxRecDepth 100000 in
/-- C6 (as stated) fails: after `set("foo")`, `removeNode("foo")` and
`set("foo")` the name "foo" is mapped to id 2, while slot 1 still holds the
removed definition named "foo".  `serialize` writes both slots, and
`deSerialize` binds "foo" to id 1 and skips the entry for id 2. -/
theorem C6_counterexample_removed_slot_shadows :
    Reach K0 (Op.registering K0) reRegisteredManager ∧
    CNodeDefManager.serialize K0 reRegisteredManager 27 = Except.ok reRegisteredStream ∧
    reRegisteredManager.getId str_foo = some 2 ∧
    reRegisteredManager.m_name_id_mapping.getId str_foo = some 2 ∧
    (CNodeDefManager.deSerialize K0 ⟨reRegisteredStream, false⟩ (CNodeDefManager.new K0)).1
      = Except.ok () ∧
    (CNodeDefManager.deSerialize K0 ⟨reRegisteredStream, false⟩
      (CNodeDefManager.new K0)).2.getId str_foo = some 1 := by
  have hv : Op.registering K0 (Op.set str_foo fooFeatures) := by
    unfold Op.registering ContentFeatures.validEnums
    decide!
  refine ⟨?_, by decide!, by decide!, by decide!, by decide!, by decide!⟩
  have h1 : Reach K0 (Op.registering K0) fooManager :=
    Reach.step _ _ (Op.set str_foo fooFeatures) 2 Reach.init hv (by decide!)
  have h2 : Reach K0 (Op.registering K0) (CNodeDefManager.removeNode K0 str_foo fooManager) :=
    Reach.step _ _ (Op.removeNode str_foo) 0 h1 trivial (by decide!)
  exact Reach.step _ _ (Op.set str_foo fooFeatures) 2 h2 hv (by decide!)

/-- C6 (amended): for every registry `m` reached from a fresh one by calls of
`set` (with definitions whose node boxes carry one of the five
`NodeBoxType` enumerators), `allocateDummy` and `removeNode`, and every
protocol version of at least 27 for which `serialize` returns the bytes
`bytes`, `deSerialize` on these bytes returns normally (whatever the
receiving registry held before), and for every name that `m` maps to an id
`i` other than the three built-in ids, provided no slot below `i` and no
built-in slot of `m` holds a definition of that name (as a slot left behind
by `removeNode` does), the resulting registry maps the name to `i` and its
definition at `i` carries that name. -/
theorem table_survives_the_wire (K : Consts) (hK : K.WF) (m : CNodeDefManager)
    (hm : Reach K (Op.registering K) m) (protocol_version : Nat) (hpv : 27 ≤ protocol_version)
    (bytes : List Nat)
    (hs : CNodeDefManager.serialize K m protocol_version = Except.ok bytes)
    (m0 : CNodeDefManager) :
    (CNodeDefManager.deSerialize K ⟨bytes, false⟩ m0).1 = Except.ok () ∧
    ∀ (name : CppString) (i : Nat), m.getId name = some i →
      i ≠ K.CONTENT_IGNORE → i ≠ K.CONTENT_AIR → i ≠ K.CONTENT_UNKNOWN →
      (∀ (j : Nat) (f : ContentFeatures),
        (j < i ∨ j = K.CONTENT_IGNORE ∨ j = K.CONTENT_AIR ∨ j = K.CONTENT_UNKNOWN) →
        m.m_content_features[j]? = some f → f.name ≠ name) →
      (CNodeDefManager.deSerialize K ⟨bytes, false⟩ m0).2.getId name = some i ∧
      (CNodeDefManager.get K (CNodeDefManager.deSerialize K ⟨bytes, false⟩ m0).2 i).name
        = name := by
  have hinv := Reach_Inv K hK _ m hm
  have hw := Reach_WireInv K hK m hm
  have hsync := Reach_Sync K m (Reach_mono K _ _ m hm (registering_withoutAliases K))
  obtain ⟨m3, hrun, hl⟩ := roundtrip_table K hK m protocol_version hpv hw bytes hs m0
  rw [hrun]
  refine ⟨rfl, ?_⟩
  intro name i hn h1 h2 h3 hshadow
  rw [hsync name] at hn
  have hnb : ¬ (i = K.CONTENT_IGNORE ∨ i = K.CONTENT_AIR ∨ i = K.CONTENT_UNKNOWN) := by tauto
  have hnamed := hinv.named name i hn
  obtain ⟨f, hf, hfn⟩ := hnamed
  have hne : f.name ≠ [] := by
    intro e
    rw [← hfn, e, hinv.no_empty] at hn
    exact Option.noConfusion hn
  obtain ⟨id, hid⟩ := hl.seen i f (getElem?_lt _ _ _ hf) hnb hf hne
  rw [hfn] at hid
  have hidi : id = i := by
    rcases hl.bound name id hid with hc | ⟨_, ⟨f2, hf2, hfn2⟩, hb2, hfirst2⟩
    · exfalso
      rcases hc with ⟨hnm, _⟩ | ⟨hnm, _⟩ | ⟨hnm, _⟩
      · obtain ⟨f3, hf3, hn3⟩ := hinv.unknown
        exact hshadow _ f3 (Or.inr (Or.inr (Or.inr rfl))) hf3 (by rw [hn3, hnm])
      · obtain ⟨f3, hf3, hn3⟩ := hinv.air
        exact hshadow _ f3 (Or.inr (Or.inr (Or.inl rfl))) hf3 (by rw [hn3, hnm])
      · obtain ⟨f3, hf3, hn3⟩ := hinv.ignore
        exact hshadow _ f3 (Or.inr (Or.inl rfl)) hf3 (by rw [hn3, hnm])
    · rcases Nat.lt_trichotomy id i with hlt | heq | hgt
      · exact absurd hfn2 (hshadow id f2 (Or.inl hlt) hf2)
      · exact heq
      · exact absurd hfn (hfirst2 i f hgt hnb hf)
  subst hidi
  obtain ⟨g, hg, hgn⟩ := hl.named name id hid
  simp only
  rw [hl.sync name, get_of_getElem? K m3 id g hg]
  exact ⟨hid, hgn⟩

set_option maxRecDepth 100000 in
/-- Witness for `table_survives_the_wire`: the registry `barManager`, reached
by `set("foo")`, `removeNode("foo")` and `set("bar")`, in which "bar" has id
2 and slot 1 still holds the removed definition named "foo", at protocol
version 27. -/
theorem table_survives_the_wire_witness :
    Reach K0 (Op.registering K0) barManager ∧
    CNodeDefManager.serialize K0 barManager 27 = Except.ok barManagerStream ∧
    barManager.getId str_bar = some 2 ∧
    (CNodeDefManager.deSerialize K0 ⟨barManagerStream, false⟩ (CNodeDefManager.new K0)).2.getId
      str_bar = some 2 ∧
    (CNodeDefManager.get K0 (CNodeDefManager.deSerialize K0 ⟨barManagerStream, false⟩
      (CNodeDefManager.new K0)).2 2).name = str_bar :=
  have hvf : Op.registering K0 (Op.set str_foo fooFeatures) := by
    unfold Op.registering ContentFeatures.validEnums
    decide!
  have hvb : Op.registering K0 (Op.set str_bar barFeatures) := by
    unfold Op.registering ContentFeatures.validEnums
    decide!
  have h1 : Reach K0 (Op.registering K0) fooManager :=
    Reach.step _ _ (Op.set str_foo fooFeatures) 2 Reach.init hvf (by decide!)
  have h2 : Reach K0 (Op.registering K0) (CNodeDefManager.removeNode K0 str_foo fooManager) :=
    Reach.step _ _ (Op.removeNode str_foo) 0 h1 trivial (by decide!)
  have hr : Reach K0 (Op.registering K0) barManager :=
    Reach.step _ _ (Op.set str_bar barFeatures) 2 h2 hvb (by decide!)
  have hs : CNodeDefManager.serialize K0 barManager 27 = Except.ok barManagerStream := by
    decide!
  have hg : barManager.getId str_bar = some 2 := by decide!
  have hslots : ∀ j ∈ [0, 1, 127, 126, 125],
      (barManager.m_content_features[j]?).map (fun f => f.name) ≠ some str_bar := by
    decide!
  have hshadow : ∀ (j : Nat) (f : ContentFeatures),
      (j < 2 ∨ j = K0.CONTENT_IGNORE ∨ j = K0.CONTENT_AIR ∨ j = K0.CONTENT_UNKNOWN) →
      barManager.m_content_features[j]? = some f → f.name ≠ str_bar := by
    intro j f hj hf hname
    have hmem : j ∈ [0, 1, 127, 126, 125] := by
      simp only [List.mem_cons, List.mem_singleton, List.not_mem_nil, or_false]
      rcases hj with h | h | h | h
      · omega
      · exact Or.inr (Or.inr (Or.inl h))
      · exact Or.inr (Or.inr (Or.inr (Or.inl h)))
      · exact Or.inr (Or.inr (Or.inr (Or.inr h)))
    apply hslots j hmem
    rw [hf, Option.map_some', hname]
  ⟨hr, hs, hg, (table_survives_the_wire K0 K0_WF barManager hr 27 (by decide) barManagerStream
    hs (CNodeDefManager.new K0)).2 str_bar 2 hg (by decide) (by decide) (by decide) hshadow⟩

/-! ## C11: records of an unsupported version -/

/-- C11 (as stated) fails: a record whose version byte is 6 (neither 7 nor
8) is not rejected; `ContentFeatures::deSerialize` returns normally and
leaves the object as it was. -/
theorem C11_counterexample_old_version_accepted :
    ContentFeatures.deSerialize K0 fooFeatures ⟨[6, 1, 2, 3], false⟩ =
      (Except.ok fooFeatures, ⟨[1, 2, 3], false⟩) := by
  decide!

/-- C11 (amended): for every input stream with a first byte `v`,
`ContentFeatures::deSerialize` raises `SerializationError` when `v` is
greater than 8, and returns normally when `v` is less than 7; in both cases
it reads nothing after the version byte, and in the second the object is
left unchanged (the call of `deSerializeOld` is commented out). -/
theorem unsupported_version_outcome (K : Consts) (f : ContentFeatures) (v : Nat)
    (rest : List Nat) :
    (8 < v % 256 → ContentFeatures.deSerialize K f ⟨v :: rest, false⟩ =
      (Except.error Exception.SerializationError, ⟨rest, false⟩)) ∧
    (v % 256 < 7 → ContentFeatures.deSerialize K f ⟨v :: rest, false⟩ =
      (Except.ok f, ⟨rest, false⟩)) := by
  constructor
  · intro h
    unfold ContentFeatures.deSerialize
    rw [Rd.bind_ok _ _ _ _ _ (readU8_head v rest), if_neg (by omega), if_pos (by omega)]
    rfl
  · intro h
    unfold ContentFeatures.deSerialize
    rw [Rd.bind_ok _ _ _ _ _ (readU8_head v rest), if_pos h]
    rfl

/-- Witness for `unsupported_version_outcome`: version bytes 9 and 6. -/
theorem unsupported_version_outcome_witness :
    ContentFeatures.deSerialize K0 fooFeatures ⟨9 :: [1, 2, 3], false⟩ =
      (Except.error Exception.SerializationError, ⟨[1, 2, 3], false⟩) ∧
    ContentFeatures.deSerialize K0 fooFeatures ⟨6 :: [1, 2, 3], false⟩ =
      (Except.ok fooFeatures, ⟨[1, 2, 3], false⟩) :=
  ⟨(unsupported_version_outcome K0 fooFeatures 9 [1, 2, 3]).1 (by decide),
    (unsupported_version_outcome K0 fooFeatures 6 [1, 2, 3]).2 (by decide)⟩

/-! ## C12: NodeBox round trip on the current protocol -/

/-- C12: for every protocol version of at least 27 and every `NodeBox` `b`
of type `NODEBOX_FIXED`, `NODEBOX_LEVELED`, `NODEBOX_WALLMOUNTED` or
`NODEBOX_CONNECTED`, whose written box lists have fewer than 65536 entries,
whose written coordinates are whole numbers of thousandths within the `s32`
range, and whose fields not written for its type hold the `reset()`
defaults, `NodeBox::deSerialize` applied to the bytes of
`b.serialize(protocol_version)` (whatever follows them in the stream and
whatever the receiving object held) returns normally and yields `b`. -/
theorem nodebox_round_trip (K : Consts) (hK : K.WF) (b b0 : NodeBox) (protocol_version : Nat)
    (hpv : 27 ≤ protocol_version)
    (ht : b.type ∈ [K.NODEBOX_FIXED, K.NODEBOX_LEVELED, K.NODEBOX_WALLMOUNTED,
      K.NODEBOX_CONNECTED])
    (hs : b.sizesOk K) (hex : b.usedExact K) (hd : b.unusedDefault K) (rest : List Nat) :
    NodeBox.deSerialize K b0 ⟨NodeBox.serialize K b protocol_version ++ rest, false⟩ =
      (Except.ok b, ⟨rest, false⟩) := by
  simp only [List.mem_cons, List.mem_singleton, List.not_mem_nil, or_false] at ht
  rcases ht with ht | ht | ht | ht
  · exact ReadsX_NodeBox_fixed K hK b b0 _ hpv ht (hs.1 (Or.inl ht)) (hex.1 (Or.inl ht))
      (hd.1 (Or.inl ht)) rest
  · exact ReadsX_NodeBox_leveled K hK b b0 _ hpv ht (hs.1 (Or.inr ht)) (hex.1 (Or.inr ht))
      (hd.1 (Or.inr ht)) rest
  · exact ReadsX_NodeBox_wallmounted K hK b b0 _ hpv ht (hex.2.1 ht) (hd.2.1 ht) rest
  · exact ReadsX_NodeBox_connected K hK b b0 _ hpv ht (hs.2 ht) (hex.2.2 ht) (hd.2.2 ht) rest

/-- Witness for `nodebox_round_trip`: the connected box `connectedBox` with
one `fixed` entry from (1,2,3) to (4,5,6), protocol version 27. -/
theorem nodebox_round_trip_witness :
    connectedBox.type ∈ [K0.NODEBOX_FIXED, K0.NODEBOX_LEVELED, K0.NODEBOX_WALLMOUNTED,
      K0.NODEBOX_CONNECTED] ∧
    NodeBox.deSerialize K0 (NodeBox.new K0) ⟨NodeBox.serialize K0 connectedBox 27 ++ [], false⟩ =
      (Except.ok connectedBox, ⟨[], false⟩) :=
  have hx : ∀ n : Int, -2147483648 ≤ n * 1000 → n * 1000 < 2147483648 →
      F1000Exact (n : ℚ) := fun n h1 h2 => ⟨n * 1000, by push_cast; ring, h1, h2⟩
  have hex : connectedBox.usedExact K0 := by
    refine ⟨fun h => absurd h (by decide), fun h => absurd h (by decide), fun _ => ?_⟩
    refine ⟨?_, by simp [connectedBox, NodeBox.new, NodeBox.reset],
      by simp [connectedBox, NodeBox.new, NodeBox.reset],
      by simp [connectedBox, NodeBox.new, NodeBox.reset],
      by simp [connectedBox, NodeBox.new, NodeBox.reset],
      by simp [connectedBox, NodeBox.new, NodeBox.reset],
      by simp [connectedBox, NodeBox.new, NodeBox.reset]⟩
    intro x hx2
    have hxe : x = ⟨⟨1, 2, 3⟩, ⟨4, 5, 6⟩⟩ := by
      simpa [connectedBox] using hx2
    subst hxe
    exact ⟨⟨hx 1 (by decide) (by decide), hx 2 (by decide) (by decide),
      hx 3 (by decide) (by decide)⟩, ⟨hx 4 (by decide) (by decide),
      hx 5 (by decide) (by decide), hx 6 (by decide) (by decide)⟩⟩
  have hd : connectedBox.unusedDefault K0 :=
    ⟨fun h => absurd h (by decide), fun h => absurd h (by decide), fun _ => ⟨rfl, rfl, rfl⟩⟩
  have hs : connectedBox.sizesOk K0 := by
    unfold NodeBox.sizesOk
    decide!
  ⟨by decide, nodebox_round_trip K0 K0_WF connectedBox (NodeBox.new K0) 27 (by decide)
    (by decide) hs hex hd []⟩

/-! ## C13: the registration-complete flag gates resolver callbacks -/

/-- C13: `pendNodeResolve(nr)` while the flag is false appends `nr` to the
pending list and calls no `resolveNodeNames()`; while the flag is true it
calls `resolveNodeNames()` of `nr` exactly once (the only new entry of the
call log, with `m_resolve_done` set afterwards) and leaves the pending list
unchanged. -/
theorem pendNodeResolve_gated (V : Overrides) (nr : Nat) (w : World) :
    (w.ndef.m_node_registration_complete = false →
      (pendNodeResolve V nr w).ndef.m_pending_resolve_callbacks =
        w.ndef.m_pending_resolve_callbacks ++ [nr] ∧
      (pendNodeResolve V nr w).log = w.log) ∧
    (w.ndef.m_node_registration_complete = true →
      (pendNodeResolve V nr w).log = w.log ++ [nr] ∧
      ((pendNodeResolve V nr w).resolvers nr).m_resolve_done = true ∧
      (pendNodeResolve V nr w).ndef.m_pending_resolve_callbacks =
        w.ndef.m_pending_resolve_callbacks) := by
  constructor
  · intro h
    unfold pendNodeResolve
    simp [h]
  · intro h
    unfold pendNodeResolve nodeResolveInternal
    simp [h]

/-- Witness for `pendNodeResolve_gated`: resolver 7 pended in a fresh
registry, and after `setNodeRegistrationStatus(true)`. -/
theorem pendNodeResolve_gated_witness :
    (pendNodeResolve idOverrides 7 world0).ndef.m_pending_resolve_callbacks = [7] ∧
    (pendNodeResolve idOverrides 7 world0).log = [] ∧
    (pendNodeResolve idOverrides 7
      { world0 with ndef := CNodeDefManager.setNodeRegistrationStatus true world0.ndef }).log
      = [7] :=
  ⟨((pendNodeResolve_gated idOverrides 7 world0).1 (by decide!)).1,
    ((pendNodeResolve_gated idOverrides 7 world0).1 (by decide!)).2,
    ((pendNodeResolve_gated idOverrides 7
      { world0 with ndef := CNodeDefManager.setNodeRegistrationStatus true world0.ndef }).2
      (by decide!)).1⟩

/-! ## C14: one resolution callback per deferred resolver -/

/-- C14 (as stated) fails: resolver 1 pended twice while registration is
incomplete is resolved twice by `runNodeResolveCallbacks`; and pended twice
and cancelled once it is still resolved, because
`cancelNodeResolveCallback` removes one entry. -/
theorem C14_counterexample_pended_twice :
    (runNodeResolveCallbacks idOverrides
      (runOps idOverrides [ResolverOp.pend 1, ResolverOp.pend 1] world0)).log = [1, 1] ∧
    (runNodeResolveCallbacks idOverrides
      (runOps idOverrides [ResolverOp.pend 1, ResolverOp.pend 1, ResolverOp.cancel 1]
        world0)).log = [1] := by
  decide!

/-- C14 (amended): for every sequence of `pendNodeResolve` and
`cancelNodeResolveCallback` calls made while registration is incomplete,
starting with an empty pending list, in which no resolver is pended while
it is pended, `runNodeResolveCallbacks` calls `resolveNodeNames()` exactly
once on every resolver that is pended after the sequence (pended and not
cancelled since) and on no other resolver, and leaves the pending list
empty, so that a second `runNodeResolveCallbacks` calls nothing. -/
theorem resolvers_called_once (V : Overrides) (w : World) (hw : w.fresh)
    (ops : List ResolverOp) (hops : noDoublePend ops) :
    ∃ L : List Nat,
      (runNodeResolveCallbacks V (runOps V ops w)).log = w.log ++ L ∧ L.Nodup ∧
      (∀ nr, nr ∈ L ↔ pendedAfter nr ops = true) ∧
      (runNodeResolveCallbacks V (runOps V ops w)).ndef.m_pending_resolve_callbacks = [] ∧
      (runNodeResolveCallbacks V (runNodeResolveCallbacks V (runOps V ops w))).log =
        (runNodeResolveCallbacks V (runOps V ops w)).log := by
  obtain ⟨_, hlog, hnd, hmem⟩ := PendInv_runOps V w hw ops hops
  obtain ⟨h1, h2⟩ := runNodeResolveCallbacks_spec V (runOps V ops w)
  obtain ⟨h3, _⟩ := runNodeResolveCallbacks_spec V (runNodeResolveCallbacks V (runOps V ops w))
  refine ⟨(runOps V ops w).ndef.m_pending_resolve_callbacks, ?_, hnd, hmem, h2, ?_⟩
  · rw [h1, hlog]
  · rw [h3, h2, List.append_nil]

/-- Witness for `resolvers_called_once`: resolvers 1, 2 and 3 are pended, 1
is cancelled and pended again, 2 is cancelled; the run resolves 3 and 1. -/
theorem resolvers_called_once_witness :
    world0.fresh ∧
    noDoublePend [ResolverOp.pend 1, ResolverOp.pend 2, ResolverOp.pend 3, ResolverOp.cancel 1,
      ResolverOp.pend 1, ResolverOp.cancel 2] ∧
    ∃ L : List Nat,
      (runNodeResolveCallbacks idOverrides (runOps idOverrides
        [ResolverOp.pend 1, ResolverOp.pend 2, ResolverOp.pend 3, ResolverOp.cancel 1,
          ResolverOp.pend 1, ResolverOp.cancel 2] world0)).log = world0.log ++ L ∧ L.Nodup ∧
      (∀ nr, nr ∈ L ↔ pendedAfter nr [ResolverOp.pend 1, ResolverOp.pend 2, ResolverOp.pend 3,
        ResolverOp.cancel 1, ResolverOp.pend 1, ResolverOp.cancel 2] = true) ∧
      (runNodeResolveCallbacks idOverrides (runOps idOverrides
        [ResolverOp.pend 1, ResolverOp.pend 2, ResolverOp.pend 3, ResolverOp.cancel 1,
          ResolverOp.pend 1, ResolverOp.cancel 2] world0)).ndef.m_pending_resolve_callbacks
        = [] ∧
      (runNodeResolveCallbacks idOverrides (runNodeResolveCallbacks idOverrides
        (runOps idOverrides
        [ResolverOp.pend 1, ResolverOp.pend 2, ResolverOp.pend 3, ResolverOp.cancel 1,
          ResolverOp.pend 1, ResolverOp.cancel 2] world0))).log =
        (runNodeResolveCallbacks idOverrides (runOps idOverrides
        [ResolverOp.pend 1, ResolverOp.pend 2, ResolverOp.pend 3, ResolverOp.cancel 1,
          ResolverOp.pend 1, ResolverOp.cancel 2] world0)).log :=
  have hfresh : world0.fresh := ⟨by decide!, by decide!⟩
  have hnd : noDoublePend [ResolverOp.pend 1, ResolverOp.pend 2, ResolverOp.pend 3,
      ResolverOp.cancel 1, ResolverOp.pend 1, ResolverOp.cancel 2] := by
    intro pre post n e
    rcases pre with _ | ⟨a, _ | ⟨b, _ | ⟨c, _ | ⟨d, _ | ⟨f, _ | ⟨g, _ | ⟨h, t⟩⟩⟩⟩⟩⟩⟩ <;>
      simp at e <;>
      (try (obtain ⟨rfl, rfl, rfl, rfl, rfl, rfl, rfl⟩ := e)) <;>
      (try rfl)
  ⟨hfresh, hnd, resolvers_called_once idOverrides world0 hfresh _ hnd⟩

/-! ## C18: the block of an edit event -/

/-- C18: for every node position `pos` with `s16` components (negative ones
included), `setPositionModified(pos)` on an event without modified blocks
records the position and the single block position `bp =
getNodeBlockPos(pos)`, which satisfies `bp * MAP_BLOCKSIZE <= pos <= bp *
MAP_BLOCKSIZE + (MAP_BLOCKSIZE - 1)` componentwise, and for the type
`MEET_OTHER` the area `getArea()` of the event contains `pos`. -/
theorem edit_event_block_contains_position (pos : v3s16) (hpos : pos.valid) (e : MapEditEvent)
    (he : e.modified_blocks = []) :
    ∃ e2, e.setPositionModified pos = some e2 ∧ e2.p = pos ∧
      e2.modified_blocks = [getNodeBlockPos pos] ∧
      ((getNodeBlockPos pos).X * MAP_BLOCKSIZE ≤ pos.X ∧
        pos.X ≤ (getNodeBlockPos pos).X * MAP_BLOCKSIZE + (MAP_BLOCKSIZE - 1)) ∧
      ((getNodeBlockPos pos).Y * MAP_BLOCKSIZE ≤ pos.Y ∧
        pos.Y ≤ (getNodeBlockPos pos).Y * MAP_BLOCKSIZE + (MAP_BLOCKSIZE - 1)) ∧
      ((getNodeBlockPos pos).Z * MAP_BLOCKSIZE ≤ pos.Z ∧
        pos.Z ≤ (getNodeBlockPos pos).Z * MAP_BLOCKSIZE + (MAP_BLOCKSIZE - 1)) ∧
      (e2.type = MapEditEventType.MEET_OTHER → e2.getArea.contains pos) := by
  obtain ⟨hx, hy, hz⟩ := hpos
  have bx := getContainerPos_bounds pos.X
  have by_ := getContainerPos_bounds pos.Y
  have bz := getContainerPos_bounds pos.Z
  have rx := getContainerPos_range pos.X hx.1 hx.2
  have ry := getContainerPos_range pos.Y hy.1 hy.2
  have rz := getContainerPos_range pos.Z hz.1 hz.2
  refine ⟨{ e with p := pos, modified_blocks := e.modified_blocks ++ [getNodeBlockPos pos] },
    ?_, rfl, ?_, ?_, ?_, ?_, ?_⟩
  · unfold MapEditEvent.setPositionModified
    rw [if_neg (by simp [he])]
  · simp [he]
  · unfold getNodeBlockPos
    simp only [MAP_BLOCKSIZE] at bx ⊢
    omega
  · unfold getNodeBlockPos
    simp only [MAP_BLOCKSIZE] at by_ ⊢
    omega
  · unfold getNodeBlockPos
    simp only [MAP_BLOCKSIZE] at bz ⊢
    omega
  · intro ht
    have ht2 : e.type = MapEditEventType.MEET_OTHER := ht
    unfold MapEditEvent.getArea
    simp only [ht2, he, List.nil_append, List.foldl_cons, List.foldl_nil]
    rw [getArea_single (getNodeBlockPos pos) ⟨rx, ry, rz⟩]
    unfold VoxelArea.contains v3s16.le getNodeBlockPos
    simp only
    omega

/-- Witness for `edit_event_block_contains_position`: the position
(-1, 0, 17), whose block is (-1, 0, 1). -/
theorem edit_event_block_contains_position_witness :
    (v3s16.mk (-1) 0 17).valid ∧ (MapEditEvent.new K0).modified_blocks = [] ∧
    getNodeBlockPos ⟨-1, 0, 17⟩ = ⟨-1, 0, 1⟩ ∧
    ∃ e2, (MapEditEvent.new K0).setPositionModified ⟨-1, 0, 17⟩ = some e2 ∧ e2.p = ⟨-1, 0, 17⟩ ∧
      e2.modified_blocks = [getNodeBlockPos ⟨-1, 0, 17⟩] ∧
      ((getNodeBlockPos ⟨-1, 0, 17⟩).X * MAP_BLOCKSIZE ≤ (v3s16.mk (-1) 0 17).X ∧
        (v3s16.mk (-1) 0 17).X ≤
          (getNodeBlockPos ⟨-1, 0, 17⟩).X * MAP_BLOCKSIZE + (MAP_BLOCKSIZE - 1)) ∧
      ((getNodeBlockPos ⟨-1, 0, 17⟩).Y * MAP_BLOCKSIZE ≤ (v3s16.mk (-1) 0 17).Y ∧
        (v3s16.mk (-1) 0 17).Y ≤
          (getNodeBlockPos ⟨-1, 0, 17⟩).Y * MAP_BLOCKSIZE + (MAP_BLOCKSIZE - 1)) ∧
      ((getNodeBlockPos ⟨-1, 0, 17⟩).Z * MAP_BLOCKSIZE ≤ (v3s16.mk (-1) 0 17).Z ∧
        (v3s16.mk (-1) 0 17).Z ≤
          (getNodeBlockPos ⟨-1, 0, 17⟩).Z * MAP_BLOCKSIZE + (MAP_BLOCKSIZE - 1)) ∧
      (e2.type = MapEditEventType.MEET_OTHER → e2.getArea.contains ⟨-1, 0, 17⟩) :=
  ⟨by unfold v3s16.valid; decide, rfl, by decide,
    edit_event_block_contains_position ⟨-1, 0, 17⟩ (by unfold v3s16.valid; decide)
      (MapEditEvent.new K0) rfl⟩

/-! ## C19: the area of an edit event -/

/-- C19 (as stated) fails: for the event of type `MEET_OTHER` whose list
holds the block (2048, 0, 0), the product `p * MAP_BLOCKSIZE` does not fit
`s16`; `getArea()` is the box from (-32768, 0, 0) to (-32753, 15, 15), which
does not reach from 2048 * 16 to 2048 * 16 + 15. -/
theorem C19_counterexample_block_beyond_s16 :
    farBlockEvent.type = MapEditEventType.MEET_OTHER ∧ farBlockEvent.modified_blocks ≠ [] ∧
    farBlockEvent.getArea = ⟨⟨-32768, 0, 0⟩, ⟨-32753, 15, 15⟩⟩ ∧
    ¬ farBlockEvent.getArea.spansBlocks farBlockEvent.modified_blocks := by
  have ha : farBlockEvent.getArea = ⟨⟨-32768, 0, 0⟩, ⟨-32753, 15, 15⟩⟩ := by decide
  refine ⟨rfl, by decide, ha, ?_⟩
  rw [ha]
  intro h
  have h1 := h.1.1 2048 (by simp [farBlockEvent])
  unfold MAP_BLOCKSIZE at h1
  simp only at h1
  omega

/-- C19 (amended): for every `MapEditEvent` of type `MEET_OTHER` with a
non-empty `modified_blocks` list whose entries are block positions of the
`s16` node coordinates (each component within -2048..2047), `getArea()`
reaches componentwise from `min(bp) * MAP_BLOCKSIZE` to `max(bp) *
MAP_BLOCKSIZE + MAP_BLOCKSIZE - 1`; it contains every node of every listed
block and lies within every box that does.  For the four node-level event
types `getArea()` is the single position `p`. -/
theorem getArea_spans_modified_blocks (e : MapEditEvent) :
    (e.type = MapEditEventType.MEET_OTHER → e.modified_blocks ≠ [] →
      (∀ bp ∈ e.modified_blocks, bp.isBlockPos) →
      e.getArea.spansBlocks e.modified_blocks ∧
      (∀ q : v3s16, getNodeBlockPos q ∈ e.modified_blocks → e.getArea.contains q) ∧
      (∀ b : VoxelArea,
        (∀ q : v3s16, q.valid → getNodeBlockPos q ∈ e.modified_blocks → b.contains q) →
        b.MinEdge.le e.getArea.MinEdge ∧ e.getArea.MaxEdge.le b.MaxEdge)) ∧
    (e.type ≠ MapEditEventType.MEET_OTHER → e.getArea = VoxelArea.ofPoint e.p) := by
  constructor
  · intro ht hne hb
    have hspan : e.getArea.spansBlocks e.modified_blocks := by
      unfold MapEditEvent.getArea
      simp only [ht]
      cases hm : e.modified_blocks with
      | nil => exact absurd hm hne
      | cons bp rest =>
        rw [hm] at hb
        have hbp := hb bp (List.mem_cons_self _ _)
        rw [List.foldl_cons, getArea_single bp hbp]
        have hfold := getArea_fold rest [bp]
          ⟨⟨bp.X * 16, bp.Y * 16, bp.Z * 16⟩, ⟨bp.X * 16 + 15, bp.Y * 16 + 15, bp.Z * 16 + 15⟩⟩
          (fun x hx => hb x (List.mem_cons_of_mem _ hx))
          (by unfold v3s16.le; simp only; omega)
          ⟨spansAxis_single _, spansAxis_single _, spansAxis_single _⟩
        exact hfold
    refine ⟨hspan, ?_, ?_⟩
    · intro q hq
      obtain ⟨⟨sx, _, _⟩, ⟨sy, _, _⟩, ⟨sz, _, _⟩⟩ := hspan
      have hx := sx _ (List.mem_map_of_mem (fun bp => bp.X) hq)
      have hy := sy _ (List.mem_map_of_mem (fun bp => bp.Y) hq)
      have hz := sz _ (List.mem_map_of_mem (fun bp => bp.Z) hq)
      have bx := getContainerPos_bounds q.X
      have by_ := getContainerPos_bounds q.Y
      have bz := getContainerPos_bounds q.Z
      unfold getNodeBlockPos at hx hy hz
      unfold MAP_BLOCKSIZE at hx hy hz bx by_ bz
      unfold VoxelArea.contains v3s16.le
      simp only at hx hy hz
      omega
    · intro b hbox
      obtain ⟨⟨_, ⟨cx, hcx, ex⟩, ⟨dx, hdx, fx⟩⟩, ⟨_, ⟨cy, hcy, ey⟩, ⟨dy, hdy, fy⟩⟩,
        ⟨_, ⟨cz, hcz, ez⟩, ⟨dz, hdz, fz⟩⟩⟩ := hspan
      have hlow : ∀ bp ∈ e.modified_blocks,
          b.MinEdge.le ⟨bp.X * 16, bp.Y * 16, bp.Z * 16⟩ := by
        intro bp hbp
        have hc := hbox ⟨bp.X * 16 + 0, bp.Y * 16 + 0, bp.Z * 16 + 0⟩
          (block_corner_valid bp (hb bp hbp) 0 (by decide) (by decide))
          (by rw [getNodeBlockPos_corner bp 0 (by decide) (by decide)]; exact hbp)
        simp only [Int.add_zero] at hc
        exact hc.1
      have hhigh : ∀ bp ∈ e.modified_blocks,
          v3s16.le ⟨bp.X * 16 + 15, bp.Y * 16 + 15, bp.Z * 16 + 15⟩ b.MaxEdge := by
        intro bp hbp
        have hc := hbox ⟨bp.X * 16 + 15, bp.Y * 16 + 15, bp.Z * 16 + 15⟩
          (block_corner_valid bp (hb bp hbp) 15 (by decide) (by decide))
          (by rw [getNodeBlockPos_corner bp 15 (by decide) (by decide)]; exact hbp)
        exact hc.2
      simp only [List.mem_map] at hcx hdx hcy hdy hcz hdz
      obtain ⟨b1, m1, rfl⟩ := hcx
      obtain ⟨b2, m2, rfl⟩ := hdx
      obtain ⟨b3, m3, rfl⟩ := hcy
      obtain ⟨b4, m4, rfl⟩ := hdy
      obtain ⟨b5, m5, rfl⟩ := hcz
      obtain ⟨b6, m6, rfl⟩ := hdz
      have l1 := hlow b1 m1
      have l3 := hlow b3 m3
      have l5 := hlow b5 m5
      have u2 := hhigh b2 m2
      have u4 := hhigh b4 m4
      have u6 := hhigh b6 m6
      unfold MAP_BLOCKSIZE at ex fx ey fy ez fz
      unfold v3s16.le at l1 l3 l5 u2 u4 u6 ⊢
      simp only at l1 l3 l5 u2 u4 u6
      omega
  · intro ht
    unfold MapEditEvent.getArea
    cases h : e.type <;> first | rfl | exact absurd h ht

/-- Witness for `getArea_spans_modified_blocks`: an event that lists the
blocks (1,-1,0), (-2,3,0) and (0,0,5); its area reaches from (-32,-16,0) to
(31,63,95). -/
theorem getArea_spans_modified_blocks_witness :
    threeBlockEvent.type = MapEditEventType.MEET_OTHER ∧ threeBlockEvent.modified_blocks ≠ [] ∧
    threeBlockEvent.getArea = ⟨⟨-32, -16, 0⟩, ⟨31, 63, 95⟩⟩ ∧
    threeBlockEvent.getArea.spansBlocks threeBlockEvent.modified_blocks :=
  ⟨rfl, by decide, by decide,
    ((getArea_spans_modified_blocks threeBlockEvent).1 rfl (by decide)
      (by
        intro bp hbp
        simp only [threeBlockEvent, List.mem_cons, List.mem_singleton, List.not_mem_nil,
          or_false] at hbp
        rcases hbp with h | h | h <;> subst h <;> unfold v3s16.isBlockPos <;> decide)).1⟩

/-! ## `forEachNodeInArea` as a run of a list of events -/

theorem mem_s16Range (lo hi i : Int) : i ∈ s16Range lo hi ↔ lo ≤ i ∧ i ≤ hi := by
  unfold s16Range
  simp only [List.mem_map, List.mem_range]
  constructor
  · rintro ⟨k, hk, rfl⟩
    simp only [Int.ofNat_eq_coe]
    omega
  · intro h
    refine ⟨(i - lo).toNat, ?_, ?_⟩
    omega
    simp only [Int.ofNat_eq_coe]
    omega

theorem pairwise_s16Range (lo hi : Int) : (s16Range lo hi).Pairwise (fun a b => a < b) := by
  unfold s16Range
  rw [List.pairwise_map]
  refine (List.pairwise_lt_range _).imp ?_
  intro a b h
  simp only [Int.ofNat_eq_coe]
  omega

theorem nodup_s16Range (lo hi : Int) : (s16Range lo hi).Nodup :=
  (pairwise_s16Range lo hi).imp (fun h => by omega)

theorem runEvents_append (func : List Event → v3s16 → MapNode → Bool) (a b s : List Event) :
    runEvents func (a ++ b) s =
      if (runEvents func a s).2 then runEvents func a s
      else runEvents func b (runEvents func a s).1 := by
  induction a generalizing s with
  | nil => simp [runEvents]
  | cons e a ih =>
    simp only [List.cons_append, runEvents]
    by_cases h : e.stops func s = true
    · simp [h]
    · simp [h, ih]

theorem forLoop_runEvents (func : List Event → v3s16 → MapNode → Bool) {ι : Type}
    (ev : ι → List Event) (body : ι → List Event → List Event × Bool)
    (h : ∀ i s, body i s = runEvents func (ev i) s) (is : List ι) (s : List Event) :
    forLoop is body s = runEvents func (is.flatMap ev) s := by
  induction is generalizing s with
  | nil => simp [forLoop, runEvents]
  | cons i is ih =>
    rw [List.flatMap_cons, runEvents_append, forLoop, h, ih]

theorem flatMap_singleton_map {α β : Type} (f : α → β) (l : List α) :
    l.flatMap (fun x => [f x]) = l.map f := by
  induction l with
  | nil => rfl
  | cons a l ih => rw [List.flatMap_cons, ih]; rfl

theorem forLoop3_calls (func : List Event → v3s16 → MapNode → Bool)
    (ev : Int → Int → Int → Event)
    (body : Int → Int → Int → List Event → List Event × Bool)
    (h : ∀ a b c s, body a b c s = runEvents func [ev a b c] s)
    (l1 l2 l3 : List Int) (s : List Event) :
    forLoop l1 (fun a => forLoop l2 (fun b => forLoop l3 (fun c => body a b c))) s =
      runEvents func
        (l1.flatMap (fun a => l2.flatMap (fun b => l3.map (fun c => ev a b c)))) s := by
  refine forLoop_runEvents func _ _ (fun a s1 => ?_) l1 s
  refine forLoop_runEvents func _ _ (fun b s2 => ?_) l2 s1
  rw [← flatMap_singleton_map]
  exact forLoop_runEvents func _ _ (fun c s3 => h a b c s3) l3 s2

theorem forLoop3_blocks (func : List Event → v3s16 → MapNode → Bool)
    (ev : v3s16 → List Event)
    (body : Int → Int → Int → List Event → List Event × Bool)
    (h : ∀ a b c s, body a b c s = runEvents func (ev ⟨b, c, a⟩) s)
    (l1 l2 l3 : List Int) (s : List Event) :
    forLoop l1 (fun a => forLoop l2 (fun b => forLoop l3 (fun c => body a b c))) s =
      runEvents func
        ((l1.flatMap (fun a => l2.flatMap (fun b => l3.map (fun c => (⟨b, c, a⟩ : v3s16))))).flatMap
          ev) s := by
  have e : (l1.flatMap (fun a => l2.flatMap (fun b =>
      l3.map (fun c => (⟨b, c, a⟩ : v3s16))))).flatMap ev =
      l1.flatMap (fun a => l2.flatMap (fun b => l3.flatMap (fun c => ev ⟨b, c, a⟩))) := by
    simp only [List.flatMap_assoc, List.flatMap_map]
  rw [e]
  refine forLoop_runEvents func _ _ (fun a s1 => ?_) l1 s
  refine forLoop_runEvents func _ _ (fun b s2 => ?_) l2 s1
  exact forLoop_runEvents func _ _ (fun c s3 => h a b c s3) l3 s2

theorem nodeBody_eq (K : Consts) (func : List Event → v3s16 → MapNode → Bool)
    (block : Option MapBlock) (basep : v3s16) (z y x : Int) (log : List Event) :
    nodeBody K func block basep z y x log =
      runEvents func [Event.call (basep.add ⟨x, y, z⟩)
        (match block with
          | some b => b.getNodeNoCheck x y z
          | none => MapNode.ofContent K.CONTENT_IGNORE)] log := by
  unfold nodeBody
  cases block with
  | none =>
    simp only [runEvents, Event.stops]
    cases h : func log (basep.add ⟨x, y, z⟩) (MapNode.ofContent K.CONTENT_IGNORE) <;> simp
  | some b =>
    simp only [runEvents, Event.stops]
    cases h : func log (basep.add ⟨x, y, z⟩) (b.getNodeNoCheck x y z) <;> simp

theorem blockBody_eq (K : Consts) (map : v3s16 → Option MapBlock)
    (func : List Event → v3s16 → MapNode → Bool) (minp maxp : v3s16) (bz bx by_ : Int)
    (log : List Event) :
    blockBody K map func minp maxp bz bx by_ log =
      runEvents func (blockEvents K map minp maxp ⟨bx, by_, bz⟩) log := by
  unfold blockBody blockEvents
  simp only [runEvents, Event.stops, Bool.false_eq_true, if_false]
  exact forLoop3_calls func _ _ (fun a b c s => nodeBody_eq K func _ _ a b c s) _ _ _ _

theorem forEachNodeInArea_eq (K : Consts) (map : v3s16 → Option MapBlock)
    (func : List Event → v3s16 → MapNode → Bool) (minp maxp : v3s16) :
    forEachNodeInArea K map func minp maxp =
      (runEvents func (allEvents K map minp maxp) []).1 := by
  unfold forEachNodeInArea allEvents blockOrder
  exact congrArg Prod.fst (forLoop3_blocks func (blockEvents K map minp maxp) _
    (fun a b c s => blockBody_eq K map func minp maxp a b c s) _ _ _ _)

theorem runEvents_log (func : List Event → v3s16 → MapNode → Bool) (es s : List Event) :
    ∃ pre t, es = pre ++ t ∧ (runEvents func es s).1 = s ++ pre := by
  induction es generalizing s with
  | nil => exact ⟨[], [], rfl, by simp [runEvents]⟩
  | cons e es ih =>
    unfold runEvents
    by_cases h : e.stops func s = true
    · exact ⟨[e], es, rfl, by simp [h]⟩
    · obtain ⟨pre, t, h1, h2⟩ := ih (s ++ [e])
      refine ⟨e :: pre, t, by rw [h1]; rfl, ?_⟩
      simp only [h, if_false, Bool.false_eq_true]
      rw [h2]
      simp

theorem runEvents_all (func : List Event → v3s16 → MapNode → Bool)
    (h : ∀ l p n, func l p n = true) (es s : List Event) :
    runEvents func es s = (s ++ es, false) := by
  induction es generalizing s with
  | nil => simp [runEvents]
  | cons e es ih =>
    unfold runEvents
    have hs : e.stops func s = false := by
      cases e with
      | lookup bp => rfl
      | call p n => simp [Event.stops, h]
    simp only [hs, if_false, Bool.false_eq_true]
    rw [ih]
    simp

theorem append_singleton_split {α : Type} (s : List α) (e : α) (a : List α) (c : α)
    (b : List α) (h : s ++ [e] = a ++ c :: b) :
    (b = [] ∧ a = s ∧ c = e) ∨ ∃ b2, b = b2 ++ [e] ∧ s = a ++ c :: b2 := by
  rcases List.eq_nil_or_concat b with hb | ⟨b2, x, hb⟩
  · subst hb
    have := List.append_inj' h rfl
    exact Or.inl ⟨rfl, this.1.symm, (List.singleton_inj.mp this.2).symm⟩
  · rw [List.concat_eq_append] at hb
    subst hb
    have h2 : s ++ [e] = (a ++ c :: b2) ++ [x] := by rw [h]; simp
    have := List.append_inj' h2 rfl
    have hx : e = x := List.singleton_inj.mp this.2
    subst hx
    exact Or.inr ⟨b2, rfl, this.1⟩

theorem runEvents_last (func : List Event → v3s16 → MapNode → Bool) (es s : List Event)
    (hs : ∀ a p n b, s = a ++ Event.call p n :: b → func a p n = true) :
    ((runEvents func es s).2 = false →
      ∀ a p n b, (runEvents func es s).1 = a ++ Event.call p n :: b → func a p n = true) ∧
    ((runEvents func es s).2 = true →
      ∃ a p n, (runEvents func es s).1 = a ++ [Event.call p n] ∧ func a p n = false ∧
        ∀ a2 p2 n2 b2, a = a2 ++ Event.call p2 n2 :: b2 → func a2 p2 n2 = true) := by
  induction es generalizing s with
  | nil =>
    refine ⟨fun _ => ?_, fun h => ?_⟩
    · simpa [runEvents] using hs
    · simp [runEvents] at h
  | cons e es ih =>
    unfold runEvents
    by_cases h : e.stops func s = true
    · simp only [h, if_true]
      refine ⟨fun h2 => by simp at h2, fun _ => ?_⟩
      cases e with
      | lookup bp => simp [Event.stops] at h
      | call p n =>
        refine ⟨s, p, n, rfl, ?_, hs⟩
        simpa [Event.stops] using h
    · simp only [h, if_false, Bool.false_eq_true]
      refine ih (s ++ [e]) ?_
      intro a p n b hab
      rcases append_singleton_split s e a _ b hab with ⟨_, ha, he⟩ | ⟨b2, _, hs2⟩
      · subst ha
        subst he
        simpa [Event.stops] using h
      · exact hs a p n b2 hs2

/-- A callback that returned false made the last event of the run. -/
theorem runEvents_false_last (func : List Event → v3s16 → MapNode → Bool) (es : List Event)
    (a : List Event) (p : v3s16) (n : MapNode) (b : List Event)
    (h : (runEvents func es []).1 = a ++ Event.call p n :: b) (hf : func a p n = false) :
    b = [] := by
  have hl := runEvents_last func es [] (by intro a p n b h; simp at h)
  cases h2 : (runEvents func es []).2 with
  | false =>
    have := hl.1 h2 a p n b h
    rw [hf] at this
    exact absurd this (by simp)
  | true =>
    obtain ⟨a0, p0, n0, e0, _, hg⟩ := hl.2 h2
    rw [e0] at h
    rcases append_singleton_split a0 _ a _ b h with ⟨hb, _, _⟩ | ⟨b2, _, hs2⟩
    · exact hb
    · have := hg a p n b2 hs2
      rw [hf] at this
      exact absurd this (by simp)

theorem callPositions_append (a b : List Event) :
    callPositions (a ++ b) = callPositions a ++ callPositions b := by
  induction a with
  | nil => rfl
  | cons e a ih =>
    cases e with
    | lookup bp => simpa [callPositions] using ih
    | call p n => simpa [callPositions] using ih

theorem lookups_append (a b : List Event) : lookups (a ++ b) = lookups a ++ lookups b := by
  induction a with
  | nil => rfl
  | cons e a ih =>
    cases e with
    | lookup bp => simpa [lookups] using ih
    | call p n => simpa [lookups] using ih

theorem callPositions_flatMap {ι : Type} (l : List ι) (f : ι → List Event) :
    callPositions (l.flatMap f) = l.flatMap (fun i => callPositions (f i)) := by
  induction l with
  | nil => rfl
  | cons i l ih => rw [List.flatMap_cons, List.flatMap_cons, callPositions_append, ih]

theorem lookups_flatMap {ι : Type} (l : List ι) (f : ι → List Event) :
    lookups (l.flatMap f) = l.flatMap (fun i => lookups (f i)) := by
  induction l with
  | nil => rfl
  | cons i l ih => rw [List.flatMap_cons, List.flatMap_cons, lookups_append, ih]

theorem callPositions_map_call {ι : Type} (l : List ι) (f : ι → v3s16) (g : ι → MapNode) :
    callPositions (l.map (fun i => Event.call (f i) (g i))) = l.map f := by
  induction l with
  | nil => rfl
  | cons i l ih => simpa [callPositions] using ih

theorem lookups_map_call {ι : Type} (l : List ι) (f : ι → v3s16) (g : ι → MapNode) :
    lookups (l.map (fun i => Event.call (f i) (g i))) = [] := by
  induction l with
  | nil => rfl
  | cons i l ih => simpa [lookups] using ih

theorem mem_callPositions (l : List Event) (p : v3s16) :
    p ∈ callPositions l ↔ ∃ n, Event.call p n ∈ l := by
  induction l with
  | nil => simp [callPositions]
  | cons e l ih =>
    cases e with
    | lookup bp => simp [callPositions, ih]
    | call q m =>
      simp only [callPositions, List.mem_cons, ih, Event.call.injEq]
      constructor
      · rintro (h | ⟨n, h⟩)
        · exact ⟨m, Or.inl ⟨h, rfl⟩⟩
        · exact ⟨n, Or.inr h⟩
      · rintro ⟨n, h | h⟩
        · exact Or.inl h.1
        · exact Or.inr ⟨n, h⟩

theorem mem_lookups (l : List Event) (bp : v3s16) : bp ∈ lookups l ↔ Event.lookup bp ∈ l := by
  induction l with
  | nil => simp [lookups]
  | cons e l ih =>
    cases e with
    | lookup q => simp [lookups, ih]
    | call q m => simp [lookups, ih]

/-- One axis of a block of the block loops: the offsets of the inner loop are
the offsets of the positions of the box in the block, and adding one to the
base position does not leave the `s16` range. -/
theorem axis_offsets (mn mx b x : Int) (h1 : -32768 ≤ mn) (h2 : mx ≤ 32767)
    (hb1 : getContainerPos mn MAP_BLOCKSIZE ≤ b) (hb2 : b ≤ getContainerPos mx MAP_BLOCKSIZE) :
    (x ∈ s16Range (rangelim (mn - toS16 (b * MAP_BLOCKSIZE)) 0 (MAP_BLOCKSIZE - 1))
        (rangelim (mx - toS16 (b * MAP_BLOCKSIZE)) 0 (MAP_BLOCKSIZE - 1)) ↔
      (0 ≤ x ∧ x ≤ 15 ∧ mn ≤ b * 16 + x ∧ b * 16 + x ≤ mx)) ∧
    (0 ≤ x → x ≤ 15 → toS16 (toS16 (b * MAP_BLOCKSIZE) + x) = b * 16 + x) ∧
    (0 ≤ x → x ≤ 15 → getContainerPos (b * 16 + x) MAP_BLOCKSIZE = b) ∧
    (0 ≤ x → x ≤ 15 → toS16 (b * 16 + x - toS16 (b * MAP_BLOCKSIZE)) = x) := by
  unfold getContainerPos MAP_BLOCKSIZE at hb1 hb2
  have e : toS16 (b * MAP_BLOCKSIZE) = b * 16 := by
    unfold MAP_BLOCKSIZE
    exact toS16_of_valid _ (by omega) (by omega)
  rw [e, mem_s16Range]
  unfold rangelim getContainerPos MAP_BLOCKSIZE toS16
  refine ⟨?_, ?_, ?_, ?_⟩
  · split_ifs <;> omega
  · intro _ _; omega
  · intro _ _; omega
  · intro _ _; omega

theorem mem_blockOrder (minp maxp bp : v3s16) :
    bp ∈ blockOrder minp maxp ↔
      ((getNodeBlockPos minp).X ≤ bp.X ∧ bp.X ≤ (getNodeBlockPos maxp).X) ∧
      ((getNodeBlockPos minp).Y ≤ bp.Y ∧ bp.Y ≤ (getNodeBlockPos maxp).Y) ∧
      ((getNodeBlockPos minp).Z ≤ bp.Z ∧ bp.Z ≤ (getNodeBlockPos maxp).Z) := by
  unfold blockOrder
  simp only [List.mem_flatMap, List.mem_map, mem_s16Range]
  constructor
  · rintro ⟨z, hz, x, hx, y, hy, rfl⟩
    exact ⟨hx, hy, hz⟩
  · rintro ⟨hx, hy, hz⟩
    exact ⟨bp.Z, hz, bp.X, hx, bp.Y, hy, rfl⟩

theorem mem_blockEvents_call (K : Consts) (map : v3s16 → Option MapBlock)
    (minp maxp bp p : v3s16) (n : MapNode) :
    Event.call p n ∈ blockEvents K map minp maxp bp ↔
      ∃ z ∈ s16Range (rangelim (minp.Z - (bp.scale MAP_BLOCKSIZE).Z) 0 (MAP_BLOCKSIZE - 1))
        (rangelim (maxp.Z - (bp.scale MAP_BLOCKSIZE).Z) 0 (MAP_BLOCKSIZE - 1)),
      ∃ y ∈ s16Range (rangelim (minp.Y - (bp.scale MAP_BLOCKSIZE).Y) 0 (MAP_BLOCKSIZE - 1))
        (rangelim (maxp.Y - (bp.scale MAP_BLOCKSIZE).Y) 0 (MAP_BLOCKSIZE - 1)),
      ∃ x ∈ s16Range (rangelim (minp.X - (bp.scale MAP_BLOCKSIZE).X) 0 (MAP_BLOCKSIZE - 1))
        (rangelim (maxp.X - (bp.scale MAP_BLOCKSIZE).X) 0 (MAP_BLOCKSIZE - 1)),
      p = (bp.scale MAP_BLOCKSIZE).add ⟨x, y, z⟩ ∧
      n = (match map bp with
          | some b => b.getNodeNoCheck x y z
          | none => MapNode.ofContent K.CONTENT_IGNORE) := by
  unfold blockEvents
  simp only [List.mem_cons, List.mem_flatMap, List.mem_map, Event.call.injEq]
  constructor
  · rintro (h | ⟨z, hz, y, hy, x, hx, h1, h2⟩)
    · exact absurd h (by simp)
    · exact ⟨z, hz, y, hy, x, hx, h1.symm, h2.symm⟩
  · rintro ⟨z, hz, y, hy, x, hx, h1, h2⟩
    exact Or.inr ⟨z, hz, y, hy, x, hx, h1.symm, h2.symm⟩

/-- The callbacks of the block `bp` of the block loops, for `s16` corners:
the position lies in the box and in the block `bp`, and the node is the one
stored at the offset of the position in the block. -/
theorem blockEvents_call (K : Consts) (map : v3s16 → Option MapBlock)
    (minp maxp bp p : v3s16) (n : MapNode) (hmin : minp.valid) (hmax : maxp.valid)
    (hbp : bp ∈ blockOrder minp maxp) :
    Event.call p n ∈ blockEvents K map minp maxp bp ↔
      (minp.le p ∧ p.le maxp ∧ getNodeBlockPos p = bp ∧
        n = (match map bp with
          | some b => b.getNodeNoCheck (p.sub (bp.scale MAP_BLOCKSIZE)).X
              (p.sub (bp.scale MAP_BLOCKSIZE)).Y (p.sub (bp.scale MAP_BLOCKSIZE)).Z
          | none => MapNode.ofContent K.CONTENT_IGNORE)) := by
  rw [mem_blockEvents_call]
  obtain ⟨⟨a1, a2⟩, ⟨a3, a4⟩, ⟨a5, a6⟩⟩ := hmin
  obtain ⟨⟨c1, c2⟩, ⟨c3, c4⟩, ⟨c5, c6⟩⟩ := hmax
  obtain ⟨⟨bx1, bx2⟩, ⟨by1, by2⟩, ⟨bz1, bz2⟩⟩ := (mem_blockOrder minp maxp bp).mp hbp
  unfold getNodeBlockPos at bx1 bx2 by1 by2 bz1 bz2
  simp only at bx1 bx2 by1 by2 bz1 bz2
  have X := fun x => axis_offsets minp.X maxp.X bp.X x a1 c2 bx1 bx2
  have Y := fun x => axis_offsets minp.Y maxp.Y bp.Y x a3 c4 by1 by2
  have Z := fun x => axis_offsets minp.Z maxp.Z bp.Z x a5 c6 bz1 bz2
  simp only [v3s16.scale]
  constructor
  · rintro ⟨z, hz, y, hy, x, hx, rfl, rfl⟩
    obtain ⟨z1, z2, z3, z4⟩ := (Z z).1.mp hz
    obtain ⟨y1, y2, y3, y4⟩ := (Y y).1.mp hy
    obtain ⟨x1, x2, x3, x4⟩ := (X x).1.mp hx
    simp only [v3s16.add, v3s16.sub, v3s16.le, getNodeBlockPos]
    rw [(X x).2.1 x1 x2, (Y y).2.1 y1 y2, (Z z).2.1 z1 z2,
      (X x).2.2.1 x1 x2, (Y y).2.2.1 y1 y2, (Z z).2.2.1 z1 z2,
      (X x).2.2.2 x1 x2, (Y y).2.2.2 y1 y2, (Z z).2.2.2 z1 z2]
    exact ⟨⟨x3, y3, z3⟩, ⟨x4, y4, z4⟩, rfl, rfl⟩
  · rintro ⟨⟨l1, l2, l3⟩, ⟨u1, u2, u3⟩, hb, hn⟩
    subst hb
    have gx := getContainerPos_bounds p.X
    have gy := getContainerPos_bounds p.Y
    have gz := getContainerPos_bounds p.Z
    simp only [getNodeBlockPos] at X Y Z hn ⊢
    have ex : getContainerPos p.X MAP_BLOCKSIZE * 16 + (p.X - getContainerPos p.X MAP_BLOCKSIZE * 16) = p.X := by omega
    have ey : getContainerPos p.Y MAP_BLOCKSIZE * 16 + (p.Y - getContainerPos p.Y MAP_BLOCKSIZE * 16) = p.Y := by omega
    have ez : getContainerPos p.Z MAP_BLOCKSIZE * 16 + (p.Z - getContainerPos p.Z MAP_BLOCKSIZE * 16) = p.Z := by omega
    refine ⟨p.Z - getContainerPos p.Z MAP_BLOCKSIZE * 16, (Z _).1.mpr ⟨by omega, by omega, by omega, by omega⟩,
      p.Y - getContainerPos p.Y MAP_BLOCKSIZE * 16, (Y _).1.mpr ⟨by omega, by omega, by omega, by omega⟩,
      p.X - getContainerPos p.X MAP_BLOCKSIZE * 16, (X _).1.mpr ⟨by omega, by omega, by omega, by omega⟩, ?_, ?_⟩
    · simp only [v3s16.add]
      rw [(X _).2.1 (by omega) (by omega), (Y _).2.1 (by omega) (by omega),
        (Z _).2.1 (by omega) (by omega), ex, ey, ez]
    · rw [hn]
      simp only [v3s16.sub, v3s16.scale]
      have fx := (X (p.X - getContainerPos p.X MAP_BLOCKSIZE * 16)).2.2.2 (by omega) (by omega)
      have fy := (Y (p.Y - getContainerPos p.Y MAP_BLOCKSIZE * 16)).2.2.2 (by omega) (by omega)
      have fz := (Z (p.Z - getContainerPos p.Z MAP_BLOCKSIZE * 16)).2.2.2 (by omega) (by omega)
      rw [ex] at fx
      rw [ey] at fy
      rw [ez] at fz
      rw [fx, fy, fz]

/-- Three nested loops whose index lists are increasing produce their values
in lexicographic order of the indices. -/
theorem pairwise_box3 {α : Type} (R : α → α → Prop) (f : Int → Int → Int → α)
    (l1 l2 l3 : List Int)
    (h1 : l1.Pairwise (fun a b => a < b)) (h2 : l2.Pairwise (fun a b => a < b))
    (h3 : l3.Pairwise (fun a b => a < b))
    (hR : ∀ a ∈ l1, ∀ b ∈ l2, ∀ c ∈ l3, ∀ a2 ∈ l1, ∀ b2 ∈ l2, ∀ c2 ∈ l3,
      (a < a2 ∨ (a = a2 ∧ (b < b2 ∨ (b = b2 ∧ c < c2)))) → R (f a b c) (f a2 b2 c2)) :
    (l1.flatMap (fun a => l2.flatMap (fun b => l3.map (fun c => f a b c)))).Pairwise R := by
  rw [List.pairwise_flatMap]
  constructor
  · intro a ha
    rw [List.pairwise_flatMap]
    constructor
    · intro b hb
      rw [List.pairwise_map]
      exact h3.imp_of_mem (fun hc hc2 hlt =>
        hR a ha b hb _ hc a ha b hb _ hc2 (Or.inr ⟨rfl, Or.inr ⟨rfl, hlt⟩⟩))
    · refine h2.imp_of_mem ?_
      intro b b2 hb hb2 hlt x hx y hy
      obtain ⟨c, hc, rfl⟩ := List.mem_map.mp hx
      obtain ⟨c2, hc2, rfl⟩ := List.mem_map.mp hy
      exact hR a ha b hb c hc a ha b2 hb2 c2 hc2 (Or.inr ⟨rfl, Or.inl hlt⟩)
  · refine h1.imp_of_mem ?_
    intro a a2 ha ha2 hlt x hx y hy
    obtain ⟨b, hb, hx⟩ := List.mem_flatMap.mp hx
    obtain ⟨c, hc, rfl⟩ := List.mem_map.mp hx
    obtain ⟨b2, hb2, hy⟩ := List.mem_flatMap.mp hy
    obtain ⟨c2, hc2, rfl⟩ := List.mem_map.mp hy
    exact hR a ha b hb c hc a2 ha2 b2 hb2 c2 hc2 (Or.inl hlt)

theorem blockOrder_pairwise (minp maxp : v3s16) :
    (blockOrder minp maxp).Pairwise v3s16.blockBefore := by
  unfold blockOrder
  exact pairwise_box3 v3s16.blockBefore (fun a b c => (⟨b, c, a⟩ : v3s16)) _ _ _
    (pairwise_s16Range _ _) (pairwise_s16Range _ _) (pairwise_s16Range _ _)
    (fun a _ b _ c _ a2 _ b2 _ c2 _ h => h)

theorem blockBefore_asymm (a b : v3s16) (h : a.blockBefore b) : ¬ b.blockBefore a := by
  unfold v3s16.blockBefore at h ⊢
  omega

theorem blockBefore_irrefl (a : v3s16) : ¬ a.blockBefore a := by
  unfold v3s16.blockBefore
  omega

theorem blockOrder_nodup (minp maxp : v3s16) : (blockOrder minp maxp).Nodup := by
  refine (blockOrder_pairwise minp maxp).imp ?_
  intro a b h e
  subst e
  exact blockBefore_irrefl a h

theorem mem_blockEvents_lookup (K : Consts) (map : v3s16 → Option MapBlock)
    (minp maxp bp q : v3s16) :
    Event.lookup q ∈ blockEvents K map minp maxp bp ↔ q = bp := by
  unfold blockEvents
  simp

/-- Every event of the block `bp` of the block loops concerns the block
`bp`. -/
theorem blockEvents_block (K : Consts) (map : v3s16 → Option MapBlock)
    (minp maxp bp : v3s16) (hmin : minp.valid) (hmax : maxp.valid)
    (hbp : bp ∈ blockOrder minp maxp) (e : Event) (he : e ∈ blockEvents K map minp maxp bp) :
    e.block = bp := by
  cases e with
  | lookup q => exact (mem_blockEvents_lookup K map minp maxp bp q).mp he
  | call p n => exact ((blockEvents_call K map minp maxp bp p n hmin hmax hbp).mp he).2.2.1

theorem blockEvents_cons (K : Consts) (map : v3s16 → Option MapBlock) (minp maxp bp : v3s16) :
    blockEvents K map minp maxp bp = Event.lookup bp :: (blockEvents K map minp maxp bp).tail :=
  rfl

theorem blockEvents_tail_isCall (K : Consts) (map : v3s16 → Option MapBlock)
    (minp maxp bp : v3s16) (e : Event) (he : e ∈ (blockEvents K map minp maxp bp).tail) :
    e.isCall = true := by
  unfold blockEvents at he
  simp only [List.tail_cons, List.mem_flatMap, List.mem_map] at he
  obtain ⟨z, _, y, _, x, _, rfl⟩ := he
  rfl

theorem lookups_blockEvents (K : Consts) (map : v3s16 → Option MapBlock)
    (minp maxp bp : v3s16) : lookups (blockEvents K map minp maxp bp) = [bp] := by
  unfold blockEvents
  simp only [lookups, lookups_flatMap, lookups_map_call]
  simp

theorem lookups_allEvents (K : Consts) (map : v3s16 → Option MapBlock) (minp maxp : v3s16) :
    lookups (allEvents K map minp maxp) = blockOrder minp maxp := by
  unfold allEvents
  rw [lookups_flatMap]
  simp only [lookups_blockEvents]
  rw [flatMap_singleton_map]
  simp

/-- In the list of all events the events of one block are together, the
lookup first, and the blocks come in the order of the block loops. -/
theorem allEvents_pairwise_block (K : Consts) (map : v3s16 → Option MapBlock)
    (minp maxp : v3s16) (hmin : minp.valid) (hmax : maxp.valid) :
    (allEvents K map minp maxp).Pairwise (fun x y =>
      (x.block = y.block ∧ y.isCall = true) ∨ x.block.blockBefore y.block) := by
  unfold allEvents
  rw [List.pairwise_flatMap]
  constructor
  · intro bp hbp
    rw [blockEvents_cons, List.pairwise_cons]
    have hb := blockEvents_block K map minp maxp bp hmin hmax hbp
    constructor
    · intro y hy
      exact Or.inl ⟨(hb y (List.mem_of_mem_tail hy)).symm, blockEvents_tail_isCall K map minp maxp bp y hy⟩
    · refine List.pairwise_of_forall_mem_list ?_
      intro x hx y hy
      exact Or.inl ⟨(hb x (List.mem_of_mem_tail hx)).trans (hb y (List.mem_of_mem_tail hy)).symm,
        blockEvents_tail_isCall K map minp maxp bp y hy⟩
  · refine (blockOrder_pairwise minp maxp).imp_of_mem ?_
    intro b1 b2 h1 h2 hlt x hx y hy
    rw [blockEvents_block K map minp maxp b1 hmin hmax h1 x hx,
      blockEvents_block K map minp maxp b2 hmin hmax h2 y hy]
    exact Or.inr hlt

/-- No two callbacks of the list of all events have the same position. -/
theorem allEvents_pairwise_pos (K : Consts) (map : v3s16 → Option MapBlock)
    (minp maxp : v3s16) (hmin : minp.valid) (hmax : maxp.valid) :
    (allEvents K map minp maxp).Pairwise (fun x y =>
      ∀ p n m, x = Event.call p n → y ≠ Event.call p m) := by
  unfold allEvents
  rw [List.pairwise_flatMap]
  constructor
  · intro bp hbp
    obtain ⟨⟨a1, a2⟩, ⟨a3, a4⟩, ⟨a5, a6⟩⟩ := hmin
    obtain ⟨⟨c1, c2⟩, ⟨c3, c4⟩, ⟨c5, c6⟩⟩ := hmax
    obtain ⟨⟨bx1, bx2⟩, ⟨by1, by2⟩, ⟨bz1, bz2⟩⟩ := (mem_blockOrder minp maxp bp).mp hbp
    unfold getNodeBlockPos at bx1 bx2 by1 by2 bz1 bz2
    simp only at bx1 bx2 by1 by2 bz1 bz2
    have X := fun x => axis_offsets minp.X maxp.X bp.X x a1 c2 bx1 bx2
    have Y := fun x => axis_offsets minp.Y maxp.Y bp.Y x a3 c4 by1 by2
    have Z := fun x => axis_offsets minp.Z maxp.Z bp.Z x a5 c6 bz1 bz2
    unfold blockEvents
    rw [List.pairwise_cons]
    constructor
    · intro y _ p n m h
      exact absurd h (by simp)
    · refine pairwise_box3 _ _ _ _ _ (pairwise_s16Range _ _) (pairwise_s16Range _ _)
        (pairwise_s16Range _ _) ?_
      intro z hz y hy x hx z2 hz2 y2 hy2 x2 hx2 hlt p n m h1 h2
      simp only [v3s16.scale] at hz hy hx hz2 hy2 hx2
      obtain ⟨z1, z3, _, _⟩ := (Z z).1.mp hz
      obtain ⟨y1, y3, _, _⟩ := (Y y).1.mp hy
      obtain ⟨x1, x3, _, _⟩ := (X x).1.mp hx
      obtain ⟨w1, w3, _, _⟩ := (Z z2).1.mp hz2
      obtain ⟨v1, v3, _, _⟩ := (Y y2).1.mp hy2
      obtain ⟨u1, u3, _, _⟩ := (X x2).1.mp hx2
      simp only [Event.call.injEq, v3s16.add, v3s16.scale] at h1 h2
      have e1 := h1.1
      have e2 := h2.1
      rw [(X x).2.1 x1 x3, (Y y).2.1 y1 y3, (Z z).2.1 z1 z3] at e1
      rw [(X x2).2.1 u1 u3, (Y y2).2.1 v1 v3, (Z z2).2.1 w1 w3] at e2
      rw [← e2] at e1
      simp only [v3s16.mk.injEq] at e1
      omega
  · refine (blockOrder_nodup minp maxp).imp_of_mem ?_
    intro b1 b2 h1 h2 hne x hx y hy p n m e1 e2
    subst e1
    subst e2
    have g1 := blockEvents_block K map minp maxp b1 hmin hmax h1 _ hx
    have g2 := blockEvents_block K map minp maxp b2 hmin hmax h2 _ hy
    exact hne (g1.symm.trans g2)

theorem nodup_callPositions (l : List Event)
    (h : l.Pairwise (fun x y => ∀ p n m, x = Event.call p n → y ≠ Event.call p m)) :
    (callPositions l).Nodup := by
  induction l with
  | nil => simp [callPositions]
  | cons e l ih =>
    rw [List.pairwise_cons] at h
    cases e with
    | lookup bp => exact ih h.2
    | call p n =>
      simp only [callPositions, List.nodup_cons]
      refine ⟨?_, ih h.2⟩
      intro hp
      obtain ⟨m, hm⟩ := (mem_callPositions l p).mp hp
      exact h.1 _ hm p n m rfl rfl

/-- The callbacks of the list of all events, for `s16` corners: the
positions of the box, each with the node stored at it. -/
theorem allEvents_call (K : Consts) (map : v3s16 → Option MapBlock)
    (minp maxp p : v3s16) (n : MapNode) (hmin : minp.valid) (hmax : maxp.valid) :
    Event.call p n ∈ allEvents K map minp maxp ↔
      (minp.le p ∧ p.le maxp ∧
        n = (match map (getNodeBlockPos p) with
          | some b => b.getNodeNoCheck (p.sub ((getNodeBlockPos p).scale MAP_BLOCKSIZE)).X
              (p.sub ((getNodeBlockPos p).scale MAP_BLOCKSIZE)).Y
              (p.sub ((getNodeBlockPos p).scale MAP_BLOCKSIZE)).Z
          | none => MapNode.ofContent K.CONTENT_IGNORE)) := by
  unfold allEvents
  rw [List.mem_flatMap]
  constructor
  · rintro ⟨bp, hbp, h⟩
    obtain ⟨h1, h2, h3, h4⟩ := (blockEvents_call K map minp maxp bp p n hmin hmax hbp).mp h
    subst h3
    exact ⟨h1, h2, h4⟩
  · rintro ⟨h1, h2, h4⟩
    have hbp : getNodeBlockPos p ∈ blockOrder minp maxp := by
      rw [mem_blockOrder]
      obtain ⟨l1, l2, l3⟩ := h1
      obtain ⟨u1, u2, u3⟩ := h2
      unfold getNodeBlockPos getContainerPos MAP_BLOCKSIZE
      simp only
      omega
    exact ⟨_, hbp, (blockEvents_call K map minp maxp _ p n hmin hmax hbp).mpr ⟨h1, h2, rfl, h4⟩⟩

/-- The blocks of the block loops are the blocks that hold a position of the
box. -/
theorem blockOrder_intersects (minp maxp bp : v3s16) (hle : minp.le maxp) :
    bp ∈ blockOrder minp maxp ↔ ∃ p : v3s16, minp.le p ∧ p.le maxp ∧ getNodeBlockPos p = bp := by
  rw [mem_blockOrder]
  obtain ⟨l1, l2, l3⟩ := hle
  constructor
  · rintro ⟨⟨x1, x2⟩, ⟨y1, y2⟩, ⟨z1, z2⟩⟩
    unfold getNodeBlockPos getContainerPos MAP_BLOCKSIZE at x1 x2 y1 y2 z1 z2
    simp only at x1 x2 y1 y2 z1 z2
    refine ⟨⟨max minp.X (bp.X * 16), max minp.Y (bp.Y * 16), max minp.Z (bp.Z * 16)⟩,
      ⟨?_, ?_, ?_⟩, ⟨?_, ?_, ?_⟩, ?_⟩
    · simp only; omega
    · simp only; omega
    · simp only; omega
    · simp only; omega
    · simp only; omega
    · simp only; omega
    · unfold getNodeBlockPos getContainerPos MAP_BLOCKSIZE
      have ex : max minp.X (bp.X * 16) / 16 = bp.X := by omega
      have ey : max minp.Y (bp.Y * 16) / 16 = bp.Y := by omega
      have ez : max minp.Z (bp.Z * 16) / 16 = bp.Z := by omega
      simp only [ex, ey, ez]
  · rintro ⟨p, ⟨a1, a2, a3⟩, ⟨b1, b2, b3⟩, rfl⟩
    unfold getNodeBlockPos getContainerPos MAP_BLOCKSIZE
    simp only
    omega

/-! ## Claims about `Map::forEachNodeInArea` -/

/-- C15: `forEachNodeInArea` called with `s16` corners `minp` and `maxp`
passes no position to the callback twice and passes no position outside the
inclusive box from `minp` to `maxp` (coordinates of either sign); with a
callback that always returns true it passes every position of the box; and a
call of the callback that returns false is the last event of the function.
The callback may depend on the calls made before. -/
theorem forEachNodeInArea_positions (K : Consts) (map : v3s16 → Option MapBlock)
    (func : List Event → v3s16 → MapNode → Bool) (minp maxp : v3s16)
    (hmin : minp.valid) (hmax : maxp.valid) :
    (callPositions (forEachNodeInArea K map func minp maxp)).Nodup ∧
    (∀ p ∈ callPositions (forEachNodeInArea K map func minp maxp), minp.le p ∧ p.le maxp) ∧
    ((∀ l p n, func l p n = true) → ∀ p : v3s16, minp.le p → p.le maxp →
      p ∈ callPositions (forEachNodeInArea K map func minp maxp)) ∧
    (∀ a p n b, forEachNodeInArea K map func minp maxp = a ++ Event.call p n :: b →
      func a p n = false → b = []) := by
  rw [forEachNodeInArea_eq]
  obtain ⟨pre, t, h1, h2⟩ := runEvents_log func (allEvents K map minp maxp) []
  rw [List.nil_append] at h2
  have hsub : pre.Sublist (allEvents K map minp maxp) := by
    rw [h1]
    exact List.sublist_append_left pre t
  refine ⟨?_, ?_, ?_, ?_⟩
  · rw [h2]
    exact nodup_callPositions pre ((allEvents_pairwise_pos K map minp maxp hmin hmax).sublist hsub)
  · intro p hp
    rw [h2] at hp
    obtain ⟨n, hn⟩ := (mem_callPositions pre p).mp hp
    have := (allEvents_call K map minp maxp p n hmin hmax).mp (hsub.subset hn)
    exact ⟨this.1, this.2.1⟩
  · intro hf p hl hu
    rw [runEvents_all func hf, List.nil_append]
    exact (mem_callPositions _ p).mpr ⟨_, (allEvents_call K map minp maxp p _ hmin hmax).mpr
      ⟨hl, hu, rfl⟩⟩
  · intro a p n b h hf
    exact runEvents_false_last func _ a p n b h hf

set_option maxRecDepth 100000 in
/-- Witness for `forEachNodeInArea_positions`: the box from (-1, 0, 0) to
(1, 0, 0) with a callback that returns false at its third call; the three
positions are passed, in two blocks. -/
theorem forEachNodeInArea_positions_witness :
    (v3s16.mk (-1) 0 0).valid ∧ (v3s16.mk 1 0 0).valid ∧
    forEachNodeInArea K0 oneBlockMap acceptTwo ⟨-1, 0, 0⟩ ⟨1, 0, 0⟩ =
      [Event.lookup ⟨-1, 0, 0⟩, Event.call ⟨-1, 0, 0⟩ (MapNode.ofContent K0.CONTENT_IGNORE),
        Event.lookup ⟨0, 0, 0⟩, Event.call ⟨0, 0, 0⟩ ⟨0, 0, 0⟩, Event.call ⟨1, 0, 0⟩ ⟨1, 0, 0⟩] ∧
    (callPositions (forEachNodeInArea K0 oneBlockMap acceptTwo ⟨-1, 0, 0⟩ ⟨1, 0, 0⟩)).Nodup :=
  ⟨by unfold v3s16.valid; decide, by unfold v3s16.valid; decide, by decide!,
    (forEachNodeInArea_positions K0 oneBlockMap acceptTwo ⟨-1, 0, 0⟩ ⟨1, 0, 0⟩
      (by unfold v3s16.valid; decide) (by unfold v3s16.valid; decide)).1⟩

/-- C16: in `forEachNodeInArea` called with `s16` corners, the node passed to
the callback with the position `p` is `MapNode(CONTENT_IGNORE)` when the block
of `p` is not loaded (`getBlockNoCreateNoEx` gives no block for
`getNodeBlockPos(p)`), and otherwise is the node that block stores at the
offset `p - getNodeBlockPos(p) * MAP_BLOCKSIZE`. -/
theorem forEachNodeInArea_node (K : Consts) (map : v3s16 → Option MapBlock)
    (func : List Event → v3s16 → MapNode → Bool) (minp maxp : v3s16)
    (hmin : minp.valid) (hmax : maxp.valid) (p : v3s16) (n : MapNode)
    (h : Event.call p n ∈ forEachNodeInArea K map func minp maxp) :
    (map (getNodeBlockPos p) = none → n = MapNode.ofContent K.CONTENT_IGNORE) ∧
    (∀ b, map (getNodeBlockPos p) = some b →
      n = b.getNodeNoCheck (p.sub ((getNodeBlockPos p).scale MAP_BLOCKSIZE)).X
        (p.sub ((getNodeBlockPos p).scale MAP_BLOCKSIZE)).Y
        (p.sub ((getNodeBlockPos p).scale MAP_BLOCKSIZE)).Z) := by
  rw [forEachNodeInArea_eq] at h
  obtain ⟨pre, t, h1, h2⟩ := runEvents_log func (allEvents K map minp maxp) []
  rw [List.nil_append] at h2
  rw [h2] at h
  have hall : Event.call p n ∈ allEvents K map minp maxp := by
    rw [h1]
    exact List.mem_append_left t h
  have hn := ((allEvents_call K map minp maxp p n hmin hmax).mp hall).2.2
  constructor
  · intro hb
    rw [hb] at hn
    exact hn
  · intro b hb
    rw [hb] at hn
    exact hn

set_option maxRecDepth 100000 in
/-- Witness for `forEachNodeInArea_node`: in the box from (-3, 2, 1) to
(4, 2, 1), of which only the block (0, 0, 0) is loaded, the position
(-3, 2, 1) comes with the ignore node and the position (4, 2, 1) with the
node stored at the offset (4, 2, 1). -/
theorem forEachNodeInArea_node_witness :
    (Event.call ⟨-3, 2, 1⟩ (MapNode.ofContent K0.CONTENT_IGNORE) ∈
      forEachNodeInArea K0 oneBlockMap (fun _ _ _ => true) ⟨-3, 2, 1⟩ ⟨4, 2, 1⟩) ∧
    (Event.call ⟨4, 2, 1⟩ ⟨4, 2, 1⟩ ∈
      forEachNodeInArea K0 oneBlockMap (fun _ _ _ => true) ⟨-3, 2, 1⟩ ⟨4, 2, 1⟩) ∧
    (∀ b, oneBlockMap (getNodeBlockPos ⟨4, 2, 1⟩) = some b →
      (⟨4, 2, 1⟩ : MapNode) =
        b.getNodeNoCheck ((v3s16.mk 4 2 1).sub ((getNodeBlockPos ⟨4, 2, 1⟩).scale MAP_BLOCKSIZE)).X
          ((v3s16.mk 4 2 1).sub ((getNodeBlockPos ⟨4, 2, 1⟩).scale MAP_BLOCKSIZE)).Y
          ((v3s16.mk 4 2 1).sub ((getNodeBlockPos ⟨4, 2, 1⟩).scale MAP_BLOCKSIZE)).Z) :=
  ⟨by decide!, by decide!,
    (forEachNodeInArea_node K0 oneBlockMap (fun _ _ _ => true) ⟨-3, 2, 1⟩ ⟨4, 2, 1⟩
      (by unfold v3s16.valid; decide) (by unfold v3s16.valid; decide) ⟨4, 2, 1⟩ ⟨4, 2, 1⟩
      (by decide!)).2⟩

set_option maxRecDepth 100000 in
/-- C17, counterexample: in the box from (0, 0, 0) to (16, 0, 0) the block
(1, 0, 0) holds the position (16, 0, 0) of the box, but with a callback that
returns false at its first call `forEachNodeInArea` looks up the block
(0, 0, 0) alone. -/
theorem C17_counterexample_return_before_block :
    (v3s16.mk 0 0 0).le ⟨16, 0, 0⟩ ∧
    (∃ p : v3s16, (v3s16.mk 0 0 0).le p ∧ p.le ⟨16, 0, 0⟩ ∧ getNodeBlockPos p = ⟨1, 0, 0⟩) ∧
    forEachNodeInArea K0 oneBlockMap refuseAll ⟨0, 0, 0⟩ ⟨16, 0, 0⟩ =
      [Event.lookup ⟨0, 0, 0⟩, Event.call ⟨0, 0, 0⟩ ⟨0, 0, 0⟩] ∧
    (⟨1, 0, 0⟩ : v3s16) ∉ lookups (forEachNodeInArea K0 oneBlockMap refuseAll ⟨0, 0, 0⟩ ⟨16, 0, 0⟩) :=
  ⟨by unfold v3s16.le; decide,
    ⟨⟨16, 0, 0⟩, by unfold v3s16.le; decide, by unfold v3s16.le; decide, by decide!⟩,
    by decide!, by decide!⟩

/-- C17, amended: in `forEachNodeInArea` called with `s16` corners
`minp <= maxp`, the blocks looked up are blocks that hold a position of the
box; they are looked up in the order in which the block Y index varies
fastest, then X, then Z, so none is looked up twice; no block of the box that
comes before a looked-up block in that order is left out; with a callback
that always returns true every block that holds a position of the box is
looked up; and between two callbacks for positions of one block there are
only callbacks for positions of that block. -/
theorem block_lookups_in_order (K : Consts) (map : v3s16 → Option MapBlock)
    (func : List Event → v3s16 → MapNode → Bool) (minp maxp : v3s16)
    (hmin : minp.valid) (hmax : maxp.valid) (hle : minp.le maxp) :
    (∀ bp ∈ lookups (forEachNodeInArea K map func minp maxp),
      ∃ p : v3s16, minp.le p ∧ p.le maxp ∧ getNodeBlockPos p = bp) ∧
    (lookups (forEachNodeInArea K map func minp maxp)).Pairwise v3s16.blockBefore ∧
    (lookups (forEachNodeInArea K map func minp maxp)).Nodup ∧
    (∀ bp bp2 : v3s16, bp ∈ lookups (forEachNodeInArea K map func minp maxp) →
      (∃ p : v3s16, minp.le p ∧ p.le maxp ∧ getNodeBlockPos p = bp2) → bp2.blockBefore bp →
      bp2 ∈ lookups (forEachNodeInArea K map func minp maxp)) ∧
    ((∀ l p n, func l p n = true) → ∀ bp : v3s16,
      (∃ p : v3s16, minp.le p ∧ p.le maxp ∧ getNodeBlockPos p = bp) →
      bp ∈ lookups (forEachNodeInArea K map func minp maxp)) ∧
    (∀ a p1 n1 b p2 n2 c,
      forEachNodeInArea K map func minp maxp =
        a ++ Event.call p1 n1 :: (b ++ Event.call p2 n2 :: c) →
      getNodeBlockPos p1 = getNodeBlockPos p2 →
      ∀ e ∈ b, ∃ p n, e = Event.call p n ∧ getNodeBlockPos p = getNodeBlockPos p1) := by
  rw [forEachNodeInArea_eq]
  obtain ⟨pre, t, h1, h2⟩ := runEvents_log func (allEvents K map minp maxp) []
  rw [List.nil_append] at h2
  rw [h2]
  have hsub : pre.Sublist (allEvents K map minp maxp) := by
    rw [h1]
    exact List.sublist_append_left pre t
  have hlk : lookups pre ++ lookups t = blockOrder minp maxp := by
    rw [← lookups_append, ← h1, lookups_allEvents]
  have hlsub : (lookups pre).Sublist (blockOrder minp maxp) := by
    rw [← hlk]
    exact List.sublist_append_left _ _
  have hpw := (blockOrder_pairwise minp maxp).sublist hlsub
  refine ⟨?_, hpw, ?_, ?_, ?_, ?_⟩
  · intro bp hbp
    exact (blockOrder_intersects minp maxp bp hle).mp (hlsub.subset hbp)
  · refine hpw.imp ?_
    intro a b h e
    subst e
    exact blockBefore_irrefl a h
  · intro bp bp2 hbp hex hlt
    have hm : bp2 ∈ lookups pre ++ lookups t := by
      rw [hlk]
      exact (blockOrder_intersects minp maxp bp2 hle).mpr hex
    rcases List.mem_append.mp hm with hm | hm
    · exact hm
    · have hall := blockOrder_pairwise minp maxp
      rw [← hlk, List.pairwise_append] at hall
      exact absurd hlt (blockBefore_asymm _ _ (hall.2.2 bp hbp bp2 hm))
  · intro hf bp hex
    have hrun := runEvents_all func hf (allEvents K map minp maxp) []
    rw [List.nil_append] at hrun
    have hp : pre = allEvents K map minp maxp := by rw [← h2, hrun]
    rw [hp, lookups_allEvents]
    exact (blockOrder_intersects minp maxp bp hle).mpr hex
  · intro a p1 n1 b p2 n2 c hlog hb e he
    have hpw2 := (allEvents_pairwise_block K map minp maxp hmin hmax).sublist hsub
    rw [hlog, List.pairwise_append, List.pairwise_cons, List.pairwise_append] at hpw2
    have r1 := hpw2.2.1.1 e (List.mem_append_left _ he)
    have r2 := hpw2.2.1.2.2.2 e he (Event.call p2 n2) (List.mem_cons_self _ _)
    simp only [Event.block] at r1 r2
    rcases r1 with ⟨e1, e2⟩ | r1
    · cases e with
      | lookup q => simp [Event.isCall] at e2
      | call p n => exact ⟨p, n, rfl, e1.symm⟩
    · rcases r2 with ⟨e1, _⟩ | r2
      · rw [e1, ← hb] at r1
        exact absurd r1 (blockBefore_irrefl _)
      · rw [← hb] at r2
        exact absurd r2 (blockBefore_asymm _ _ r1)

set_option maxRecDepth 100000 in
/-- Witness for `block_lookups_in_order`: the box from (-1, -1, 0) to
(16, 0, 0) with a callback that always returns true; its six blocks are
looked up with Y varying fastest, then X. -/
theorem block_lookups_in_order_witness :
    (v3s16.mk (-1) (-1) 0).valid ∧ (v3s16.mk 16 0 0).valid ∧
    (v3s16.mk (-1) (-1) 0).le ⟨16, 0, 0⟩ ∧
    lookups (forEachNodeInArea K0 oneBlockMap (fun _ _ _ => true) ⟨-1, -1, 0⟩ ⟨16, 0, 0⟩) =
      [⟨-1, -1, 0⟩, ⟨-1, 0, 0⟩, ⟨0, -1, 0⟩, ⟨0, 0, 0⟩, ⟨1, -1, 0⟩, ⟨1, 0, 0⟩] ∧
    (lookups (forEachNodeInArea K0 oneBlockMap (fun _ _ _ => true)
      ⟨-1, -1, 0⟩ ⟨16, 0, 0⟩)).Pairwise v3s16.blockBefore :=
  ⟨by unfold v3s16.valid; decide, by unfold v3s16.valid; decide, by unfold v3s16.le; decide,
    by decide!,
    (block_lookups_in_order K0 oneBlockMap (fun _ _ _ => true) ⟨-1, -1, 0⟩ ⟨16, 0, 0⟩
      (by unfold v3s16.valid; decide) (by unfold v3s16.valid; decide)
      (by unfold v3s16.le; decide)).2.1⟩

/-! ## Claim about `Server::SendBlocks` -/

theorem sendLoop_HEAD_spec (env : SendEnv) (q : List PrioritySortedBlockTransfer) (i : Nat)
    (sent : List PrioritySortedBlockTransfer) :
    ∃ sub, sendLoop_HEAD env i q sent = sent ++ sub ∧ sub.Sublist q := by
  induction q generalizing i sent with
  | nil => exact ⟨[], by simp [sendLoop_HEAD], List.Sublist.slnil⟩
  | cons t rest ih =>
    unfold sendLoop_HEAD
    split_ifs
    · obtain ⟨sub, h1, h2⟩ := ih (i + 1) sent
      exact ⟨sub, h1, h2.cons t⟩
    · obtain ⟨sub, h1, h2⟩ := ih (i + 1) sent
      exact ⟨sub, h1, h2.cons t⟩
    · obtain ⟨sub, h1, h2⟩ := ih (i + 1) sent
      exact ⟨sub, h1, h2.cons t⟩
    · obtain ⟨sub, h1, h2⟩ := ih (i + 1) (sent ++ [t])
      exact ⟨t :: sub, by rw [h1]; simp, h2.cons₂ t⟩

theorem sendLoop_5_5_0_spec (env : SendEnv) (mx : Nat) (q : List PrioritySortedBlockTransfer)
    (i total : Nat) (sent : List PrioritySortedBlockTransfer) :
    ∃ sub, (sendLoop_5_5_0 env mx i q (total, sent)).2 = sent ++ sub ∧ sub.Sublist q ∧
      (sendLoop_5_5_0 env mx i q (total, sent)).1 = total + sub.length ∧
      (sub ≠ [] → total + sub.length ≤ mx) := by
  induction q generalizing i total sent with
  | nil => exact ⟨[], by simp [sendLoop_5_5_0], List.Sublist.slnil, by simp [sendLoop_5_5_0], by simp⟩
  | cons t rest ih =>
    unfold sendLoop_5_5_0
    split_ifs with h0
    · exact ⟨[], by simp, List.nil_sublist _, by simp, by simp⟩
    · obtain ⟨sub, h1, h2, h3, h4⟩ := ih (i + 1) total sent
      exact ⟨sub, h1, h2.cons t, h3, h4⟩
    · obtain ⟨sub, h1, h2, h3, h4⟩ := ih (i + 1) total sent
      exact ⟨sub, h1, h2.cons t, h3, h4⟩
    · obtain ⟨sub, h1, h2, h3, h4⟩ := ih (i + 1) (total + 1) (sent ++ [t])
      refine ⟨t :: sub, by rw [h1]; simp, h2.cons₂ t, by rw [h3]; simp; omega, ?_⟩
      intro _
      by_cases hs : sub = []
      · subst hs
        simp at h0 ⊢
        omega
      · have := h4 hs
        simp
        omega

/-- C20: in one pass of `Server::SendBlocks`, on either side of the merge,
the transfers sent with `SendBlockNoLock` are, in the order of sending, a
subsequence of the collected queue as sorted by `std::sort`; so each was
collected, and no transfer is sent after one with a strictly larger priority
number.  `std::sort` is taken to return a permutation of the queue in which
no entry is less than an earlier one. -/
theorem SendBlocks_priority_order
    (sort : List PrioritySortedBlockTransfer → List PrioritySortedBlockTransfer)
    (env : SendEnv) (collected : List PrioritySortedBlockTransfer)
    (total_sending playerCount max_users sends_per_client : Nat)
    (hperm : (sort collected).Perm collected)
    (hsorted : (sort collected).Pairwise (fun a b => b.lt a = false)) :
    ((Server.SendBlocks_HEAD sort env collected).Sublist (sort collected) ∧
      (∀ t ∈ Server.SendBlocks_HEAD sort env collected, t ∈ collected) ∧
      (Server.SendBlocks_HEAD sort env collected).Pairwise
        (fun a b => a.priority ≤ b.priority)) ∧
    ((Server.SendBlocks_5_5_0 sort env collected total_sending playerCount max_users
        sends_per_client).2.Sublist (sort collected) ∧
      (∀ t ∈ (Server.SendBlocks_5_5_0 sort env collected total_sending playerCount max_users
        sends_per_client).2, t ∈ collected) ∧
      (Server.SendBlocks_5_5_0 sort env collected total_sending playerCount max_users
        sends_per_client).2.Pairwise (fun a b => a.priority ≤ b.priority)) := by
  have hle : (sort collected).Pairwise (fun a b => a.priority ≤ b.priority) := by
    refine hsorted.imp ?_
    intro a b h
    simpa [PrioritySortedBlockTransfer.lt] using h
  constructor
  · obtain ⟨sub, h1, h2⟩ := sendLoop_HEAD_spec env (sort collected) 0 []
    unfold Server.SendBlocks_HEAD
    rw [h1, List.nil_append]
    exact ⟨h2, fun t ht => hperm.subset (h2.subset ht), hle.sublist h2⟩
  · obtain ⟨sub, h1, h2, _, _⟩ := sendLoop_5_5_0_spec env
      ((((playerCount + max_users) % 4294967296 * sends_per_client) % 4294967296 / 4 + 1) %
        4294967296) (sort collected) 0 total_sending []
    unfold Server.SendBlocks_5_5_0
    simp only
    rw [h1, List.nil_append]
    exact ⟨h2, fun t ht => hperm.subset (h2.subset ht), hle.sublist h2⟩

set_option maxRecDepth 100000 in
/-- Witness for `SendBlocks_priority_order`: a queue of four transfers sorted
by insertion; the block of the transfer of priority 2 is missing.  The `HEAD`
side sends the other three; the `5.5.0` side, which may send two, sends the
two of priority 1/2. -/
theorem SendBlocks_priority_order_witness :
    (sortByPriority fourTransfers).Perm fourTransfers ∧
    (sortByPriority fourTransfers).Pairwise (fun a b => b.lt a = false) ∧
    Server.SendBlocks_HEAD sortByPriority missingBlockEnv fourTransfers =
      [⟨1 / 2, ⟨1, 0, 0⟩, 2⟩, ⟨1 / 2, ⟨0, 0, 1⟩, 1⟩, ⟨3, ⟨0, 0, 0⟩, 1⟩] ∧
    (Server.SendBlocks_5_5_0 sortByPriority missingBlockEnv fourTransfers 0 1 1 2).2 =
      [⟨1 / 2, ⟨1, 0, 0⟩, 2⟩, ⟨1 / 2, ⟨0, 0, 1⟩, 1⟩] ∧
    (Server.SendBlocks_HEAD sortByPriority missingBlockEnv fourTransfers).Pairwise
      (fun a b => a.priority ≤ b.priority) :=
  ⟨by decide!, by decide!, by decide!, by decide!,
    (SendBlocks_priority_order sortByPriority missingBlockEnv fourTransfers 0 1 1 2
      (by decide!) (by decide!)).1.2.2⟩

/-! ## Claims about `CNodeDefManager::nodeboxConnects` -/

/-- C27 (code defect): when `nodeboxConnects` is called for a connected node
box `from` and a target with `param_type_2 = CPT2_FACEDIR` and
`connect_sides > 0`, and the index `connect_face * 4 + param2` is 132 or more,
it reads past the end of the table `rot` of 132 entries.  For the face 32
that is so for every `param2` from 4 on, for the faces 4, 8 and 16 for every
`param2` from 116, 100 and 68 on. -/
theorem nodeboxConnects_reads_past_rot (K : Consts) (m : CNodeDefManager)
    (from_ to_ : MapNode) (connect_face : Nat)
    (h1 : (CNodeDefManager.get K m from_.param0).drawtype = K.NDT_NODEBOX)
    (h2 : (CNodeDefManager.get K m from_.param0).node_box.type = K.NODEBOX_CONNECTED)
    (h3 : to_.param0 ∈ (CNodeDefManager.get K m from_.param0).connects_to_ids)
    (h4 : ¬ ((CNodeDefManager.get K m to_.param0).drawtype = K.NDT_NODEBOX ∧
      (CNodeDefManager.get K m to_.param0).node_box.type = K.NODEBOX_CONNECTED))
    (h5 : (CNodeDefManager.get K m to_.param0).connect_sides > 0)
    (h6 : (CNodeDefManager.get K m to_.param0).param_type_2 = K.CPT2_FACEDIR)
    (hface : connect_face ∈ [4, 8, 16, 32]) :
    rot.length = 132 ∧
    (rot.length ≤ connect_face * 4 + to_.param2 ↔
      (connect_face = 32 ∧ 4 ≤ to_.param2) ∨ (connect_face = 16 ∧ 68 ≤ to_.param2) ∨
      (connect_face = 8 ∧ 100 ≤ to_.param2) ∨ (connect_face = 4 ∧ 116 ≤ to_.param2)) ∧
    (rot.length ≤ connect_face * 4 + to_.param2 →
      CNodeDefManager.nodeboxConnects K m from_ to_ connect_face = none) := by
  have hlen : rot.length = 132 := rfl
  have hf : connect_face = 4 ∨ connect_face = 8 ∨ connect_face = 16 ∨ connect_face = 32 := by
    simpa using hface
  refine ⟨hlen, ?_, ?_⟩
  · rw [hlen]
    rcases hf with h | h | h | h <;> subst h <;> constructor <;> intro _ <;> omega
  · intro hp
    unfold CNodeDefManager.nodeboxConnects
    simp only
    rw [if_neg (by simp [h1, h2]), if_neg (by simpa using h3), if_neg h4, if_pos h5,
      if_pos ⟨h6, by omega⟩]
    have : rot[connect_face * 4 + to_.param2]? = none := by
      rw [List.getElem?_eq_none_iff]
      exact hp
    rw [this]
    rfl

set_option maxRecDepth 100000 in
/-- Witness for `nodeboxConnects_reads_past_rot`: the fence "foo" (id 1) next
to the node "bar" (id 2) whose `param2` is the facedir value 4, asked for the
face 32: the index is 132. -/
theorem nodeboxConnects_reads_past_rot_witness :
    32 * 4 + (MapNode.mk 2 0 4).param2 = 132 ∧ rot.length = 132 ∧
    CNodeDefManager.nodeboxConnects K0 fenceManager ⟨1, 0, 0⟩ ⟨2, 0, 4⟩ 32 = none ∧
    CNodeDefManager.nodeboxConnects K0 fenceManager ⟨1, 0, 0⟩ ⟨2, 0, 3⟩ 32 = some true :=
  ⟨by decide, rfl,
    (nodeboxConnects_reads_past_rot K0 fenceManager ⟨1, 0, 0⟩ ⟨2, 0, 4⟩ 32
      (by decide!) (by decide!) (by decide!) (by decide!) (by decide!) (by decide!)
      (by decide)).2.2 (by decide),
    by decide!⟩

/-- C28: for every `param2` in 0..3 the map `face -> rot[face * 4 + param2]`
permutes the horizontal face bits 4, 8, 16, 32; it is the identity for
`param2 = 0`; and the map for `a` followed by the map for `b` is the map for
`(a + b) mod 4`. -/
theorem rot_is_rotation (a : Nat) (ha : a ∈ [0, 1, 2, 3]) :
    (([4, 8, 16, 32].map (rotFace a)).Perm [4, 8, 16, 32]) ∧
    (a = 0 → ∀ face ∈ [4, 8, 16, 32], rotFace a face = face) ∧
    (∀ b ∈ [0, 1, 2, 3], ∀ face ∈ [4, 8, 16, 32],
      rotFace b (rotFace a face) = rotFace ((a + b) % 4) face) := by
  have h : a = 0 ∨ a = 1 ∨ a = 2 ∨ a = 3 := by simpa using ha
  rcases h with h | h | h | h <;> subst h <;> decide

/-- Witness for `rot_is_rotation`: the rotation 1 sends the faces 4, 8, 16, 32
to 32, 4, 8, 16, and followed by the rotation 3 it is the identity. -/
theorem rot_is_rotation_witness :
    [4, 8, 16, 32].map (rotFace 1) = [32, 4, 8, 16] ∧
    (∀ face ∈ [4, 8, 16, 32], rotFace 3 (rotFace 1 face) = rotFace ((1 + 3) % 4) face) :=
  ⟨by decide, (rot_is_rotation 1 (by decide)).2.2 3 (by decide)⟩

/-! ## C26: a failed table load -/

set_option maxRecDepth 100000 in
/-- C26 (as stated) fails: `deSerialize` on a registry that holds "foo" with
the id 1, given a table whose version byte is 2, raises `SerializationError`
and leaves the registry of `clear()`: the definition in slot 1 and the id of
"foo" are gone. -/
theorem C26_counterexample_failed_load_clears :
    fooManager.m_content_features[1]? = some fooFeatures ∧
    fooManager.m_name_id_mapping.getId str_foo = some 1 ∧
    (CNodeDefManager.deSerialize K0 ⟨[2, 0, 0], false⟩ fooManager).1 =
      Except.error Exception.SerializationError ∧
    (CNodeDefManager.deSerialize K0 ⟨[2, 0, 0], false⟩ fooManager).2.m_content_features[1]? =
      some (ContentFeatures.new K0) ∧
    (CNodeDefManager.deSerialize K0 ⟨[2, 0, 0], false⟩
      fooManager).2.m_name_id_mapping.getId str_foo = none ∧
    fooFeatures ≠ ContentFeatures.new K0 := by
  decide!

/-- C26 (amended): `CNodeDefManager::deSerialize` begins with `clear()`, so
the way it ends and the registry it leaves do not depend on the registry
before the call; when the version byte of the table is not 1 it raises
`SerializationError` and leaves exactly the registry of `clear()`. -/
theorem failed_load_leaves_cleared_registry (K : Consts) (s : IStream) (m : CNodeDefManager) :
    (∀ m2, CNodeDefManager.deSerialize K s m = CNodeDefManager.deSerialize K s m2) ∧
    (∀ v rest, s = ⟨v :: rest, false⟩ → v % 256 ≠ 1 →
      CNodeDefManager.deSerialize K s m =
        (Except.error Exception.SerializationError, CNodeDefManager.clear K m)) := by
  constructor
  · intro m2
    unfold CNodeDefManager.deSerialize
    rw [clear_eq_new, clear_eq_new]
  · intro v rest hs hv
    subst hs
    unfold CNodeDefManager.deSerialize
    simp only [readU8_head v rest]
    rw [if_pos hv]

set_option maxRecDepth 100000 in
/-- Witness for `failed_load_leaves_cleared_registry`: a table whose second
entry holds a record of version 9, loaded into the registry that holds "foo"
and into a fresh one: the call raises, and both registries hold "foo" with
the id 1 from the first entry. -/
theorem failed_load_leaves_cleared_registry_witness :
    CNodeDefManager.deSerialize K0 ⟨badSecondEntryStream, false⟩ fooManager =
      CNodeDefManager.deSerialize K0 ⟨badSecondEntryStream, false⟩ (CNodeDefManager.new K0) ∧
    (CNodeDefManager.deSerialize K0 ⟨badSecondEntryStream, false⟩ (CNodeDefManager.new K0)).1 =
      Except.error Exception.SerializationError ∧
    (CNodeDefManager.deSerialize K0 ⟨badSecondEntryStream, false⟩
      (CNodeDefManager.new K0)).2.m_name_id_mapping.getId str_foo = some 1 :=
  ⟨(failed_load_leaves_cleared_registry K0 ⟨badSecondEntryStream, false⟩ fooManager).1 _,
    by decide!, by decide!⟩

/-! ## C22, C23: the group index -/

set_option maxRecDepth 100000 in
/-- C22 (code defect): after `set("foo", d)` with a definition that lists the
group "a" and a second `set("foo", d2)` with a definition that lists the
group "dig_immediate" alone, both on a registry built from `clear()`, the
current definition of the id 1 does not list "a", but `getIds("group:a", result)` with an empty `result`
still yields the id 1: `set` adds to the group index and never removes. -/
theorem getIds_keeps_stale_group_member :
    Reach K0 Op.isSet regroupedManager ∧
    regroupedManager.m_name_id_mapping.getId str_foo = some 1 ∧
    (CNodeDefManager.get K0 regroupedManager 1).groups = [(str_dig_immediate, 2)] ∧
    amFind str_a (CNodeDefManager.get K0 regroupedManager 1).groups = none ∧
    CNodeDefManager.getIds regroupedManager (str_group_colon ++ str_a) [] = (true, [1]) := by
  refine ⟨?_, by decide!, by decide!, by decide!, by decide!⟩
  have h1 : Reach K0 Op.isSet
      (((CNodeDefManager.set K0 2 str_foo fooInGroupA (CNodeDefManager.new K0)).map
        (fun r => r.2)).getD (CNodeDefManager.new K0)) :=
    Reach.step _ _ (Op.set str_foo fooInGroupA) 2 Reach.init trivial (by decide!)
  exact Reach.step _ _ (Op.set str_foo fooFeatures) 2 h1 trivial (by decide!)

theorem mem_setInsert (x y : Nat) (l : List Nat) : y ∈ setInsert x l ↔ y = x ∨ y ∈ l := by
  induction l with
  | nil => simp [setInsert]
  | cons a l ih =>
    unfold setInsert
    split_ifs with h1 h2
    · simp
    · subst h2
      simp
    · simp only [List.mem_cons, ih]
      tauto

theorem mem_foldl_groupItems (items : List (Nat × Int)) (r0 : List Nat) (x : Nat) :
    x ∈ items.foldl (fun r j => if j.2 ≠ 0 then setInsert j.1 r else r) r0 ↔
      x ∈ r0 ∨ ∃ j ∈ items, j.2 ≠ 0 ∧ j.1 = x := by
  induction items generalizing r0 with
  | nil => simp
  | cons j items ih =>
    rw [List.foldl_cons, ih]
    by_cases hj : j.2 ≠ 0
    · rw [if_pos hj, mem_setInsert]
      constructor
      · rintro ((h | h) | ⟨k, hk, h⟩)
        · exact Or.inr ⟨j, List.mem_cons_self _ _, hj, h.symm⟩
        · exact Or.inl h
        · exact Or.inr ⟨k, List.mem_cons_of_mem _ hk, h⟩
      · rintro (h | ⟨k, hk, h1, h2⟩)
        · exact Or.inl (Or.inr h)
        · rcases List.mem_cons.mp hk with e | e
          · subst e
            exact Or.inl (Or.inl h2.symm)
          · exact Or.inr ⟨k, e, h1, h2⟩
    · rw [if_neg hj]
      constructor
      · rintro (h | ⟨k, hk, h⟩)
        · exact Or.inl h
        · exact Or.inr ⟨k, List.mem_cons_of_mem _ hk, h⟩
      · rintro (h | ⟨k, hk, h1, h2⟩)
        · exact Or.inl h
        · rcases List.mem_cons.mp hk with e | e
          · subst e
            exact absurd h1 hj
          · exact Or.inr ⟨k, e, h1, h2⟩

theorem amFind_mem {κ ν : Type} [DecidableEq κ] (k : κ) (v : ν) (l : List (κ × ν))
    (h : amFind k l = some v) : (k, v) ∈ l := by
  induction l with
  | nil => simp [amFind] at h
  | cons e l ih =>
    obtain ⟨k1, v1⟩ := e
    unfold amFind at h
    split_ifs at h with hk
    · cases h
      subst hk
      exact List.mem_cons_self _ _
    · exact List.mem_cons_of_mem _ (ih h)

/-- C23: for every registry and every non-empty name registered with the id
`i`, after `removeNode(name)` the lookup `getId(name)` fails (also in the
name/id mapping), for every group `g` the result of `getIds("group:" + g)`
does not contain `i`, and every other name resolves as before. -/
theorem removeNode_erases_name_and_groups (K : Consts) (m : CNodeDefManager)
    (name : CppString) (i : Nat) (_hne : name ≠ [])
    (hreg : m.m_name_id_mapping.getId name = some i) :
    (CNodeDefManager.removeNode K name m).getId name = none ∧
    (CNodeDefManager.removeNode K name m).m_name_id_mapping.getId name = none ∧
    (∀ g result, i ∉ result →
      (CNodeDefManager.getIds (CNodeDefManager.removeNode K name m)
        (str_group_colon ++ g) result).1 = true ∧
      i ∉ (CNodeDefManager.getIds (CNodeDefManager.removeNode K name m)
        (str_group_colon ++ g) result).2) ∧
    (∀ other, other ≠ name →
      (CNodeDefManager.removeNode K name m).getId other = m.getId other ∧
      (CNodeDefManager.removeNode K name m).m_name_id_mapping.getId other =
        m.m_name_id_mapping.getId other) := by
  unfold CNodeDefManager.removeNode
  simp only [hreg, Option.isSome_some, if_true, Option.getD_some]
  refine ⟨?_, ?_, ?_, ?_⟩
  · unfold CNodeDefManager.getId
    simp only
    rw [amFind_amErase]
    simp
  · rw [getId_eraseName]
    simp
  · intro g result hres
    unfold CNodeDefManager.getIds
    have ht : (str_group_colon ++ g).take 6 = str_group_colon := by
      simp [str_group_colon]
    have hd : (str_group_colon ++ g).drop 6 = g := by
      simp [str_group_colon]
    rw [if_neg (by rw [ht]; simp), hd]
    simp only
    cases hf : amFind g (List.filterMap (fun e : CppString × GroupItems =>
        if (List.filter (fun it => decide (it.1 ≠ i)) e.2).length = 0 then none
        else some (e.1, List.filter (fun it => decide (it.1 ≠ i)) e.2)) m.m_group_to_items) with
    | none => exact ⟨rfl, hres⟩
    | some items =>
      refine ⟨rfl, ?_⟩
      simp only
      rw [mem_foldl_groupItems]
      rintro (h | ⟨j, hj, _, hji⟩)
      · exact hres h
      · have hmem := amFind_mem g items _ hf
        rw [List.mem_filterMap] at hmem
        obtain ⟨e, _, he⟩ := hmem
        split_ifs at he
        cases he
        have := (List.mem_filter.mp hj).2
        simp at this
        exact this hji
  · intro other ho
    constructor
    · unfold CNodeDefManager.getId
      simp only
      rw [amFind_amErase]
      simp [ho]
    · rw [getId_eraseName]
      simp [ho]

set_option maxRecDepth 100000 in
/-- Witness for `removeNode_erases_name_and_groups`: the registry in which
"foo" has the id 1 and is the member of the group "a"; after
`removeNode("foo")` the group "a" gives no id and "air" resolves as before. -/
theorem removeNode_erases_name_and_groups_witness :
    str_foo ≠ [] ∧ groupedManager.m_name_id_mapping.getId str_foo = some 1 ∧
    CNodeDefManager.getIds groupedManager (str_group_colon ++ str_a) [] = (true, [1]) ∧
    CNodeDefManager.getIds (CNodeDefManager.removeNode K0 str_foo groupedManager)
      (str_group_colon ++ str_a) [] = (true, []) ∧
    (CNodeDefManager.removeNode K0 str_foo groupedManager).getId str_foo = none ∧
    (CNodeDefManager.removeNode K0 str_foo groupedManager).getId str_air =
      groupedManager.getId str_air :=
  ⟨by decide, by decide!, by decide!, by decide!,
    (removeNode_erases_name_and_groups K0 groupedManager str_foo 1 (by decide)
      (by decide!)).1,
    ((removeNode_erases_name_and_groups K0 groupedManager str_foo 1 (by decide)
      (by decide!)).2.2.2 str_air (by decide)).1⟩

/-! ## C24: the copying constructors of `Buffer` and `SharedBuffer` -/

theorem elemAt_memcpy_low (w : Nat) (fresh t : List Nat) (size i : Nat)
    (ht : size ≤ t.length) (hi : (i + 1) * w ≤ size) :
    elemAt w (memcpy fresh t size) i = elemAt w t i := by
  unfold elemAt memcpy
  have h1 : i * w + w ≤ size := by
    have : (i + 1) * w = i * w + w := by ring
    omega
  have hl : (t.take size).length = size := by
    rw [List.length_take]
    omega
  rw [List.drop_append_of_le_length (by omega), List.take_append_of_le_length
    (by rw [List.length_drop]; omega)]
  rw [List.drop_take, List.take_take]
  congr 1
  omega

theorem elemAt_memcpy_high (w : Nat) (fresh t : List Nat) (size i : Nat)
    (ht : size ≤ t.length) (hi : size ≤ i * w) :
    elemAt w (memcpy fresh t size) i = elemAt w fresh i := by
  unfold elemAt memcpy
  have hl : (t.take size).length = size := by
    rw [List.length_take]
    omega
  have : i * w = (t.take size).length + (i * w - size) := by omega
  rw [this, List.drop_append, List.drop_drop, hl]

/-- C24 (code defect): the copying constructors `Buffer(t, size)` and
`SharedBuffer(t, size)` set `m_size` to `size` but copy `size` bytes, not
`size` elements: for an element type of `w` bytes the elements that lie in
the first `size` bytes equal those of `t`, and the elements that begin at the
byte `size` or later keep what `new T[size]` held.  Only for `w = 1` is
every element copied. -/
theorem copy_constructors_copy_size_bytes (w : Nat) (fresh t : List Nat) (size : Nat)
    (hfresh : fresh.length = size * w) (ht : t.length = size * w) (hw : 0 < w) :
    (Buffer.copyOf fresh t size).getSize = size ∧
    (SharedBuffer.copyOf fresh t size).getSize = size ∧
    (∀ i, (i + 1) * w ≤ size →
      (Buffer.copyOf fresh t size).get w i = elemAt w t i ∧
      (SharedBuffer.copyOf fresh t size).get w i = elemAt w t i) ∧
    (∀ i, i < size → size ≤ i * w →
      (Buffer.copyOf fresh t size).get w i = elemAt w fresh i ∧
      (SharedBuffer.copyOf fresh t size).get w i = elemAt w fresh i) ∧
    (w = 1 → ∀ i, i < size →
      (Buffer.copyOf fresh t size).get w i = elemAt w t i ∧
      (SharedBuffer.copyOf fresh t size).get w i = elemAt w t i) := by
  have hts : size ≤ t.length := by
    rw [ht]
    exact Nat.le_mul_of_pos_right size hw
  have hlow : ∀ i, (i + 1) * w ≤ size →
      (Buffer.copyOf fresh t size).get w i = elemAt w t i ∧
      (SharedBuffer.copyOf fresh t size).get w i = elemAt w t i := by
    intro i hi
    have hs : size ≠ 0 := by
      intro h0
      rw [h0] at hi
      have : 0 < (i + 1) * w := Nat.mul_pos (Nat.succ_pos i) hw
      omega
    unfold Buffer.copyOf SharedBuffer.copyOf Buffer.get SharedBuffer.get
    rw [if_pos hs, if_pos hs]
    exact ⟨elemAt_memcpy_low w fresh t size i hts hi, elemAt_memcpy_low w fresh t size i hts hi⟩
  refine ⟨?_, ?_, hlow, ?_, ?_⟩
  · unfold Buffer.copyOf Buffer.getSize
    split_ifs <;> rfl
  · unfold SharedBuffer.copyOf SharedBuffer.getSize
    split_ifs <;> rfl
  · intro i hi1 hi2
    have hs : size ≠ 0 := by omega
    unfold Buffer.copyOf SharedBuffer.copyOf Buffer.get SharedBuffer.get
    rw [if_pos hs, if_pos hs]
    exact ⟨elemAt_memcpy_high w fresh t size i hts hi2,
      elemAt_memcpy_high w fresh t size i hts hi2⟩
  · intro h1 i hi
    subst h1
    exact hlow i (by omega)

/-- Witness for `copy_constructors_copy_size_bytes`: two elements of two bytes
each, (1, 2) and (3, 4), copied into an array that held zeros: the buffer has
the size 2, its element 0 is (1, 2), and its element 1 is (0, 0), not
(3, 4). -/
theorem copy_constructors_copy_size_bytes_witness :
    (Buffer.copyOf [0, 0, 0, 0] [1, 2, 3, 4] 2).getSize = 2 ∧
    (Buffer.copyOf [0, 0, 0, 0] [1, 2, 3, 4] 2).get 2 0 = [1, 2] ∧
    (Buffer.copyOf [0, 0, 0, 0] [1, 2, 3, 4] 2).get 2 1 = [0, 0] ∧
    (SharedBuffer.copyOf [0, 0, 0, 0] [1, 2, 3, 4] 2).get 2 1 = [0, 0] ∧
    elemAt 2 [1, 2, 3, 4] 1 = [3, 4] ∧
    (Buffer.copyOf [0, 0, 0, 0] [1, 2, 3, 4] 2).get 2 1 = elemAt 2 [0, 0, 0, 0] 1 :=
  ⟨by decide, by decide, by decide, by decide, by decide,
    ((copy_constructors_copy_size_bytes 2 [0, 0, 0, 0] [1, 2, 3, 4] 2 rfl rfl
      (by decide)).2.2.2.1 1 (by decide) (by decide)).1⟩

/-! ## C21: `Server::sendAddNode` -/

/-- One round of the loop of `sendAddNode` for a client other than `c`: the
marks of `c` stay, the set `far_players` stays a set or null and keeps its
members, and the actions added concern the other client. -/
theorem sendAddNodeStep_other (env : ClientsEnv) (p bp : v3s16) (pkt : AddNodePacket)
    (maxd : ℚ) (st : AddNodeState) (c2 c : Nat) (hne : c2 ≠ c) :
    (sendAddNodeStep_5_5_0 env p bp pkt maxd st c2).blocks_sent c = st.blocks_sent c ∧
    ((sendAddNodeStep_5_5_0 env p bp pkt maxd st c2).far_players = none ↔ st.far_players = none) ∧
    (∀ fp, st.far_players = some fp → ∃ fp2,
      (sendAddNodeStep_5_5_0 env p bp pkt maxd st c2).far_players = some fp2 ∧
      ∀ x ∈ fp, x ∈ fp2) ∧
    ∃ acts, (sendAddNodeStep_5_5_0 env p bp pkt maxd st c2).log = st.log ++ acts ∧
      ∀ a ∈ acts, a.client ≠ c := by
  unfold sendAddNodeStep_5_5_0
  by_cases h1 : (!env.lockedGetClientNoEx c2) = true
  · rw [if_pos h1]
    exact ⟨rfl, Iff.rfl, fun fp h => ⟨fp, h, fun x hx => hx⟩, [], by simp, by simp⟩
  · rw [if_neg h1]
    dsimp only
    split_ifs with h2
    · cases hfp : st.far_players with
      | none =>
        refine ⟨?_, by simp, by simp, [SendAction.SetBlockNotSent c2 bp], rfl, ?_⟩
        · funext q
          simp only [SetBlockNotSent]
          rw [if_neg]
          rintro ⟨e, _⟩
          exact hne e.symm
        · intro a ha
          rw [List.mem_singleton] at ha
          subst ha
          exact hne
      | some fp =>
        refine ⟨rfl, by simp, ?_, [SendAction.emplace c2], rfl, ?_⟩
        · intro fp1 h
          cases h
          exact ⟨_, rfl, fun x hx => (mem_setInsert c2 x _).mpr (Or.inr hx)⟩
        · intro a ha
          rw [List.mem_singleton] at ha
          subst ha
          exact hne
    · refine ⟨rfl, Iff.rfl, fun fp h => ⟨fp, h, fun x hx => hx⟩,
        [SendAction.send c2 pkt], rfl, ?_⟩
      intro a ha
      rw [List.mem_singleton] at ha
      subst ha
      exact hne

/-- The rounds of the loop of `sendAddNode` for clients other than `c`. -/
theorem sendAddNode_others (env : ClientsEnv) (p bp : v3s16) (pkt : AddNodePacket)
    (maxd : ℚ) (c : Nat) (l : List Nat) (hl : c ∉ l) (st : AddNodeState) :
    (l.foldl (sendAddNodeStep_5_5_0 env p bp pkt maxd) st).blocks_sent c = st.blocks_sent c ∧
    ((l.foldl (sendAddNodeStep_5_5_0 env p bp pkt maxd) st).far_players = none ↔
      st.far_players = none) ∧
    (∀ fp, st.far_players = some fp → ∃ fp2,
      (l.foldl (sendAddNodeStep_5_5_0 env p bp pkt maxd) st).far_players = some fp2 ∧
      ∀ x ∈ fp, x ∈ fp2) ∧
    ∃ acts, (l.foldl (sendAddNodeStep_5_5_0 env p bp pkt maxd) st).log = st.log ++ acts ∧
      ∀ a ∈ acts, a.client ≠ c := by
  induction l generalizing st with
  | nil => exact ⟨rfl, Iff.rfl, fun fp h => ⟨fp, h, fun x hx => hx⟩, [], by simp, by simp⟩
  | cons c2 l ih =>
    have hne : c2 ≠ c := fun e => hl (by rw [e]; exact List.mem_cons_self _ _)
    have hl2 : c ∉ l := fun h => hl (List.mem_cons_of_mem _ h)
    obtain ⟨a1, a2, a3, acts1, a4, a5⟩ := sendAddNodeStep_other env p bp pkt maxd st c2 c hne
    obtain ⟨b1, b2, b3, acts2, b4, b5⟩ := ih hl2 (sendAddNodeStep_5_5_0 env p bp pkt maxd st c2)
    rw [List.foldl_cons]
    refine ⟨b1.trans a1, b2.trans a2, ?_, acts1 ++ acts2, ?_, ?_⟩
    · intro fp h
      obtain ⟨fp1, e1, m1⟩ := a3 fp h
      obtain ⟨fp2, e2, m2⟩ := b3 fp1 e1
      exact ⟨fp2, e2, fun x hx => m2 x (m1 x hx)⟩
    · rw [b4, a4, List.append_assoc]
    · intro a ha
      rcases List.mem_append.mp ha with h | h
      · exact a5 a h
      · exact b5 a h

theorem filter_client_others (c : Nat) (acts : List SendAction)
    (h : ∀ a ∈ acts, a.client ≠ c) : acts.filter (fun a => decide (a.client = c)) = [] := by
  rw [List.filter_eq_nil_iff]
  intro a ha
  simpa using h a ha

/-- The round of the loop of `sendAddNode` for a client id for which there
is a client. -/
theorem sendAddNodeStep_self (env : ClientsEnv) (p bp : v3s16) (pkt : AddNodePacket)
    (maxd : ℚ) (st : AddNodeState) (c : Nat) (hcl : env.lockedGetClientNoEx c = true) :
    ((st.blocks_sent c bp = true ∧ (∀ d, env.saoDistance c p = some d → d ≤ maxd)) →
      sendAddNodeStep_5_5_0 env p bp pkt maxd st c =
        { st with log := st.log ++ [SendAction.send c pkt] }) ∧
    (¬ (st.blocks_sent c bp = true ∧ (∀ d, env.saoDistance c p = some d → d ≤ maxd)) →
      (∀ fp, st.far_players = some fp →
        sendAddNodeStep_5_5_0 env p bp pkt maxd st c =
          { st with far_players := some (setInsert c fp)
                    log := st.log ++ [SendAction.emplace c] }) ∧
      (st.far_players = none →
        sendAddNodeStep_5_5_0 env p bp pkt maxd st c =
          { st with blocks_sent := SetBlockNotSent c bp st.blocks_sent
                    log := st.log ++ [SendAction.SetBlockNotSent c bp] })) := by
  unfold sendAddNodeStep_5_5_0
  rw [if_neg (by simp [hcl])]
  dsimp only
  constructor
  · rintro ⟨hs, hd⟩
    cases hdist : env.saoDistance c p with
    | none => simp [hs]
    | some d =>
      have := hd d hdist
      simp [hs, this]
  · intro hnear
    have hcontra : ∀ (b : Bool), b = st.blocks_sent c bp →
        ∀ (o : Option ℚ), o = env.saoDistance c p →
        ((b = false ∨ ∃ d, o = some d ∧ maxd < d) → False) → False := by
      intro b hb o ho hno
      apply hnear
      constructor
      · rw [← hb]
        cases b with
        | false => exact absurd (Or.inl rfl) hno
        | true => rfl
      · intro d hd
        by_contra hlt
        exact hno (Or.inr ⟨d, by rw [ho, hd], not_le.mp hlt⟩)
    constructor
    · intro fp hfp
      split_ifs with hcond
      · rw [hfp]
      · exfalso
        refine hcontra _ rfl _ rfl ?_
        rintro (h | ⟨d, hd, hlt⟩)
        · exact hcond (by simp [h])
        · exact hcond (by rw [hd]; simp [hlt])
    · intro hnone
      split_ifs with hcond
      · rw [hnone]
      · exfalso
        refine hcontra _ rfl _ rfl ?_
        rintro (h | ⟨d, hd, hlt⟩)
        · exact hcond (by simp [h])
        · exact hcond (by rw [hd]; simp [hlt])

/-- The `5.5.0` side of `Server::sendAddNode`: for every client id of the list of clients
for which there is a client, exactly one action concerns the client.  It is
the sending of the add-node packet when the block of `p` is marked as sent
for the client and its player, if it has one, is not farther than
`far_d_nodes * BS` from the node; otherwise it is the insertion of the client
into `far_players` when that set is supplied, after which the set holds the
client; and otherwise, with a null `far_players`, it is the marking of the
block of `p` as not sent for the client, which holds at the end. -/
theorem sendAddNode_5_5_0_once (K : Consts) (env : ClientsEnv) (clients : List Nat)
    (p : v3s16) (n : MapNode) (far_d_nodes : ℚ) (remove_metadata : Bool) (st : AddNodeState)
    (c : Nat) (hnd : clients.Nodup) (hc : c ∈ clients)
    (hcl : env.lockedGetClientNoEx c = true) :
    ((st.blocks_sent c (getNodeBlockPos p) = true ∧
        (∀ d, env.saoDistance c p = some d → d ≤ far_d_nodes * K.BS)) →
      ((Server.sendAddNode_5_5_0 K env clients p n far_d_nodes remove_metadata st).log.drop
          st.log.length).filter (fun a => decide (a.client = c)) =
        [SendAction.send c ⟨p, n.param0, n.param1, n.param2,
          if remove_metadata then 0 else 1⟩]) ∧
    (¬ (st.blocks_sent c (getNodeBlockPos p) = true ∧
        (∀ d, env.saoDistance c p = some d → d ≤ far_d_nodes * K.BS)) →
      (∀ fp, st.far_players = some fp →
        ((Server.sendAddNode_5_5_0 K env clients p n far_d_nodes remove_metadata st).log.drop
            st.log.length).filter (fun a => decide (a.client = c)) =
          [SendAction.emplace c] ∧
        ∃ fp2, (Server.sendAddNode_5_5_0 K env clients p n far_d_nodes remove_metadata
            st).far_players = some fp2 ∧ c ∈ fp2) ∧
      (st.far_players = none →
        ((Server.sendAddNode_5_5_0 K env clients p n far_d_nodes remove_metadata st).log.drop
            st.log.length).filter (fun a => decide (a.client = c)) =
          [SendAction.SetBlockNotSent c (getNodeBlockPos p)] ∧
        (Server.sendAddNode_5_5_0 K env clients p n far_d_nodes remove_metadata st).blocks_sent c
          (getNodeBlockPos p) = false)) := by
  obtain ⟨l1, l2, hsplit⟩ := List.append_of_mem hc
  subst hsplit
  have hnd2 := List.nodup_append.mp hnd
  have hc1 : c ∉ l1 := fun h => hnd2.2.2 h (List.mem_cons_self _ _)
  have hc2 : c ∉ l2 := (List.nodup_cons.mp hnd2.2.1).1
  unfold Server.sendAddNode_5_5_0
  simp only [List.foldl_append, List.foldl_cons]
  generalize hpkt : (⟨p, n.param0, n.param1, n.param2,
    if remove_metadata then 0 else 1⟩ : AddNodePacket) = pkt
  obtain ⟨a1, a2, a3, acts1, a4, a5⟩ :=
    sendAddNode_others env p (getNodeBlockPos p) pkt (far_d_nodes * K.BS) c l1 hc1 st
  generalize hst1 : l1.foldl (sendAddNodeStep_5_5_0 env p (getNodeBlockPos p) pkt
    (far_d_nodes * K.BS)) st = st1 at a1 a2 a3 a4
  obtain ⟨b1, b2, b3, acts2, b4, b5⟩ :=
    sendAddNode_others env p (getNodeBlockPos p) pkt (far_d_nodes * K.BS) c l2 hc2
      (sendAddNodeStep_5_5_0 env p (getNodeBlockPos p) pkt (far_d_nodes * K.BS) st1 c)
  have hf1 := filter_client_others c acts1 a5
  have hf2 := filter_client_others c acts2 b5
  have hself := sendAddNodeStep_self env p (getNodeBlockPos p) pkt (far_d_nodes * K.BS) st1 c hcl
  rw [a1] at hself
  constructor
  · intro hnear
    rw [hself.1 hnear] at b4 ⊢
    rw [b4, a4]
    simp only [List.append_assoc, List.drop_left, List.filter_append, hf1, hf2]
    simp [SendAction.client]
  · intro hnear
    constructor
    · intro fp hfp
      obtain ⟨fp1, e1, _⟩ := a3 fp hfp
      rw [(hself.2 hnear).1 fp1 e1] at b3 b4 ⊢
      obtain ⟨fp2, e2, m2⟩ := b3 _ rfl
      refine ⟨?_, fp2, e2, m2 c ((mem_setInsert c c fp1).mpr (Or.inl rfl))⟩
      rw [b4, a4]
      simp only [List.append_assoc, List.drop_left, List.filter_append, hf1, hf2]
      simp [SendAction.client]
    · intro hnone
      rw [(hself.2 hnear).2 (a2.mpr hnone)] at b1 b4 ⊢
      constructor
      · rw [b4, a4]
        simp only [List.append_assoc, List.drop_left, List.filter_append, hf1, hf2]
        simp [SendAction.client]
      · rw [b1]
        simp [SetBlockNotSent]

/-- The actions of the second half of the loop body of the `HEAD` side. -/
theorem sendAddNodeSend_HEAD_log (env : ClientsEnv_HEAD) (p : v3s16) (pkt : AddNodePacket)
    (remove_metadata : Bool) (st : AddNodeState) (i : Nat) :
    (sendAddNodeSend_HEAD env p pkt remove_metadata st i).far_players = st.far_players ∧
    (sendAddNodeSend_HEAD env p pkt remove_metadata st i).log = st.log ++
      ((if env.lockedGetClientNoEx i = true ∧ remove_metadata = false ∧
            env.net_proto_version i ≤ 21
          then [SendAction.SetBlockNotSent i (getNodeBlockPos p)] else []) ++
        (if env.getSize (env.lockedGetClientNoEx i) > 0
          then [if env.lockedGetClientNoEx i = true then SendAction.send i pkt
            else SendAction.sendUnwritten i]
          else [])) := by
  unfold sendAddNodeSend_HEAD
  dsimp only
  split_ifs <;> simp

/-- One round of the loop of the `HEAD` side for a client other than `c`. -/
theorem sendAddNodeStep_HEAD_other (env : ClientsEnv_HEAD) (p : v3s16) (pkt : AddNodePacket)
    (maxd : ℚ) (remove_metadata : Bool) (st : AddNodeState) (c2 c : Nat) (hne : c2 ≠ c) :
    ((sendAddNodeStep_HEAD env p pkt maxd remove_metadata st c2).far_players = none ↔
      st.far_players = none) ∧
    ∃ acts, (sendAddNodeStep_HEAD env p pkt maxd remove_metadata st c2).log = st.log ++ acts ∧
      ∀ a ∈ acts, a.client ≠ c := by
  have hsend : ((sendAddNodeSend_HEAD env p pkt remove_metadata st c2).far_players = none ↔
      st.far_players = none) ∧
      ∃ acts, (sendAddNodeSend_HEAD env p pkt remove_metadata st c2).log = st.log ++ acts ∧
        ∀ a ∈ acts, a.client ≠ c := by
    obtain ⟨h1, h2⟩ := sendAddNodeSend_HEAD_log env p pkt remove_metadata st c2
    refine ⟨by rw [h1], _, h2, ?_⟩
    intro a ha
    rw [List.mem_append] at ha
    rcases ha with ha | ha
    · split_ifs at ha
      · rw [List.mem_singleton] at ha
        subst ha
        exact hne
      · simp at ha
    · split_ifs at ha
      · rw [List.mem_singleton] at ha
        subst ha
        exact hne
      · rw [List.mem_singleton] at ha
        subst ha
        exact hne
      · simp at ha
  obtain ⟨hs1, acts, hs2, hs3⟩ := hsend
  unfold sendAddNodeStep_HEAD
  cases hfp : st.far_players with
  | none =>
    dsimp only
    exact ⟨by rw [hs1, hfp], acts, hs2, hs3⟩
  | some players =>
    dsimp only
    by_cases hp : env.getPlayer c2 = true
    · rw [if_pos hp]
      cases hd : env.saoDistance c2 p with
      | none =>
        dsimp only
        exact ⟨by rw [hfp], [], by simp, by simp⟩
      | some d =>
        dsimp only
        by_cases hlt : d > maxd
        · rw [if_pos hlt]
          refine ⟨by simp, [SendAction.push_back c2], rfl, ?_⟩
          intro a ha
          rw [List.mem_singleton] at ha
          subst ha
          exact hne
        · rw [if_neg hlt]
          exact ⟨by rw [hs1, hfp], acts, hs2, hs3⟩
    · rw [if_neg hp]
      exact ⟨by rw [hs1, hfp], acts, hs2, hs3⟩

/-- The rounds of the loop of the `HEAD` side for clients other than `c`. -/
theorem sendAddNode_HEAD_others (env : ClientsEnv_HEAD) (p : v3s16) (pkt : AddNodePacket)
    (maxd : ℚ) (remove_metadata : Bool) (c : Nat) (l : List Nat) (hl : c ∉ l)
    (st : AddNodeState) :
    ((l.foldl (sendAddNodeStep_HEAD env p pkt maxd remove_metadata) st).far_players = none ↔
      st.far_players = none) ∧
    ∃ acts, (l.foldl (sendAddNodeStep_HEAD env p pkt maxd remove_metadata) st).log =
        st.log ++ acts ∧ ∀ a ∈ acts, a.client ≠ c := by
  induction l generalizing st with
  | nil => exact ⟨Iff.rfl, [], by simp, by simp⟩
  | cons c2 l ih =>
    have hne : c2 ≠ c := fun e => hl (by rw [e]; exact List.mem_cons_self _ _)
    have hl2 : c ∉ l := fun h => hl (List.mem_cons_of_mem _ h)
    obtain ⟨a2, acts1, a4, a5⟩ :=
      sendAddNodeStep_HEAD_other env p pkt maxd remove_metadata st c2 c hne
    obtain ⟨b2, acts2, b4, b5⟩ :=
      ih hl2 (sendAddNodeStep_HEAD env p pkt maxd remove_metadata st c2)
    rw [List.foldl_cons]
    refine ⟨b2.trans a2, acts1 ++ acts2, ?_, ?_⟩
    · rw [b4, a4, List.append_assoc]
    · intro a ha
      rcases List.mem_append.mp ha with h | h
      · exact a5 a h
      · exact b5 a h

/-- The round of the loop of the `HEAD` side for the client `c`. -/
theorem sendAddNodeStep_HEAD_self (env : ClientsEnv_HEAD) (p : v3s16) (pkt : AddNodePacket)
    (maxd : ℚ) (remove_metadata : Bool) (st : AddNodeState) (c : Nat) :
    (st.far_players ≠ none → env.getPlayer c = true → env.saoDistance c p = none →
      (sendAddNodeStep_HEAD env p pkt maxd remove_metadata st c).log = st.log ++ []) ∧
    (st.far_players ≠ none → env.getPlayer c = true →
      (∀ d, env.saoDistance c p = some d → d > maxd →
        (sendAddNodeStep_HEAD env p pkt maxd remove_metadata st c).log =
          st.log ++ [SendAction.push_back c])) ∧
    ((st.far_players = none ∨ env.getPlayer c = false ∨
        ∃ d, env.saoDistance c p = some d ∧ d ≤ maxd) →
      (sendAddNodeStep_HEAD env p pkt maxd remove_metadata st c).log = st.log ++
        ((if env.lockedGetClientNoEx c = true ∧ remove_metadata = false ∧
              env.net_proto_version c ≤ 21
            then [SendAction.SetBlockNotSent c (getNodeBlockPos p)] else []) ++
          (if env.getSize (env.lockedGetClientNoEx c) > 0
            then [if env.lockedGetClientNoEx c = true then SendAction.send c pkt
              else SendAction.sendUnwritten c]
            else []))) := by
  have hsend := (sendAddNodeSend_HEAD_log env p pkt remove_metadata st c).2
  unfold sendAddNodeStep_HEAD
  cases hfp : st.far_players with
  | none =>
    dsimp only
    exact ⟨fun h => absurd rfl h, fun h => absurd rfl h, fun _ => hsend⟩
  | some players =>
    dsimp only
    refine ⟨?_, ?_, ?_⟩
    · intro _ hp hd
      rw [if_pos hp, hd]
      simp
    · intro _ hp d hd hlt
      rw [if_pos hp, hd]
      dsimp only
      rw [if_pos hlt]
    · rintro (h | h | ⟨d, hd, hle⟩)
      · exact absurd h (by simp)
      · rw [if_neg (by simp [h])]
        exact hsend
      · by_cases hp : env.getPlayer c = true
        · rw [if_pos hp, hd]
          dsimp only
          rw [if_neg (not_lt.mpr hle)]
          exact hsend
        · rw [if_neg hp]
          exact hsend

/-- The `HEAD` side of `Server::sendAddNode`, for a client id of the list of
clients: with `far_players` supplied, a client whose player has no
`PlayerSAO` gets no action, and a client whose player is farther than
`far_d_nodes * BS` is appended to `far_players` and gets nothing else; every
other client gets the packet when the size of the packet is not 0, after its
block was marked as not sent when there is a client of protocol version 21
or less and the metadata is kept. -/
theorem sendAddNode_HEAD_actions (K : Consts) (envH : ClientsEnv_HEAD) (clients : List Nat)
    (p : v3s16) (n : MapNode) (ignore_id : Nat) (far_d_nodes : ℚ) (remove_metadata : Bool)
    (st : AddNodeState) (c : Nat) (hnd : clients.Nodup) (hc : c ∈ clients) :
    (st.far_players ≠ none → envH.getPlayer c = true → envH.saoDistance c p = none →
      ((Server.sendAddNode_HEAD K envH clients p n ignore_id far_d_nodes remove_metadata st).log.drop
          st.log.length).filter (fun a => decide (a.client = c)) = []) ∧
    (st.far_players ≠ none → envH.getPlayer c = true →
      (∀ d, envH.saoDistance c p = some d → d > far_d_nodes * K.BS →
        ((Server.sendAddNode_HEAD K envH clients p n ignore_id far_d_nodes remove_metadata st).log.drop
          st.log.length).filter (fun a => decide (a.client = c)) =
          [SendAction.push_back c])) ∧
    ((st.far_players = none ∨ envH.getPlayer c = false ∨
        ∃ d, envH.saoDistance c p = some d ∧ d ≤ far_d_nodes * K.BS) →
      ((Server.sendAddNode_HEAD K envH clients p n ignore_id far_d_nodes remove_metadata st).log.drop
          st.log.length).filter (fun a => decide (a.client = c)) =
        ((if envH.lockedGetClientNoEx c = true ∧ remove_metadata = false ∧
              envH.net_proto_version c ≤ 21
            then [SendAction.SetBlockNotSent c (getNodeBlockPos p)] else []) ++
          (if envH.getSize (envH.lockedGetClientNoEx c) > 0
            then [if envH.lockedGetClientNoEx c = true
              then SendAction.send c ⟨p, n.param0, n.param1, n.param2,
                if remove_metadata then 0 else 1⟩
              else SendAction.sendUnwritten c]
            else []))) := by
  obtain ⟨l1, l2, hsplit⟩ := List.append_of_mem hc
  subst hsplit
  have hnd2 := List.nodup_append.mp hnd
  have hc1 : c ∉ l1 := fun h => hnd2.2.2 h (List.mem_cons_self _ _)
  have hc2 : c ∉ l2 := (List.nodup_cons.mp hnd2.2.1).1
  unfold Server.sendAddNode_HEAD
  simp only [List.foldl_append, List.foldl_cons]
  generalize hpkt : (⟨p, n.param0, n.param1, n.param2,
    if remove_metadata then 0 else 1⟩ : AddNodePacket) = pkt
  obtain ⟨a2, acts1, a4, a5⟩ :=
    sendAddNode_HEAD_others envH p pkt (far_d_nodes * K.BS) remove_metadata c l1 hc1 st
  generalize hst1 : l1.foldl (sendAddNodeStep_HEAD envH p pkt (far_d_nodes * K.BS)
    remove_metadata) st = st1 at a2 a4
  obtain ⟨_, acts2, b4, b5⟩ :=
    sendAddNode_HEAD_others envH p pkt (far_d_nodes * K.BS) remove_metadata c l2 hc2
      (sendAddNodeStep_HEAD envH p pkt (far_d_nodes * K.BS) remove_metadata st1 c)
  have hf1 := filter_client_others c acts1 a5
  have hf2 := filter_client_others c acts2 b5
  obtain ⟨s1, s2, s3⟩ :=
    sendAddNodeStep_HEAD_self envH p pkt (far_d_nodes * K.BS) remove_metadata st1 c
  have hsome : st.far_players ≠ none → st1.far_players ≠ none := fun h e => h (a2.mp e)
  refine ⟨?_, ?_, ?_⟩
  · intro h1 h2 h3
    rw [b4, s1 (hsome h1) h2 h3, a4]
    simp only [List.append_assoc, List.drop_left, List.filter_append, hf1, hf2]
    simp
  · intro h1 h2 d h3 h4
    rw [b4, s2 (hsome h1) h2 d h3 h4, a4]
    simp only [List.append_assoc, List.drop_left, List.filter_append, hf1, hf2]
    simp [SendAction.client]
  · intro h
    have h' : st1.far_players = none ∨ envH.getPlayer c = false ∨
        ∃ d, envH.saoDistance c p = some d ∧ d ≤ far_d_nodes * K.BS := by
      rcases h with h | h | h
      · exact Or.inl (a2.mpr h)
      · exact Or.inr (Or.inl h)
      · exact Or.inr (Or.inr h)
    rw [b4, s3 h', a4]
    simp only [List.append_assoc, List.drop_left, List.filter_append, hf1, hf2]
    split_ifs <;> simp [SendAction.client]

set_option maxRecDepth 100000 in
/-- C21 (as stated) fails on the `HEAD` side of `Server::sendAddNode`: with
`far_players` supplied, the client 1, whose player has no `PlayerSAO`, gets
no action at all: no packet is sent to it, it is not inserted into
`far_players`, and its block stays marked as sent.  The clients 2 (far) and
3 (near) are served. -/
theorem C21_counterexample_client_without_sao :
    threeClientsEnv_HEAD.lockedGetClientNoEx 1 = true ∧
    (Server.sendAddNode_HEAD K0 threeClientsEnv_HEAD [1, 2, 3] ⟨1, 2, 3⟩ ⟨5, 0, 0⟩ 0 5 false
      ⟨threeClientsSent, some [], []⟩).log =
      [SendAction.push_back 2, SendAction.send 3 ⟨⟨1, 2, 3⟩, 5, 0, 0, 1⟩] ∧
    (Server.sendAddNode_HEAD K0 threeClientsEnv_HEAD [1, 2, 3] ⟨1, 2, 3⟩ ⟨5, 0, 0⟩ 0 5 false
      ⟨threeClientsSent, some [], []⟩).far_players = some [2] ∧
    (Server.sendAddNode_HEAD K0 threeClientsEnv_HEAD [1, 2, 3] ⟨1, 2, 3⟩ ⟨5, 0, 0⟩ 0 5 false
      ⟨threeClientsSent, some [], []⟩).blocks_sent 1 (getNodeBlockPos ⟨1, 2, 3⟩) = true := by
  refine ⟨rfl, by decide!, by decide!, by decide!⟩

/-- C21 (amended): on the `5.5.0` side of `Server::sendAddNode`, for every
client id of the list of clients for which there is a client, exactly one
action concerns the client: the sending of the add-node packet when the block
of `p` is marked as sent for the client and its player, if it has one, is not
farther than `far_d_nodes * BS`; otherwise the insertion of the client into
`far_players` when that set is supplied, after which the set holds the
client; and otherwise the marking of the block of `p` as not sent for the
client, which holds at the end.  On the `HEAD` side, with `far_players`
supplied, a client whose player has no `PlayerSAO` gets no action and a
client whose player is farther than `far_d_nodes * BS` is appended to
`far_players` and gets nothing else; every other client gets the packet when
the size of the packet is not 0, after its block was marked as not sent when
there is a client of protocol version 21 or less and the metadata is
kept. -/
theorem sendAddNode_actions_per_client (K : Consts) (env : ClientsEnv)
    (envH : ClientsEnv_HEAD) (clients : List Nat) (p : v3s16) (n : MapNode) (ignore_id : Nat)
    (far_d_nodes : ℚ) (remove_metadata : Bool) (st : AddNodeState) (c : Nat)
    (hnd : clients.Nodup) (hc : c ∈ clients) (hcl : env.lockedGetClientNoEx c = true) :
    (((st.blocks_sent c (getNodeBlockPos p) = true ∧
        (∀ d, env.saoDistance c p = some d → d ≤ far_d_nodes * K.BS)) →
      ((Server.sendAddNode_5_5_0 K env clients p n far_d_nodes remove_metadata st).log.drop
          st.log.length).filter (fun a => decide (a.client = c)) =
        [SendAction.send c ⟨p, n.param0, n.param1, n.param2,
          if remove_metadata then 0 else 1⟩]) ∧
    (¬ (st.blocks_sent c (getNodeBlockPos p) = true ∧
        (∀ d, env.saoDistance c p = some d → d ≤ far_d_nodes * K.BS)) →
      (∀ fp, st.far_players = some fp →
        ((Server.sendAddNode_5_5_0 K env clients p n far_d_nodes remove_metadata st).log.drop
            st.log.length).filter (fun a => decide (a.client = c)) =
          [SendAction.emplace c] ∧
        ∃ fp2, (Server.sendAddNode_5_5_0 K env clients p n far_d_nodes remove_metadata
            st).far_players = some fp2 ∧ c ∈ fp2) ∧
      (st.far_players = none →
        ((Server.sendAddNode_5_5_0 K env clients p n far_d_nodes remove_metadata st).log.drop
            st.log.length).filter (fun a => decide (a.client = c)) =
          [SendAction.SetBlockNotSent c (getNodeBlockPos p)] ∧
        (Server.sendAddNode_5_5_0 K env clients p n far_d_nodes remove_metadata st).blocks_sent c
          (getNodeBlockPos p) = false))) ∧
    ((st.far_players ≠ none → envH.getPlayer c = true → envH.saoDistance c p = none →
      ((Server.sendAddNode_HEAD K envH clients p n ignore_id far_d_nodes remove_metadata st).log.drop
          st.log.length).filter (fun a => decide (a.client = c)) = []) ∧
    (st.far_players ≠ none → envH.getPlayer c = true →
      (∀ d, envH.saoDistance c p = some d → d > far_d_nodes * K.BS →
        ((Server.sendAddNode_HEAD K envH clients p n ignore_id far_d_nodes remove_metadata st).log.drop
          st.log.length).filter (fun a => decide (a.client = c)) =
          [SendAction.push_back c])) ∧
    ((st.far_players = none ∨ envH.getPlayer c = false ∨
        ∃ d, envH.saoDistance c p = some d ∧ d ≤ far_d_nodes * K.BS) →
      ((Server.sendAddNode_HEAD K envH clients p n ignore_id far_d_nodes remove_metadata st).log.drop
          st.log.length).filter (fun a => decide (a.client = c)) =
        ((if envH.lockedGetClientNoEx c = true ∧ remove_metadata = false ∧
              envH.net_proto_version c ≤ 21
            then [SendAction.SetBlockNotSent c (getNodeBlockPos p)] else []) ++
          (if envH.getSize (envH.lockedGetClientNoEx c) > 0
            then [if envH.lockedGetClientNoEx c = true
              then SendAction.send c ⟨p, n.param0, n.param1, n.param2,
                if remove_metadata then 0 else 1⟩
              else SendAction.sendUnwritten c]
            else [])))) :=
  ⟨sendAddNode_5_5_0_once K env clients p n far_d_nodes remove_metadata st c hnd hc hcl,
    sendAddNode_HEAD_actions K envH clients p n ignore_id far_d_nodes remove_metadata st c
      hnd hc⟩

set_option maxRecDepth 100000 in
/-- Witness for `sendAddNode_actions_per_client`: three clients and a node at
(1, 2, 3) with `far_d_nodes = 5` and `BS = 10`.  On the `5.5.0` side the
client 1 (block sent, player 30 away) gets the packet, and the client 2
(player 80 away) and the client 3 (block not sent) are inserted into
`far_players`, or with a null `far_players` have the block (0, 0, 0) marked
as not sent.  On the `HEAD` side the client 2 is appended to `far_players`,
the client 3 gets the packet and the client 1 gets nothing. -/
theorem sendAddNode_actions_per_client_witness :
    [1, 2, 3].Nodup ∧ 2 ∈ [1, 2, 3] ∧ threeClientsEnv.lockedGetClientNoEx 2 = true ∧
    (Server.sendAddNode_5_5_0 K0 threeClientsEnv [1, 2, 3] ⟨1, 2, 3⟩ ⟨5, 0, 0⟩ 5 false
      ⟨threeClientsSent, some [], []⟩).log =
      [SendAction.send 1 ⟨⟨1, 2, 3⟩, 5, 0, 0, 1⟩, SendAction.emplace 2, SendAction.emplace 3] ∧
    (Server.sendAddNode_5_5_0 K0 threeClientsEnv [1, 2, 3] ⟨1, 2, 3⟩ ⟨5, 0, 0⟩ 5 false
      ⟨threeClientsSent, some [], []⟩).far_players = some [2, 3] ∧
    (Server.sendAddNode_5_5_0 K0 threeClientsEnv [1, 2, 3] ⟨1, 2, 3⟩ ⟨5, 0, 0⟩ 5 false
      ⟨threeClientsSent, none, []⟩).log =
      [SendAction.send 1 ⟨⟨1, 2, 3⟩, 5, 0, 0, 1⟩, SendAction.SetBlockNotSent 2 ⟨0, 0, 0⟩,
        SendAction.SetBlockNotSent 3 ⟨0, 0, 0⟩] ∧
    ((Server.sendAddNode_5_5_0 K0 threeClientsEnv [1, 2, 3] ⟨1, 2, 3⟩ ⟨5, 0, 0⟩ 5 false
        ⟨threeClientsSent, some [], []⟩).log.drop 0).filter
      (fun a => decide (a.client = 2)) = [SendAction.emplace 2] ∧
    ((Server.sendAddNode_HEAD K0 threeClientsEnv_HEAD [1, 2, 3] ⟨1, 2, 3⟩ ⟨5, 0, 0⟩ 0 5 false
        ⟨threeClientsSent, some [], []⟩).log.drop 0).filter
      (fun a => decide (a.client = 2)) = [SendAction.push_back 2] :=
  ⟨by decide, by decide, rfl, by decide!, by decide!, by decide!,
    ((((sendAddNode_actions_per_client K0 threeClientsEnv threeClientsEnv_HEAD [1, 2, 3]
      ⟨1, 2, 3⟩ ⟨5, 0, 0⟩ 0 5 false ⟨threeClientsSent, some [], []⟩ 2 (by decide) (by decide)
      rfl).1).2 (fun h => absurd (h.2 80 rfl) (by decide!))).1 [] rfl).1,
    ((sendAddNode_actions_per_client K0 threeClientsEnv threeClientsEnv_HEAD [1, 2, 3]
      ⟨1, 2, 3⟩ ⟨5, 0, 0⟩ 0 5 false ⟨threeClientsSent, some [], []⟩ 2 (by decide) (by decide)
      rfl).2).2.1 (by simp) rfl 80 rfl (by decide!)⟩

/-! ## C25: termination of `allocateId` -/

theorem getD_pad (K : Consts) (features : List ContentFeatures) (k i : Nat) :
    (features ++ List.replicate k (ContentFeatures.new K)).getD i (ContentFeatures.new K) =
      features.getD i (ContentFeatures.new K) := by
  simp only [List.getD_eq_getElem?_getD, List.getElem?_append, List.getElem?_replicate]
  by_cases h : i < features.length
  · rw [if_pos h]
  · rw [if_neg h, List.getElem?_eq_none (by omega)]
    split_ifs <;> rfl

/-- The loop of `allocateId` passes over named slots and returns the first
slot without a name. -/
theorem allocateIdLoop_run (K : Consts) (next_id : Nat) (features : List ContentFeatures)
    (target : Nat) (ht : target < 65536)
    (hfree : (features.getD target (ContentFeatures.new K)).name = []) :
    ∀ (gap fuel id : Nat), id + gap = target → next_id ≤ id → gap < fuel →
      (∀ i, id ≤ i → i < target →
        i < features.length ∧ (features.getD i (ContentFeatures.new K)).name ≠ []) →
      allocateIdLoop K next_id fuel id features =
        some (target, features ++
          List.replicate (target + 1 - features.length) (ContentFeatures.new K),
          (target + 1) % 65536) := by
  intro gap
  induction gap with
  | zero =>
    intro fuel id hid hge hfuel _
    obtain ⟨f, rfl⟩ := Nat.exists_eq_succ_of_ne_zero (by omega : fuel ≠ 0)
    have : id = target := by omega
    subst this
    unfold allocateIdLoop
    rw [if_pos hge]
    simp only
    rw [getD_pad, if_pos hfree]
  | succ g ih =>
    intro fuel id hid hge hfuel hnamed
    obtain ⟨f, rfl⟩ := Nat.exists_eq_succ_of_ne_zero (by omega : fuel ≠ 0)
    obtain ⟨hlt, hname⟩ := hnamed id (Nat.le_refl _) (by omega)
    unfold allocateIdLoop
    rw [if_pos hge]
    simp only
    rw [getD_pad, if_neg hname]
    have hpad : features ++ List.replicate (id + 1 - features.length) (ContentFeatures.new K) =
        features := by
      rw [Nat.sub_eq_zero_of_le (by omega)]
      simp
    rw [hpad, Nat.mod_eq_of_lt (by omega)]
    exact ih f (id + 1) (by omega) (by omega) (by omega)
      (fun i h1 h2 => hnamed i (by omega) h2)

theorem dummyName_inj (a b : Nat) (h : dummyName a = dummyName b) : a = b := by
  unfold dummyName at h
  simp only [List.cons.injEq, and_true] at h
  omega

theorem FillInv_init : FillInv 0 (CNodeDefManager.new K0) := by
  refine ⟨rfl, by decide!, by decide!, ?_, ?_⟩
  · intro i
    by_cases hi : i < 128
    · have hall : ∀ j, j < 128 →
          (((CNodeDefManager.new K0).m_content_features.getD j (ContentFeatures.new K0)).name = [] ↔
            (slotOf 0 ≤ j ∧ j ≠ 125 ∧ j ≠ 126 ∧ j ≠ 127)) := by
        decide!
      exact hall i hi
    · have hlen : (CNodeDefManager.new K0).m_content_features.length = 128 := by decide!
      rw [List.getD_eq_default _ _ (by omega)]
      have h0 : slotOf 0 = 1 := rfl
      rw [h0]
      simp only [ContentFeatures_new_name, true_iff]
      omega
  · intro k _
    rw [new_name_to_id]
    simp [dummyName, str_unknown, str_air, str_ignore]

theorem slot_arith (n nid : Nat) (hn : n < 65532)
    (hnid : nid = if n = 0 then 0 else (slotOf (n - 1) + 1) % 65536) :
    nid ≤ slotOf n ∧ slotOf n - nid < 4 ∧ slotOf n < 65536 ∧ slotOf n ≠ 125 ∧
    slotOf n ≠ 126 ∧ slotOf n ≠ 127 ∧ (∀ i, nid ≤ i → i < slotOf n → i < 128) := by
  subst hnid
  unfold slotOf
  split_ifs <;> refine ⟨?_, ?_, ?_, ?_, ?_, ?_, ?_⟩ <;> (try intro i _ _) <;> omega

theorem slot_next (n i : Nat) (hi : i ≠ slotOf n) :
    (slotOf n ≤ i ∧ i ≠ 125 ∧ i ≠ 126 ∧ i ≠ 127) ↔
      (slotOf (n + 1) ≤ i ∧ i ≠ 125 ∧ i ≠ 126 ∧ i ≠ 127) := by
  unfold slotOf at hi ⊢
  split_ifs at hi ⊢ <;> omega

/-- One more registration of a new name on the registry after `n`
registrations: it gets the id `slotOf n`. -/
theorem FillInv_step (n : Nat) (m : CNodeDefManager) (h : FillInv n m) (hn : n < 65532) :
    ∃ m2, CNodeDefManager.allocateDummy K0 4 (dummyName n) m = some (slotOf n, m2) ∧
      FillInv (n + 1) m2 := by
  have hname : dummyName n ≠ [] := by simp [dummyName]
  have hign : dummyName n ≠ str_ignore := by simp [dummyName, str_ignore]
  obtain ⟨s1, s2, s3, s4, s5, s6, s7⟩ := slot_arith n m.m_next_id hn h.next
  have hfree := (h.names (slotOf n)).mpr ⟨Nat.le_refl _, s4, s5, s6⟩
  have hrun := allocateIdLoop_run K0 m.m_next_id m.m_content_features (slotOf n) s3 hfree
    (slotOf n - m.m_next_id) 4 m.m_next_id (by omega) (Nat.le_refl _) s2
    (fun i h1 h2 => ⟨by have := s7 i h1 h2; have := h.length_ge; omega, by
      intro hnil
      have := (h.names i).mp hnil
      omega⟩)
  have hlen := h.length_le
  have hge := h.length_ge
  unfold CNodeDefManager.allocateDummy
  rw [if_neg hname]
  unfold CNodeDefManager.set
  rw [if_neg hname, if_neg (by simp), if_neg hign, h.fresh n (Nat.le_refl _)]
  simp only
  unfold CNodeDefManager.allocateId
  rw [hrun]
  simp only
  rw [if_neg (by show slotOf n ≠ 127; exact s6)]
  refine ⟨_, rfl, ?_⟩
  have hpl : (m.m_content_features ++ List.replicate (slotOf n + 1 - m.m_content_features.length)
      (ContentFeatures.new K0)).length = max m.m_content_features.length (slotOf n + 1) := by
    simp only [List.length_append, List.length_replicate]
    omega
  refine ⟨?_, ?_, ?_, ?_, ?_⟩
  · simp [CNodeDefManager.storeDefinition, CNodeDefManager.addNameIdMapping]
  · simp only [CNodeDefManager.storeDefinition, CNodeDefManager.addNameIdMapping,
      List.length_set, hpl]
    omega
  · simp only [CNodeDefManager.storeDefinition, CNodeDefManager.addNameIdMapping,
      List.length_set, hpl]
    omega
  · intro i
    simp only [CNodeDefManager.storeDefinition, CNodeDefManager.addNameIdMapping]
    by_cases hi : i = slotOf n
    · subst hi
      rw [List.getD_eq_getElem?_getD, List.getElem?_set_self (by rw [hpl]; omega)]
      simp only [Option.getD_some]
      constructor
      · intro hnil
        exact absurd hnil hname
      · intro hs
        exfalso
        have := hs.1
        unfold slotOf at this
        split_ifs at this <;> omega
    · rw [List.getD_eq_getElem?_getD, List.getElem?_set_ne (fun e => hi e.symm),
        ← List.getD_eq_getElem?_getD, getD_pad, h.names i]
      exact slot_next n i hi
  · intro k hk
    simp only [CNodeDefManager.storeDefinition, CNodeDefManager.addNameIdMapping]
    rw [getId_set, if_neg (fun e => by have := dummyName_inj k n e; omega)]
    exact h.fresh k (by omega)

/-- The registry after `n` registrations of new names is reached by calls of
`allocateDummy` and is in the state `FillInv n`. -/
theorem filledManager_spec (n : Nat) (hn : n ≤ 65532) :
    Reach K0 Op.isSetOrDummy (filledManager n) ∧ FillInv n (filledManager n) := by
  induction n with
  | zero => exact ⟨Reach.init, FillInv_init⟩
  | succ n ih =>
    obtain ⟨hr, hi⟩ := ih (by omega)
    obtain ⟨m2, hrun, hinv⟩ := FillInv_step n (filledManager n) hi (by omega)
    have he : filledManager (n + 1) = m2 := by
      rw [filledManager, hrun]
      rfl
    rw [he]
    refine ⟨Reach.step _ _ (Op.allocateDummy (dummyName n)) 4 hr trivial ?_, hinv⟩
    show (CNodeDefManager.allocateDummy K0 4 (dummyName n) (filledManager n)).map
      (fun r => r.2) = some m2
    rw [hrun]
    rfl

/-- C25 (code defect): the registry `filledManager 65532`, reached from
`clear()` by 65532 calls of `allocateDummy` with new names, has handed out
the id 65535: `m_next_id` has wrapped to 0 and all 65536 slots carry a name.
In this state `allocateId` has not returned after any number of rounds of
its loop, whose condition `id >= m_next_id` is always true. -/
theorem allocateId_hangs_on_full_registry :
    Reach K0 Op.isSetOrDummy (filledManager 65532) ∧
    (filledManager 65532).m_next_id = 0 ∧
    (filledManager 65532).m_content_features.length = 65536 ∧
    (∀ f ∈ (filledManager 65532).m_content_features, f.name ≠ []) ∧
    (∀ fuel, CNodeDefManager.allocateId K0 fuel (filledManager 65532) = none) := by
  obtain ⟨hr, hi⟩ := filledManager_spec 65532 (Nat.le_refl _)
  have hnext : (filledManager 65532).m_next_id = 0 := by
    rw [hi.next]
    decide
  have hnamed : ∀ i, i < 65536 →
      ((filledManager 65532).m_content_features.getD i (ContentFeatures.new K0)).name ≠ [] := by
    intro i hlt hnil
    have h1 := ((hi.names i).mp hnil).1
    have h2 : slotOf 65532 = 65536 := by decide
    omega
  have hlen : (filledManager 65532).m_content_features.length = 65536 := by
    have hle := hi.length_le
    by_contra hne
    have hlt : (filledManager 65532).m_content_features.length < 65536 := by omega
    refine hnamed _ hlt ?_
    rw [List.getD_eq_default _ _ (Nat.le_refl _)]
    rfl
  have hfull : ∀ f ∈ (filledManager 65532).m_content_features, f.name ≠ [] := by
    intro f hf
    obtain ⟨i, hilt, hget⟩ := List.getElem_of_mem hf
    have := hnamed i (by omega)
    rw [List.getD_eq_getElem _ _ hilt, hget] at this
    exact this
  refine ⟨hr, hnext, hlen, hfull, ?_⟩
  intro fuel
  unfold CNodeDefManager.allocateId
  rw [hnext, allocateIdLoop_diverges K0 _ hlen hfull fuel 0 (by norm_num)]

end Freeminer
